import Mathlib

/-!
The transmit descriptor ring of `drivers/net/stmmac/stmmac_main.c`.

A shallow embedding of the transmit path of the stmmac Ethernet driver:
`stmmac_tx_avail`, `dma_free_tx_skbufs`, `stmmac_tx` (reclaim),
`stmmac_tx_err` (recovery), `stmmac_handle_jumbo_frames`, `stmmac_sw_tso`
and `stmmac_xmit`, followed by theorems about them.

Conventions.
* `unsigned int` values are natural numbers; every C operation that can wrap
  is written with `u32_add` / `u32_sub` (arithmetic modulo `2^32`).
* A pointer to a ring entry is the index of the entry; a `struct sk_buff *`
  is the packet itself, `NULL` is `none`.
* `struct net_device` and its `struct stmmac_priv` are one flat record.
* Calls that leave the driver (`dev_kfree_skb*`, `dma_unmap_single`,
  `skb_checksum_help`) are recorded in append-only lists of the record;
  the writes `stmmac_xmit` makes to descriptors are recorded, in program
  order, in `tx_trace`.
-/

namespace Stmmac

/-! ## Machine arithmetic -/

/-- Number of values of a C `unsigned int` on this platform (2^32). -/
def U32 : Nat := 4294967296

/-- Unsigned 32-bit addition. -/
def u32_add (a b : Nat) : Nat := (a + b) % U32

/-- Unsigned 32-bit subtraction. -/
def u32_sub (a b : Nat) : Nat := (a % U32 + U32 - b % U32) % U32

/-- Bitwise `value & ~mask` on a 32-bit register value. -/
def u32_clear_bits (value mask : Nat) : Nat := Nat.land value (Nat.xor (U32 - 1) (mask % U32))

/-! ## Constants taken from headers -/

/-- Modelled from the spec: `BUF_SIZE_4KiB` of `stmmac.h` (the header is
outside `stmmac_main.c`); packets of at least this length go through
`stmmac_handle_jumbo_frames`. -/
def BUF_SIZE_4KiB : Nat := 4096

/-- Modelled from the spec: `BUF_SIZE_8KiB` of `stmmac.h`, the buffer
capacity of a single descriptor in `stmmac_handle_jumbo_frames`. -/
def BUF_SIZE_8KiB : Nat := 8192

/-- Modelled from the spec: the result "accepted" of the send-packet
interface, `NETDEV_TX_OK` of `include/linux/netdevice.h`. -/
def NETDEV_TX_OK : Int := 0

/-- Modelled from the spec: the result "busy/backpressure" of the send-packet
interface, `NETDEV_TX_BUSY` of `include/linux/netdevice.h`. -/
def NETDEV_TX_BUSY : Int := 1

/-- Modelled from the spec: the result of the send-packet interface when the
transmit lock is not obtained, `NETDEV_TX_LOCKED` of
`include/linux/netdevice.h`. -/
def NETDEV_TX_LOCKED : Int := -1

/-- Modelled from the spec: the value of `skb->ip_summed` of a packet that
requires a checksum to be filled in, `CHECKSUM_PARTIAL` of
`include/linux/skbuff.h`. -/
def CHECKSUM_PARTIAL : Nat := 1

/-- Modelled from the spec: the value of `priv->tx_coe` when the hardware
cannot offload the checksum, `NO_HW_CSUM` of `stmmac.h`. -/
def NO_HW_CSUM : Nat := 0

/-- Modelled from the spec: the bit of the DMA control register that starts
and stops hardware TX, `DMA_CONTROL_ST` of the driver's register header. -/
def DMA_CONTROL_ST : Nat := 0x00002000

/-! ## Data model -/

/-- One DMA descriptor: the two status/control words (the `u64 a` that
`display_ring` prints as DES0/DES1) and the two buffer addresses. -/
structure dma_desc where
  des01 : Nat
  des2 : Nat
  des3 : Nat
deriving DecidableEq, Repr, Inhabited

/-- A page fragment of a packet (`skb_frag_t`). -/
structure skb_frag_t where
  page : Nat
  page_offset : Nat
  size : Nat
deriving DecidableEq, Repr, Inhabited

/-- A packet buffer, with the fields the transmit path reads: `data`, `len`,
`data_len`, `ip_summed`, the fragments of `skb_shinfo(skb)`, `gso_size`,
`gso_segs`, and what `skb_gso_segment` returns for it: `gso_fail` says that
it returns an error pointer, otherwise it returns the list `segs`. -/
inductive sk_buff where
  | mk (data len data_len ip_summed : Nat) (frags : List skb_frag_t)
      (gso_size gso_segs : Nat) (gso_fail : Bool) (segs : List sk_buff) : sk_buff

/-- Field `skb->data`. -/
def sk_buff.data : sk_buff → Nat
  | .mk d _ _ _ _ _ _ _ _ => d

/-- Field `skb->len`. -/
def sk_buff.len : sk_buff → Nat
  | .mk _ l _ _ _ _ _ _ _ => l

/-- Field `skb->data_len`. -/
def sk_buff.data_len : sk_buff → Nat
  | .mk _ _ dl _ _ _ _ _ _ => dl

/-- Field `skb->ip_summed`. -/
def sk_buff.ip_summed : sk_buff → Nat
  | .mk _ _ _ c _ _ _ _ _ => c

/-- The array `skb_shinfo(skb)->frags[0 .. nr_frags)`. -/
def sk_buff.frags : sk_buff → List skb_frag_t
  | .mk _ _ _ _ f _ _ _ _ => f

/-- Field `skb_shinfo(skb)->gso_size`. -/
def sk_buff.gso_size : sk_buff → Nat
  | .mk _ _ _ _ _ g _ _ _ => g

/-- Field `skb_shinfo(skb)->gso_segs`. -/
def sk_buff.gso_segs : sk_buff → Nat
  | .mk _ _ _ _ _ _ g _ _ => g

/-- Whether `skb_gso_segment` fails on the packet. -/
def sk_buff.gso_fail : sk_buff → Bool
  | .mk _ _ _ _ _ _ _ b _ => b

/-- The segments `skb_gso_segment` returns for the packet. -/
def sk_buff.segs : sk_buff → List sk_buff
  | .mk _ _ _ _ _ _ _ _ s => s

/-- Modelled from the spec: the length of the linear (head) part of a packet,
the inline function `skb_headlen` of `include/linux/skbuff.h`:
`skb->len - skb->data_len`. -/
def skb_headlen (skb : sk_buff) : Nat := u32_sub skb.len skb.data_len

/-- Modelled from the spec: whether a packet asks for segmentation, the inline
function `skb_is_gso` of `include/linux/skbuff.h`: `gso_size` is not 0. -/
def skb_is_gso (skb : sk_buff) : Bool := skb.gso_size != 0

/-- The counters of `dev->stats` the transmit path updates. -/
structure net_device_stats where
  tx_packets : Nat
  tx_errors : Nat
  tx_dropped : Nat
  tx_bytes : Nat
deriving DecidableEq, Repr, Inhabited

/-- The counters of `priv->xstats` the transmit path updates. -/
structure stmmac_extra_stats where
  tx_pkt_n : Nat
  tx_task_n : Nat
  threshold : Nat
deriving DecidableEq, Repr, Inhabited

/-- A write to a transmit descriptor made during submission, named after the
statement that makes it, with the ring entry it goes to. -/
inductive tx_desc_write where
  | des2 (entry : Nat)
  | des3 (entry : Nat)
  | prepare_tx_desc (entry : Nat)
  | set_tx_owner (entry : Nat)
  | close_tx_desc (entry : Nat)
  | clear_tx_ic (entry : Nat)
deriving DecidableEq, Repr

/-- The ring entry a descriptor write goes to. -/
def tx_desc_write.entry : tx_desc_write → Nat
  | .des2 e => e
  | .des3 e => e
  | .prepare_tx_desc e => e
  | .set_tx_owner e => e
  | .close_tx_desc e => e
  | .clear_tx_ic e => e

/-- Whether a descriptor write is an ownership flip. -/
def tx_desc_write.is_owner : tx_desc_write → Bool
  | .set_tx_owner _ => true
  | _ => false

/-- Whether a descriptor write is `clear_tx_ic`. -/
def tx_desc_write.is_clear_ic : tx_desc_write → Bool
  | .clear_tx_ic _ => true
  | _ => false

/-- The device: `struct net_device` with its `struct stmmac_priv`, the module
parameter `tx_coalesce` (`mod_tx_coalesce`), the DMA control register, and
the records of the calls that leave the driver. -/
structure net_device where
  dma_tx_size : Nat
  cur_tx : Nat
  dirty_tx : Nat
  tx_skbuff : List (Option sk_buff)
  dma_tx : List dma_desc
  tx_coe : Nat
  tx_coalesce : Int
  mod_tx_coalesce : Int
  link_duplex : Nat
  stats : net_device_stats
  xstats : stmmac_extra_stats
  queue_stopped : Bool
  dma_control : Nat
  xmt_poll_demand : Nat
  jiffies : Nat
  trans_start : Nat
  freed_skbs : List sk_buff
  unmapped : List (Nat × Nat)
  csum_helped : List sk_buff
  tx_trace : List tx_desc_write

/-- The descriptor operations of `priv->mac_type->ops` that the transmit path
calls. The two tables (gmac, mac100) are defined in other files, so the
operations are parameters of the embedding. -/
structure stmmac_ops where
  init_tx_desc : List dma_desc → Nat → List dma_desc
  get_tx_owner : dma_desc → Bool
  get_tx_ls : dma_desc → Bool
  get_tx_len : dma_desc → Nat
  tx_status : net_device_stats → stmmac_extra_stats → dma_desc →
    net_device_stats × stmmac_extra_stats × Int
  release_tx_desc : dma_desc → dma_desc
  prepare_tx_desc : dma_desc → Nat → Nat → Nat → dma_desc
  set_tx_owner : dma_desc → dma_desc
  close_tx_desc : dma_desc → dma_desc
  clear_tx_ic : dma_desc → dma_desc

/-- Everything the driver core takes from outside: the operations table, the
DMA mapping calls, `MAX_SKB_FRAGS`, and whether spin locks are real
(`CONFIG_SMP`): on a uniprocessor build `spin_trylock` always succeeds, on an
SMP build it fails on a lock that is held. The allocators do not promise
cleared memory: `kmalloc_tx_skbuff i` is what entry `i` of the fresh
`tx_skbuff` array reads as before the driver stores to it, and
`coherent_tx i` what descriptor `i` of the fresh TX ring reads as. -/
structure stmmac_env where
  ops : stmmac_ops
  dma_map_single : Nat → Nat → Nat
  dma_map_page : Nat → Nat → Nat → Nat
  MAX_SKB_FRAGS : Nat
  CONFIG_SMP : Bool
  kmalloc_tx_skbuff : Nat → Option sk_buff
  coherent_tx : Nat → dma_desc

/-! ## Helpers for the ring and the queue -/

/-- The descriptor `ring[entry]`. -/
def desc_at (ring : List dma_desc) (entry : Nat) : dma_desc := ring.getD entry default

/-- The slot `tx_skbuff[entry]`. -/
def skb_at (slots : List (Option sk_buff)) (entry : Nat) : Option sk_buff := slots.getD entry none

/-- A store to the descriptor `dma_tx[w.entry]` made by the submission path:
the descriptor is replaced by `f` of its current value and the write is
appended to `tx_trace`. -/
def tx_write (w : tx_desc_write) (f : dma_desc → dma_desc) (s : net_device) : net_device :=
  { s with
    dma_tx := s.dma_tx.set w.entry (f (desc_at s.dma_tx w.entry))
    tx_trace := s.tx_trace ++ [w] }

/-- Modelled from the spec: pausing the queue, `netif_stop_queue` of
`include/linux/netdevice.h`. -/
def netif_stop_queue (s : net_device) : net_device := { s with queue_stopped := true }

/-- Modelled from the spec: resuming the queue, `netif_wake_queue` of
`include/linux/netdevice.h`. -/
def netif_wake_queue (s : net_device) : net_device := { s with queue_stopped := false }

/-- The source's `stmmac_tx_avail`:
`priv->dirty_tx + priv->dma_tx_size - priv->cur_tx - 1` in `u32`. -/
def stmmac_tx_avail (s : net_device) : Nat :=
  u32_sub (u32_sub (u32_add s.dirty_tx s.dma_tx_size) s.cur_tx) 1

/-- Number of descriptors in flight: `cur_tx - dirty_tx` in `u32`. -/
def tx_in_flight (s : net_device) : Nat := u32_sub s.cur_tx s.dirty_tx

/-! ## Ring initialisation, release of buffers, reclaim, recovery -/

/-- The loop of the TX INITIALIZATION part of `init_dma_desc_rings`, from
index `i` for `k` more rounds: `tx_skbuff[i] = NULL; dma_tx[i].des2 = 0`. -/
def init_tx_loop : Nat → Nat → net_device → net_device
  | 0, _, s => s
  | k + 1, i, s =>
    init_tx_loop k (i + 1)
      { s with
        tx_skbuff := s.tx_skbuff.set i none
        dma_tx := s.dma_tx.set i { desc_at s.dma_tx i with des2 := 0 } }

/-- The transmit half of `init_dma_desc_rings`: the two arrays are allocated
with `txsize` entries and hold what the allocators returned, the loop stores
`NULL` to every slot and 0 to `des2` of every descriptor, both cursors are
set to 0 and the descriptors are cleared with `init_tx_desc`. -/
def init_dma_desc_rings_tx (E : stmmac_env) (s : net_device) : net_device :=
  let txsize := s.dma_tx_size
  let s := { s with
    tx_skbuff := (List.range txsize).map E.kmalloc_tx_skbuff
    dma_tx := (List.range txsize).map E.coherent_tx }
  let s := init_tx_loop txsize 0 s
  let s := { s with dirty_tx := 0, cur_tx := 0 }
  { s with dma_tx := E.ops.init_tx_desc s.dma_tx txsize }

/-- One round of the loop of `dma_free_tx_skbufs`, for index `i`. -/
def dma_free_tx_skbufs_step (E : stmmac_env) (i : Nat) (s : net_device) : net_device :=
  match skb_at s.tx_skbuff i with
  | some skb =>
    let p := desc_at s.dma_tx i
    let s := if p.des2 != 0 then
        { s with unmapped := s.unmapped ++ [(p.des2, E.ops.get_tx_len p)] }
      else s
    { s with
      freed_skbs := s.freed_skbs ++ [skb]
      tx_skbuff := s.tx_skbuff.set i none }
  | none => s

/-- The loop of `dma_free_tx_skbufs` from index `i` for `k` more rounds. -/
def dma_free_tx_skbufs_loop (E : stmmac_env) : Nat → Nat → net_device → net_device
  | 0, _, s => s
  | k + 1, i, s => dma_free_tx_skbufs_loop E k (i + 1) (dma_free_tx_skbufs_step E i s)

/-- The source's `dma_free_tx_skbufs`: frees the packets of all TX slots. -/
def dma_free_tx_skbufs (E : stmmac_env) (s : net_device) : net_device :=
  dma_free_tx_skbufs_loop E s.dma_tx_size 0 s

/-- The body of the `while` loop of `stmmac_tx` after the ownership test, for
the descriptor at `entry`: status accounting, unmap, release of the packet and
of the descriptor, advance of `dirty_tx`. -/
def stmmac_tx_reclaim_one (E : stmmac_env) (entry : Nat) (s : net_device) : net_device :=
  let p := desc_at s.dma_tx entry
  let s := if E.ops.get_tx_ls p then
      let r := E.ops.tx_status s.stats s.xstats p
      if r.2.2 = 0 then
        { s with
          stats := { r.1 with tx_packets := u32_add r.1.tx_packets 1 }
          xstats := { r.2.1 with tx_pkt_n := u32_add r.2.1.tx_pkt_n 1 } }
      else
        { s with
          stats := { r.1 with tx_errors := u32_add r.1.tx_errors 1 }
          xstats := r.2.1 }
    else s
  let s := if p.des2 != 0 then
      { s with unmapped := s.unmapped ++ [(p.des2, E.ops.get_tx_len p)] }
    else s
  let s := if p.des3 != 0 then
      { s with dma_tx := s.dma_tx.set entry { p with des3 := 0 } }
    else s
  let s := match skb_at s.tx_skbuff entry with
    | some skb =>
      { s with
        freed_skbs := s.freed_skbs ++ [skb]
        tx_skbuff := s.tx_skbuff.set entry none }
    | none => s
  let s := { s with
    dma_tx := s.dma_tx.set entry (E.ops.release_tx_desc (desc_at s.dma_tx entry)) }
  { s with dirty_tx := u32_add s.dirty_tx 1 }

/-- The `while (priv->dirty_tx != priv->cur_tx)` loop of `stmmac_tx`, with
the local `entry`; `fuel` bounds the number of rounds (`stmmac_tx` passes the
number of descriptors in flight, which the loop cannot exceed). -/
def stmmac_tx_loop (E : stmmac_env) (txsize : Nat) : Nat → Nat → net_device → net_device
  | 0, _, s => s
  | fuel + 1, entry, s =>
    if s.dirty_tx != s.cur_tx then
      if E.ops.get_tx_owner (desc_at s.dma_tx entry) then s
      else
        let s := stmmac_tx_reclaim_one E entry s
        stmmac_tx_loop E txsize fuel (s.dirty_tx % txsize) s
    else s

/-- The source's `stmmac_tx`: reclaim the descriptors the hardware has
completed, then wake the queue if it was stopped and there is room again. -/
def stmmac_tx (E : stmmac_env) (s : net_device) : net_device :=
  let txsize := s.dma_tx_size
  let entry := s.dirty_tx % txsize
  let s := stmmac_tx_loop E txsize (tx_in_flight s) entry s
  if s.queue_stopped && decide (stmmac_tx_avail s > E.MAX_SKB_FRAGS + 1) then
    netif_wake_queue s
  else s

/-- The source's `stmmac_dma_stop_tx`: clear the ST bit of DMA_CONTROL. -/
def stmmac_dma_stop_tx (s : net_device) : net_device :=
  { s with dma_control := u32_clear_bits s.dma_control DMA_CONTROL_ST }

/-- The source's `stmmac_dma_start_tx`: set the ST bit of DMA_CONTROL. -/
def stmmac_dma_start_tx (s : net_device) : net_device :=
  { s with dma_control := Nat.lor s.dma_control DMA_CONTROL_ST }

/-- The source's `stmmac_tx_err`: clean the descriptors and restart the
transmission. -/
def stmmac_tx_err (E : stmmac_env) (s : net_device) : net_device :=
  let s := netif_stop_queue s
  let s := stmmac_dma_stop_tx s
  let s := dma_free_tx_skbufs E s
  let s := { s with dma_tx := E.ops.init_tx_desc s.dma_tx s.dma_tx_size }
  let s := { s with dirty_tx := 0 }
  let s := { s with cur_tx := 0 }
  let s := stmmac_dma_start_tx s
  let s := { s with stats := { s.stats with tx_errors := u32_add s.stats.tx_errors 1 } }
  netif_wake_queue s

/-! ## Submission -/

/-- The source's `stmmac_handle_jumbo_frames`: fill the descriptor at
`cur_tx % txsize` with the linear part of the packet, on two descriptors when
it is longer than 8 KiB. Returns the device and the last entry used. -/
def stmmac_handle_jumbo_frames (E : stmmac_env) (skb : sk_buff) (csum_insertion : Nat)
    (s : net_device) : net_device × Nat :=
  let nopaged_len := skb_headlen skb
  let txsize := s.dma_tx_size
  let entry := s.cur_tx % txsize
  if nopaged_len > BUF_SIZE_8KiB then
    let buf2_size := nopaged_len - BUF_SIZE_8KiB
    let s := tx_write (.des2 entry)
      (fun d => { d with des2 := E.dma_map_single skb.data BUF_SIZE_8KiB }) s
    let s := tx_write (.des3 entry) (fun d => { d with des3 := u32_add d.des2 BUF_SIZE_4KiB }) s
    let s := tx_write (.prepare_tx_desc entry)
      (fun d => E.ops.prepare_tx_desc d 1 BUF_SIZE_8KiB csum_insertion) s
    let s := { s with cur_tx := u32_add s.cur_tx 1 }
    let entry := s.cur_tx % txsize
    let s := tx_write (.des2 entry)
      (fun d => { d with des2 := E.dma_map_single (skb.data + BUF_SIZE_8KiB) buf2_size }) s
    let s := tx_write (.des3 entry) (fun d => { d with des3 := u32_add d.des2 BUF_SIZE_4KiB }) s
    let s := tx_write (.prepare_tx_desc entry)
      (fun d => E.ops.prepare_tx_desc d 0 buf2_size csum_insertion) s
    let s := tx_write (.set_tx_owner entry) E.ops.set_tx_owner s
    let s := { s with tx_skbuff := s.tx_skbuff.set entry none }
    (s, entry)
  else
    let s := tx_write (.des2 entry)
      (fun d => { d with des2 := E.dma_map_single skb.data nopaged_len }) s
    let s := tx_write (.des3 entry) (fun d => { d with des3 := u32_add d.des2 BUF_SIZE_4KiB }) s
    let s := tx_write (.prepare_tx_desc entry)
      (fun d => E.ops.prepare_tx_desc d 1 nopaged_len csum_insertion) s
    (s, entry)

/-- The `for (i = 0; i < nfrags; i++)` loop of `stmmac_xmit` over the
fragments that remain; `entry` is the local of the same name. Returns the
device and the last entry used. -/
def stmmac_xmit_frags (E : stmmac_env) (csum_insertion : Nat) (txsize : Nat) :
    List skb_frag_t → net_device → Nat → net_device × Nat
  | [], s, entry => (s, entry)
  | frag :: frags, s, _ =>
    let len := frag.size
    let s := { s with cur_tx := u32_add s.cur_tx 1 }
    let entry := s.cur_tx % txsize
    let s := tx_write (.des2 entry)
      (fun d => { d with des2 := E.dma_map_page frag.page frag.page_offset len }) s
    let s := { s with tx_skbuff := s.tx_skbuff.set entry none }
    let s := tx_write (.prepare_tx_desc entry)
      (fun d => E.ops.prepare_tx_desc d 0 len csum_insertion) s
    let s := tx_write (.set_tx_owner entry) E.ops.set_tx_owner s
    stmmac_xmit_frags E csum_insertion txsize frags s entry

/-- The source's `stmmac_sw_tso`; `xmit_segs` is its `do ... while (segs)`
loop over the segments returned by `skb_gso_segment` (`stmmac_xmit_segs`
below). `gso_segs` is a 16-bit field, so `gso_segs * 3` does not wrap. -/
def stmmac_sw_tso (xmit_segs : net_device → net_device) (skb : sk_buff) (s : net_device) :
    net_device × Int :=
  if stmmac_tx_avail s ≤ skb.gso_segs * 3 then
    (netif_stop_queue s, NETDEV_TX_BUSY)
  else if skb.gso_fail then
    ({ s with
        stats := { s.stats with tx_dropped := u32_add s.stats.tx_dropped 1 }
        freed_skbs := s.freed_skbs ++ [skb] },
      NETDEV_TX_OK)
  else
    let s := xmit_segs s
    ({ s with freed_skbs := s.freed_skbs ++ [skb] }, NETDEV_TX_OK)

/-- Lines 1402-1407 of `stmmac_xmit`: for a packet with
`ip_summed == CHECKSUM_PARTIAL` either the checksum is computed by
`skb_checksum_help` or `csum_insertion` is set. Returns the device and
`csum_insertion`. -/
def stmmac_xmit_csum (skb : sk_buff) (s : net_device) : net_device × Nat :=
  if skb.ip_summed == CHECKSUM_PARTIAL then
    if s.tx_coe == NO_HW_CSUM then
      ({ s with csum_helped := s.csum_helped ++ [skb] }, 0)
    else (s, 1)
  else (s, 0)

/-- Lines 1409-1428 of `stmmac_xmit`: the packet is stored in the slot of the
first descriptor and its linear part is put on the ring. Returns the device
and the last entry used. -/
def stmmac_xmit_head (E : stmmac_env) (skb : sk_buff) (csum_insertion : Nat)
    (s : net_device) : net_device × Nat :=
  let txsize := s.dma_tx_size
  let entry := s.cur_tx % txsize
  let s := { s with tx_skbuff := s.tx_skbuff.set entry (some skb) }
  if skb.len ≥ BUF_SIZE_4KiB then
    stmmac_handle_jumbo_frames E skb csum_insertion s
  else
    let nopaged_len := skb_headlen skb
    let s := tx_write (.des2 entry)
      (fun d => { d with des2 := E.dma_map_single skb.data nopaged_len }) s
    let s := tx_write (.prepare_tx_desc entry)
      (fun d => E.ops.prepare_tx_desc d 1 nopaged_len csum_insertion) s
    (s, entry)

/-- Lines 1449-1485 of `stmmac_xmit`: the last descriptor `entry` is closed,
the descriptor `first` is handed to the hardware, `cur_tx` advances, the queue
is stopped or the interrupt moderation is applied, the byte counter, the poll
demand register and `trans_start` are written. -/
def stmmac_xmit_finish (E : stmmac_env) (skb : sk_buff) (csum_insertion first entry : Nat)
    (s : net_device) : net_device :=
  let s := tx_write (.close_tx_desc entry) E.ops.close_tx_desc s
  let s := tx_write (.set_tx_owner first) E.ops.set_tx_owner s
  let s := { s with cur_tx := u32_add s.cur_tx 1 }
  let s := if decide (stmmac_tx_avail s ≤ E.MAX_SKB_FRAGS + 1) ||
        (s.link_duplex == 0 && csum_insertion != 0) then
      netif_stop_queue s
    else if s.tx_coalesce ≤ s.mod_tx_coalesce then
      tx_write (.clear_tx_ic entry) E.ops.clear_tx_ic { s with tx_coalesce := s.tx_coalesce + 1 }
    else
      { s with tx_coalesce := 0 }
  { s with
    stats := { s.stats with tx_bytes := u32_add s.stats.tx_bytes skb.len }
    xmt_poll_demand := s.xmt_poll_demand + 1
    trans_start := s.jiffies }

/-- The part of `stmmac_xmit` after the two checks and the GSO test (from the
checksum decision to `end_xmit`), for a packet that is put on the ring: the
checksum decision, the linear part, the fragments, and the hand-over. -/
def stmmac_xmit_queue (E : stmmac_env) (skb : sk_buff) (s : net_device) : net_device × Int :=
  let txsize := s.dma_tx_size
  let first := s.cur_tx % txsize
  let c := stmmac_xmit_csum skb s
  let csum_insertion := c.2
  let h := stmmac_xmit_head E skb csum_insertion c.1
  let f := stmmac_xmit_frags E csum_insertion txsize skb.frags h.1 h.2
  (stmmac_xmit_finish E skb csum_insertion first f.2 f.1, NETDEV_TX_OK)

/-- The body of the source's `stmmac_xmit`. `trylock` is what
`spin_trylock_irqsave(&priv->tx_lock)` returns, `sw_tso` stands for the call
`stmmac_sw_tso(priv, skb)`. `nfrags` is an `int`, so `nfrags + 1` is compared
as it is. -/
def stmmac_xmit_body (E : stmmac_env) (sw_tso : net_device → net_device × Int)
    (trylock : Bool) (skb : sk_buff) (s : net_device) : net_device × Int :=
  let txsize := s.dma_tx_size
  let nfrags := skb.frags.length
  if !trylock then (s, NETDEV_TX_LOCKED)
  else
    let entry := s.cur_tx % txsize
    if stmmac_tx_avail s < nfrags + 1 then
      (netif_stop_queue s, NETDEV_TX_BUSY)
    else if (skb_at s.tx_skbuff entry).isSome then
      ({ s with
          freed_skbs := s.freed_skbs ++ [skb]
          stats := { s.stats with tx_dropped := u32_add s.stats.tx_dropped 1 } },
        -1)
    else if skb_is_gso skb then sw_tso s
    else stmmac_xmit_queue E skb s

mutual
/-- The source's `stmmac_xmit`, the transmit entry point. `trylock` is the
result of the `spin_trylock_irqsave` at its entry. -/
def stmmac_xmit (E : stmmac_env) (trylock : Bool) : sk_buff → net_device → net_device × Int
  | .mk d l dl c f gsz gsg gf segs, s =>
    stmmac_xmit_body E (stmmac_sw_tso (stmmac_xmit_segs E segs) (.mk d l dl c f gsz gsg gf segs))
      trylock (.mk d l dl c f gsz gsg gf segs) s
/-- The `do ... while (segs)` loop of `stmmac_sw_tso`: every segment is
passed to `stmmac_xmit` and the result of the call is dropped. The calls are
made with `tx_lock` held by the caller, so their `spin_trylock_irqsave`
succeeds exactly on a build without `CONFIG_SMP`. When `skb_gso_segment`
succeeds it returns at least one segment; on an empty list nothing is sent. -/
def stmmac_xmit_segs (E : stmmac_env) : List sk_buff → net_device → net_device
  | [], s => s
  | curr :: segs, s => stmmac_xmit_segs E segs (stmmac_xmit E (!E.CONFIG_SMP) curr s).1
end

/-! ## The operations table used for the examples -/

/-- Bit 31 of DES0, the OWN bit. -/
def DES0_OWN : Nat := 0x80000000

/-- Bit 30 of DES0, interrupt on completion. -/
def DES0_IC : Nat := 0x40000000

/-- Bit 29 of DES0, last segment. -/
def DES0_LS : Nat := 0x20000000

/-- Bit 28 of DES0, first segment. -/
def DES0_FS : Nat := 0x10000000

/-- Bit 22 of DES0, checksum insertion requested. -/
def DES0_CIC : Nat := 0x00400000

/-- Bit 21 of DES0, end of ring. -/
def DES0_TER : Nat := 0x00200000

/-- Bit 15 of DES0, error summary. -/
def DES0_ES : Nat := 0x00008000

/-- Modelled from the spec: the MAC/DMA operations table, whose two variants
are defined outside `stmmac_main.c`. The status/control words hold the
ownership bit, the first/last segment flags, the checksum-insertion request,
the interrupt-on-completion flag (DES0, low 32 bits of `des01`) and the
buffer length (DES1, high 32 bits). Initialisation clears every descriptor to
software ownership and marks the last one as the end of the ring. -/
def spec_ops : stmmac_ops where
  init_tx_desc := fun ring size =>
    (List.range ring.length).map (fun i =>
      { desc_at ring i with des01 := if i + 1 = size then DES0_TER else 0 })
  get_tx_owner := fun d => Nat.land d.des01 DES0_OWN != 0
  get_tx_ls := fun d => Nat.land d.des01 DES0_LS != 0
  get_tx_len := fun d => (d.des01 / U32) % 8192
  tx_status := fun st xs d =>
    if Nat.land d.des01 DES0_ES != 0 then
      ({ st with tx_errors := u32_add st.tx_errors 1 }, xs, -1)
    else (st, xs, 0)
  release_tx_desc := fun d => { d with des01 := Nat.land d.des01 DES0_TER }
  prepare_tx_desc := fun d is_fs len csum =>
    let keep := Nat.land d.des01 (Nat.lor DES0_OWN DES0_TER)
    let fs := if is_fs != 0 then DES0_FS else 0
    let cic := if csum != 0 then DES0_CIC else 0
    { d with des01 := Nat.lor keep (fs + cic + U32 * (len % 8192)) }
  set_tx_owner := fun d => { d with des01 := Nat.lor d.des01 DES0_OWN }
  close_tx_desc := fun d => { d with des01 := Nat.lor d.des01 (DES0_LS + DES0_IC) }
  clear_tx_ic := fun d => { d with des01 := u32_clear_bits d.des01 DES0_IC + U32 * (d.des01 / U32) }

/-- An environment for the examples: the operations `spec_ops`, DMA addresses
equal to the CPU addresses, 18 fragments at most, a uniprocessor build.
Memory from `kmalloc` reads as the byte `0x6b` repeated, so an entry of the
fresh slot array is a pointer that is not `NULL`; the memory of the
descriptor ring reads as zero. -/
def spec_env : stmmac_env where
  ops := spec_ops
  dma_map_single := fun ptr _ => ptr % U32
  dma_map_page := fun page offset _ => (page + offset) % U32
  MAX_SKB_FRAGS := 18
  CONFIG_SMP := false
  kmalloc_tx_skbuff := fun _ => some (.mk 0x6b6b6b6b 0 0 0 [] 0 0 false [])
  coherent_tx := fun _ => default

/-- A device with a ring of `n` descriptors before `init_dma_desc_rings`. -/
def blank_dev (n : Nat) : net_device where
  dma_tx_size := n
  cur_tx := 0
  dirty_tx := 0
  tx_skbuff := []
  dma_tx := []
  tx_coe := NO_HW_CSUM
  tx_coalesce := 0
  mod_tx_coalesce := -1
  link_duplex := 0x800
  stats := ⟨0, 0, 0, 0⟩
  xstats := ⟨0, 0, 64⟩
  queue_stopped := false
  dma_control := 0
  xmt_poll_demand := 0
  jiffies := 0
  trans_start := 0
  freed_skbs := []
  unmapped := []
  csum_helped := []
  tx_trace := []

/-- A linear packet of `len` bytes at address `data`, no fragments, no GSO. -/
def linear_skb (data len : Nat) : sk_buff := .mk data len 0 0 [] 0 0 false []

/-! ## The descriptor writes of one submission, in program order -/

/-- Whether `stmmac_xmit` puts the linear part of the packet on two
descriptors: the packet is at least 4 KiB long and its linear part is longer
than 8 KiB. -/
def head_is_split (skb : sk_buff) : Bool :=
  decide (skb.len ≥ BUF_SIZE_4KiB) && decide (skb_headlen skb > BUF_SIZE_8KiB)

/-- The writes for the linear part of a packet, submitted when the cursor is
`cur` on a ring of `txsize` entries. -/
def head_writes (txsize cur : Nat) (skb : sk_buff) : List tx_desc_write :=
  let e := cur % txsize
  if skb.len ≥ BUF_SIZE_4KiB then
    if skb_headlen skb > BUF_SIZE_8KiB then
      let e2 := u32_add cur 1 % txsize
      [.des2 e, .des3 e, .prepare_tx_desc e,
        .des2 e2, .des3 e2, .prepare_tx_desc e2, .set_tx_owner e2]
    else [.des2 e, .des3 e, .prepare_tx_desc e]
  else [.des2 e, .prepare_tx_desc e]

/-- The writes for `k` page fragments, the first of which goes to the entry
after cursor value `cur`. -/
def frag_writes (txsize : Nat) : Nat → Nat → List tx_desc_write
  | _, 0 => []
  | cur, k + 1 =>
    let e := u32_add cur 1 % txsize
    [.des2 e, .prepare_tx_desc e, .set_tx_owner e] ++ frag_writes txsize (u32_add cur 1) k

/-! ## The ring invariant -/

/-- The ring invariant in the words of the specification: completion cursor
≤ submission cursor ≤ completion cursor + N. -/
@[reducible] def tx_ring_inv_spec (s : net_device) : Prop :=
  s.dirty_tx ≤ s.cur_tx ∧ s.cur_tx ≤ s.dirty_tx + s.dma_tx_size

/-- The ring invariant with one slot reserved: at most `N - 1` descriptors
are in flight, counted modulo `2^32`. -/
@[reducible] def tx_ring_inv (s : net_device) : Prop :=
  tx_in_flight s + 1 ≤ s.dma_tx_size

mutual
/-- Whether no linear part is split over two descriptors when the packet is
transmitted: for a GSO packet this is asked of its segments, which are what
is put on the ring. -/
def heads_fit : sk_buff → Bool
  | .mk d l dl c f gsz gsg gf segs =>
    if gsz != 0 then heads_fit_all segs
    else !(head_is_split (.mk d l dl c f gsz gsg gf segs))
/-- The same for every packet of a list. -/
def heads_fit_all : List sk_buff → Bool
  | [] => true
  | x :: xs => heads_fit x && heads_fit_all xs
end

/-! ## Consecutive submissions -/

/-- Whether a packet takes a single descriptor: no fragments, not GSO,
shorter than 4 KiB. -/
def single_desc (skb : sk_buff) : Bool :=
  skb.frags.isEmpty && !(skb_is_gso skb) && decide (skb.len < BUF_SIZE_4KiB)

/-- Consecutive calls of `stmmac_xmit`, one for each packet of the list, each
with the lock taken and with nothing else running in between. Returns the
device after the last call and the list of the values returned. -/
def stmmac_xmit_seq (E : stmmac_env) : List sk_buff → net_device → net_device × List Int
  | [], s => (s, [])
  | p :: ps, s =>
    let r := stmmac_xmit E true p s
    let q := stmmac_xmit_seq E ps r.1
    (q.1, r.2 :: q.2)

/-- Whether, in a sequence of descriptor writes, some descriptor is written
again after `set_tx_owner` has been applied to it. -/
def written_after_owner : List tx_desc_write → Bool
  | [] => false
  | w :: ws => (w.is_owner && ws.any (fun v => v.entry == w.entry)) || written_after_owner ws

/-! ## Devices and packets used in the examples -/

/-- A freshly initialised ring of 32 descriptors. -/
def ring32 : net_device := init_dma_desc_rings_tx spec_env (blank_dev 32)

/-- A ring of 128 descriptors whose submission cursor has wrapped past
`2^32` while the completion cursor has not: three descriptors in flight. -/
def wrapped_dev : net_device := { blank_dev 128 with dirty_tx := 4294967294, cur_tx := 1 }

/-- The ring of 32 descriptors after 30 linear packets of 100 bytes have been
submitted: one slot is available. -/
def thirty_in_flight : net_device :=
  (stmmac_xmit_seq spec_env (List.replicate 30 (linear_skb 1000 100)) ring32).1

/-- The ring of 32 descriptors after 31 linear packets: no slot is left. -/
def thirty_one_in_flight : net_device :=
  (stmmac_xmit spec_env true (linear_skb 3000 100) thirty_in_flight).1

/-- A packet of 300 bytes: 100 bytes of linear data and two page fragments
of 100 bytes, a chain of three segments. -/
def chain_skb : sk_buff := .mk 1000 300 200 0 [⟨7, 0, 100⟩, ⟨8, 0, 100⟩] 0 0 false []

/-- A linear packet of 9000 bytes, longer than the 8 KiB one descriptor takes. -/
def jumbo_skb : sk_buff := linear_skb 5000 9000

/-- A freshly initialised ring of 32 descriptors with interrupt moderation on:
the module parameter `tx_coalesce` is 2. -/
def moderated_ring : net_device := { ring32 with mod_tx_coalesce := 2 }

/-- The ring of 32 descriptors with the cursors 32 apart and every slot
empty: it satisfies the invariant as the specification words it. -/
def overfull_ring : net_device := { ring32 with cur_tx := 32 }

/-! ## Module parameters

The tunables are the file-scope `static int` variables of
`stmmac_main.c`; `stmmac_verify_args` rewrites them in place. -/

/-- Constants of the kernel and of `stmmac.h`/`common.h` that the module
parameters default to; the headers are not part of the sources at hand, so
the values are parameters. -/
structure stmmac_h where
  HZ : Int
  FLOW_OFF : Int
  FLOW_AUTO : Int
  PAUSE_TIME : Int
  deriving DecidableEq, Repr

/-- Modelled from the spec: `BUF_SIZE_2KiB` of `stmmac.h`. -/
def BUF_SIZE_2KiB : Nat := 2048

/-- Modelled from the spec: `BUF_SIZE_16KiB` of `stmmac.h`. -/
def BUF_SIZE_16KiB : Nat := 16384

/-- The default transmit timeout `TX_TIMEO`, `5*HZ`. -/
def TX_TIMEO (H : stmmac_h) : Int := 5 * H.HZ

def DMA_TX_SIZE : Int := 128
def DMA_RX_SIZE : Int := 128
def TC_DEFAULT : Int := 64
def RX_NO_COALESCE : Int := 1
def TX_NO_COALESCE : Int := -1
def DMA_BUFFER_SIZE : Nat := BUF_SIZE_2KiB
def JUMBO_LEN : Nat := 9000

/-- Modelled from the spec: `HW_CSUM` of `stmmac.h`, the value of `tx_coe`
when the hardware inserts the checksum. -/
def HW_CSUM : Nat := 1

/-- The module parameters `stmmac_verify_args` and `stmmac_open` read and
write (`static int` variables). -/
structure module_params where
  watchdog : Int
  dma_txsize : Int
  dma_rxsize : Int
  flow_ctrl : Int
  pause : Int
  tc : Int
  rx_coalesce : Int
  tx_coalesce : Int
  buf_sz : Int
  tx_coe : Int
  deriving DecidableEq, Repr

/-- The values the module parameters are initialised to. -/
def default_params (H : stmmac_h) : module_params :=
  { watchdog := TX_TIMEO H, dma_txsize := DMA_TX_SIZE, dma_rxsize := DMA_RX_SIZE,
    flow_ctrl := H.FLOW_OFF, pause := H.PAUSE_TIME, tc := TC_DEFAULT,
    rx_coalesce := RX_NO_COALESCE, tx_coalesce := TX_NO_COALESCE,
    buf_sz := DMA_BUFFER_SIZE, tx_coe := HW_CSUM }

/-- `stmmac_verify_args`: wrong parameters are replaced with the default
values, one `if` after the other as in the source. -/
def stmmac_verify_args (H : stmmac_h) (p : module_params) : module_params :=
  let p := if p.watchdog < 0 then { p with watchdog := TX_TIMEO H } else p
  let p := if p.dma_rxsize < 0 then { p with dma_rxsize := DMA_RX_SIZE } else p
  let p := if p.dma_txsize < 0 then { p with dma_txsize := DMA_TX_SIZE } else p
  let p := if p.tx_coalesce ≥ p.dma_txsize then { p with tx_coalesce := TX_NO_COALESCE } else p
  let p := if p.rx_coalesce > p.dma_rxsize then { p with rx_coalesce := RX_NO_COALESCE } else p
  let p := if p.buf_sz < DMA_BUFFER_SIZE ∨ p.buf_sz > BUF_SIZE_16KiB then
      { p with buf_sz := DMA_BUFFER_SIZE } else p
  let p := if p.flow_ctrl > 1 then { p with flow_ctrl := H.FLOW_AUTO }
    else if p.flow_ctrl < 0 then { p with flow_ctrl := H.FLOW_OFF } else p
  let p := if p.pause < 0 ∨ p.pause > 0xffff then { p with pause := H.PAUSE_TIME } else p
  p

/-- Modelled from the spec: header constants with `HZ = 100`, flow control
off `0`, automatic `3`, and a pause time of `0x200`. -/
def spec_h : stmmac_h := { HZ := 100, FLOW_OFF := 0, FLOW_AUTO := 3, PAUSE_TIME := 0x200 }

/-- The hardware completing the TX descriptor `entry`: it clears the OWN bit
and leaves the rest of the descriptor as it is. -/
def hw_tx_done (entry : Nat) (s : net_device) : net_device :=
  let d := desc_at s.dma_tx entry
  { s with dma_tx := s.dma_tx.set entry { d with des01 := d.des01 - Nat.land d.des01 DES0_OWN } }

/-- The ring of 32 descriptors after `chain_skb` has been submitted (three
descriptors in flight) and the hardware has completed the first two. -/
def two_of_three_done : net_device :=
  hw_tx_done 1 (hw_tx_done 0 (stmmac_xmit spec_env true chain_skb ring32).1)

/-! ## Receive side

The receive half of `struct stmmac_priv` and of `struct net_device`. The
descriptor operations (`priv->mac_type->ops`), the status codes of
`common.h` and the kernel services are parameters. -/

/-- A C `unsigned int` read as an `int`. -/
def u32_to_int (x : Nat) : Int :=
  if x % U32 < 2147483648 then ((x % U32 : Nat) : Int) else ((x % U32 : Nat) : Int) - U32

/-- A C `int` converted to `unsigned int`. -/
def int_to_u32 (x : Int) : Nat := (x % (U32 : Int)).toNat

def CHECKSUM_NONE : Nat := 0
def CHECKSUM_UNNECESSARY : Nat := 2

/-- The kernel's `skb_reserve`: move `skb->data` forward by `len`. -/
def skb_reserve (skb : sk_buff) (len : Nat) : sk_buff :=
  match skb with
  | .mk d l dl c f g gs gf segs => .mk (d + len) l dl c f g gs gf segs

/-- The kernel's `skb_put`: `skb->len += len`, on `unsigned int`; the check
against the end of the buffer is left out. -/
def skb_put (skb : sk_buff) (len : Nat) : sk_buff :=
  match skb with
  | .mk d l dl c f g gs gf segs => .mk d (u32_add l len) dl c f g gs gf segs

/-- The assignment `skb->ip_summed = v`. -/
def skb_set_ip_summed (skb : sk_buff) (v : Nat) : sk_buff :=
  match skb with
  | .mk d l dl _ f g gs gf segs => .mk d l dl v f g gs gf segs

/-- The counters of `dev->stats` the receive path updates. -/
structure rx_device_stats where
  rx_packets : Nat
  rx_bytes : Nat
  rx_errors : Nat
  rx_dropped : Nat
  deriving DecidableEq, Repr

/-- The counters of `priv->xstats` the receive path updates. -/
structure rx_extra_stats where
  rx_poll_n : Nat
  rx_pkt_n : Nat
  rx_vlan : Nat
  deriving DecidableEq, Repr

/-- The receive operations of `priv->mac_type->ops`. `rx_status` gets the two
counter blocks and returns them with the status code. -/
structure stmmac_rx_ops where
  init_rx_desc : List dma_desc → Nat → List dma_desc
  disable_rx_ic : List dma_desc → Nat → Int → List dma_desc
  get_rx_owner : dma_desc → Bool
  set_rx_owner : dma_desc → dma_desc
  get_rx_frame_len : dma_desc → Int
  rx_status : rx_device_stats → rx_extra_stats → dma_desc →
    rx_device_stats × rx_extra_stats × Int

/-- What the receive path takes from outside this file: the operations, the
status codes `discard_frame` and `csum_none`, the bit-field
`des01.erx.vlan_tag`, the allocator `netdev_alloc_skb` (the result of its
`n`-th call for a buffer of the given length, `none` for `NULL`),
`dma_map_single`, `eth_type_trans` (the packet after the call and the
protocol returned), `NET_IP_ALIGN`, and the build options. -/
structure stmmac_rx_env where
  ops : stmmac_rx_ops
  discard_frame : Int
  csum_none : Int
  erx_vlan_tag : dma_desc → Bool
  netdev_alloc_skb : Nat → Int → Option sk_buff
  dma_map_single : Nat → Nat → Nat
  eth_type_trans : sk_buff → sk_buff × Nat
  NET_IP_ALIGN : Nat
  STMMAC_VLAN_TAG_USED : Bool
  CONFIG_STMMAC_TIMER : Bool

/-- The receive state of one interface: the fields of `struct stmmac_priv`
and `struct net_device` that `stmmac_rx`, `stmmac_rx_refill` and
`stmmac_poll` use, the register `DMA_INTR_ENA`, the NAPI state, and ghost
logs: the packets given to `netif_receive_skb` with their protocol, the
buffers unmapped, the number of `netdev_alloc_skb` calls made so far, and
the number of `timer_start` calls. -/
structure stmmac_priv where
  dma_rx_size : Nat
  cur_rx : Nat
  dirty_rx : Nat
  rx_skbuff : List (Option sk_buff)
  rx_skbuff_dma : List Nat
  dma_rx : List dma_desc
  dma_buf_sz : Nat
  is_gmac : Bool
  vlgrp : Bool
  stats : rx_device_stats
  xstats : rx_extra_stats
  last_rx : Nat
  jiffies : Nat
  dma_intr_ena : Nat
  napi_scheduled : Bool
  delivered : List (sk_buff × Nat)
  rx_unmapped : List (Nat × Nat)
  alloc_calls : Nat
  timer_starts : Nat

/-- The store `rx_skbuff_dma[entry]`. -/
def dma_addr_at (addrs : List Nat) (entry : Nat) : Nat := addrs.getD entry 0

/-- The part of `stmmac_rx_refill` that runs once `netdev_alloc_skb` has
returned `skb`: reserve the alignment, store the buffer and its DMA address,
and write `des2` (and `des3` on a GMAC with buffers of 8 KiB or more). -/
def stmmac_rx_refill_slot (E : stmmac_rx_env) (bfsize : Int) (entry : Nat) (skb : sk_buff)
    (s : stmmac_priv) : stmmac_priv :=
  let skb := skb_reserve skb E.NET_IP_ALIGN
  let s := { s with rx_skbuff := s.rx_skbuff.set entry (some skb) }
  let addr := E.dma_map_single skb.data (int_to_u32 (bfsize - E.NET_IP_ALIGN))
  let s := { s with rx_skbuff_dma := s.rx_skbuff_dma.set entry addr }
  let d := desc_at s.dma_rx entry
  let des2 := dma_addr_at s.rx_skbuff_dma entry
  let s := { s with dma_rx := s.dma_rx.set entry { d with des2 := des2 } }
  if s.is_gmac then
    if bfsize ≥ BUF_SIZE_8KiB then
      let d := desc_at s.dma_rx entry
      { s with dma_rx := s.dma_rx.set entry { d with des3 := u32_add d.des2 BUF_SIZE_8KiB } }
    else s
  else s

/-- The call `set_rx_owner(p + entry)`. -/
def rx_set_owner (E : stmmac_rx_env) (entry : Nat) (s : stmmac_priv) : stmmac_priv :=
  { s with dma_rx := s.dma_rx.set entry (E.ops.set_rx_owner (desc_at s.dma_rx entry)) }

/-- One round of the `for` loop of `stmmac_rx_refill`, for the slot
`dirty_rx % rxsize`: an empty slot gets a new buffer, the descriptor goes back
to the hardware, and `dirty_rx` moves on. The result says whether the loop
goes on: `false` is the `break` after a failed allocation, which leaves slot,
descriptor and `dirty_rx` as they are. -/
def stmmac_rx_refill_one (E : stmmac_rx_env) (rxsize : Nat) (bfsize : Int) (s : stmmac_priv) :
    stmmac_priv × Bool :=
  let entry := s.dirty_rx % rxsize
  match skb_at s.rx_skbuff entry with
  | none =>
    match E.netdev_alloc_skb s.alloc_calls bfsize with
    | none => ({ s with alloc_calls := s.alloc_calls + 1 }, false)
    | some skb =>
      let s := { s with alloc_calls := s.alloc_calls + 1 }
      let s := stmmac_rx_refill_slot E bfsize entry skb s
      let s := rx_set_owner E entry s
      ({ s with dirty_rx := u32_add s.dirty_rx 1 }, true)
  | some _ =>
    let s := rx_set_owner E entry s
    ({ s with dirty_rx := u32_add s.dirty_rx 1 }, true)

/-- The `for (; priv->cur_rx - priv->dirty_rx > 0; priv->dirty_rx++)` loop of
`stmmac_rx_refill`; `fuel` bounds the number of rounds (`stmmac_rx_refill`
passes `cur_rx - dirty_rx`, which the loop cannot exceed). -/
def stmmac_rx_refill_loop (E : stmmac_rx_env) (rxsize : Nat) (bfsize : Int) :
    Nat → stmmac_priv → stmmac_priv
  | 0, s => s
  | fuel + 1, s =>
    if u32_sub s.cur_rx s.dirty_rx > 0 then
      let r := stmmac_rx_refill_one E rxsize bfsize s
      if r.2 then stmmac_rx_refill_loop E rxsize bfsize fuel r.1 else r.1
    else s

/-- The source's `stmmac_rx_refill`. -/
def stmmac_rx_refill (E : stmmac_rx_env) (s : stmmac_priv) : stmmac_priv :=
  let rxsize := s.dma_rx_size
  let bfsize := u32_to_int s.dma_buf_sz
  stmmac_rx_refill_loop E rxsize bfsize (u32_sub s.cur_rx s.dirty_rx) s

/-- The branch of the loop body of `stmmac_rx` that hands a good frame to the
upper layer: the buffer `skb` leaves slot `entry`, gets its length, is
unmapped, classified and given to `netif_receive_skb`; `p` is the
descriptor, `status` what `rx_status` returned, `frame_len` the frame length
without the CRC. -/
def stmmac_rx_deliver (E : stmmac_rx_env) (entry : Nat) (p : dma_desc) (status frame_len : Int)
    (skb : sk_buff) (s : stmmac_priv) : stmmac_priv :=
  let s := { s with rx_skbuff := s.rx_skbuff.set entry none }
  let skb := skb_put skb (int_to_u32 frame_len)
  let s := { s with
    rx_unmapped := s.rx_unmapped ++ [(dma_addr_at s.rx_skbuff_dma entry, s.dma_buf_sz)] }
  let t := E.eth_type_trans skb
  let skb := skb_set_ip_summed t.1
    (if status = E.csum_none then CHECKSUM_NONE else CHECKSUM_UNNECESSARY)
  let s := if E.STMMAC_VLAN_TAG_USED && s.vlgrp && s.is_gmac && E.erx_vlan_tag p then
      { s with xstats := { s.xstats with rx_vlan := u32_add s.xstats.rx_vlan 1 } }
    else s
  let s := { s with delivered := s.delivered ++ [(skb, t.2)] }
  let s := { s with stats := { s.stats with
    rx_packets := u32_add s.stats.rx_packets 1
    rx_bytes := u32_add s.stats.rx_bytes (int_to_u32 frame_len) } }
  { s with last_rx := s.jiffies }

/-- The loop body of `stmmac_rx` from the call of `rx_status` on, for the
descriptor at `entry`; the result says whether the loop goes on (`false` for
the `break` on an empty slot). -/
def stmmac_rx_frame (E : stmmac_rx_env) (entry : Nat) (s : stmmac_priv) : stmmac_priv × Bool :=
  let p := desc_at s.dma_rx entry
  let r := E.ops.rx_status s.stats s.xstats p
  let s := { s with stats := r.1, xstats := r.2.1 }
  let status := r.2.2
  if status = E.discard_frame then
    ({ s with stats := { s.stats with rx_errors := u32_add s.stats.rx_errors 1 } }, true)
  else
    let frame_len := E.ops.get_rx_frame_len p - 4
    match skb_at s.rx_skbuff entry with
    | none =>
      ({ s with stats := { s.stats with rx_dropped := u32_add s.stats.rx_dropped 1 } }, false)
    | some skb => (stmmac_rx_deliver E entry p status frame_len skb s, true)

/-- The `while (!get_rx_owner(p))` loop of `stmmac_rx` with its locals `entry`
and `count`; the first argument is `limit - count`, so the test
`count >= limit` is "the first argument is 0". -/
def stmmac_rx_loop (E : stmmac_rx_env) (rxsize : Nat) :
    Nat → Nat → Nat → stmmac_priv → stmmac_priv × Nat
  | 0, _, count, s => (s, count)
  | left + 1, entry, count, s =>
    if E.ops.get_rx_owner (desc_at s.dma_rx entry) then (s, count)
    else
      let count := count + 1
      let s := { s with cur_rx := u32_add s.cur_rx 1 }
      let next_entry := s.cur_rx % rxsize
      let r := stmmac_rx_frame E entry s
      if r.2 then stmmac_rx_loop E rxsize left next_entry count r.1
      else (r.1, count)

/-- The source's `stmmac_rx`: process at most `limit` completed descriptors,
refill the ring, return the number processed. The comparison
`count >= limit` is made on `unsigned int`. -/
def stmmac_rx (E : stmmac_rx_env) (s : stmmac_priv) (limit : Int) : stmmac_priv × Int :=
  let rxsize := s.dma_rx_size
  let entry := s.cur_rx % rxsize
  let r := stmmac_rx_loop E rxsize (int_to_u32 limit) entry 0 s
  let s := stmmac_rx_refill E r.1
  (s, u32_to_int r.2)

/-- One round of the `while` loop of `stmmac_rx` on the descriptor at
`cur_rx`: `cur_rx` moves past the descriptor (`next_entry = (++priv->cur_rx)
% rxsize`) and the loop body runs on it; the result says whether the loop
goes on. -/
def stmmac_rx_round (E : stmmac_rx_env) (rxsize : Nat) (s : stmmac_priv) : stmmac_priv × Bool :=
  stmmac_rx_frame E (s.cur_rx % rxsize) { s with cur_rx := u32_add s.cur_rx 1 }

/-- The state of `stmmac_rx` after `j` rounds of its loop. -/
def stmmac_rx_rounds (E : stmmac_rx_env) (rxsize : Nat) : Nat → stmmac_priv → stmmac_priv
  | 0, s => s
  | j + 1, s => stmmac_rx_rounds E rxsize j (stmmac_rx_round E rxsize s).1

/-- The source's `stmmac_dma_enable_irq_rx`. -/
def stmmac_dma_enable_irq_rx (DMA_INTR_DEFAULT_MASK : Nat) (s : stmmac_priv) : stmmac_priv :=
  { s with dma_intr_ena := DMA_INTR_DEFAULT_MASK }

/-- The source's `stmmac_dma_disable_irq_rx`. -/
def stmmac_dma_disable_irq_rx (DMA_INTR_NO_RX : Nat) (s : stmmac_priv) : stmmac_priv :=
  { s with dma_intr_ena := DMA_INTR_NO_RX }

/-! ## Receive examples -/

/-- Modelled from the spec: receive operations in the layout of the GMAC
descriptors, with DES0 in the low and DES1 in the high 32 bits of `des01`:
OWN is bit 31 of DES0, the frame length bits 16 to 29, the error summary bit
15; `init_rx_desc` gives every descriptor to the hardware with a buffer size
of 8191 and marks the last one (bit 15 of DES1); `disable_rx_ic` sets bit 31
of DES1 on the descriptors whose index is not a multiple of the coalescence
count. An error summary classifies as `discard_frame` (1), everything else
as a good frame (0). -/
def spec_rx_ops : stmmac_rx_ops where
  init_rx_desc := fun ring size =>
    (List.range ring.length).map (fun i =>
      let d := desc_at ring i
      { d with des01 := DES0_OWN + U32 * (8191 + if i + 1 = size then 32768 else 0) })
  disable_rx_ic := fun ring _ ic =>
    (List.range ring.length).map (fun i =>
      let d := desc_at ring i
      if (i : Int) % ic ≠ 0 then { d with des01 := Nat.lor d.des01 (U32 * 2147483648) } else d)
  get_rx_owner := fun d => Nat.land d.des01 DES0_OWN != 0
  set_rx_owner := fun d => { d with des01 := Nat.lor d.des01 DES0_OWN }
  get_rx_frame_len := fun d => (((d.des01 / 65536) % 16384 : Nat) : Int)
  rx_status := fun st xs d => if Nat.land d.des01 DES0_ES != 0 then (st, xs, 1) else (st, xs, 0)

/-- Modelled from the spec: an environment for the receive examples. The
allocator always succeeds and gives the `n`-th buffer the address
`0x100000 + 0x1000 * n`; DMA addresses equal the CPU addresses;
`eth_type_trans` pulls the 14 bytes of the Ethernet header and answers
`ETH_P_IP`; `NET_IP_ALIGN` is 2; no VLAN support and no external timer. -/
def spec_rx_env : stmmac_rx_env where
  ops := spec_rx_ops
  discard_frame := 1
  csum_none := 2
  erx_vlan_tag := fun d => Nat.land d.des01 1024 != 0
  netdev_alloc_skb := fun n _ => some (linear_skb (0x100000 + 0x1000 * n) 0)
  dma_map_single := fun ptr _ => ptr % U32
  eth_type_trans := fun skb =>
    match skb with
    | .mk d l dl c f g gs gf segs => (.mk (d + 14) (u32_sub l 14) dl c f g gs gf segs, 0x0800)
  NET_IP_ALIGN := 2
  STMMAC_VLAN_TAG_USED := false
  CONFIG_STMMAC_TIMER := false

/-- The environment `spec_rx_env` with memory exhausted: every
`netdev_alloc_skb` returns `NULL`. -/
def no_memory_env : stmmac_rx_env := { spec_rx_env with netdev_alloc_skb := fun _ _ => none }

/-- A receive ring of `n` descriptors in its state after a successful
bring-up: every slot holds a buffer of 2 KiB, every descriptor points to it
and is owned by the hardware, both cursors are 0. -/
def rx_ring (n : Nat) : stmmac_priv where
  dma_rx_size := n
  cur_rx := 0
  dirty_rx := 0
  rx_skbuff := (List.range n).map (fun i => some (linear_skb (0x800000 + 0x1000 * i + 2) 0))
  rx_skbuff_dma := (List.range n).map (fun i => 0x800000 + 0x1000 * i + 2)
  dma_rx := (List.range n).map (fun i =>
    ⟨DES0_OWN + U32 * (8191 + if i + 1 = n then 32768 else 0), 0x800000 + 0x1000 * i + 2, 0⟩)
  dma_buf_sz := 2048
  is_gmac := true
  vlgrp := false
  stats := ⟨0, 0, 0, 0⟩
  xstats := ⟨0, 0, 0⟩
  last_rx := 0
  jiffies := 1000
  dma_intr_ena := 0
  napi_scheduled := false
  delivered := []
  rx_unmapped := []
  alloc_calls := 0
  timer_starts := 0

/-- The hardware completing the RX descriptor `entry` with a frame of `len`
bytes (CRC included), in error or not: it writes the length and the error
summary into DES0 and clears the OWN bit. -/
def hw_rx_done (entry len : Nat) (err : Bool) (s : stmmac_priv) : stmmac_priv :=
  let d := desc_at s.dma_rx entry
  let des0 := 65536 * (len % 16384) + (if err then DES0_ES else 0) + 768
  { s with dma_rx := s.dma_rx.set entry { d with des01 := des0 + U32 * (d.des01 / U32) } }

/-- The receive ring of 32 descriptors after the hardware has received three
frames: a good one of 64 bytes in descriptor 0, a frame in error in
descriptor 1, and a good one of 1518 bytes in descriptor 2. -/
def three_frames : stmmac_priv :=
  hw_rx_done 2 1518 false (hw_rx_done 1 64 true (hw_rx_done 0 64 false (rx_ring 32)))

/-- The receive ring of 32 descriptors, one frame in error and one good
frame: the ring `three_frames` after its first descriptor has been processed
and refilled, so that `cur_rx` and `dirty_rx` are 1 and the descriptor at
`cur_rx` is the frame in error. -/
def error_first : stmmac_priv := (stmmac_rx spec_rx_env three_frames 1).1

/-! ## Interrupts and polling -/

/-- The constants of the DMA register headers the interrupt path uses: the
bits of `DMA_STATUS` (CSR5), the store-and-forward marker `SF_DMA_MODE`, and
the two values written to `DMA_INTR_ENA`. The headers are not part of the
sources at hand, so the values are parameters. -/
structure dma_h where
  DMA_STATUS_AIS : Nat
  DMA_STATUS_UNF : Nat
  DMA_STATUS_TJT : Nat
  DMA_STATUS_OVF : Nat
  DMA_STATUS_RU : Nat
  DMA_STATUS_RPS : Nat
  DMA_STATUS_RWT : Nat
  DMA_STATUS_ETI : Nat
  DMA_STATUS_TPS : Nat
  DMA_STATUS_FBI : Nat
  DMA_STATUS_NIS : Nat
  DMA_STATUS_RI : Nat
  DMA_STATUS_TI : Nat
  SF_DMA_MODE : Nat
  DMA_INTR_NO_RX : Nat
  DMA_INTR_DEFAULT_MASK : Nat
  deriving DecidableEq, Repr

/-- The interrupt counters of `priv->xstats`. -/
structure irq_extra_stats where
  tx_undeflow_irq : Nat
  tx_jabber_irq : Nat
  rx_overflow_irq : Nat
  rx_buf_unav_irq : Nat
  rx_process_stopped_irq : Nat
  rx_watchdog_irq : Nat
  tx_early_irq : Nat
  tx_process_stopped_irq : Nat
  fatal_bus_error_irq : Nat
  dma_rx_normal_irq : Nat
  dma_tx_normal_irq : Nat
  deriving DecidableEq, Repr

/-- One interface as the interrupt handler sees it: the transmit state, the
receive state, the interrupt counters, the register `DMA_STATUS`, whether
the tasklet `tx_task` is scheduled, and ghost logs of the values written to
`DMA_STATUS` and of the calls `dma_mode(ioaddr, txmode, rxmode)`. -/
structure stmmac_dev where
  tx : net_device
  rx : stmmac_priv
  irq : irq_extra_stats
  dma_status : Nat
  tx_task_scheduled : Bool
  dma_status_written : List Nat
  dma_mode_calls : List (Nat × Nat)

/-- The source's `stmmac_schedule_rx`: mask the RX interrupt and schedule the
NAPI poll. -/
def stmmac_schedule_rx (H : dma_h) (s : stmmac_priv) : stmmac_priv :=
  let s := stmmac_dma_disable_irq_rx H.DMA_INTR_NO_RX s
  { s with napi_scheduled := true }

/-- The `DMA_STATUS_UNF` branch of `stmmac_dma_interrupt`: bump the threshold
if it is not `SF_DMA_MODE` and at most 256, recover the transmit ring, count. -/
def stmmac_dma_irq_unf (H : dma_h) (E : stmmac_env) (d : stmmac_dev) : stmmac_dev :=
  let d := if d.tx.xstats.threshold ≠ H.SF_DMA_MODE ∧ d.tx.xstats.threshold ≤ 256 then
      let t := u32_add d.tx.xstats.threshold 64
      { d with
        tx := { d.tx with xstats := { d.tx.xstats with threshold := t } }
        dma_mode_calls := d.dma_mode_calls ++ [(t, H.SF_DMA_MODE)] }
    else d
  let d := { d with tx := stmmac_tx_err E d.tx }
  { d with irq := { d.irq with tx_undeflow_irq := u32_add d.irq.tx_undeflow_irq 1 } }

/-- The branches of `stmmac_dma_interrupt` that only count: transmit jabber,
receive overflow, receive buffer unavailable, receive process stopped,
receive watchdog, transmit early interrupt. -/
def stmmac_dma_irq_count (H : dma_h) (intr_status : Nat) (x : irq_extra_stats) :
    irq_extra_stats :=
  let x := if Nat.land intr_status H.DMA_STATUS_TJT ≠ 0 then
      { x with tx_jabber_irq := u32_add x.tx_jabber_irq 1 } else x
  let x := if Nat.land intr_status H.DMA_STATUS_OVF ≠ 0 then
      { x with rx_overflow_irq := u32_add x.rx_overflow_irq 1 } else x
  let x := if Nat.land intr_status H.DMA_STATUS_RU ≠ 0 then
      { x with rx_buf_unav_irq := u32_add x.rx_buf_unav_irq 1 } else x
  let x := if Nat.land intr_status H.DMA_STATUS_RPS ≠ 0 then
      { x with rx_process_stopped_irq := u32_add x.rx_process_stopped_irq 1 } else x
  let x := if Nat.land intr_status H.DMA_STATUS_RWT ≠ 0 then
      { x with rx_watchdog_irq := u32_add x.rx_watchdog_irq 1 } else x
  let x := if Nat.land intr_status H.DMA_STATUS_ETI ≠ 0 then
      { x with tx_early_irq := u32_add x.tx_early_irq 1 } else x
  x

/-- The `DMA_STATUS_TPS` branch of `stmmac_dma_interrupt`. -/
def stmmac_dma_irq_tps (E : stmmac_env) (d : stmmac_dev) : stmmac_dev :=
  let d := { d with
    irq := { d.irq with tx_process_stopped_irq := u32_add d.irq.tx_process_stopped_irq 1 } }
  { d with tx := stmmac_tx_err E d.tx }

/-- The `DMA_STATUS_FBI` branch of `stmmac_dma_interrupt`. -/
def stmmac_dma_irq_fbi (E : stmmac_env) (d : stmmac_dev) : stmmac_dev :=
  let d := { d with
    irq := { d.irq with fatal_bus_error_irq := u32_add d.irq.fatal_bus_error_irq 1 } }
  { d with tx := stmmac_tx_err E d.tx }

/-- The ABNORMAL part of `stmmac_dma_interrupt`, under `DMA_STATUS_AIS`. -/
def stmmac_dma_irq_abnormal (H : dma_h) (E : stmmac_env) (intr_status : Nat) (d : stmmac_dev) :
    stmmac_dev :=
  let d := if Nat.land intr_status H.DMA_STATUS_UNF ≠ 0 then stmmac_dma_irq_unf H E d else d
  let d := { d with irq := stmmac_dma_irq_count H intr_status d.irq }
  let d := if Nat.land intr_status H.DMA_STATUS_TPS ≠ 0 then stmmac_dma_irq_tps E d else d
  if Nat.land intr_status H.DMA_STATUS_FBI ≠ 0 then stmmac_dma_irq_fbi E d else d

/-- The NORMAL part of `stmmac_dma_interrupt`, under `DMA_STATUS_NIS`. -/
def stmmac_dma_irq_normal (H : dma_h) (intr_status : Nat) (d : stmmac_dev) : stmmac_dev :=
  let d := if Nat.land intr_status H.DMA_STATUS_RI ≠ 0 then
      { d with
        irq := { d.irq with dma_rx_normal_irq := u32_add d.irq.dma_rx_normal_irq 1 }
        rx := stmmac_schedule_rx H d.rx }
    else d
  if Nat.land intr_status H.DMA_STATUS_TI ≠ 0 then
    { d with
      irq := { d.irq with dma_tx_normal_irq := u32_add d.irq.dma_tx_normal_irq 1 }
      tx_task_scheduled := true }
  else d

/-- The source's `stmmac_dma_interrupt`: read `DMA_STATUS`, acknowledge it,
handle the abnormal and the normal interrupts. The message about the
optional hardware blocks changes no state and is left out. -/
def stmmac_dma_interrupt (H : dma_h) (E : stmmac_env) (d : stmmac_dev) : stmmac_dev :=
  let intr_status := d.dma_status
  let d := { d with dma_status_written := d.dma_status_written ++ [Nat.land intr_status 0x1ffff] }
  let d := if Nat.land intr_status H.DMA_STATUS_AIS ≠ 0 then
      stmmac_dma_irq_abnormal H E intr_status d else d
  if Nat.land intr_status H.DMA_STATUS_NIS ≠ 0 then stmmac_dma_irq_normal H intr_status d else d

/-- A run of interrupts: before each one the hardware sets `DMA_STATUS` to the
next value of the list. -/
def stmmac_dma_interrupts (H : dma_h) (E : stmmac_env) : List Nat → stmmac_dev → stmmac_dev
  | [], d => d
  | st :: rest, d =>
    stmmac_dma_interrupts H E rest (stmmac_dma_interrupt H E { d with dma_status := st })

/-- The source's `stmmac_poll`: receive at most `budget` frames, update the
counters, and when fewer than `budget` were there complete the NAPI poll and
unmask the RX interrupt. -/
def stmmac_poll (H : dma_h) (E : stmmac_rx_env) (s : stmmac_priv) (budget : Int) :
    stmmac_priv × Int :=
  let r := stmmac_rx E s budget
  let work_done := r.2
  let s := r.1
  let s := { s with xstats := { s.xstats with rx_poll_n := u32_add s.xstats.rx_poll_n 1 } }
  let s := { s with xstats := { s.xstats with
    rx_pkt_n := u32_add s.xstats.rx_pkt_n (int_to_u32 work_done) } }
  if work_done < budget then
    let s := { s with napi_scheduled := false }
    let s := stmmac_dma_enable_irq_rx H.DMA_INTR_DEFAULT_MASK s
    let s := if E.CONFIG_STMMAC_TIMER then { s with timer_starts := s.timer_starts + 1 } else s
    (s, work_done)
  else (s, work_done)

/-- Modelled from the spec: the bits of CSR5 and the interrupt masks in the
layout of the Synopsys DMA: normal summary bit 16, abnormal summary bit 15,
fatal bus error bit 13, early transmit bit 10, receive watchdog bit 9,
receive stopped bit 8, receive buffer unavailable bit 7, receive bit 6,
underflow bit 5, overflow bit 4, jabber bit 3, transmit stopped bit 1,
transmit bit 0; `SF_DMA_MODE` is 1. -/
def spec_dma_h : dma_h where
  DMA_STATUS_AIS := 0x8000
  DMA_STATUS_UNF := 0x20
  DMA_STATUS_TJT := 0x8
  DMA_STATUS_OVF := 0x10
  DMA_STATUS_RU := 0x80
  DMA_STATUS_RPS := 0x100
  DMA_STATUS_RWT := 0x200
  DMA_STATUS_ETI := 0x400
  DMA_STATUS_TPS := 0x2
  DMA_STATUS_FBI := 0x2000
  DMA_STATUS_NIS := 0x10000
  DMA_STATUS_RI := 0x40
  DMA_STATUS_TI := 0x1
  SF_DMA_MODE := 1
  DMA_INTR_NO_RX := 0x1a021
  DMA_INTR_DEFAULT_MASK := 0x1a061

/-- The interface with the given transmit and receive state, counters at 0
and no interrupt pending. -/
def quiet_dev (tx : net_device) (rx : stmmac_priv) : stmmac_dev where
  tx := tx
  rx := rx
  irq := ⟨0, 0, 0, 0, 0, 0, 0, 0, 0, 0, 0⟩
  dma_status := 0
  tx_task_scheduled := false
  dma_status_written := []
  dma_mode_calls := []

/-- The ring of 32 descriptors after 10 linear packets of 100 bytes have been
submitted. -/
def ten_in_flight : net_device :=
  (stmmac_xmit_seq spec_env (List.replicate 10 (linear_skb 1000 100)) ring32).1

/-- The interface with 10 TX descriptors in flight when the hardware raises
an abnormal interrupt with a fatal bus error (bits 15 and 13 of CSR5). -/
def bus_error_dev : stmmac_dev :=
  { quiet_dev ten_in_flight (rx_ring 32) with dma_status := 0xa000 }

/-- The interface with three received frames waiting when the hardware raises
a normal interrupt for reception and transmission (bits 16, 6 and 0 of
CSR5). -/
def rx_tx_irq_dev : stmmac_dev :=
  { quiet_dev ring32 three_frames with dma_status := 0x10041 }

/-! ## Bring-up -/

/-- Modelled from the spec: the bit of `DMA_CONTROL` that starts and stops
hardware RX, `DMA_CONTROL_SR` of the driver's register header. -/
def DMA_CONTROL_SR : Nat := 0x00000002

def ETH_DATA_LEN : Nat := 1500

/-- The calls `stmmac_open` and `stmmac_init_phy` make to the kernel and to
the hardware, and the calls that would release what they acquire. -/
inductive open_call where
  | phy_connect
  | phy_disconnect
  | request_irq
  | free_irq
  | kmalloc_tm
  | kfree_tm
  | stmmac_open_hw_timer
  | dma_init
  | set_umac_addr
  | core_init
  | mmc_intr_mask
  | stmmac_mac_enable_rx
  | stmmac_mac_enable_tx
  | stmmac_dma_start_tx
  | stmmac_dma_start_rx
  | timer_start
  | tasklet_init
  | phy_start
  | napi_enable
  | netif_start_queue
  | dma_free_coherent
  | kfree
  | dev_kfree_skb
  deriving DecidableEq, Repr

/-- What `stmmac_open` takes from outside: the transmit and receive
environments, the header constants, `L1_CACHE_BYTES`, `ENOMEM` and `ENODEV`,
and the outcome of every call that can fail: `phy_connect` (an error code or
the PHY identifier read), `request_irq`, the `kmalloc` of the timer,
`stmmac_open_hw_timer`, the two `dma_alloc_coherent` of the descriptor rings,
and `dma_init`. The buffers of the RX ring come from
`rx.netdev_alloc_skb`. The slot arrays come from `kmalloc`, which does not
clear memory: `kmalloc_rx_skbuff i` and `kmalloc_rx_skbuff_dma i` are what
entry `i` of the fresh `rx_skbuff` and `rx_skbuff_dma` arrays reads as before
the driver stores to it, and `coherent_rx i` is what descriptor `i` of the
fresh RX ring reads as; the fresh memory of the transmit side is in `tx`. -/
structure open_env where
  tx : stmmac_env
  rx : stmmac_rx_env
  H : stmmac_h
  D : dma_h
  L1_CACHE_BYTES : Nat
  ENOMEM : Int
  ENODEV : Int
  phy_connect : Except Int Nat
  request_irq : Int
  kmalloc_tm : Bool
  stmmac_open_hw_timer : Int
  dma_alloc_rx : Bool
  dma_alloc_tx : Bool
  dma_init : Int
  kmalloc_rx_skbuff : Nat → Option sk_buff
  kmalloc_rx_skbuff_dma : Nat → Nat
  coherent_rx : Nat → dma_desc

/-- One interface as `stmmac_open` sees it: the state of the data path, the
module parameters, `tmrate`, `dev->mtu`, `priv->phy_addr`, whether
`priv->phydev` is set, `priv->shutdown`, and the ghost log of the calls made
so far. -/
structure stmmac_iface where
  dev : stmmac_dev
  params : module_params
  tmrate : Int
  mtu : Nat
  phy_addr : Int
  phydev : Bool
  shutdown : Bool
  calls : List open_call

/-- The macro `STMMAC_ALIGN`, `L1_CACHE_ALIGN`: `(x + a - 1) & ~(a - 1)` on
`int`, for a cache line of `a` bytes (a power of two), stored into an
`unsigned int`. -/
def STMMAC_ALIGN (a : Nat) (x : Int) : Nat :=
  int_to_u32 ((x + a - 1) - (x + a - 1) % a)

/-- The source's `stmmac_init_phy`: nothing to do without a PHY address;
otherwise connect, give up on an error, and treat a PHY identifier of 0 as no
device. -/
def stmmac_init_phy (E : open_env) (n : stmmac_iface) : stmmac_iface × Int :=
  if n.phy_addr = -1 then (n, 0)
  else
    let n := { n with calls := n.calls ++ [open_call.phy_connect] }
    match E.phy_connect with
    | .error e => (n, e)
    | .ok phy_id =>
      if phy_id = 0 then
        ({ n with calls := n.calls ++ [open_call.phy_disconnect] }, -E.ENODEV)
      else ({ n with phydev := true }, 0)

/-- One round of the RX INITIALIZATION loop of `init_dma_desc_rings` once
`netdev_alloc_skb` has returned `skb`, for index `i`. -/
def init_rx_slot (R : stmmac_rx_env) (bfsize : Nat) (buff2_needed : Bool) (i : Nat)
    (skb : sk_buff) (s : stmmac_priv) : stmmac_priv :=
  let skb := skb_reserve skb R.NET_IP_ALIGN
  let s := { s with rx_skbuff := s.rx_skbuff.set i (some skb) }
  let addr := R.dma_map_single skb.data (u32_sub bfsize R.NET_IP_ALIGN)
  let s := { s with rx_skbuff_dma := s.rx_skbuff_dma.set i addr }
  let d := desc_at s.dma_rx i
  let des2 := dma_addr_at s.rx_skbuff_dma i
  let s := { s with dma_rx := s.dma_rx.set i { d with des2 := des2 } }
  if buff2_needed then
    let d := desc_at s.dma_rx i
    { s with dma_rx := s.dma_rx.set i { d with des3 := u32_add d.des2 BUF_SIZE_8KiB } }
  else s

/-- The RX INITIALIZATION loop of `init_dma_desc_rings` from index `i` for at
most `k` more rounds; a failed allocation leaves the loop. The result is the
state and the value of `i` after the loop. -/
def init_rx_loop (R : stmmac_rx_env) (bfsize : Nat) (buff2_needed : Bool) :
    Nat → Nat → stmmac_priv → stmmac_priv × Nat
  | 0, i, s => (s, i)
  | k + 1, i, s =>
    match R.netdev_alloc_skb s.alloc_calls bfsize with
    | none => ({ s with alloc_calls := s.alloc_calls + 1 }, i)
    | some skb =>
      init_rx_loop R bfsize buff2_needed k (i + 1)
        (init_rx_slot R bfsize buff2_needed i skb { s with alloc_calls := s.alloc_calls + 1 })

/-- The buffer size `init_dma_desc_rings` chooses for an MTU. -/
def mtu_bfsize (mtu : Nat) : Nat :=
  if mtu ≥ BUF_SIZE_8KiB then BUF_SIZE_16KiB
  else if mtu ≥ BUF_SIZE_4KiB then BUF_SIZE_8KiB
  else if mtu ≥ BUF_SIZE_2KiB then BUF_SIZE_4KiB
  else if mtu ≥ DMA_BUFFER_SIZE then BUF_SIZE_2KiB
  else DMA_BUFFER_SIZE

/-- The receive half of `init_dma_desc_rings` once both rings are allocated:
fill the ring with buffers, set the cursors, clear the descriptors. -/
def init_dma_desc_rings_rx (R : stmmac_rx_env) (bfsize : Nat) (rx_coalesce : Int)
    (s : stmmac_priv) : stmmac_priv :=
  let rxsize := s.dma_rx_size
  let buff2_needed := decide (bfsize ≥ BUF_SIZE_8KiB)
  let r := init_rx_loop R bfsize buff2_needed rxsize 0 s
  let s := r.1
  let i := r.2
  let s := { s with cur_rx := 0 }
  let s := { s with dirty_rx := u32_sub i rxsize }
  let s := { s with dma_buf_sz := bfsize }
  let s := { s with dma_rx := R.ops.init_rx_desc s.dma_rx rxsize }
  { s with dma_rx := R.ops.disable_rx_ic s.dma_rx rxsize rx_coalesce }

/-- The source's `init_dma_desc_rings`. The slot arrays and the rings are
allocated first; if one of the rings is `NULL` the function logs it and
returns, leaving cursors, buffer sizes and slot arrays alone. The `kmalloc`
of the slot arrays is not checked by the source and is taken to succeed; the
arrays hold what `kmalloc` returned until the driver stores to them, so after
a failed allocation of a receive buffer the slots from the failing index on
are not initialised. -/
def init_dma_desc_rings (E : open_env) (n : stmmac_iface) : stmmac_iface :=
  let txsize := n.dev.tx.dma_tx_size
  let rxsize := n.dev.rx.dma_rx_size
  let bfsize := mtu_bfsize n.mtu
  let rx := { n.dev.rx with
    rx_skbuff_dma := (List.range rxsize).map E.kmalloc_rx_skbuff_dma
    rx_skbuff := (List.range rxsize).map E.kmalloc_rx_skbuff
    dma_rx := if E.dma_alloc_rx then (List.range rxsize).map E.coherent_rx else [] }
  let tx := { n.dev.tx with
    tx_skbuff := (List.range txsize).map E.tx.kmalloc_tx_skbuff
    dma_tx := if E.dma_alloc_tx then (List.range txsize).map E.tx.coherent_tx else [] }
  if !E.dma_alloc_rx || !E.dma_alloc_tx then
    { n with dev := { n.dev with rx := rx, tx := tx } }
  else
    let rx := init_dma_desc_rings_rx E.rx bfsize n.params.rx_coalesce rx
    let tx := init_dma_desc_rings_tx E.tx tx
    { n with
      dev := { n.dev with rx := rx, tx := tx }
      params := { n.params with buf_sz := bfsize } }

/-- The source's `stmmac_dma_start_rx`: set the SR bit of DMA_CONTROL. -/
def stmmac_dma_start_rx (s : net_device) : net_device :=
  { s with dma_control := Nat.lor s.dma_control DMA_CONTROL_SR }

/-- The source's `stmmac_dma_operation_mode`: program the DMA thresholds or
store-and-forward, and settle `priv->tx_coe` and the module parameter. -/
def stmmac_dma_operation_mode (E : open_env) (n : stmmac_iface) : stmmac_iface :=
  let d := n.dev
  let thr := d.tx.xstats.threshold
  let d :=
    if !d.rx.is_gmac then
      { d with dma_mode_calls := d.dma_mode_calls ++ [(thr, 0)]
               tx := { d.tx with tx_coe := NO_HW_CSUM } }
    else if n.mtu ≤ ETH_DATA_LEN ∧ n.params.tx_coe ≠ 0 then
      { d with dma_mode_calls := d.dma_mode_calls ++ [(E.D.SF_DMA_MODE, E.D.SF_DMA_MODE)]
               tx := { d.tx with tx_coe := HW_CSUM } }
    else
      { d with dma_mode_calls := d.dma_mode_calls ++ [(thr, E.D.SF_DMA_MODE)]
               tx := { d.tx with tx_coe := NO_HW_CSUM } }
  { n with dev := d, params := { n.params with tx_coe := d.tx.tx_coe } }

/-- The part of `stmmac_open` after a successful `dma_init` up to the reset
of the statistics: program the MAC address and the core, mask the MMC
interrupts, enable the MAC, clear `priv->xstats` and set the threshold. -/
def stmmac_open_mac (n : stmmac_iface) : stmmac_iface :=
  let n := { n with calls := n.calls ++ [open_call.set_umac_addr, open_call.core_init] }
  let n := { n with dev := { n.dev with tx := { n.dev.tx with tx_coalesce := 0 } } }
  let n := { n with shutdown := false }
  let n := { n with calls := n.calls ++
    [open_call.mmc_intr_mask, open_call.stmmac_mac_enable_rx, open_call.stmmac_mac_enable_tx] }
  { n with dev := { n.dev with
    tx := { n.dev.tx with xstats := ⟨0, 0, int_to_u32 n.params.tc⟩ }
    rx := { n.dev.rx with xstats := ⟨0, 0, 0⟩ }
    irq := ⟨0, 0, 0, 0, 0, 0, 0, 0, 0, 0, 0⟩ } }

/-- The part of `stmmac_open` that starts the DMA in both directions and,
with `CONFIG_STMMAC_TIMER`, the timer. -/
def stmmac_open_dma_start (E : open_env) (n : stmmac_iface) : stmmac_iface :=
  let n := { n with
    dev := { n.dev with tx := stmmac_dma_start_rx (stmmac_dma_start_tx n.dev.tx) }
    calls := n.calls ++ [open_call.stmmac_dma_start_tx, open_call.stmmac_dma_start_rx] }
  if E.rx.CONFIG_STMMAC_TIMER then
    { n with
      calls := n.calls ++ [open_call.timer_start]
      dev := { n.dev with rx := { n.dev.rx with timer_starts := n.dev.rx.timer_starts + 1 } } }
  else n

/-- Modelled from the spec: allowing the upper layer to transmit,
`netif_start_queue` of `include/linux/netdevice.h`. -/
def netif_start_queue (s : net_device) : net_device := { s with queue_stopped := false }

/-- The end of `stmmac_open`: the tasklet, the PHY, NAPI and the queue. -/
def stmmac_open_finish (n : stmmac_iface) : stmmac_iface :=
  let n := { n with calls := n.calls ++ [open_call.tasklet_init] }
  let n := if n.phydev then { n with calls := n.calls ++ [open_call.phy_start] } else n
  let n := { n with calls := n.calls ++ [open_call.napi_enable] }
  { n with
    dev := { n.dev with tx := netif_start_queue n.dev.tx }
    calls := n.calls ++ [open_call.netif_start_queue] }

/-- The part of `stmmac_open` after a successful `dma_init`: program the MAC,
reset the statistics, start the DMA, the timer, the PHY, NAPI and the queue. -/
def stmmac_open_start (E : open_env) (n : stmmac_iface) : stmmac_iface :=
  let n := stmmac_open_mac n
  let n := stmmac_dma_operation_mode E n
  let n := stmmac_open_dma_start E n
  stmmac_open_finish n

/-- The part of `stmmac_open` from the ring sizes to the end: install the
sizes, build the rings, initialise the DMA (an error gives -1), start. -/
def stmmac_open_rings (E : open_env) (n : stmmac_iface) : stmmac_iface × Int :=
  let n := { n with dev := { n.dev with
    tx := { n.dev.tx with dma_tx_size := STMMAC_ALIGN E.L1_CACHE_BYTES n.params.dma_txsize }
    rx := { n.dev.rx with
      dma_rx_size := STMMAC_ALIGN E.L1_CACHE_BYTES n.params.dma_rxsize
      dma_buf_sz := STMMAC_ALIGN E.L1_CACHE_BYTES n.params.buf_sz } } }
  let n := init_dma_desc_rings E n
  let n := { n with calls := n.calls ++ [open_call.dma_init] }
  if E.dma_init < 0 then (n, -1)
  else (stmmac_open_start E n, 0)

/-- The `CONFIG_STMMAC_TIMER` part of `stmmac_open`: allocate the timer; if
the hardware timer cannot be attached go on without one. The second
component is `false` when the allocation failed and `stmmac_open` returns
`-ENOMEM`. -/
def stmmac_open_timer (E : open_env) (n : stmmac_iface) : stmmac_iface × Bool :=
  let n := { n with calls := n.calls ++ [open_call.kmalloc_tm] }
  if !E.kmalloc_tm then (n, false)
  else
    let n := { n with calls := n.calls ++ [open_call.stmmac_open_hw_timer] }
    if E.stmmac_open_hw_timer < 0 then
      ({ n with params := { n.params with rx_coalesce := 1 }, tmrate := 0 }, true)
    else (n, true)

/-- The source's `stmmac_open`. The check of the MAC address is left out (the
address is not part of the state). -/
def stmmac_open (E : open_env) (n : stmmac_iface) : stmmac_iface × Int :=
  let n := { n with params := stmmac_verify_args E.H n.params }
  let r := stmmac_init_phy E n
  if r.2 ≠ 0 then r
  else
    let n := { r.1 with calls := r.1.calls ++ [open_call.request_irq] }
    if E.request_irq < 0 then (n, E.request_irq)
    else if E.rx.CONFIG_STMMAC_TIMER then
      let t := stmmac_open_timer E n
      if !t.2 then (t.1, -E.ENOMEM) else stmmac_open_rings E t.1
    else stmmac_open_rings E n

/-- Modelled from the spec: an environment for bring-up in which every call
succeeds: a PHY with identifier `0x1234`, cache lines of 32 bytes, the
environments `spec_env` and `spec_rx_env`. Memory from `kmalloc` reads as the
byte `0x6b` repeated, so an entry of a fresh slot array is a pointer that is
not `NULL`; the memory of the descriptor rings reads as zero. -/
def spec_open_env : open_env where
  tx := spec_env
  rx := spec_rx_env
  H := spec_h
  D := spec_dma_h
  L1_CACHE_BYTES := 32
  ENOMEM := 12
  ENODEV := 19
  phy_connect := .ok 0x1234
  request_irq := 0
  kmalloc_tm := true
  stmmac_open_hw_timer := 0
  dma_alloc_rx := true
  dma_alloc_tx := true
  dma_init := 0
  kmalloc_rx_skbuff := fun _ => some (linear_skb 0x6b6b6b6b 0)
  kmalloc_rx_skbuff_dma := fun _ => 0x6b6b6b6b
  coherent_rx := fun _ => default

/-- The interface before `stmmac_open`: no rings, the default module
parameters, an MTU of 1500, a PHY at address 1. -/
def closed_iface : stmmac_iface where
  dev := quiet_dev (blank_dev 0)
    { rx_ring 0 with dma_buf_sz := 0, jiffies := 0 }
  params := default_params spec_h
  tmrate := 256
  mtu := 1500
  phy_addr := 1
  phydev := false
  shutdown := true
  calls := []

/-- Bring-up with memory for only 5 receive buffers: the sixth
`netdev_alloc_skb` and all later ones return `NULL`. -/
def five_buffers_env : open_env :=
  { spec_open_env with
    rx := { spec_rx_env with
      netdev_alloc_skb := fun n len => if n < 5 then spec_rx_env.netdev_alloc_skb n len else none } }

/-- Bring-up in which the `dma_alloc_coherent` of the RX descriptor ring
fails. -/
def no_rx_ring_env : open_env := { spec_open_env with dma_alloc_rx := false }

/-- Bring-up in which `dma_init` fails. -/
def dma_init_fails_env : open_env := { spec_open_env with dma_init := -1 }

/-! ## MTU change and the work function of the external timer -/

/-- Modelled from the spec: the error numbers `EBUSY` and `EINVAL` of the
kernel's `errno.h`, which is not among the driver's files. -/
structure errno_h where
  EBUSY : Int
  EINVAL : Int

/-- The source's `stmmac_change_mtu`. `running` is what `netif_running(dev)`
returns; `new_mtu` is an `int` and `dev->mtu` an `unsigned int`. The two
messages change no state and are left out. -/
def stmmac_change_mtu (H : errno_h) (running : Bool) (n : stmmac_iface) (new_mtu : Int) :
    stmmac_iface × Int :=
  if running then (n, -H.EBUSY)
  else
    let max_mtu : Int := if n.dev.rx.is_gmac then (JUMBO_LEN : Int) else (ETH_DATA_LEN : Int)
    if new_mtu < 46 ∨ new_mtu > max_mtu then (n, -H.EINVAL)
    else ({ n with mtu := int_to_u32 new_mtu }, 0)

/-- Modelled from the spec: the values of `EBUSY` (16) and `EINVAL` (22) used
in the examples. -/
def spec_errno : errno_h := { EBUSY := 16, EINVAL := 22 }

/-- The source's `stmmac_timer_work` (built with `CONFIG_STMMAC_TIMER`). Both
ownership tests read the array `priv->dma_rx`: the source passes
`priv->dma_rx + txentry` to `get_tx_owner`. A `txentry` past the end of the
receive ring reads the memory behind the ring, which the embedding takes to be
a zeroed descriptor. The second component tells whether `timer_stop` was
called. -/
def stmmac_timer_work (H : dma_h) (E : stmmac_env) (R : stmmac_rx_env) (d : stmmac_dev) :
    stmmac_dev × Bool :=
  let rxentry := d.rx.cur_rx % d.rx.dma_rx_size
  let txentry := d.tx.dirty_tx % d.tx.dma_tx_size
  let rxret := R.ops.get_rx_owner (desc_at d.rx.dma_rx rxentry)
  let d := if !rxret then { d with rx := stmmac_schedule_rx H d.rx } else d
  let txret := E.ops.get_tx_owner (desc_at d.rx.dma_rx txentry)
  let d := if !txret then { d with tx_task_scheduled := true } else d
  (d, !rxret || !rxret)

/-! ## Interrupt moderation over a run of submissions -/

/-- Whether the submission that took the device from `before` to `after`
cleared the completion interrupt of its packet: a `clear_tx_ic` is among the
descriptor writes it added. -/
def ic_cleared (before after : net_device) : Bool :=
  (after.tx_trace.drop before.tx_trace.length).any tx_desc_write.is_clear_ic

/-- Whether every packet of a run of consecutive submissions (lock taken,
nothing else running in between) is accepted without the queue being stopped
and has its completion interrupt cleared. -/
def coalesced_run (E : stmmac_env) : List sk_buff → net_device → Bool
  | [], _ => true
  | p :: ps, s =>
    let r := stmmac_xmit E true p s
    decide (r.2 = NETDEV_TX_OK) && !r.1.queue_stopped && ic_cleared s r.1 &&
      coalesced_run E ps r.1

/-! ## The slots of the transmit ring -/

/-- The slot array after the slots of the `k` descriptors behind cursor value
`cur` have been emptied, one `tx_skbuff[entry] = NULL` for each advance of
the cursor. -/
def clear_slots (N : Nat) : Nat → Nat → List (Option sk_buff) → List (Option sk_buff)
  | 0, _, l => l
  | k + 1, cur, l => clear_slots N k (u32_add cur 1) (l.set (u32_add cur 1 % N) none)

/-- The number of descriptors a packet that is not GSO takes: one for the
linear part, two when it is split, and one for each fragment. -/
def tx_desc_count (skb : sk_buff) : Nat :=
  skb.frags.length + 1 + (if head_is_split skb then 1 else 0)

/-- The slot invariant of the transmit ring: ring size and cursors are 32-bit
values, at most `N - 1` descriptors are in flight, the slot array has `N`
entries, and every slot that is not the slot of a descriptor in the window
from `dirty_tx` up to `cur_tx` is empty. -/
@[reducible] def tx_window_inv (s : net_device) : Prop :=
  s.dma_tx_size < U32 ∧ s.cur_tx < U32 ∧ s.dirty_tx < U32 ∧
  tx_in_flight s + 1 ≤ s.dma_tx_size ∧
  s.tx_skbuff.length = s.dma_tx_size ∧
  ∀ j, (∀ i, i < tx_in_flight s → j ≠ u32_add s.dirty_tx i % s.dma_tx_size) →
    skb_at s.tx_skbuff j = none

/-- The states of the transmit ring that can be reached from a ring of more
than `MAX_SKB_FRAGS + 2` descriptors that has just been opened (initialised,
queue started) when `stmmac_xmit` is called only while the queue is running,
for packets that are not GSO and have at most `MAX_SKB_FRAGS` fragments. The
other steps are `stmmac_tx`, `stmmac_tx_err`, and the hardware writing to the
descriptors. -/
inductive tx_reachable (E : stmmac_env) : net_device → Prop
  | opened (s0 : net_device) :
    E.MAX_SKB_FRAGS + 2 < s0.dma_tx_size → s0.dma_tx_size < U32 →
    tx_reachable E (netif_start_queue (init_dma_desc_rings_tx E s0))
  | xmit (s : net_device) (trylock : Bool) (skb : sk_buff) :
    tx_reachable E s → s.queue_stopped = false → skb_is_gso skb = false →
    skb.frags.length ≤ E.MAX_SKB_FRAGS →
    tx_reachable E (stmmac_xmit E trylock skb s).1
  | reclaim (s : net_device) : tx_reachable E s → tx_reachable E (stmmac_tx E s)
  | recover (s : net_device) : tx_reachable E s → tx_reachable E (stmmac_tx_err E s)
  | hardware (s : net_device) (ring : List dma_desc) :
    tx_reachable E s → tx_reachable E { s with dma_tx := ring }

/-! ## More devices and packets used in the examples -/

/-- The interface before `stmmac_open` with the module parameter `dma_txsize`
set to 0. -/
def zero_txsize_iface : stmmac_iface :=
  { closed_iface with params := { closed_iface.params with dma_txsize := 0 } }

/-- The interface before `stmmac_open` with both ring sizes set to 96. -/
def ring96_iface : stmmac_iface :=
  { closed_iface with params := { closed_iface.params with dma_txsize := 96, dma_rxsize := 96 } }

/-- The ring of 32 descriptors with the chain of three segments in flight:
descriptor 0 holds the linear part, descriptors 1 and 2 the page fragments. -/
def chain_in_flight : net_device := (stmmac_xmit spec_env true chain_skb ring32).1

/-- The interface whose only TX descriptor in flight has been completed by the
hardware while every RX descriptor is still owned by the hardware. -/
def tx_done_rx_idle : stmmac_dev :=
  quiet_dev (hw_tx_done 0 (stmmac_xmit spec_env true (linear_skb 1000 100) ring32).1) (rx_ring 32)

/-- The interface whose only TX descriptor in flight is still owned by the
hardware while RX descriptor 0 has been completed. -/
def tx_pending_rx_done : stmmac_dev :=
  quiet_dev (stmmac_xmit spec_env true (linear_skb 1000 100) ring32).1 three_frames

/-- The interface with a TX ring of 128 descriptors whose completion cursor
is at 40, and an RX ring of 32 descriptors. -/
def tx_ring_longer : stmmac_dev :=
  quiet_dev { init_dma_desc_rings_tx spec_env (blank_dev 128) with dirty_tx := 40, cur_tx := 41 }
    (rx_ring 32)

/-- The `i`-th of a series of linear packets of 100 bytes at distinct
addresses. -/
def numbered_skb (i : Nat) : sk_buff := linear_skb (0x10000 + 0x100 * i) 100

/-- A second chain of three segments, at another address than `chain_skb`. -/
def chain_skb_b : sk_buff := .mk 2000 300 200 0 [⟨9, 0, 100⟩, ⟨10, 0, 100⟩] 0 0 false []

/-- The ring of 32 descriptors after the chain of three segments and 28
numbered packets have been submitted: 31 descriptors are in flight, the
packet numbered 0 is in slot 3. -/
def ring_of_31 : net_device :=
  (stmmac_xmit_seq spec_env (chain_skb :: (List.range 28).map numbered_skb) ring32).1

/-- The ring `ring_of_31` after the hardware has completed descriptor 0 and
`stmmac_tx` has reclaimed it: `dirty_tx` is 1, on the first fragment of the
chain. -/
def ring_of_30 : net_device := stmmac_tx spec_env (hw_tx_done 0 ring_of_31)

/-- The ring `ring_of_30` after the linear packet of 9000 bytes has been
submitted on its one available slot: all 32 descriptors are in flight. -/
def ring_overrun : net_device := (stmmac_xmit spec_env true jumbo_skb ring_of_30).1

/-- The ring `ring_overrun` after the second chain has been submitted. -/
def ring_lost_packet : net_device := (stmmac_xmit spec_env true chain_skb_b ring_overrun).1

/-- The interface before `stmmac_open` on a 10/100 MAC. -/
def mac100_iface : stmmac_iface :=
  { closed_iface with dev := { closed_iface.dev with
      rx := { closed_iface.dev.rx with is_gmac := false } } }

/-- The interface before `stmmac_open` with the module parameter `buf_sz` set
to 4096; everything else, the MTU of 1500 included, is as in
`closed_iface`. -/
def buf_sz_4096_iface : stmmac_iface :=
  { closed_iface with params := { closed_iface.params with buf_sz := 4096 } }

/-! ## Lemmas about the slot and descriptor arrays -/

theorem skb_at_set (l : List (Option sk_buff)) (i j : Nat) (v : Option sk_buff) :
    skb_at (l.set i v) j = if i = j ∧ i < l.length then v else skb_at l j := by
  unfold skb_at
  simp only [List.getD_eq_getElem?_getD, List.getElem?_set]
  by_cases h : i = j
  · subst h
    by_cases h2 : i < l.length
    · simp [h2]
    · simp [h2, List.getElem?_eq_none (Nat.le_of_not_lt h2)]
  · simp [h]

theorem desc_at_set (l : List dma_desc) (i j : Nat) (v : dma_desc) :
    desc_at (l.set i v) j = if i = j ∧ i < l.length then v else desc_at l j := by
  unfold desc_at
  simp only [List.getD_eq_getElem?_getD, List.getElem?_set]
  by_cases h : i = j
  · subst h
    by_cases h2 : i < l.length
    · simp [h2]
    · simp [h2, List.getElem?_eq_none (Nat.le_of_not_lt h2)]
  · simp [h]

theorem skb_at_set_none (l : List (Option sk_buff)) (i j : Nat)
    (h : skb_at l j = none) : skb_at (l.set i none) j = none := by
  rw [skb_at_set]; split <;> simp [h]

theorem skb_at_set_none_self (l : List (Option sk_buff)) (i : Nat) :
    skb_at (l.set i none) i = none := by
  rw [skb_at_set]
  split
  · rfl
  · rename_i h
    unfold skb_at
    simp only [List.getD_eq_getElem?_getD]
    have : ¬ i < l.length := fun h2 => h ⟨rfl, h2⟩
    simp [List.getElem?_eq_none (Nat.le_of_not_lt this)]

-- loop lemmas
theorem free_step_fields (E : stmmac_env) (i : Nat) (s : net_device) :
    (dma_free_tx_skbufs_step E i s).dma_tx_size = s.dma_tx_size ∧
    (dma_free_tx_skbufs_step E i s).cur_tx = s.cur_tx ∧
    (dma_free_tx_skbufs_step E i s).dirty_tx = s.dirty_tx := by
  unfold dma_free_tx_skbufs_step
  split
  · dsimp only
    split_ifs <;> simp
  · simp

theorem free_step_none (E : stmmac_env) (i j : Nat) (s : net_device)
    (h : skb_at s.tx_skbuff j = none) :
    skb_at (dma_free_tx_skbufs_step E i s).tx_skbuff j = none := by
  unfold dma_free_tx_skbufs_step
  split
  · dsimp only
    split_ifs <;> exact skb_at_set_none _ _ _ h
  · exact h

theorem free_step_self (E : stmmac_env) (i : Nat) (s : net_device) :
    skb_at (dma_free_tx_skbufs_step E i s).tx_skbuff i = none := by
  unfold dma_free_tx_skbufs_step
  split
  · dsimp only
    split_ifs <;> exact skb_at_set_none_self _ _
  · assumption

theorem free_step_id (E : stmmac_env) (i : Nat) (s : net_device)
    (h : skb_at s.tx_skbuff i = none) : dma_free_tx_skbufs_step E i s = s := by
  unfold dma_free_tx_skbufs_step
  rw [h]

/-! ## Lemmas about `dma_free_tx_skbufs` and `stmmac_tx_err` -/

theorem free_loop_id (E : stmmac_env) : ∀ (k i : Nat) (s : net_device),
    (∀ j, i ≤ j → j < i + k → skb_at s.tx_skbuff j = none) →
    dma_free_tx_skbufs_loop E k i s = s
  | 0, _, _, _ => rfl
  | k + 1, i, s, h => by
    rw [dma_free_tx_skbufs_loop, free_step_id E i s (h i (le_refl _) (by omega))]
    exact free_loop_id E k (i + 1) s (fun j h1 h2 => h j (by omega) (by omega))

theorem free_loop_fields (E : stmmac_env) : ∀ (k i : Nat) (s : net_device),
    (dma_free_tx_skbufs_loop E k i s).dma_tx_size = s.dma_tx_size ∧
    (dma_free_tx_skbufs_loop E k i s).cur_tx = s.cur_tx ∧
    (dma_free_tx_skbufs_loop E k i s).dirty_tx = s.dirty_tx
  | 0, _, _ => ⟨rfl, rfl, rfl⟩
  | k + 1, i, s => by
    rw [dma_free_tx_skbufs_loop]
    have h1 := free_loop_fields E k (i + 1) (dma_free_tx_skbufs_step E i s)
    have h2 := free_step_fields E i s
    exact ⟨h1.1.trans h2.1, h1.2.1.trans h2.2.1, h1.2.2.trans h2.2.2⟩

theorem free_loop_none (E : stmmac_env) : ∀ (k i j : Nat) (s : net_device),
    skb_at s.tx_skbuff j = none →
    skb_at (dma_free_tx_skbufs_loop E k i s).tx_skbuff j = none
  | 0, _, _, _, h => h
  | k + 1, i, j, s, h => by
    rw [dma_free_tx_skbufs_loop]
    exact free_loop_none E k (i + 1) j _ (free_step_none E i j s h)

theorem free_loop_clears (E : stmmac_env) : ∀ (k i j : Nat) (s : net_device),
    i ≤ j → j < i + k →
    skb_at (dma_free_tx_skbufs_loop E k i s).tx_skbuff j = none
  | 0, _, _, _, h1, h2 => by omega
  | k + 1, i, j, s, h1, h2 => by
    rw [dma_free_tx_skbufs_loop]
    by_cases hij : i = j
    · subst hij
      exact free_loop_none E k (i + 1) i _ (free_step_self E i s)
    · exact free_loop_clears E k (i + 1) j _ (by omega) (by omega)

theorem tx_err_slots (E : stmmac_env) (s : net_device) (j : Nat) (h : j < s.dma_tx_size) :
    skb_at (stmmac_tx_err E s).tx_skbuff j = none := by
  simp only [stmmac_tx_err, netif_wake_queue, stmmac_dma_start_tx, dma_free_tx_skbufs]
  exact free_loop_clears E _ 0 j _ (Nat.zero_le _) (by simpa [stmmac_dma_stop_tx, netif_stop_queue] using h)

theorem u32_avail_empty (n : Nat) : u32_sub (u32_sub (u32_add 0 n) 0) 1 = u32_sub n 1 := by
  unfold u32_sub u32_add U32; omega

theorem tx_err_post (E : stmmac_env) (s : net_device) :
    (stmmac_tx_err E s).cur_tx = 0 ∧ (stmmac_tx_err E s).dirty_tx = 0 ∧
    (stmmac_tx_err E s).dma_tx_size = s.dma_tx_size ∧
    stmmac_tx_avail (stmmac_tx_err E s) = u32_sub s.dma_tx_size 1 ∧
    (1 ≤ s.dma_tx_size → s.dma_tx_size < U32 →
      stmmac_tx_avail (stmmac_tx_err E s) = s.dma_tx_size - 1) ∧
    ∀ j, j < s.dma_tx_size → skb_at (stmmac_tx_err E s).tx_skbuff j = none := by
  have hsz : (stmmac_tx_err E s).dma_tx_size = s.dma_tx_size := by
    simp only [stmmac_tx_err, netif_wake_queue, stmmac_dma_start_tx, dma_free_tx_skbufs]
    exact (free_loop_fields E _ 0 _).1
  have hc : (stmmac_tx_err E s).cur_tx = 0 := rfl
  have hd : (stmmac_tx_err E s).dirty_tx = 0 := rfl
  have ha : stmmac_tx_avail (stmmac_tx_err E s) = u32_sub s.dma_tx_size 1 := by
    unfold stmmac_tx_avail
    rw [hc, hd, hsz, u32_avail_empty]
  refine ⟨hc, hd, hsz, ha, ?_, fun j hj => tx_err_slots E s j hj⟩
  intro h1 h2
  rw [ha]
  unfold u32_sub U32 at *
  omega

theorem dma_control_restart (v : Nat) :
    Nat.lor (u32_clear_bits (Nat.lor (u32_clear_bits v DMA_CONTROL_ST) DMA_CONTROL_ST)
      DMA_CONTROL_ST) DMA_CONTROL_ST
    = Nat.lor (u32_clear_bits v DMA_CONTROL_ST) DMA_CONTROL_ST := by
  unfold u32_clear_bits
  apply Nat.eq_of_testBit_eq
  intro i
  show ((((v &&& _) ||| _) &&& _) ||| _).testBit i = ((v &&& _) ||| _).testBit i
  simp only [Nat.testBit_lor, Nat.testBit_land]
  cases v.testBit i <;> cases (Nat.xor (U32 - 1) (DMA_CONTROL_ST % U32)).testBit i <;>
    cases (DMA_CONTROL_ST).testBit i <;> rfl

theorem free_step_shape (E : stmmac_env) (i : Nat) (s : net_device) :
    ∃ slots freed unm, dma_free_tx_skbufs_step E i s =
      { s with tx_skbuff := slots, freed_skbs := freed, unmapped := unm } := by
  unfold dma_free_tx_skbufs_step
  split
  · dsimp only
    split_ifs
    · exact ⟨_, _, _, rfl⟩
    · exact ⟨_, _, _, rfl⟩
  · exact ⟨_, _, _, rfl⟩

theorem free_loop_shape (E : stmmac_env) : ∀ (k i : Nat) (s : net_device),
    ∃ slots freed unm, dma_free_tx_skbufs_loop E k i s =
      { s with tx_skbuff := slots, freed_skbs := freed, unmapped := unm }
  | 0, _, s => ⟨_, _, _, rfl⟩
  | k + 1, i, s => by
    rw [dma_free_tx_skbufs_loop]
    obtain ⟨a, b, c, h⟩ := free_step_shape E i s
    obtain ⟨a2, b2, c2, h2⟩ := free_loop_shape E k (i + 1) (dma_free_tx_skbufs_step E i s)
    rw [h2, h]
    exact ⟨_, _, _, rfl⟩

theorem tx_err_shape (E : stmmac_env) (s : net_device) :
    ∃ slots freed unm, stmmac_tx_err E s =
      { s with
        tx_skbuff := slots, freed_skbs := freed, unmapped := unm
        queue_stopped := false
        dma_control := Nat.lor (u32_clear_bits s.dma_control DMA_CONTROL_ST) DMA_CONTROL_ST
        dma_tx := E.ops.init_tx_desc s.dma_tx s.dma_tx_size
        dirty_tx := 0, cur_tx := 0
        stats := { s.stats with tx_errors := u32_add s.stats.tx_errors 1 } } := by
  obtain ⟨a, b, c, h⟩ := free_loop_shape E s.dma_tx_size 0 (stmmac_dma_stop_tx (netif_stop_queue s))
  refine ⟨a, b, c, ?_⟩
  simp only [stmmac_tx_err, netif_wake_queue, stmmac_dma_start_tx, dma_free_tx_skbufs]
  have e : (stmmac_dma_stop_tx (netif_stop_queue s)).dma_tx_size = s.dma_tx_size := rfl
  rw [e, h]
  rfl

theorem tx_err_twice (E : stmmac_env) (s : net_device)
    (hinit : ∀ ring n, E.ops.init_tx_desc (E.ops.init_tx_desc ring n) n = E.ops.init_tx_desc ring n) :
    stmmac_tx_err E (stmmac_tx_err E s) =
      { stmmac_tx_err E s with
        stats := { (stmmac_tx_err E s).stats with
          tx_errors := u32_add (stmmac_tx_err E s).stats.tx_errors 1 } } := by
  have hslots := tx_err_slots E s
  obtain ⟨a, b, c, h1⟩ := tx_err_shape E s
  rw [h1] at hslots ⊢
  simp only at hslots
  simp only [stmmac_tx_err, netif_wake_queue, stmmac_dma_start_tx, dma_free_tx_skbufs,
    stmmac_dma_stop_tx, netif_stop_queue]
  rw [free_loop_id E _ 0 _ (fun j _ hj => hslots j (by simpa using hj))]
  simp only [hinit, dma_control_restart]

/-! ## Lemmas about the submission path -/

theorem tx_write_shape (w : tx_desc_write) (f : dma_desc → dma_desc) (s : net_device) :
    tx_write w f s = { s with
      dma_tx := s.dma_tx.set w.entry (f (desc_at s.dma_tx w.entry))
      tx_trace := s.tx_trace ++ [w] } := rfl

theorem xmit_frags_spec (E : stmmac_env) (c N : Nat) :
    ∀ (frags : List skb_frag_t) (s : net_device) (e : Nat), e = s.cur_tx % N →
      ∃ cur slots ring,
        stmmac_xmit_frags E c N frags s e =
          ({ s with cur_tx := cur, tx_skbuff := slots, dma_tx := ring,
                    tx_trace := s.tx_trace ++ frag_writes N s.cur_tx frags.length },
            cur % N) ∧
        cur % U32 = (s.cur_tx + frags.length) % U32 ∧
        (frags = [] → cur = s.cur_tx) ∧
        (∀ j, skb_at s.tx_skbuff j = none → skb_at slots j = none) ∧
        (s.cur_tx < U32 → cur < U32)
  | [], s, e, he => ⟨s.cur_tx, s.tx_skbuff, s.dma_tx, by simp [stmmac_xmit_frags, frag_writes, he], by simp, by simp, fun _ h => h, fun h => h⟩
  | frag :: frags, s, e, he => by
    rw [stmmac_xmit_frags]
    dsimp only
    obtain ⟨cur, slots, ring, h1, h2, _, h4, h5⟩ := xmit_frags_spec E c N frags
      (tx_write (.set_tx_owner (u32_add s.cur_tx 1 % N)) E.ops.set_tx_owner
        (tx_write (.prepare_tx_desc (u32_add s.cur_tx 1 % N))
          (fun d => E.ops.prepare_tx_desc d 0 frag.size c)
          { tx_write (.des2 (u32_add s.cur_tx 1 % N))
              (fun d => { d with des2 := E.dma_map_page frag.page frag.page_offset frag.size })
              { s with cur_tx := u32_add s.cur_tx 1 } with
            tx_skbuff := (tx_write (.des2 (u32_add s.cur_tx 1 % N))
              (fun d => { d with des2 := E.dma_map_page frag.page frag.page_offset frag.size })
              { s with cur_tx := u32_add s.cur_tx 1 }).tx_skbuff.set (u32_add s.cur_tx 1 % N) none }))
      (u32_add s.cur_tx 1 % N) rfl
    refine ⟨cur, slots, ring, ?_, ?_, ?_, ?_, ?_⟩
    rotate_left 4
    · intro _
      apply h5
      simp only [tx_write]
      unfold u32_add U32
      omega
    · rw [h1]
      simp [tx_write, frag_writes, List.append_assoc]
    · simp only [tx_write, List.length_cons] at h2 ⊢
      unfold u32_add at h2
      unfold U32 at *
      omega
    · intro h; cases h
    · intro j hj
      apply h4
      simp only [tx_write]
      exact skb_at_set_none _ _ _ hj

theorem xmit_csum_spec (skb : sk_buff) (s : net_device) :
    ∃ csh, (stmmac_xmit_csum skb s).1 = { s with csum_helped := csh } := by
  unfold stmmac_xmit_csum
  split_ifs
  · exact ⟨_, rfl⟩
  · exact ⟨_, rfl⟩
  · exact ⟨_, rfl⟩

theorem xmit_head_spec (E : stmmac_env) (skb : sk_buff) (c : Nat) (s : net_device) :
    ∃ slots ring,
      stmmac_xmit_head E skb c s =
        ({ s with
            cur_tx := if head_is_split skb then u32_add s.cur_tx 1 else s.cur_tx
            tx_skbuff := slots, dma_tx := ring
            tx_trace := s.tx_trace ++ head_writes s.dma_tx_size s.cur_tx skb },
          (if head_is_split skb then u32_add s.cur_tx 1 else s.cur_tx) % s.dma_tx_size) ∧
      (head_is_split skb = false →
        slots = s.tx_skbuff.set (s.cur_tx % s.dma_tx_size) (some skb)) := by
  refine ⟨(stmmac_xmit_head E skb c s).1.tx_skbuff, (stmmac_xmit_head E skb c s).1.dma_tx, ?_, ?_⟩
  · by_cases hlen : skb.len ≥ BUF_SIZE_4KiB
    · by_cases h8 : skb_headlen skb > BUF_SIZE_8KiB
      · simp [stmmac_xmit_head, stmmac_handle_jumbo_frames, head_writes, head_is_split, h8, hlen,
          tx_write]
      · simp [stmmac_xmit_head, stmmac_handle_jumbo_frames, head_writes, head_is_split, h8, hlen,
          tx_write]
    · simp [stmmac_xmit_head, head_writes, head_is_split, hlen, tx_write]
  · intro hs
    by_cases hlen : skb.len ≥ BUF_SIZE_4KiB
    · have h8 : ¬ skb_headlen skb > BUF_SIZE_8KiB := by
        intro h8
        simp [head_is_split, h8, hlen] at hs
      simp [stmmac_xmit_head, stmmac_handle_jumbo_frames, h8, hlen, tx_write]
    · simp [stmmac_xmit_head, hlen, tx_write]

theorem xmit_finish_spec (E : stmmac_env) (skb : sk_buff) (c first entry : Nat)
    (s : net_device) :
    ∃ ring post q tc,
      stmmac_xmit_finish E skb c first entry s =
        { s with
          cur_tx := u32_add s.cur_tx 1, dma_tx := ring
          tx_trace := s.tx_trace ++ ([.close_tx_desc entry, .set_tx_owner first] ++ post)
          queue_stopped := q, tx_coalesce := tc
          stats := { s.stats with tx_bytes := u32_add s.stats.tx_bytes skb.len }
          xmt_poll_demand := s.xmt_poll_demand + 1
          trans_start := s.jiffies } ∧
      (post = [] ∨ post = [.clear_tx_ic entry]) := by
  unfold stmmac_xmit_finish
  dsimp only
  split_ifs
  · exact ⟨(tx_write (.set_tx_owner first) E.ops.set_tx_owner
        (tx_write (.close_tx_desc entry) E.ops.close_tx_desc s)).dma_tx,
      [], true, s.tx_coalesce, by simp [tx_write, netif_stop_queue], Or.inl rfl⟩
  · exact ⟨(tx_write (.clear_tx_ic entry) E.ops.clear_tx_ic
        (tx_write (.set_tx_owner first) E.ops.set_tx_owner
          (tx_write (.close_tx_desc entry) E.ops.close_tx_desc s))).dma_tx,
      [.clear_tx_ic entry], s.queue_stopped, s.tx_coalesce + 1,
      by simp [tx_write], Or.inr rfl⟩
  · exact ⟨(tx_write (.set_tx_owner first) E.ops.set_tx_owner
        (tx_write (.close_tx_desc entry) E.ops.close_tx_desc s)).dma_tx,
      [], s.queue_stopped, 0, by simp [tx_write], Or.inl rfl⟩

theorem xmit_queue_spec (E : stmmac_env) (skb : sk_buff) (s : net_device) :
    ∃ cur slots ring post q tc csh,
      stmmac_xmit_queue E skb s =
        ({ s with
            cur_tx := u32_add cur 1, tx_skbuff := slots, dma_tx := ring
            tx_trace := s.tx_trace ++ (head_writes s.dma_tx_size s.cur_tx skb ++
              frag_writes s.dma_tx_size
                (if head_is_split skb then u32_add s.cur_tx 1 else s.cur_tx) skb.frags.length ++
              [.close_tx_desc (cur % s.dma_tx_size), .set_tx_owner (s.cur_tx % s.dma_tx_size)] ++
              post)
            queue_stopped := q, tx_coalesce := tc, csum_helped := csh
            stats := { s.stats with tx_bytes := u32_add s.stats.tx_bytes skb.len }
            xmt_poll_demand := s.xmt_poll_demand + 1
            trans_start := s.jiffies },
          NETDEV_TX_OK) ∧
      cur % U32 = (s.cur_tx + skb.frags.length + (if head_is_split skb then 1 else 0)) % U32 ∧
      (post = [] ∨ post = [.clear_tx_ic (cur % s.dma_tx_size)]) ∧
      (head_is_split skb = false → skb.frags = [] →
        cur = s.cur_tx ∧ slots = s.tx_skbuff.set (s.cur_tx % s.dma_tx_size) (some skb)) ∧
      (s.cur_tx < U32 → cur < U32) := by
  unfold stmmac_xmit_queue
  dsimp only
  obtain ⟨csh, hs0⟩ := xmit_csum_spec skb s
  rw [hs0]
  generalize (stmmac_xmit_csum skb s).2 = c
  obtain ⟨slots1, ring1, hh, hslots1⟩ := xmit_head_spec E skb c { s with csum_helped := csh }
  dsimp only at hh hslots1
  rw [hh]
  dsimp only
  obtain ⟨cur, slots2, ring2, hf, hcur, hnil, _, hlt⟩ := xmit_frags_spec E c s.dma_tx_size skb.frags
    { s with
      csum_helped := csh
      cur_tx := if head_is_split skb then u32_add s.cur_tx 1 else s.cur_tx
      tx_skbuff := slots1, dma_tx := ring1
      tx_trace := s.tx_trace ++ head_writes s.dma_tx_size s.cur_tx skb }
    ((if head_is_split skb then u32_add s.cur_tx 1 else s.cur_tx) % s.dma_tx_size) rfl
  dsimp only at hf hcur hnil hlt
  rw [hf]
  dsimp only
  have hcur2 : cur % U32 = (s.cur_tx + skb.frags.length + (if head_is_split skb then 1 else 0)) % U32 := by
    rw [hcur]
    split_ifs
    · unfold u32_add U32; omega
    · rfl
  have hlast : head_is_split skb = false → skb.frags = [] →
      cur = s.cur_tx ∧ slots2 = s.tx_skbuff.set (s.cur_tx % s.dma_tx_size) (some skb) := by
    intro h1 h2
    have := hnil h2
    rw [h1] at this
    refine ⟨by simpa using this, ?_⟩
    rw [h2] at hf
    simp only [stmmac_xmit_frags, Prod.mk.injEq] at hf
    have h3 := congrArg net_device.tx_skbuff hf.1
    simp only at h3
    rw [← h3, hslots1 h1]
  obtain ⟨ring3, post, q, tc, hfin, hpost⟩ := xmit_finish_spec E skb c (s.cur_tx % s.dma_tx_size)
    (cur % s.dma_tx_size)
    { s with
      csum_helped := csh
      cur_tx := cur, tx_skbuff := slots2, dma_tx := ring2
      tx_trace := s.tx_trace ++ head_writes s.dma_tx_size s.cur_tx skb ++
        frag_writes s.dma_tx_size
          (if head_is_split skb then u32_add s.cur_tx 1 else s.cur_tx) skb.frags.length }
  dsimp only at hfin
  rw [hfin]
  have hlt2 : s.cur_tx < U32 → cur < U32 := by
    intro h
    apply hlt
    split_ifs
    · unfold u32_add U32; omega
    · exact h
  exact ⟨cur, slots2, ring3, post, q, tc, csh, by simp [List.append_assoc], hcur2, hpost, hlast,
    hlt2⟩

theorem xmit_unfold (E : stmmac_env) (trylock : Bool) (skb : sk_buff) (s : net_device) :
    stmmac_xmit E trylock skb s =
      stmmac_xmit_body E (stmmac_sw_tso (stmmac_xmit_segs E skb.segs) skb) trylock skb s := by
  cases skb
  rw [stmmac_xmit]
  rfl

theorem xmit_queued (E : stmmac_env) (trylock : Bool) (skb : sk_buff) (s : net_device)
    (hgso : skb_is_gso skb = false)
    (hok : (stmmac_xmit E trylock skb s).2 = NETDEV_TX_OK) :
    trylock = true ∧ skb.frags.length + 1 ≤ stmmac_tx_avail s ∧
    skb_at s.tx_skbuff (s.cur_tx % s.dma_tx_size) = none ∧
    stmmac_xmit E trylock skb s = stmmac_xmit_queue E skb s := by
  rw [xmit_unfold] at hok ⊢
  unfold stmmac_xmit_body at hok ⊢
  dsimp only at hok ⊢
  cases trylock
  · simp [NETDEV_TX_LOCKED, NETDEV_TX_OK] at hok
  · by_cases h1 : stmmac_tx_avail s < skb.frags.length + 1
    · simp [h1, NETDEV_TX_BUSY, NETDEV_TX_OK] at hok
    · cases h2 : skb_at s.tx_skbuff (s.cur_tx % s.dma_tx_size) with
      | some x => simp [h1, h2, NETDEV_TX_OK] at hok
      | none =>
        simp only [h1, hgso, if_false, Option.isSome_none, Bool.not_true, Bool.false_eq_true]
        exact ⟨trivial, by omega, trivial, trivial⟩

theorem xmit_accepts (E : stmmac_env) (skb : sk_buff) (s : net_device)
    (hgso : skb_is_gso skb = false)
    (hav : skb.frags.length + 1 ≤ stmmac_tx_avail s)
    (hslot : skb_at s.tx_skbuff (s.cur_tx % s.dma_tx_size) = none) :
    stmmac_xmit E true skb s = stmmac_xmit_queue E skb s := by
  rw [xmit_unfold]
  unfold stmmac_xmit_body
  have h1 : ¬ stmmac_tx_avail s < skb.frags.length + 1 := by omega
  simp [h1, hslot, hgso]

theorem spec_init_tx_desc_idem (ring : List dma_desc) (n : Nat) :
    spec_env.ops.init_tx_desc (spec_env.ops.init_tx_desc ring n) n
      = spec_env.ops.init_tx_desc ring n := by
  show spec_ops.init_tx_desc (spec_ops.init_tx_desc ring n) n = spec_ops.init_tx_desc ring n
  simp only [spec_ops, List.length_map, List.length_range]
  apply List.map_congr_left
  intro i hi
  have hi2 : i < ring.length := List.mem_range.mp hi
  have : desc_at ((List.range ring.length).map (fun i =>
      { desc_at ring i with des01 := if i + 1 = n then DES0_TER else 0 })) i
      = { desc_at ring i with des01 := if i + 1 = n then DES0_TER else 0 } := by
    unfold desc_at
    simp [List.getD_eq_getElem?_getD, hi2]
  rw [this]

theorem frag_writes_mem (N : Nat) : ∀ (n c k : Nat), 1 ≤ k → k ≤ n →
    tx_desc_write.prepare_tx_desc (u32_add c k % N) ∈ frag_writes N c n ∧
    tx_desc_write.set_tx_owner (u32_add c k % N) ∈ frag_writes N c n
  | 0, _, k, h1, h2 => by omega
  | n + 1, c, k, h1, h2 => by
    rw [frag_writes]
    by_cases hk : k = 1
    · subst hk
      simp
    · have e : u32_add c k = u32_add (u32_add c 1) (k - 1) := by
        unfold u32_add U32; omega
      have ih := frag_writes_mem N n (u32_add c 1) (k - 1) (by omega) (by omega)
      rw [e]
      exact ⟨List.mem_append_right _ ih.1, List.mem_append_right _ ih.2⟩

theorem head_writes_split_mem (N cur : Nat) (skb : sk_buff) (h : head_is_split skb = true) :
    tx_desc_write.prepare_tx_desc (u32_add cur 1 % N) ∈ head_writes N cur skb ∧
    tx_desc_write.set_tx_owner (u32_add cur 1 % N) ∈ head_writes N cur skb := by
  unfold head_is_split at h
  simp only [Bool.and_eq_true, decide_eq_true_eq] at h
  unfold head_writes
  simp [h.1, h.2]

theorem xmit_trace_shape (E : stmmac_env) (trylock : Bool) (skb : sk_buff) (s : net_device)
    (hgso : skb_is_gso skb = false)
    (hok : (stmmac_xmit E trylock skb s).2 = NETDEV_TX_OK) :
    ∃ cur post,
      (stmmac_xmit E trylock skb s).1.tx_trace =
        s.tx_trace ++ (head_writes s.dma_tx_size s.cur_tx skb ++
          frag_writes s.dma_tx_size
            (if head_is_split skb then u32_add s.cur_tx 1 else s.cur_tx) skb.frags.length ++
          [.close_tx_desc (cur % s.dma_tx_size)]) ++
          [.set_tx_owner (s.cur_tx % s.dma_tx_size)] ++ post ∧
      (stmmac_xmit E trylock skb s).1.cur_tx = u32_add cur 1 ∧
      cur % U32 = (s.cur_tx + skb.frags.length + (if head_is_split skb then 1 else 0)) % U32 ∧
      (post = [] ∨ post = [.clear_tx_ic (cur % s.dma_tx_size)]) ∧
      (s.cur_tx < U32 → cur < U32) := by
  obtain ⟨_, _, _, heq⟩ := xmit_queued E trylock skb s hgso hok
  obtain ⟨cur, slots, ring, post, q, tc, csh, hq, hcur, hpost, _, hlt⟩ := xmit_queue_spec E skb s
  refine ⟨cur, post, ?_, ?_, hcur, hpost, hlt⟩
  · rw [heq, hq]
    simp [List.append_assoc]
  · rw [heq, hq]

theorem head_writes_no_ic (N cur : Nat) (skb : sk_buff) :
    ∀ w ∈ head_writes N cur skb, w.is_clear_ic = false := by
  have h : (head_writes N cur skb).all (fun w => !w.is_clear_ic) = true := by
    unfold head_writes
    dsimp only
    split_ifs <;> rfl
  intro w hw
  have := List.all_eq_true.mp h w hw
  simpa using this

theorem frag_writes_no_ic (N : Nat) : ∀ (n c : Nat),
    ∀ w ∈ frag_writes N c n, w.is_clear_ic = false
  | 0, _, w, hw => by simp [frag_writes] at hw
  | n + 1, c, w, hw => by
    rw [frag_writes] at hw
    rcases List.mem_append.mp hw with h | h
    · simp only [List.mem_cons, List.mem_singleton, List.not_mem_nil, or_false] at h
      rcases h with h | h | h <;> (rw [h]; rfl)
    · exact frag_writes_no_ic N n _ w h

/-! ## Lemmas about `stmmac_tx` -/

theorem reclaim_one_shape (E : stmmac_env) (entry : Nat) (s : net_device) :
    ∃ st xs unm ring freed slots,
      stmmac_tx_reclaim_one E entry s =
        { s with dirty_tx := u32_add s.dirty_tx 1, stats := st, xstats := xs, unmapped := unm,
                 dma_tx := ring, freed_skbs := freed, tx_skbuff := slots } ∧
      (∀ j, skb_at s.tx_skbuff j = none → skb_at slots j = none) := by
  refine ⟨(stmmac_tx_reclaim_one E entry s).stats, (stmmac_tx_reclaim_one E entry s).xstats,
    (stmmac_tx_reclaim_one E entry s).unmapped, (stmmac_tx_reclaim_one E entry s).dma_tx,
    (stmmac_tx_reclaim_one E entry s).freed_skbs, (stmmac_tx_reclaim_one E entry s).tx_skbuff,
    ?_, ?_⟩
  · unfold stmmac_tx_reclaim_one
    dsimp only
    split_ifs <;> split <;> rfl
  · intro j hj
    unfold stmmac_tx_reclaim_one
    dsimp only
    split_ifs <;> split <;> first | exact skb_at_set_none _ _ _ hj | exact hj

theorem tx_loop_spec (E : stmmac_env) (N : Nat) : ∀ (fuel entry : Nat) (s : net_device),
    fuel ≤ tx_in_flight s →
    ∃ n dirty st xs unm ring freed slots,
      stmmac_tx_loop E N fuel entry s =
        { s with dirty_tx := dirty, stats := st, xstats := xs, unmapped := unm,
                 dma_tx := ring, freed_skbs := freed, tx_skbuff := slots } ∧
      n ≤ fuel ∧
      u32_sub s.cur_tx dirty + n = tx_in_flight s ∧
      (n = 0 → dirty = s.dirty_tx) ∧
      (0 < n → dirty = u32_add s.dirty_tx n) ∧
      (∀ j, skb_at s.tx_skbuff j = none → skb_at slots j = none) ∧
      (0 < fuel → s.dirty_tx ≠ s.cur_tx →
        E.ops.get_tx_owner (desc_at s.dma_tx entry) = false → 0 < n)
  | 0, entry, s, _ =>
    ⟨0, s.dirty_tx, s.stats, s.xstats, s.unmapped, s.dma_tx, s.freed_skbs, s.tx_skbuff,
      rfl, le_refl _, rfl, fun _ => rfl, fun h => absurd h (lt_irrefl _), fun _ h => h,
      fun h => absurd h (lt_irrefl _)⟩
  | fuel + 1, entry, s, hf => by
    rw [stmmac_tx_loop]
    by_cases h1 : (s.dirty_tx != s.cur_tx) = true
    · rw [if_pos h1]
      by_cases h2 : E.ops.get_tx_owner (desc_at s.dma_tx entry) = true
      · rw [if_pos h2]
        exact ⟨0, s.dirty_tx, s.stats, s.xstats, s.unmapped, s.dma_tx, s.freed_skbs, s.tx_skbuff,
          rfl, Nat.zero_le _, rfl, fun _ => rfl, fun h => absurd h (lt_irrefl _), fun _ h => h,
          fun _ _ h3 => by rw [h2] at h3; cases h3⟩
      · rw [if_neg h2]
        dsimp only
        obtain ⟨st, xs, unm, ring, freed, slots, hr, hs⟩ := reclaim_one_shape E entry s
        rw [hr]
        generalize hs1 : ({ s with dirty_tx := u32_add s.dirty_tx 1, stats := st, xstats := xs, unmapped := unm, dma_tx := ring, freed_skbs := freed, tx_skbuff := slots } : net_device) = s1
        have hfl : tx_in_flight s1 + 1 = tx_in_flight s := by
          rw [← hs1]
          unfold tx_in_flight at hf ⊢
          dsimp only
          unfold u32_sub u32_add U32 at *
          omega
        obtain ⟨n, dirty, st2, xs2, unm2, ring2, freed2, slots2, hl, hn, hfl2, hd0, hd, hs2, _⟩ :=
          tx_loop_spec E N fuel (s1.dirty_tx % N) s1 (by omega)
        rw [hl]
        rw [← hs1] at hfl hfl2 hd hd0 hs2 ⊢
        dsimp only at hfl hfl2 hd hd0 hs2 ⊢
        refine ⟨n + 1, dirty, st2, xs2, unm2, ring2, freed2, slots2, rfl, by omega, ?_,
          fun h => by omega, ?_, fun j hj => hs2 j (hs j hj), fun _ _ _ => Nat.succ_pos n⟩
        · unfold tx_in_flight at hfl hfl2 ⊢
          dsimp only at hfl hfl2
          omega
        · intro _
          by_cases hn0 : n = 0
          · subst hn0
            exact hd0 rfl
          · rw [hd (by omega)]
            unfold u32_add U32
            omega
    · rw [if_neg h1]
      exact ⟨0, s.dirty_tx, s.stats, s.xstats, s.unmapped, s.dma_tx, s.freed_skbs, s.tx_skbuff,
        rfl, Nat.zero_le _, rfl, fun _ => rfl, fun h => absurd h (lt_irrefl _), fun _ h => h,
        fun _ h3 _ => absurd (by simpa using h3) h1⟩

theorem stmmac_tx_spec (E : stmmac_env) (s : net_device) :
    ∃ n dirty st xs unm ring freed slots q,
      stmmac_tx E s =
        { s with dirty_tx := dirty, stats := st, xstats := xs, unmapped := unm,
                 dma_tx := ring, freed_skbs := freed, tx_skbuff := slots, queue_stopped := q } ∧
      n ≤ tx_in_flight s ∧
      u32_sub s.cur_tx dirty + n = tx_in_flight s ∧
      (n = 0 → dirty = s.dirty_tx) ∧
      (0 < n → dirty = u32_add s.dirty_tx n) ∧
      (∀ j, skb_at s.tx_skbuff j = none → skb_at slots j = none) ∧
      (0 < tx_in_flight s →
        E.ops.get_tx_owner (desc_at s.dma_tx (s.dirty_tx % s.dma_tx_size)) = false → 0 < n) := by
  obtain ⟨n, dirty, st, xs, unm, ring, freed, slots, hl, hn, hfl, hd0, hd, hs, hp⟩ :=
    tx_loop_spec E s.dma_tx_size (tx_in_flight s) (s.dirty_tx % s.dma_tx_size) s (le_refl _)
  have hp2 : 0 < tx_in_flight s →
      E.ops.get_tx_owner (desc_at s.dma_tx (s.dirty_tx % s.dma_tx_size)) = false → 0 < n := by
    intro h1 h2
    refine hp h1 ?_ h2
    intro h3
    unfold tx_in_flight u32_sub U32 at h1
    rw [h3] at h1
    omega
  unfold stmmac_tx
  dsimp only
  rw [hl]
  split_ifs
  · exact ⟨n, dirty, st, xs, unm, ring, freed, slots, false, rfl, hn, hfl, hd0, hd, hs, hp2⟩
  · exact ⟨n, dirty, st, xs, unm, ring, freed, slots, s.queue_stopped, rfl, hn, hfl, hd0, hd, hs,
      hp2⟩

theorem stmmac_tx_inv (E : stmmac_env) (s : net_device) (h : tx_ring_inv s) :
    tx_ring_inv (stmmac_tx E s) := by
  obtain ⟨n, dirty, st, xs, unm, ring, freed, slots, q, he, hn, hfl, _, _, _, _⟩ :=
    stmmac_tx_spec E s
  rw [he]
  unfold tx_ring_inv tx_in_flight at *
  dsimp only
  omega

theorem stmmac_tx_err_inv (E : stmmac_env) (s : net_device) (h : tx_ring_inv s) :
    tx_ring_inv (stmmac_tx_err E s) := by
  have hp := tx_err_post E s
  unfold tx_ring_inv tx_in_flight at *
  rw [hp.1, hp.2.1, hp.2.2.1]
  unfold u32_sub U32
  omega

theorem heads_fit_all_mem : ∀ (l : List sk_buff), heads_fit_all l = true →
    ∀ x ∈ l, heads_fit x = true
  | [], _, x, hx => by cases hx
  | a :: r, h, x, hx => by
    rw [heads_fit_all, Bool.and_eq_true] at h
    rcases List.mem_cons.mp hx with h1 | h1
    · rw [h1]; exact h.1
    · exact heads_fit_all_mem r h.2 x h1

theorem heads_fit_unfold (skb : sk_buff) :
    heads_fit skb = if skb.gso_size != 0 then heads_fit_all skb.segs else !(head_is_split skb) := by
  cases skb
  rw [heads_fit]
  rfl

theorem xmit_segs_inv (E : stmmac_env) : ∀ (l : List sk_buff),
    (∀ x ∈ l, ∀ t s, tx_ring_inv s → tx_ring_inv (stmmac_xmit E t x s).1) →
    ∀ s, tx_ring_inv s → tx_ring_inv (stmmac_xmit_segs E l s)
  | [], _, s, hs => by rw [stmmac_xmit_segs]; exact hs
  | a :: r, h, s, hs => by
    rw [stmmac_xmit_segs]
    exact xmit_segs_inv E r (fun x hx => h x (List.mem_cons_of_mem _ hx)) _
      (h a (List.mem_cons_self _ _) _ s hs)

theorem u32_in_flight_step (c d N k cur : Nat)
    (hcur : cur % U32 = (c + k) % U32)
    (hav : k + 1 ≤ u32_sub (u32_sub (u32_add d N) c) 1)
    (h : u32_sub c d + 1 ≤ N) :
    u32_sub (u32_add cur 1) d + 1 ≤ N := by
  unfold u32_sub u32_add U32 at *
  omega

theorem xmit_queue_inv (E : stmmac_env) (skb : sk_buff) (s : net_device)
    (hfit : head_is_split skb = false)
    (hav : skb.frags.length + 1 ≤ stmmac_tx_avail s)
    (h : tx_ring_inv s) : tx_ring_inv (stmmac_xmit_queue E skb s).1 := by
  obtain ⟨cur, slots, ring, post, q, tc, csh, hq, hcur, _, _, _⟩ := xmit_queue_spec E skb s
  rw [hq]
  clear hq
  rw [hfit] at hcur
  simp only [Bool.false_eq_true, if_false, Nat.add_zero] at hcur
  show u32_sub (u32_add cur 1) s.dirty_tx + 1 ≤ s.dma_tx_size
  exact u32_in_flight_step s.cur_tx s.dirty_tx s.dma_tx_size skb.frags.length cur hcur hav h


theorem xmit_body_inv (E : stmmac_env) (tso : net_device → net_device × Int)
    (trylock : Bool) (skb : sk_buff) (s : net_device)
    (htso : skb_is_gso skb = true → tx_ring_inv (tso s).1)
    (hq : skb_is_gso skb = false → skb.frags.length + 1 ≤ stmmac_tx_avail s →
      tx_ring_inv (stmmac_xmit_queue E skb s).1)
    (hs : tx_ring_inv s) :
    tx_ring_inv (stmmac_xmit_body E tso trylock skb s).1 := by
  unfold stmmac_xmit_body
  dsimp only
  split_ifs with h0 h1 h2 h3
  · exact hs
  · exact hs
  · exact hs
  · exact htso h3
  · exact hq (by simpa using h3) (by omega)

theorem sw_tso_inv (f : net_device → net_device) (skb : sk_buff) (s : net_device)
    (hf : tx_ring_inv s → tx_ring_inv (f s))
    (hs : tx_ring_inv s) : tx_ring_inv (stmmac_sw_tso f skb s).1 := by
  unfold stmmac_sw_tso
  split_ifs
  · exact hs
  · exact hs
  · exact hf hs


theorem xmit_inv (E : stmmac_env) : ∀ (skb : sk_buff) (trylock : Bool) (s : net_device),
    heads_fit skb = true → tx_ring_inv s → tx_ring_inv (stmmac_xmit E trylock skb s).1
  | skb, trylock, s, hfit, hs => by
    have ih : ∀ x ∈ skb.segs, ∀ t s, heads_fit x = true → tx_ring_inv s →
        tx_ring_inv (stmmac_xmit E t x s).1 := fun x hx t s => xmit_inv E x t s
    rw [xmit_unfold]
    rw [heads_fit_unfold] at hfit
    apply xmit_body_inv E _ trylock skb s _ _ hs
    · intro hg
      have hg2 : (skb.gso_size != 0) = true := hg
      rw [if_pos hg2] at hfit
      apply sw_tso_inv _ skb s _ hs
      exact xmit_segs_inv E skb.segs
        (fun x hx t s hs => ih x hx t s (heads_fit_all_mem _ hfit x hx) hs) s
    · intro hg hav
      have hg2 : ¬ (skb.gso_size != 0) = true := by
        intro h
        have : skb_is_gso skb = true := h
        rw [hg] at this
        cases this
      rw [if_neg hg2] at hfit
      exact xmit_queue_inv E skb s (by simpa using hfit) hav hs
termination_by skb => sizeOf skb
decreasing_by
  simp_wf
  cases skb
  simp only [sk_buff.segs] at hx
  have := List.sizeOf_lt_of_mem hx
  simp only [sk_buff.mk.sizeOf_spec]
  omega

/-! ## Lemmas about filling the ring -/

theorem skb_at_replicate (n j : Nat) : skb_at (List.replicate n none) j = none := by
  unfold skb_at
  rw [List.getD_eq_getElem?_getD]
  by_cases h : j < n
  · simp [List.getElem?_replicate, h]
  · simp [List.getElem?_replicate, h]

theorem init_tx_loop_spec : ∀ (k i : Nat) (s : net_device),
    ∃ slots ring,
      init_tx_loop k i s = { s with tx_skbuff := slots, dma_tx := ring } ∧
      ((∀ j, skb_at s.tx_skbuff j = none) → ∀ j, skb_at slots j = none)
  | 0, _, s => ⟨s.tx_skbuff, s.dma_tx, rfl, fun h => h⟩
  | k + 1, i, s => by
    rw [init_tx_loop]
    obtain ⟨slots, ring, h1, h2⟩ := init_tx_loop_spec k (i + 1)
      { s with
        tx_skbuff := s.tx_skbuff.set i none
        dma_tx := s.dma_tx.set i { desc_at s.dma_tx i with des2 := 0 } }
    rw [h1]
    exact ⟨slots, ring, rfl, fun h => h2 (fun j => skb_at_set_none _ _ _ (h j))⟩

theorem init_tx_loop_none : ∀ (k i : Nat) (s : net_device),
    (∀ j, j < i → skb_at s.tx_skbuff j = none) → s.tx_skbuff.length ≤ i + k →
    ∀ j, skb_at (init_tx_loop k i s).tx_skbuff j = none
  | 0, i, s, h, hl => by
    intro j
    by_cases hj : j < i
    · exact h j hj
    · unfold skb_at
      rw [init_tx_loop, List.getD_eq_default _ _ (by omega)]
  | k + 1, i, s, h, hl => by
    rw [init_tx_loop]
    apply init_tx_loop_none k (i + 1)
    · intro j hj
      dsimp only
      by_cases hji : j = i
      · subst hji
        exact skb_at_set_none_self _ _
      · exact skb_at_set_none _ _ _ (h j (by omega))
    · dsimp only
      rw [List.length_set]
      omega

theorem init_rings_tx_spec (E : stmmac_env) (s : net_device) :
    ∃ slots ring,
      init_dma_desc_rings_tx E s =
        { s with tx_skbuff := slots, dma_tx := ring, dirty_tx := 0, cur_tx := 0 } ∧
      ∀ j, skb_at slots j = none := by
  obtain ⟨slots, ring, h1, _⟩ := init_tx_loop_spec s.dma_tx_size 0
    { s with
      tx_skbuff := (List.range s.dma_tx_size).map E.kmalloc_tx_skbuff
      dma_tx := (List.range s.dma_tx_size).map E.coherent_tx }
  have h3 := init_tx_loop_none s.dma_tx_size 0
    { s with
      tx_skbuff := (List.range s.dma_tx_size).map E.kmalloc_tx_skbuff
      dma_tx := (List.range s.dma_tx_size).map E.coherent_tx }
    (fun j hj => absurd hj (Nat.not_lt_zero j)) (by simp)
  rw [h1] at h3
  refine ⟨slots, E.ops.init_tx_desc ring s.dma_tx_size, ?_, h3⟩
  unfold init_dma_desc_rings_tx
  dsimp only
  rw [h1]

theorem single_desc_iff (skb : sk_buff) (h : single_desc skb = true) :
    skb.frags = [] ∧ skb_is_gso skb = false ∧ head_is_split skb = false := by
  unfold single_desc at h
  simp only [Bool.and_eq_true, List.isEmpty_iff, Bool.not_eq_true', decide_eq_true_eq] at h
  refine ⟨h.1.1, h.1.2, ?_⟩
  unfold head_is_split
  have : ¬ skb.len ≥ BUF_SIZE_4KiB := by omega
  simp [this]

theorem xmit_single (E : stmmac_env) (skb : sk_buff) (s : net_device)
    (hp : single_desc skb = true)
    (hav : 1 ≤ stmmac_tx_avail s)
    (hslot : skb_at s.tx_skbuff (s.cur_tx % s.dma_tx_size) = none) :
    ∃ ring q tc csh tr st,
      stmmac_xmit E true skb s =
        ({ s with
            cur_tx := u32_add s.cur_tx 1
            tx_skbuff := s.tx_skbuff.set (s.cur_tx % s.dma_tx_size) (some skb)
            dma_tx := ring, tx_trace := tr, queue_stopped := q, tx_coalesce := tc
            csum_helped := csh, stats := st
            xmt_poll_demand := s.xmt_poll_demand + 1
            trans_start := s.jiffies },
          NETDEV_TX_OK) := by
  obtain ⟨hfr, hgso, hsplit⟩ := single_desc_iff skb hp
  rw [xmit_accepts E skb s hgso (by rw [hfr]; simpa using hav) hslot]
  obtain ⟨cur, slots, ring, post, q, tc, csh, hq, _, _, hl, _⟩ := xmit_queue_spec E skb s
  obtain ⟨hc, hs⟩ := hl hsplit hfr
  rw [hq, hc, hs]
  exact ⟨_, _, _, _, _, _, rfl⟩

theorem xmit_seq_fill (E : stmmac_env) : ∀ (pkts : List sk_buff) (s : net_device),
    (∀ x ∈ pkts, single_desc x = true) →
    s.dirty_tx = 0 → s.cur_tx + pkts.length + 1 ≤ s.dma_tx_size → s.dma_tx_size < U32 →
    (∀ j, s.cur_tx ≤ j → skb_at s.tx_skbuff j = none) →
    (stmmac_xmit_seq E pkts s).2 = List.replicate pkts.length NETDEV_TX_OK ∧
    (stmmac_xmit_seq E pkts s).1.dirty_tx = 0 ∧
    (stmmac_xmit_seq E pkts s).1.cur_tx = s.cur_tx + pkts.length ∧
    (stmmac_xmit_seq E pkts s).1.dma_tx_size = s.dma_tx_size ∧
    (∀ j, s.cur_tx + pkts.length ≤ j → skb_at (stmmac_xmit_seq E pkts s).1.tx_skbuff j = none)
  | [], s, _, hd, _, _, hs => by
    simp only [stmmac_xmit_seq, List.length_nil, List.replicate_zero, Nat.add_zero]
    exact ⟨trivial, hd, trivial, trivial, hs⟩
  | p :: ps, s, hp, hd, hc, hN, hs => by
    have hlen : (p :: ps).length = ps.length + 1 := rfl
    rw [hlen] at hc ⊢
    have hmod : s.cur_tx % s.dma_tx_size = s.cur_tx := Nat.mod_eq_of_lt (by omega)
    have hav : 1 ≤ stmmac_tx_avail s := by
      unfold stmmac_tx_avail u32_sub u32_add
      rw [hd]
      unfold U32 at *
      omega
    obtain ⟨ring, q, tc, csh, tr, st, hx⟩ := xmit_single E p s (hp p (List.mem_cons_self _ _)) hav
      (by rw [hmod]; exact hs _ (le_refl _))
    rw [hmod] at hx
    have hc1 : u32_add s.cur_tx 1 = s.cur_tx + 1 := by
      unfold u32_add
      unfold U32 at *
      omega
    rw [hc1] at hx
    rw [stmmac_xmit_seq]
    dsimp only
    rw [hx]
    dsimp only
    have ih := xmit_seq_fill E ps
      { s with
        cur_tx := s.cur_tx + 1
        tx_skbuff := s.tx_skbuff.set s.cur_tx (some p)
        dma_tx := ring, tx_trace := tr, queue_stopped := q, tx_coalesce := tc
        csum_helped := csh, stats := st
        xmt_poll_demand := s.xmt_poll_demand + 1
        trans_start := s.jiffies }
      (fun x hx => hp x (List.mem_cons_of_mem _ hx)) hd (by dsimp only; omega) hN
      (by
        intro j hj
        dsimp only at hj ⊢
        rw [skb_at_set]
        have : ¬ (s.cur_tx = j ∧ s.cur_tx < s.tx_skbuff.length) := by omega
        rw [if_neg this]
        exact hs j (by omega))
    dsimp only at ih
    obtain ⟨i1, i2, i3, i4, i5⟩ := ih
    refine ⟨?_, i2, ?_, i4, ?_⟩
    · rw [i1, List.replicate_succ]
    · rw [i3]; omega
    · intro j hj
      exact i5 j (by omega)

theorem xmit_busy_eq (E : stmmac_env) (skb : sk_buff) (s : net_device)
    (h : stmmac_tx_avail s < skb.frags.length + 1) :
    stmmac_xmit E true skb s = ({ s with queue_stopped := true }, NETDEV_TX_BUSY) := by
  rw [xmit_unfold]
  simp [stmmac_xmit_body, h, netif_stop_queue]

/-- The bound on the rounds of the loop of `stmmac_tx` is never what stops
it: with 32-bit cursors and as many rounds allowed as descriptors are in
flight, the loop ends because `dirty_tx == cur_tx` or because the descriptor
at `dirty_tx % txsize` is owned by the hardware. -/
theorem stmmac_tx_loop_exits (E : stmmac_env) (N : Nat) : ∀ (fuel : Nat) (s : net_device),
    fuel = tx_in_flight s → s.cur_tx < U32 → s.dirty_tx < U32 →
    (stmmac_tx_loop E N fuel (s.dirty_tx % N) s).dirty_tx
        = (stmmac_tx_loop E N fuel (s.dirty_tx % N) s).cur_tx ∨
      E.ops.get_tx_owner
        (desc_at (stmmac_tx_loop E N fuel (s.dirty_tx % N) s).dma_tx
          ((stmmac_tx_loop E N fuel (s.dirty_tx % N) s).dirty_tx % N)) = true
  | 0, s, hf, hc, hd => by
    left
    rw [stmmac_tx_loop]
    unfold tx_in_flight u32_sub at hf
    unfold U32 at *
    omega
  | fuel + 1, s, hf, hc, hd => by
    rw [stmmac_tx_loop]
    by_cases h1 : (s.dirty_tx != s.cur_tx) = true
    · rw [if_pos h1]
      by_cases h2 : E.ops.get_tx_owner (desc_at s.dma_tx (s.dirty_tx % N)) = true
      · rw [if_pos h2]
        exact Or.inr h2
      · rw [if_neg h2]
        dsimp only
        obtain ⟨st, xs, unm, ring, freed, slots, hr, _⟩ := reclaim_one_shape E (s.dirty_tx % N) s
        have h3 : (stmmac_tx_reclaim_one E (s.dirty_tx % N) s).dirty_tx = u32_add s.dirty_tx 1 := by
          rw [hr]
        have h4 : (stmmac_tx_reclaim_one E (s.dirty_tx % N) s).cur_tx = s.cur_tx := by
          rw [hr]
        exact stmmac_tx_loop_exits E N fuel (stmmac_tx_reclaim_one E (s.dirty_tx % N) s)
          (by
            unfold tx_in_flight at hf ⊢
            rw [h3, h4]
            unfold u32_sub u32_add at *
            unfold U32 at *
            omega)
          (by rw [h4]; exact hc)
          (by rw [h3]; unfold u32_add U32; omega)
    · rw [if_neg h1]
      left
      simpa using h1

/-! ## Reclaim in ring order -/

theorem mod_add_ne (N d i : Nat) (h1 : 0 < i) (h2 : i < N) : (d + i) % N ≠ d % N := by
  intro h
  have h3 := Nat.sub_mod_eq_zero_of_mod_eq h
  rw [Nat.add_sub_cancel_left, Nat.mod_eq_of_lt h2] at h3
  omega

set_option maxHeartbeats 1000000 in
theorem reclaim_one_exact (E : stmmac_env) (e : Nat) (s : net_device) :
    (stmmac_tx_reclaim_one E e s).dirty_tx = u32_add s.dirty_tx 1 ∧
    (stmmac_tx_reclaim_one E e s).cur_tx = s.cur_tx ∧
    (stmmac_tx_reclaim_one E e s).dma_tx_size = s.dma_tx_size ∧
    (stmmac_tx_reclaim_one E e s).queue_stopped = s.queue_stopped ∧
    (∀ j, j ≠ e → desc_at (stmmac_tx_reclaim_one E e s).dma_tx j = desc_at s.dma_tx j) ∧
    (∀ j, skb_at (stmmac_tx_reclaim_one E e s).tx_skbuff j
        = if j = e then none else skb_at s.tx_skbuff j) ∧
    (stmmac_tx_reclaim_one E e s).freed_skbs
        = s.freed_skbs ++ (skb_at s.tx_skbuff e).toList := by
  refine ⟨?_, ?_, ?_, ?_, ?_, ?_, ?_⟩
  · unfold stmmac_tx_reclaim_one
    dsimp only
    split_ifs <;> split <;> rfl
  · unfold stmmac_tx_reclaim_one
    dsimp only
    split_ifs <;> split <;> rfl
  · unfold stmmac_tx_reclaim_one
    dsimp only
    split_ifs <;> split <;> rfl
  · unfold stmmac_tx_reclaim_one
    dsimp only
    split_ifs <;> split <;> rfl
  · intro j hj
    have hne : ∀ (l : List dma_desc) (v : dma_desc), desc_at (l.set e v) j = desc_at l j := by
      intro l v
      rw [desc_at_set, if_neg]
      exact fun h => hj h.1.symm
    unfold stmmac_tx_reclaim_one
    dsimp only
    split_ifs <;> split <;> (try dsimp only) <;> first | rw [hne, hne] | rw [hne]
  · intro j
    unfold stmmac_tx_reclaim_one
    dsimp only
    by_cases hj : j = e
    · subst hj
      rw [if_pos rfl]
      split_ifs <;> split <;> (try dsimp only) <;>
        first | exact skb_at_set_none_self _ _ | assumption
    · rw [if_neg hj]
      have hne : ∀ (l : List (Option sk_buff)) (v : Option sk_buff),
          skb_at (l.set e v) j = skb_at l j := by
        intro l v
        rw [skb_at_set, if_neg]
        exact fun h => hj h.1.symm
      split_ifs <;> split <;> (try dsimp only) <;> first | rfl | exact hne _ _
  · unfold stmmac_tx_reclaim_one
    dsimp only
    split_ifs <;> split <;> rename_i h <;> (try dsimp only at h ⊢) <;> rw [h] <;> simp

theorem tx_loop_run (E : stmmac_env) (N : Nat) : ∀ (fuel : Nat) (s : net_device),
    fuel ≤ N → s.dirty_tx + fuel = s.cur_tx → s.cur_tx < U32 →
    ∃ k, k ≤ fuel ∧
      (stmmac_tx_loop E N fuel (s.dirty_tx % N) s).dirty_tx = s.dirty_tx + k ∧
      (stmmac_tx_loop E N fuel (s.dirty_tx % N) s).cur_tx = s.cur_tx ∧
      (stmmac_tx_loop E N fuel (s.dirty_tx % N) s).dma_tx_size = s.dma_tx_size ∧
      (stmmac_tx_loop E N fuel (s.dirty_tx % N) s).queue_stopped = s.queue_stopped ∧
      (∀ i, i < k → E.ops.get_tx_owner (desc_at s.dma_tx ((s.dirty_tx + i) % N)) = false) ∧
      (k < fuel → E.ops.get_tx_owner (desc_at s.dma_tx ((s.dirty_tx + k) % N)) = true) ∧
      (∀ i, i < k →
        skb_at (stmmac_tx_loop E N fuel (s.dirty_tx % N) s).tx_skbuff ((s.dirty_tx + i) % N)
          = none) ∧
      (∀ j, (∀ i, i < k → j ≠ (s.dirty_tx + i) % N) →
        skb_at (stmmac_tx_loop E N fuel (s.dirty_tx % N) s).tx_skbuff j
          = skb_at s.tx_skbuff j) ∧
      (stmmac_tx_loop E N fuel (s.dirty_tx % N) s).freed_skbs = s.freed_skbs ++
        (List.range k).filterMap (fun i => skb_at s.tx_skbuff ((s.dirty_tx + i) % N))
  | 0, s, _, _, _ =>
    ⟨0, le_refl _, rfl, rfl, rfl, rfl, fun i h => absurd h (Nat.not_lt_zero i),
      fun h => absurd h (lt_irrefl _), fun i h => absurd h (Nat.not_lt_zero i),
      fun _ _ => rfl, by simp [stmmac_tx_loop]⟩
  | fuel + 1, s, hN, hc, hU => by
    rw [stmmac_tx_loop]
    have h1 : (s.dirty_tx != s.cur_tx) = true := by
      simp only [bne_iff_ne, ne_eq]; omega
    rw [if_pos h1]
    by_cases h2 : E.ops.get_tx_owner (desc_at s.dma_tx (s.dirty_tx % N)) = true
    · rw [if_pos h2]
      exact ⟨0, Nat.zero_le _, rfl, rfl, rfl, rfl, fun i h => absurd h (Nat.not_lt_zero i),
        fun _ => by simpa using h2, fun i h => absurd h (Nat.not_lt_zero i),
        fun _ _ => rfl, by simp⟩
    · rw [if_neg h2]
      dsimp only
      obtain ⟨hd, hcur, hsz, hq, hring, hslots, hfreed⟩ :=
        reclaim_one_exact E (s.dirty_tx % N) s
      have hd1 : (stmmac_tx_reclaim_one E (s.dirty_tx % N) s).dirty_tx = s.dirty_tx + 1 := by
        rw [hd]; unfold u32_add; exact Nat.mod_eq_of_lt (by omega)
      generalize stmmac_tx_reclaim_one E (s.dirty_tx % N) s = s1 at *
      obtain ⟨k, hk, e1, e2, e3, e4, e5, e6, e7, e8, e9⟩ :=
        tx_loop_run E N fuel s1 (by omega) (by omega) (by omega)
      rw [hd1] at e1 e2 e3 e4 e5 e6 e7 e8 e9
      have hpos : ∀ i, i < fuel → (s.dirty_tx + 1 + i) % N ≠ s.dirty_tx % N := by
        intro i hi
        rw [Nat.add_assoc]
        exact mod_add_ne N s.dirty_tx (1 + i) (by omega) (by omega)
      refine ⟨k + 1, by omega, ?_, ?_, ?_, ?_, ?_, ?_, ?_, ?_, ?_⟩
      · rw [hd1, e1]; omega
      · rw [hd1, e2, hcur]
      · rw [hd1, e3, hsz]
      · rw [hd1, e4, hq]
      · intro i hi
        cases i with
        | zero => rw [Nat.add_zero]; simpa using h2
        | succ i =>
          have := e5 i (by omega)
          rw [hring _ (hpos i (by omega))] at this
          rw [← this]; congr 3; omega
      · intro hlt
        have := e6 (by omega)
        rw [hring _ (hpos k (by omega))] at this
        rw [← this]; congr 3; omega
      · intro i hi
        rw [hd1]
        cases i with
        | zero =>
          show skb_at _ (s.dirty_tx % N) = none
          rw [e8 _ (fun i hi2 => (hpos i (by omega)).symm), hslots, if_pos rfl]
        | succ i =>
          have := e7 i (by omega)
          rw [← this]; congr 2; omega
      · intro j hj
        rw [hd1, e8 j (fun i hi => by
          have := hj (i + 1) (by omega)
          rwa [show s.dirty_tx + (i + 1) = s.dirty_tx + 1 + i by omega] at this), hslots,
          if_neg (by simpa using hj 0 (by omega))]
      · rw [hd1, e9, hfreed, List.range_succ_eq_map, List.filterMap_cons, List.append_assoc]
        have hmap : List.filterMap (fun i => skb_at s1.tx_skbuff ((s.dirty_tx + 1 + i) % N))
              (List.range k)
            = List.filterMap (fun i => skb_at s.tx_skbuff ((s.dirty_tx + i) % N))
              (List.map Nat.succ (List.range k)) := by
          rw [List.filterMap_map]
          apply List.filterMap_congr
          intro i hi
          have hik : i < k := List.mem_range.mp hi
          simp only [Function.comp]
          rw [hslots, if_neg (hpos i (by omega)), Nat.add_right_comm, Nat.succ_eq_add_one,
            Nat.add_assoc]
        rw [hmap]
        cases h : skb_at s.tx_skbuff (s.dirty_tx % N) <;> simp [h]

/-! ## Lemmas about the receive ring -/

theorem u32_add_lt (a b : Nat) : u32_add a b < U32 := by
  unfold u32_add U32; omega

theorem u32_add_succ (a i : Nat) : u32_add (u32_add a 1) i = u32_add a (i + 1) := by
  unfold u32_add U32; omega

theorem u32_add_zero_of_lt (a : Nat) (h : a < U32) : u32_add a 0 = a := by
  unfold u32_add U32 at *; omega

theorem u32_sub_step (c d fuel : Nat) (h : fuel + 1 = u32_sub c d) :
    fuel = u32_sub c (u32_add d 1) := by
  unfold u32_sub u32_add U32 at *; omega

theorem refill_slot_shape (E : stmmac_rx_env) (bf : Int) (e : Nat) (skb : sk_buff)
    (s : stmmac_priv) :
    ∃ d addrs, stmmac_rx_refill_slot E bf e skb s =
      { s with rx_skbuff := s.rx_skbuff.set e (some (skb_reserve skb E.NET_IP_ALIGN)),
               rx_skbuff_dma := addrs, dma_rx := s.dma_rx.set e d } := by
  unfold stmmac_rx_refill_slot
  dsimp only
  split_ifs
  · exact ⟨_, _, by rw [List.set_set]⟩
  · exact ⟨_, _, rfl⟩
  · exact ⟨_, _, rfl⟩

theorem skb_at_set_self (l : List (Option sk_buff)) (e : Nat) (v : Option sk_buff)
    (h : e < l.length) : skb_at (l.set e v) e = v := by
  rw [skb_at_set, if_pos ⟨rfl, h⟩]

theorem desc_at_set_self (l : List dma_desc) (e : Nat) (v : dma_desc)
    (h : e < l.length) : desc_at (l.set e v) e = v := by
  rw [desc_at_set, if_pos ⟨rfl, h⟩]

theorem skb_at_set_ne (l : List (Option sk_buff)) (e j : Nat) (v : Option sk_buff)
    (h : j ≠ e) : skb_at (l.set e v) j = skb_at l j := by
  rw [skb_at_set, if_neg (fun h2 => h h2.1.symm)]

theorem desc_at_set_ne (l : List dma_desc) (e j : Nat) (v : dma_desc)
    (h : j ≠ e) : desc_at (l.set e v) j = desc_at l j := by
  rw [desc_at_set, if_neg (fun h2 => h h2.1.symm)]

theorem refill_one_some (E : stmmac_rx_env) (N : Nat) (bf : Int) (s : stmmac_priv)
    (skb0 : sk_buff) (hs : skb_at s.rx_skbuff (s.dirty_rx % N) = some skb0) :
    stmmac_rx_refill_one E N bf s =
      ({ rx_set_owner E (s.dirty_rx % N) s with
          dirty_rx := u32_add (rx_set_owner E (s.dirty_rx % N) s).dirty_rx 1 }, true) := by
  unfold stmmac_rx_refill_one
  simp only [hs]

theorem refill_one_fail (E : stmmac_rx_env) (N : Nat) (bf : Int) (s : stmmac_priv)
    (hs : skb_at s.rx_skbuff (s.dirty_rx % N) = none)
    (ha : E.netdev_alloc_skb s.alloc_calls bf = none) :
    stmmac_rx_refill_one E N bf s = ({ s with alloc_calls := s.alloc_calls + 1 }, false) := by
  unfold stmmac_rx_refill_one
  simp only [hs, ha]

theorem refill_one_fill (E : stmmac_rx_env) (N : Nat) (bf : Int) (s : stmmac_priv)
    (skb : sk_buff) (hs : skb_at s.rx_skbuff (s.dirty_rx % N) = none)
    (ha : E.netdev_alloc_skb s.alloc_calls bf = some skb) :
    stmmac_rx_refill_one E N bf s =
      ({ rx_set_owner E (s.dirty_rx % N) (stmmac_rx_refill_slot E bf (s.dirty_rx % N) skb
            { s with alloc_calls := s.alloc_calls + 1 }) with
          dirty_rx := u32_add (rx_set_owner E (s.dirty_rx % N)
            (stmmac_rx_refill_slot E bf (s.dirty_rx % N) skb
              { s with alloc_calls := s.alloc_calls + 1 })).dirty_rx 1 }, true) := by
  unfold stmmac_rx_refill_one
  simp only [hs, ha]

/-- One round of the refill loop that does not stop: the shape of the state
after it. -/
theorem refill_one_go (E : stmmac_rx_env) (N : Nat) (bf : Int) (s : stmmac_priv)
    (h : (stmmac_rx_refill_one E N bf s).2 = true) :
    ∃ slots addrs d calls,
      (stmmac_rx_refill_one E N bf s).1 =
        { s with rx_skbuff := slots, rx_skbuff_dma := addrs,
                 dma_rx := s.dma_rx.set (s.dirty_rx % N) (E.ops.set_rx_owner d),
                 dirty_rx := u32_add s.dirty_rx 1, alloc_calls := calls } ∧
      s.alloc_calls ≤ calls ∧
      ((∃ skb, skb_at s.rx_skbuff (s.dirty_rx % N) = some skb ∧ slots = s.rx_skbuff) ∨
       (∃ skb, skb_at s.rx_skbuff (s.dirty_rx % N) = none ∧
          E.netdev_alloc_skb s.alloc_calls bf = some skb ∧
          slots = s.rx_skbuff.set (s.dirty_rx % N) (some (skb_reserve skb E.NET_IP_ALIGN)))) := by
  cases hs : skb_at s.rx_skbuff (s.dirty_rx % N) with
  | some skb0 =>
    rw [refill_one_some E N bf s skb0 hs]
    exact ⟨s.rx_skbuff, s.rx_skbuff_dma, _, s.alloc_calls, rfl, le_refl _,
      Or.inl ⟨skb0, rfl, rfl⟩⟩
  | none =>
    cases ha : E.netdev_alloc_skb s.alloc_calls bf with
    | none => rw [refill_one_fail E N bf s hs ha] at h; exact absurd h (by simp)
    | some skb =>
      rw [refill_one_fill E N bf s skb hs ha]
      obtain ⟨d, addrs, hshape⟩ := refill_slot_shape E bf (s.dirty_rx % N) skb
        { s with alloc_calls := s.alloc_calls + 1 }
      rw [hshape]
      refine ⟨_, addrs, desc_at (s.dma_rx.set (s.dirty_rx % N) d) (s.dirty_rx % N),
        s.alloc_calls + 1, ?_, Nat.le_succ _, Or.inr ⟨skb, rfl, rfl, rfl⟩⟩
      unfold rx_set_owner
      dsimp only
      rw [List.set_set]

/-- One round of the refill loop that stops: only the call counter moves, the
slot is empty and the allocator has failed. -/
theorem refill_one_stop (E : stmmac_rx_env) (N : Nat) (bf : Int) (s : stmmac_priv)
    (h : (stmmac_rx_refill_one E N bf s).2 = false) :
    (stmmac_rx_refill_one E N bf s).1 = { s with alloc_calls := s.alloc_calls + 1 } ∧
    skb_at s.rx_skbuff (s.dirty_rx % N) = none ∧
    E.netdev_alloc_skb s.alloc_calls bf = none := by
  cases hs : skb_at s.rx_skbuff (s.dirty_rx % N) with
  | some skb0 => rw [refill_one_some E N bf s skb0 hs] at h; exact absurd h (by simp)
  | none =>
    cases ha : E.netdev_alloc_skb s.alloc_calls bf with
    | none => rw [refill_one_fail E N bf s hs ha]; exact ⟨rfl, rfl, rfl⟩
    | some skb => rw [refill_one_fill E N bf s skb hs ha] at h; exact absurd h (by simp)

/-- What one successful round of the refill loop does to the slots and the
descriptors. -/
theorem refill_one_go_facts (E : stmmac_rx_env) (N : Nat) (bf : Int) (s : stmmac_priv)
    (hN : 0 < N) (hl1 : s.rx_skbuff.length = N) (hl2 : s.dma_rx.length = N)
    (h : (stmmac_rx_refill_one E N bf s).2 = true) :
    (stmmac_rx_refill_one E N bf s).1 =
      { s with rx_skbuff := (stmmac_rx_refill_one E N bf s).1.rx_skbuff,
               rx_skbuff_dma := (stmmac_rx_refill_one E N bf s).1.rx_skbuff_dma,
               dma_rx := (stmmac_rx_refill_one E N bf s).1.dma_rx,
               dirty_rx := u32_add s.dirty_rx 1,
               alloc_calls := (stmmac_rx_refill_one E N bf s).1.alloc_calls } ∧
    (stmmac_rx_refill_one E N bf s).1.rx_skbuff.length = N ∧
    (stmmac_rx_refill_one E N bf s).1.dma_rx.length = N ∧
    s.alloc_calls ≤ (stmmac_rx_refill_one E N bf s).1.alloc_calls ∧
    (skb_at (stmmac_rx_refill_one E N bf s).1.rx_skbuff (s.dirty_rx % N)).isSome = true ∧
    (∃ d, desc_at (stmmac_rx_refill_one E N bf s).1.dma_rx (s.dirty_rx % N)
        = E.ops.set_rx_owner d) ∧
    (∀ j, j ≠ s.dirty_rx % N →
      skb_at (stmmac_rx_refill_one E N bf s).1.rx_skbuff j = skb_at s.rx_skbuff j ∧
      desc_at (stmmac_rx_refill_one E N bf s).1.dma_rx j = desc_at s.dma_rx j) ∧
    (∀ j skb, skb_at s.rx_skbuff j = some skb →
      skb_at (stmmac_rx_refill_one E N bf s).1.rx_skbuff j = some skb) ∧
    (skb_at s.rx_skbuff (s.dirty_rx % N) = none →
      ∃ skb, E.netdev_alloc_skb s.alloc_calls bf = some skb ∧
        skb_at (stmmac_rx_refill_one E N bf s).1.rx_skbuff (s.dirty_rx % N)
          = some (skb_reserve skb E.NET_IP_ALIGN)) := by
  obtain ⟨slots, addrs, d, calls, hshape, hcalls, hor⟩ := refill_one_go E N bf s h
  have he : s.dirty_rx % N < N := Nat.mod_lt _ hN
  rw [hshape]
  dsimp only
  refine ⟨rfl, ?_, by rw [List.length_set]; exact hl2, hcalls, ?_,
    ⟨d, desc_at_set_self _ _ _ (by rw [hl2]; exact he)⟩, ?_, ?_, ?_⟩
  · rcases hor with ⟨skb, _, h2⟩ | ⟨skb, _, _, h2⟩
    · rw [h2]; exact hl1
    · rw [h2, List.length_set]; exact hl1
  · rcases hor with ⟨skb, h1, h2⟩ | ⟨skb, _, _, h2⟩
    · rw [h2, h1]; rfl
    · rw [h2, skb_at_set_self _ _ _ (by rw [hl1]; exact he)]; rfl
  · intro j hj
    refine ⟨?_, desc_at_set_ne _ _ _ _ hj⟩
    rcases hor with ⟨skb, _, h2⟩ | ⟨skb, _, _, h2⟩
    · rw [h2]
    · rw [h2, skb_at_set_ne _ _ _ _ hj]
  · intro j skb0 hj
    rcases hor with ⟨skb, _, h2⟩ | ⟨skb, h1, _, h2⟩
    · rw [h2]; exact hj
    · rw [h2, skb_at_set_ne _ _ _ _ (fun h3 => by rw [h3, h1] at hj; exact absurd hj (by simp))]
      exact hj
  · intro hnone
    rcases hor with ⟨skb, h1, _⟩ | ⟨skb, _, h1, h2⟩
    · rw [h1] at hnone; exact absurd hnone (by simp)
    · exact ⟨skb, h1, by rw [h2, skb_at_set_self _ _ _ (by rw [hl1]; exact he)]⟩

/-- The refill loop, round by round: it fills `k` slots from `dirty_rx` on and
hands their descriptors to the hardware, touches nothing else, and stops
early only at an empty slot for which the allocator failed. -/
theorem refill_loop_spec (E : stmmac_rx_env) (N : Nat) (bf : Int) (hN : 0 < N) :
    ∀ (fuel : Nat) (s : stmmac_priv),
    s.rx_skbuff.length = N → s.dma_rx.length = N → s.dirty_rx < U32 →
    fuel = u32_sub s.cur_rx s.dirty_rx →
    ∃ k, k ≤ fuel ∧
      stmmac_rx_refill_loop E N bf fuel s =
        { s with rx_skbuff := (stmmac_rx_refill_loop E N bf fuel s).rx_skbuff,
                 rx_skbuff_dma := (stmmac_rx_refill_loop E N bf fuel s).rx_skbuff_dma,
                 dma_rx := (stmmac_rx_refill_loop E N bf fuel s).dma_rx,
                 dirty_rx := u32_add s.dirty_rx k,
                 alloc_calls := (stmmac_rx_refill_loop E N bf fuel s).alloc_calls } ∧
      (stmmac_rx_refill_loop E N bf fuel s).rx_skbuff.length = N ∧
      (stmmac_rx_refill_loop E N bf fuel s).dma_rx.length = N ∧
      s.alloc_calls ≤ (stmmac_rx_refill_loop E N bf fuel s).alloc_calls ∧
      (∀ i, i < k →
        (skb_at (stmmac_rx_refill_loop E N bf fuel s).rx_skbuff
          (u32_add s.dirty_rx i % N)).isSome = true ∧
        ∃ d, desc_at (stmmac_rx_refill_loop E N bf fuel s).dma_rx (u32_add s.dirty_rx i % N)
          = E.ops.set_rx_owner d) ∧
      (∀ e, (∃ d, desc_at s.dma_rx e = E.ops.set_rx_owner d) →
        ∃ d, desc_at (stmmac_rx_refill_loop E N bf fuel s).dma_rx e = E.ops.set_rx_owner d) ∧
      (∀ e, skb_at (stmmac_rx_refill_loop E N bf fuel s).rx_skbuff e = none →
        skb_at s.rx_skbuff e = none ∧
        desc_at (stmmac_rx_refill_loop E N bf fuel s).dma_rx e = desc_at s.dma_rx e) ∧
      (∀ e skb, skb_at s.rx_skbuff e = some skb →
        skb_at (stmmac_rx_refill_loop E N bf fuel s).rx_skbuff e = some skb) ∧
      (k < fuel →
        skb_at (stmmac_rx_refill_loop E N bf fuel s).rx_skbuff (u32_add s.dirty_rx k % N) = none ∧
        0 < (stmmac_rx_refill_loop E N bf fuel s).alloc_calls ∧
        E.netdev_alloc_skb ((stmmac_rx_refill_loop E N bf fuel s).alloc_calls - 1) bf = none) ∧
      (0 < k → skb_at s.rx_skbuff (s.dirty_rx % N) = none →
        ∃ skb, E.netdev_alloc_skb s.alloc_calls bf = some skb ∧
          skb_at (stmmac_rx_refill_loop E N bf fuel s).rx_skbuff (s.dirty_rx % N)
            = some (skb_reserve skb E.NET_IP_ALIGN)) ∧
      (k = 0 → 0 < fuel → skb_at s.rx_skbuff (s.dirty_rx % N) = none ∧
        E.netdev_alloc_skb s.alloc_calls bf = none)
  | 0, s, hl1, hl2, hd, _ => by
    refine ⟨0, le_refl _, ?_, hl1, hl2, le_refl _, fun i h => absurd h (Nat.not_lt_zero i),
      fun e h => h, fun e h => ⟨h, rfl⟩, fun e skb h => h, fun h => absurd h (lt_irrefl _),
      fun h => absurd h (lt_irrefl _), fun _ h => absurd h (lt_irrefl _)⟩
    rw [u32_add_zero_of_lt _ hd]
    rfl
  | fuel + 1, s, hl1, hl2, hd, hf => by
    rw [stmmac_rx_refill_loop, if_pos (by omega)]
    dsimp only
    by_cases h2 : (stmmac_rx_refill_one E N bf s).2 = true
    · rw [if_pos h2]
      obtain ⟨hshape, g1, g2, g3, g4, g5, g6, g7, g8⟩ :=
        refill_one_go_facts E N bf s hN hl1 hl2 h2
      generalize (stmmac_rx_refill_one E N bf s).1 = s1 at *
      have hcur : s1.cur_rx = s.cur_rx := by rw [hshape]
      have hdirty : s1.dirty_rx = u32_add s.dirty_rx 1 := by rw [hshape]
      obtain ⟨k, hk, e1, e2, e3, e4, e5, e6, e7, e8, e9, e10, _⟩ :=
        refill_loop_spec E N bf hN fuel s1 g1 g2 (by rw [hdirty]; exact u32_add_lt _ _)
          (by rw [hcur, hdirty]; exact u32_sub_step _ _ _ hf)
      generalize stmmac_rx_refill_loop E N bf fuel s1 = r at *
      have he0 : u32_add s.dirty_rx 0 % N = s.dirty_rx % N := by
        rw [u32_add_zero_of_lt _ hd]
      refine ⟨k + 1, by omega, ?_, e2, e3, by omega, ?_, ?_, ?_, ?_, ?_, ?_, ?_⟩
      · rw [e1, hdirty, u32_add_succ, hshape]
      · intro i hi
        cases i with
        | zero =>
          rw [he0]
          obtain ⟨v, hv⟩ := Option.isSome_iff_exists.mp g4
          exact ⟨by rw [e8 _ v hv]; rfl, e6 _ g5⟩
        | succ i =>
          have := e5 i (by omega)
          rwa [hdirty, u32_add_succ] at this
      · intro e ⟨d, hde⟩
        apply e6
        by_cases hee : e = s.dirty_rx % N
        · rw [hee]; exact g5
        · exact ⟨d, by rw [(g6 e hee).2, hde]⟩
      · intro e hnone
        obtain ⟨h3, h4⟩ := e7 e hnone
        have hee : e ≠ s.dirty_rx % N := by
          intro h5
          rw [← h5, h3] at g4
          exact absurd g4 (by simp)
        exact ⟨by rw [← (g6 e hee).1]; exact h3, by rw [h4, (g6 e hee).2]⟩
      · intro e skb hsome
        exact e8 e skb (g7 e skb hsome)
      · intro hlt
        have := e9 (by omega)
        rwa [hdirty, u32_add_succ] at this
      · intro _ hnone
        obtain ⟨skb, ha, hslot⟩ := g8 hnone
        exact ⟨skb, ha, e8 _ _ hslot⟩
      · intro h0
        exact absurd h0 (Nat.succ_ne_zero k)
    · rw [if_neg h2]
      have h2f : (stmmac_rx_refill_one E N bf s).2 = false := by
        cases h : (stmmac_rx_refill_one E N bf s).2
        · rfl
        · exact absurd h h2
      obtain ⟨hstop, hnone, hfail⟩ := refill_one_stop E N bf s h2f
      rw [hstop]
      refine ⟨0, Nat.zero_le _, ?_, hl1, hl2, Nat.le_succ _,
        fun i h => absurd h (Nat.not_lt_zero i), fun e h => h, fun e h => ⟨h, rfl⟩,
        fun e skb h => h, ?_, fun h => absurd h (lt_irrefl _), fun _ _ => ⟨hnone, hfail⟩⟩
      · rw [u32_add_zero_of_lt _ hd]
      · intro _
        rw [u32_add_zero_of_lt _ hd]
        exact ⟨hnone, Nat.succ_pos _, hfail⟩

theorem rx_deliver_shape (E : stmmac_rx_env) (e : Nat) (p : dma_desc) (status len : Int)
    (skb : sk_buff) (s : stmmac_priv) :
    ∃ st xs unm dl,
      stmmac_rx_deliver E e p status len skb s =
        { s with rx_skbuff := s.rx_skbuff.set e none, stats := st, xstats := xs,
                 rx_unmapped := unm, delivered := dl, last_rx := s.jiffies } ∧
      dl.length = s.delivered.length + 1 := by
  refine ⟨(stmmac_rx_deliver E e p status len skb s).stats,
    (stmmac_rx_deliver E e p status len skb s).xstats,
    (stmmac_rx_deliver E e p status len skb s).rx_unmapped,
    (stmmac_rx_deliver E e p status len skb s).delivered, ?_, ?_⟩
  · unfold stmmac_rx_deliver
    dsimp only
    split_ifs <;> rfl
  · unfold stmmac_rx_deliver
    dsimp only
    split_ifs <;> simp

/-- The loop body of `stmmac_rx` on a descriptor whose status is
`discard_frame`: only the counters move. -/
theorem rx_frame_discard (E : stmmac_rx_env) (e : Nat) (s : stmmac_priv)
    (h : (E.ops.rx_status s.stats s.xstats (desc_at s.dma_rx e)).2.2 = E.discard_frame) :
    stmmac_rx_frame E e s =
      ({ s with
          stats := { (E.ops.rx_status s.stats s.xstats (desc_at s.dma_rx e)).1 with
            rx_errors :=
              u32_add (E.ops.rx_status s.stats s.xstats (desc_at s.dma_rx e)).1.rx_errors 1 }
          xstats := (E.ops.rx_status s.stats s.xstats (desc_at s.dma_rx e)).2.1 }, true) := by
  unfold stmmac_rx_frame
  dsimp only
  rw [if_pos h]

theorem rx_frame_shape (E : stmmac_rx_env) (e : Nat) (s : stmmac_priv) :
    ∃ slots st xs unm dl lr,
      (stmmac_rx_frame E e s).1 =
        { s with rx_skbuff := slots, stats := st, xstats := xs,
                 rx_unmapped := unm, delivered := dl, last_rx := lr } ∧
      slots.length = s.rx_skbuff.length ∧
      (∀ j, skb_at s.rx_skbuff j = none → skb_at slots j = none) ∧
      (∀ j, j ≠ e → skb_at slots j = skb_at s.rx_skbuff j) := by
  unfold stmmac_rx_frame
  dsimp only
  split_ifs
  · exact ⟨_, _, _, _, _, _, rfl, rfl, fun j h => h, fun j _ => rfl⟩
  · cases hs : skb_at s.rx_skbuff e with
    | none => exact ⟨_, _, _, _, _, _, rfl, rfl, fun j h => h, fun j _ => rfl⟩
    | some skb =>
      dsimp only
      obtain ⟨st, xs, unm, dl, hsh, _⟩ := rx_deliver_shape E e (desc_at s.dma_rx e)
        (E.ops.rx_status s.stats s.xstats (desc_at s.dma_rx e)).2.2
        (E.ops.get_rx_frame_len (desc_at s.dma_rx e) - 4) skb
        { s with stats := (E.ops.rx_status s.stats s.xstats (desc_at s.dma_rx e)).1,
                 xstats := (E.ops.rx_status s.stats s.xstats (desc_at s.dma_rx e)).2.1 }
      rw [hsh]
      exact ⟨_, _, _, _, _, _, rfl, by rw [List.length_set],
        fun j h => skb_at_set_none _ _ _ h, fun j hj => skb_at_set_ne _ _ _ _ hj⟩

/-- The frame loop of `stmmac_rx`: it processes `k` descriptors, `k` at most
the budget left, moves `cur_rx` by `k`, and touches neither the descriptors
nor `dirty_rx`. -/
theorem rx_loop_spec (E : stmmac_rx_env) (N : Nat) :
    ∀ (left entry count : Nat) (s : stmmac_priv), s.cur_rx < U32 →
    ∃ k, k ≤ left ∧
      (stmmac_rx_loop E N left entry count s).2 = count + k ∧
      (stmmac_rx_loop E N left entry count s).1 =
        { s with cur_rx := u32_add s.cur_rx k,
                 rx_skbuff := (stmmac_rx_loop E N left entry count s).1.rx_skbuff,
                 stats := (stmmac_rx_loop E N left entry count s).1.stats,
                 xstats := (stmmac_rx_loop E N left entry count s).1.xstats,
                 rx_unmapped := (stmmac_rx_loop E N left entry count s).1.rx_unmapped,
                 delivered := (stmmac_rx_loop E N left entry count s).1.delivered,
                 last_rx := (stmmac_rx_loop E N left entry count s).1.last_rx } ∧
      (stmmac_rx_loop E N left entry count s).1.rx_skbuff.length = s.rx_skbuff.length
  | 0, entry, count, s, hc => by
    refine ⟨0, le_refl _, rfl, ?_, rfl⟩
    rw [u32_add_zero_of_lt _ hc]
    rfl
  | left + 1, entry, count, s, hc => by
    rw [stmmac_rx_loop]
    by_cases h1 : E.ops.get_rx_owner (desc_at s.dma_rx entry) = true
    · rw [if_pos h1]
      refine ⟨0, Nat.zero_le _, rfl, ?_, rfl⟩
      rw [u32_add_zero_of_lt _ hc]
    · rw [if_neg h1]
      dsimp only
      obtain ⟨slots, st, xs, unm, dl, lr, hsh, hlen, _, _⟩ :=
        rx_frame_shape E entry { s with cur_rx := u32_add s.cur_rx 1 }
      generalize stmmac_rx_frame E entry { s with cur_rx := u32_add s.cur_rx 1 } = fr at *
      obtain ⟨s1, go⟩ := fr
      dsimp only at hsh ⊢
      subst hsh
      cases go with
      | false =>
        refine ⟨1, by omega, rfl, rfl, hlen⟩
      | true =>
        rw [if_pos rfl]
        obtain ⟨k, hk, e1, e2, e3⟩ := rx_loop_spec E N left (u32_add s.cur_rx 1 % N) (count + 1)
          { s with cur_rx := u32_add s.cur_rx 1, rx_skbuff := slots, stats := st, xstats := xs,
                   rx_unmapped := unm, delivered := dl, last_rx := lr } (u32_add_lt _ _)
        refine ⟨k + 1, by omega, by rw [e1]; omega, ?_, by rw [e3]; exact hlen⟩
        rw [e2]
        dsimp only
        rw [u32_add_succ, Nat.add_comm k 1]

/-- The refill loop touches only the slots, the DMA addresses, the
descriptors, `dirty_rx` and the count of allocator calls. -/
theorem refill_loop_frame (E : stmmac_rx_env) (N : Nat) (bf : Int) :
    ∀ (fuel : Nat) (s : stmmac_priv),
    stmmac_rx_refill_loop E N bf fuel s =
      { s with rx_skbuff := (stmmac_rx_refill_loop E N bf fuel s).rx_skbuff,
               rx_skbuff_dma := (stmmac_rx_refill_loop E N bf fuel s).rx_skbuff_dma,
               dma_rx := (stmmac_rx_refill_loop E N bf fuel s).dma_rx,
               dirty_rx := (stmmac_rx_refill_loop E N bf fuel s).dirty_rx,
               alloc_calls := (stmmac_rx_refill_loop E N bf fuel s).alloc_calls }
  | 0, s => rfl
  | fuel + 1, s => by
    rw [stmmac_rx_refill_loop]
    dsimp only
    by_cases h1 : u32_sub s.cur_rx s.dirty_rx > 0
    · rw [if_pos h1]
      by_cases h2 : (stmmac_rx_refill_one E N bf s).2 = true
      · rw [if_pos h2]
        obtain ⟨slots, addrs, d, calls, hshape, _, _⟩ := refill_one_go E N bf s h2
        have ih := refill_loop_frame E N bf fuel (stmmac_rx_refill_one E N bf s).1
        generalize (stmmac_rx_refill_one E N bf s).1 = s1 at *
        generalize stmmac_rx_refill_loop E N bf fuel s1 = r at *
        rw [ih, hshape]
      · rw [if_neg h2]
        have h2f : (stmmac_rx_refill_one E N bf s).2 = false := by
          cases h : (stmmac_rx_refill_one E N bf s).2
          · rfl
          · exact absurd h h2
        rw [(refill_one_stop E N bf s h2f).1]
    · rw [if_neg h1]

theorem refill_loop_cur (E : stmmac_rx_env) (N : Nat) (bf : Int) (fuel : Nat)
    (s : stmmac_priv) : (stmmac_rx_refill_loop E N bf fuel s).cur_rx = s.cur_rx := by
  rw [refill_loop_frame]

theorem u32_add_sub_cancel (c d : Nat) (hc : c < U32) : u32_add d (u32_sub c d) = c := by
  unfold u32_add u32_sub U32 at *; omega

/-- What a whole call of `stmmac_rx` leaves behind: `k` descriptors
processed, `j` slots refilled from `dirty_rx` on, each of them with a buffer
and a descriptor given back by `set_rx_owner`; the refill stops short only at
an empty slot after a failed allocation. -/
theorem stmmac_rx_spec (E : stmmac_rx_env) (s : stmmac_priv) (B : Int)
    (hN : 0 < s.dma_rx_size) (hl1 : s.rx_skbuff.length = s.dma_rx_size)
    (hl2 : s.dma_rx.length = s.dma_rx_size) (hc : s.cur_rx < U32) (hd : s.dirty_rx < U32) :
    ∃ k j, k ≤ int_to_u32 B ∧
      (stmmac_rx E s B).1.cur_rx = u32_add s.cur_rx k ∧
      j ≤ u32_sub (stmmac_rx E s B).1.cur_rx s.dirty_rx ∧
      (stmmac_rx E s B).1.dirty_rx = u32_add s.dirty_rx j ∧
      (stmmac_rx E s B).1.dma_rx_size = s.dma_rx_size ∧
      (stmmac_rx E s B).1.dma_intr_ena = s.dma_intr_ena ∧
      (stmmac_rx E s B).1.napi_scheduled = s.napi_scheduled ∧
      (∀ i, i < j →
        (skb_at (stmmac_rx E s B).1.rx_skbuff (u32_add s.dirty_rx i % s.dma_rx_size)).isSome
          = true ∧
        ∃ d, desc_at (stmmac_rx E s B).1.dma_rx (u32_add s.dirty_rx i % s.dma_rx_size)
          = E.ops.set_rx_owner d) ∧
      (j < u32_sub (stmmac_rx E s B).1.cur_rx s.dirty_rx →
        0 < (stmmac_rx E s B).1.alloc_calls ∧
        E.netdev_alloc_skb ((stmmac_rx E s B).1.alloc_calls - 1) (u32_to_int s.dma_buf_sz)
          = none) := by
  obtain ⟨k, hk, _, e2, e3⟩ :=
    rx_loop_spec E s.dma_rx_size (int_to_u32 B) (s.cur_rx % s.dma_rx_size) 0 s hc
  unfold stmmac_rx
  dsimp only
  generalize stmmac_rx_loop E s.dma_rx_size (int_to_u32 B) (s.cur_rx % s.dma_rx_size) 0 s
    = lp at *
  obtain ⟨s1, cnt⟩ := lp
  dsimp only at e2 e3 ⊢
  have h1 : s1.cur_rx = u32_add s.cur_rx k := by rw [e2]
  have h2 : s1.dirty_rx = s.dirty_rx := by rw [e2]
  have h3 : s1.dma_rx = s.dma_rx := by rw [e2]
  have h4 : s1.dma_rx_size = s.dma_rx_size := by rw [e2]
  have h5 : s1.dma_buf_sz = s.dma_buf_sz := by rw [e2]
  have h6 : s1.dma_intr_ena = s.dma_intr_ena := by rw [e2]
  have h7 : s1.napi_scheduled = s.napi_scheduled := by rw [e2]
  clear e2
  unfold stmmac_rx_refill
  dsimp only
  rw [h4, h5]
  obtain ⟨j, hj, f1, _, _, _, f5, _, _, _, f9, _, _⟩ :=
    refill_loop_spec E s.dma_rx_size (u32_to_int s.dma_buf_sz) hN
      (u32_sub s1.cur_rx s1.dirty_rx) s1 (by rw [e3, hl1]) (by rw [h3, hl2])
      (by rw [h2]; exact hd) rfl
  generalize stmmac_rx_refill_loop E s.dma_rx_size (u32_to_int s.dma_buf_sz)
    (u32_sub s1.cur_rx s1.dirty_rx) s1 = r at *
  have g1 : r.cur_rx = s1.cur_rx := by rw [f1]
  have g2 : r.dirty_rx = u32_add s1.dirty_rx j := by rw [f1]
  have g3 : r.dma_rx_size = s1.dma_rx_size := by rw [f1]
  have g4 : r.dma_intr_ena = s1.dma_intr_ena := by rw [f1]
  have g5 : r.napi_scheduled = s1.napi_scheduled := by rw [f1]
  clear f1
  rw [h2] at hj f5 f9 g2
  refine ⟨k, j, hk, by rw [g1, h1], by rw [g1]; exact hj, g2, by rw [g3, h4],
    by rw [g4, h6], by rw [g5, h7], f5, ?_⟩
  intro hlt
  rw [g1] at hlt
  exact (f9 hlt).2

/-- The operations `spec_rx_ops` give a descriptor to the hardware for good:
after `set_rx_owner`, `get_rx_owner` answers yes. -/
theorem spec_rx_owner (d : dma_desc) :
    spec_rx_env.ops.get_rx_owner (spec_rx_env.ops.set_rx_owner d) = true := by
  show (Nat.land (Nat.lor d.des01 DES0_OWN) DES0_OWN != 0) = true
  have h : Nat.land (Nat.lor d.des01 DES0_OWN) DES0_OWN = DES0_OWN := by
    apply Nat.eq_of_testBit_eq
    intro i
    show ((d.des01 ||| DES0_OWN) &&& DES0_OWN).testBit i = _
    simp only [Nat.testBit_lor, Nat.testBit_land]
    cases d.des01.testBit i <;> cases (DES0_OWN).testBit i <;> rfl
  rw [h]
  decide

/-- The frame loop does not look at its counter: starting one higher gives the
same state and a count one higher. -/
theorem rx_loop_count (E : stmmac_rx_env) (N : Nat) :
    ∀ (left entry count : Nat) (s : stmmac_priv),
    (stmmac_rx_loop E N left entry (count + 1) s).1 = (stmmac_rx_loop E N left entry count s).1 ∧
    (stmmac_rx_loop E N left entry (count + 1) s).2
      = (stmmac_rx_loop E N left entry count s).2 + 1
  | 0, entry, count, s => ⟨rfl, rfl⟩
  | left + 1, entry, count, s => by
    rw [stmmac_rx_loop, stmmac_rx_loop]
    by_cases h1 : E.ops.get_rx_owner (desc_at s.dma_rx entry) = true
    · rw [if_pos h1, if_pos h1]
      exact ⟨rfl, rfl⟩
    · rw [if_neg h1, if_neg h1]
      dsimp only
      by_cases h2 : (stmmac_rx_frame E entry { s with cur_rx := u32_add s.cur_rx 1 }).2 = true
      · rw [if_pos h2, if_pos h2]
        exact rx_loop_count E N left _ _ _
      · rw [if_neg h2, if_neg h2]
        exact ⟨rfl, rfl⟩

/-- The frame loop on a completed descriptor in error: the descriptor is
skipped, `rx_errors` counts it, and the loop goes on with the next one. -/
theorem rx_loop_discard_first (E : stmmac_rx_env) (N left entry : Nat) (s : stmmac_priv)
    (hdone : E.ops.get_rx_owner (desc_at s.dma_rx entry) = false)
    (hst : (E.ops.rx_status s.stats s.xstats (desc_at s.dma_rx entry)).2.2 = E.discard_frame) :
    stmmac_rx_loop E N (left + 1) entry 0 s =
      stmmac_rx_loop E N left (u32_add s.cur_rx 1 % N) 1
        { s with
          cur_rx := u32_add s.cur_rx 1
          stats := { (E.ops.rx_status s.stats s.xstats (desc_at s.dma_rx entry)).1 with
            rx_errors :=
              u32_add (E.ops.rx_status s.stats s.xstats (desc_at s.dma_rx entry)).1.rx_errors 1 }
          xstats := (E.ops.rx_status s.stats s.xstats (desc_at s.dma_rx entry)).2.1 } := by
  rw [stmmac_rx_loop, if_neg (by rw [hdone]; simp)]
  dsimp only
  rw [rx_frame_discard E entry { s with cur_rx := u32_add s.cur_rx 1 } hst]
  rfl

theorem int_to_u32_pred (B : Int) (h0 : 1 ≤ B) (h1 : B < 2147483648) :
    int_to_u32 B = int_to_u32 (B - 1) + 1 := by
  unfold int_to_u32 U32
  rw [Int.emod_eq_of_lt (by omega) (by omega), Int.emod_eq_of_lt (by omega) (by omega)]
  omega

theorem int_to_u32_le (B : Int) (h0 : 0 ≤ B) (h1 : B < 2147483648) :
    int_to_u32 B < 2147483648 := by
  unfold int_to_u32 U32
  rw [Int.emod_eq_of_lt (by omega) (by omega)]
  omega

theorem u32_to_int_succ (k : Nat) (h : k + 1 < 2147483648) :
    u32_to_int (k + 1) = u32_to_int k + 1 := by
  unfold u32_to_int U32
  rw [Nat.mod_eq_of_lt (by omega), Nat.mod_eq_of_lt (by omega), if_pos h, if_pos (by omega)]
  omega

theorem u32_pending_after (c d j k : Nat) (hc : c < U32)
    (hp : u32_sub c d < 2147483648) (hk : k < 2147483648)
    (hj : j ≤ u32_sub (u32_add (u32_add c 1) k) d)
    (he : u32_add d j = u32_add (u32_add c 1) k) : u32_sub c d < j := by
  unfold u32_sub u32_add U32 at *
  omega

/-! ## Lemmas about the interrupt handler -/

theorem free_step_length (E : stmmac_env) (i : Nat) (s : net_device) :
    (dma_free_tx_skbufs_step E i s).tx_skbuff.length = s.tx_skbuff.length := by
  unfold dma_free_tx_skbufs_step
  split
  · dsimp only
    split_ifs <;> simp
  · rfl

theorem free_loop_length (E : stmmac_env) : ∀ (k i : Nat) (s : net_device),
    (dma_free_tx_skbufs_loop E k i s).tx_skbuff.length = s.tx_skbuff.length
  | 0, _, _ => rfl
  | k + 1, i, s => by
    rw [dma_free_tx_skbufs_loop, free_loop_length E k (i + 1), free_step_length]

theorem tx_err_length (E : stmmac_env) (s : net_device) :
    (stmmac_tx_err E s).tx_skbuff.length = s.tx_skbuff.length := by
  simp only [stmmac_tx_err, netif_wake_queue, stmmac_dma_start_tx, dma_free_tx_skbufs]
  exact free_loop_length E _ 0 _

theorem tx_err_xstats (E : stmmac_env) (s : net_device) :
    (stmmac_tx_err E s).xstats = s.xstats := by
  obtain ⟨a, b, c, h⟩ := tx_err_shape E s
  rw [h]

theorem tx_err_start_bit (E : stmmac_env) (s : net_device) :
    Nat.land (stmmac_tx_err E s).dma_control DMA_CONTROL_ST = DMA_CONTROL_ST := by
  obtain ⟨a, b, c, h⟩ := tx_err_shape E s
  rw [h]
  dsimp only
  apply Nat.eq_of_testBit_eq
  intro i
  show ((_ ||| DMA_CONTROL_ST) &&& DMA_CONTROL_ST).testBit i = _
  simp only [Nat.testBit_lor, Nat.testBit_land]
  cases (u32_clear_bits s.dma_control DMA_CONTROL_ST).testBit i <;>
    cases (DMA_CONTROL_ST).testBit i <;> rfl

/-- The underflow branch: what it leaves of the interface. -/
theorem irq_unf_spec (H : dma_h) (E : stmmac_env) (d : stmmac_dev) :
    (stmmac_dma_irq_unf H E d).rx = d.rx ∧
    (stmmac_dma_irq_unf H E d).tx_task_scheduled = d.tx_task_scheduled ∧
    (stmmac_dma_irq_unf H E d).irq
      = { d.irq with tx_undeflow_irq := u32_add d.irq.tx_undeflow_irq 1 } ∧
    (stmmac_dma_irq_unf H E d).tx.dma_tx_size = d.tx.dma_tx_size ∧
    (stmmac_dma_irq_unf H E d).tx.tx_skbuff.length = d.tx.tx_skbuff.length ∧
    (stmmac_dma_irq_unf H E d).tx.xstats.threshold =
      (if d.tx.xstats.threshold ≠ H.SF_DMA_MODE ∧ d.tx.xstats.threshold ≤ 256 then
        u32_add d.tx.xstats.threshold 64 else d.tx.xstats.threshold) := by
  unfold stmmac_dma_irq_unf
  dsimp only
  split_ifs
  · exact ⟨rfl, rfl, rfl, (tx_err_post E _).2.2.1, tx_err_length E _,
      by rw [tx_err_xstats]⟩
  · exact ⟨rfl, rfl, rfl, (tx_err_post E _).2.2.1, tx_err_length E _,
      by rw [tx_err_xstats]⟩

/-- The branches that only count leave the other counters alone. -/
theorem irq_count_keeps (H : dma_h) (st : Nat) (y : irq_extra_stats) :
    (stmmac_dma_irq_count H st y).tx_process_stopped_irq = y.tx_process_stopped_irq ∧
    (stmmac_dma_irq_count H st y).fatal_bus_error_irq = y.fatal_bus_error_irq ∧
    (stmmac_dma_irq_count H st y).dma_rx_normal_irq = y.dma_rx_normal_irq ∧
    (stmmac_dma_irq_count H st y).dma_tx_normal_irq = y.dma_tx_normal_irq := by
  simp only [stmmac_dma_irq_count, apply_ite irq_extra_stats.tx_process_stopped_irq,
    apply_ite irq_extra_stats.fatal_bus_error_irq, apply_ite irq_extra_stats.dma_rx_normal_irq,
    apply_ite irq_extra_stats.dma_tx_normal_irq, ite_self, and_self]

/-- The abnormal part of the handler: the receive state and the tasklet are
not touched, the ring keeps its size, the threshold moves only on an
underflow, and after a stopped transmit process or a fatal bus error the
transmit state is the one `stmmac_tx_err` leaves. -/
theorem irq_abnormal_spec (H : dma_h) (E : stmmac_env) (st : Nat) (d : stmmac_dev) :
    (stmmac_dma_irq_abnormal H E st d).rx = d.rx ∧
    (stmmac_dma_irq_abnormal H E st d).tx_task_scheduled = d.tx_task_scheduled ∧
    (stmmac_dma_irq_abnormal H E st d).tx.dma_tx_size = d.tx.dma_tx_size ∧
    (stmmac_dma_irq_abnormal H E st d).tx.tx_skbuff.length = d.tx.tx_skbuff.length ∧
    (stmmac_dma_irq_abnormal H E st d).tx.xstats.threshold =
      (if Nat.land st H.DMA_STATUS_UNF ≠ 0 ∧
          d.tx.xstats.threshold ≠ H.SF_DMA_MODE ∧ d.tx.xstats.threshold ≤ 256 then
        u32_add d.tx.xstats.threshold 64 else d.tx.xstats.threshold) ∧
    (stmmac_dma_irq_abnormal H E st d).irq.tx_process_stopped_irq =
      (if Nat.land st H.DMA_STATUS_TPS ≠ 0 then u32_add d.irq.tx_process_stopped_irq 1
        else d.irq.tx_process_stopped_irq) ∧
    (stmmac_dma_irq_abnormal H E st d).irq.fatal_bus_error_irq =
      (if Nat.land st H.DMA_STATUS_FBI ≠ 0 then u32_add d.irq.fatal_bus_error_irq 1
        else d.irq.fatal_bus_error_irq) ∧
    (stmmac_dma_irq_abnormal H E st d).irq.dma_rx_normal_irq = d.irq.dma_rx_normal_irq ∧
    (stmmac_dma_irq_abnormal H E st d).irq.dma_tx_normal_irq = d.irq.dma_tx_normal_irq ∧
    (Nat.land st H.DMA_STATUS_TPS ≠ 0 ∨ Nat.land st H.DMA_STATUS_FBI ≠ 0 →
      ∃ t, (stmmac_dma_irq_abnormal H E st d).tx = stmmac_tx_err E t ∧
        t.dma_tx_size = d.tx.dma_tx_size ∧ t.tx_skbuff.length = d.tx.tx_skbuff.length) := by
  unfold stmmac_dma_irq_abnormal
  dsimp only
  have h1 : ∀ x : stmmac_dev,
      x = (if Nat.land st H.DMA_STATUS_UNF ≠ 0 then stmmac_dma_irq_unf H E d else d) →
      x.rx = d.rx ∧ x.tx_task_scheduled = d.tx_task_scheduled ∧
      x.tx.dma_tx_size = d.tx.dma_tx_size ∧ x.tx.tx_skbuff.length = d.tx.tx_skbuff.length ∧
      x.tx.xstats.threshold =
        (if Nat.land st H.DMA_STATUS_UNF ≠ 0 ∧
            d.tx.xstats.threshold ≠ H.SF_DMA_MODE ∧ d.tx.xstats.threshold ≤ 256 then
          u32_add d.tx.xstats.threshold 64 else d.tx.xstats.threshold) ∧
      x.irq.tx_process_stopped_irq = d.irq.tx_process_stopped_irq ∧
      x.irq.fatal_bus_error_irq = d.irq.fatal_bus_error_irq ∧
      x.irq.dma_rx_normal_irq = d.irq.dma_rx_normal_irq ∧
      x.irq.dma_tx_normal_irq = d.irq.dma_tx_normal_irq := by
    intro x hx
    by_cases hu : Nat.land st H.DMA_STATUS_UNF ≠ 0
    · rw [if_pos hu] at hx
      obtain ⟨a1, a2, a3, a4, a5, a6⟩ := irq_unf_spec H E d
      rw [hx, a3]
      refine ⟨a1, a2, a4, a5, ?_, rfl, rfl, rfl, rfl⟩
      rw [a6]
      by_cases hc : d.tx.xstats.threshold ≠ H.SF_DMA_MODE ∧ d.tx.xstats.threshold ≤ 256
      · rw [if_pos hc, if_pos ⟨hu, hc⟩]
      · rw [if_neg hc, if_neg (fun h => hc h.2)]
    · rw [if_neg hu] at hx
      rw [hx, if_neg (fun h => hu h.1)]
      exact ⟨rfl, rfl, rfl, rfl, rfl, rfl, rfl, rfl, rfl⟩
  obtain ⟨b1, b2, b3, b4, b5, b6, b7, b8, b9⟩ := h1 _ rfl
  generalize (if Nat.land st H.DMA_STATUS_UNF ≠ 0 then stmmac_dma_irq_unf H E d else d) = x at *
  obtain ⟨c1, c2, c3, c4⟩ := irq_count_keeps H st x.irq
  by_cases ht : Nat.land st H.DMA_STATUS_TPS ≠ 0
  · rw [if_pos ht, if_pos ht]
    by_cases hf : Nat.land st H.DMA_STATUS_FBI ≠ 0
    · rw [if_pos hf, if_pos hf]
      unfold stmmac_dma_irq_fbi stmmac_dma_irq_tps
      dsimp only
      refine ⟨b1, b2, ?_, ?_, ?_, by rw [c1, b6], by rw [c2, b7], by rw [c3, b8],
        by rw [c4, b9], fun _ => ⟨_, rfl, ?_, ?_⟩⟩
      · rw [(tx_err_post E _).2.2.1, (tx_err_post E _).2.2.1, b3]
      · rw [tx_err_length, tx_err_length, b4]
      · rw [tx_err_xstats, tx_err_xstats, b5]
      · rw [(tx_err_post E _).2.2.1, b3]
      · rw [tx_err_length, b4]
    · rw [if_neg hf, if_neg hf]
      unfold stmmac_dma_irq_tps
      dsimp only
      refine ⟨b1, b2, ?_, ?_, ?_, by rw [c1, b6], by rw [c2, b7], by rw [c3, b8],
        by rw [c4, b9], fun _ => ⟨_, rfl, b3, b4⟩⟩
      · rw [(tx_err_post E _).2.2.1, b3]
      · rw [tx_err_length, b4]
      · rw [tx_err_xstats, b5]
  · rw [if_neg ht, if_neg ht]
    by_cases hf : Nat.land st H.DMA_STATUS_FBI ≠ 0
    · rw [if_pos hf, if_pos hf]
      unfold stmmac_dma_irq_fbi
      dsimp only
      refine ⟨b1, b2, ?_, ?_, ?_, by rw [c1, b6], by rw [c2, b7], by rw [c3, b8],
        by rw [c4, b9], fun _ => ⟨_, rfl, b3, b4⟩⟩
      · rw [(tx_err_post E _).2.2.1, b3]
      · rw [tx_err_length, b4]
      · rw [tx_err_xstats, b5]
    · rw [if_neg hf, if_neg hf]
      exact ⟨b1, b2, b3, b4, b5, by rw [c1, b6], by rw [c2, b7], by rw [c3, b8],
        by rw [c4, b9], fun h => absurd h (by simp [ht, hf])⟩

/-- The normal part of the handler: the transmit state is not touched; a
receive interrupt masks the RX interrupt and schedules the poll, a transmit
interrupt schedules the tasklet. -/
theorem irq_normal_spec (H : dma_h) (st : Nat) (d : stmmac_dev) :
    (stmmac_dma_irq_normal H st d).tx = d.tx ∧
    (stmmac_dma_irq_normal H st d).rx =
      (if Nat.land st H.DMA_STATUS_RI ≠ 0 then stmmac_schedule_rx H d.rx else d.rx) ∧
    (stmmac_dma_irq_normal H st d).tx_task_scheduled =
      (if Nat.land st H.DMA_STATUS_TI ≠ 0 then true else d.tx_task_scheduled) ∧
    (stmmac_dma_irq_normal H st d).irq.dma_rx_normal_irq =
      (if Nat.land st H.DMA_STATUS_RI ≠ 0 then u32_add d.irq.dma_rx_normal_irq 1
        else d.irq.dma_rx_normal_irq) ∧
    (stmmac_dma_irq_normal H st d).irq.dma_tx_normal_irq =
      (if Nat.land st H.DMA_STATUS_TI ≠ 0 then u32_add d.irq.dma_tx_normal_irq 1
        else d.irq.dma_tx_normal_irq) ∧
    (stmmac_dma_irq_normal H st d).irq.tx_process_stopped_irq = d.irq.tx_process_stopped_irq ∧
    (stmmac_dma_irq_normal H st d).irq.fatal_bus_error_irq = d.irq.fatal_bus_error_irq := by
  unfold stmmac_dma_irq_normal
  dsimp only
  split_ifs <;> exact ⟨rfl, rfl, rfl, rfl, rfl, rfl, rfl⟩

/-- The threshold after one interrupt. -/
theorem irq_threshold (H : dma_h) (E : stmmac_env) (d : stmmac_dev) :
    (stmmac_dma_interrupt H E d).tx.xstats.threshold =
      (if Nat.land d.dma_status H.DMA_STATUS_AIS ≠ 0 ∧ Nat.land d.dma_status H.DMA_STATUS_UNF ≠ 0 ∧
          d.tx.xstats.threshold ≠ H.SF_DMA_MODE ∧ d.tx.xstats.threshold ≤ 256 then
        u32_add d.tx.xstats.threshold 64 else d.tx.xstats.threshold) := by
  have hn : ∀ x : stmmac_dev,
      (if Nat.land d.dma_status H.DMA_STATUS_NIS ≠ 0 then
        stmmac_dma_irq_normal H d.dma_status x else x).tx = x.tx := by
    intro x
    split_ifs
    · exact (irq_normal_spec H d.dma_status x).1
    · rfl
  unfold stmmac_dma_interrupt
  dsimp only
  rw [hn]
  by_cases ha : Nat.land d.dma_status H.DMA_STATUS_AIS ≠ 0
  · rw [if_pos ha, (irq_abnormal_spec H E d.dma_status _).2.2.2.2.1]
    dsimp only
    by_cases hc : Nat.land d.dma_status H.DMA_STATUS_UNF ≠ 0 ∧
        d.tx.xstats.threshold ≠ H.SF_DMA_MODE ∧ d.tx.xstats.threshold ≤ 256
    · rw [if_pos hc, if_pos ⟨ha, hc⟩]
    · rw [if_neg hc, if_neg (fun h => hc h.2)]
  · rw [if_neg ha, if_neg (fun h => ha h.1)]

/-- A threshold above 256 stays where it is over a run of interrupts. -/
theorem irqs_threshold_high (H : dma_h) (E : stmmac_env) : ∀ (sts : List Nat) (d : stmmac_dev),
    256 < d.tx.xstats.threshold →
    (stmmac_dma_interrupts H E sts d).tx.xstats.threshold = d.tx.xstats.threshold
  | [], _, _ => rfl
  | st :: rest, d, h => by
    rw [stmmac_dma_interrupts]
    have h1 := irq_threshold H E { d with dma_status := st }
    rw [if_neg (fun hc => by have := hc.2.2.2; dsimp only at this; omega)] at h1
    rw [irqs_threshold_high H E rest _ (by rw [h1]; exact h), h1]

/-- The threshold after a run of underflow interrupts, in closed form. -/
theorem irqs_threshold (H : dma_h) (E : stmmac_env) (hSF : H.SF_DMA_MODE < 64) :
    ∀ (sts : List Nat) (d : stmmac_dev),
    (∀ x ∈ sts, Nat.land x H.DMA_STATUS_AIS ≠ 0 ∧ Nat.land x H.DMA_STATUS_UNF ≠ 0) →
    d.tx.xstats.threshold ≤ 256 → d.tx.xstats.threshold ≠ H.SF_DMA_MODE →
    (stmmac_dma_interrupts H E sts d).tx.xstats.threshold =
      d.tx.xstats.threshold + 64 * min sts.length ((256 - d.tx.xstats.threshold) / 64 + 1)
  | [], _, _, _, _ => by
    rw [stmmac_dma_interrupts, List.length_nil, Nat.zero_min, Nat.mul_zero, Nat.add_zero]
  | st :: rest, d, hall, ht, hne => by
    rw [stmmac_dma_interrupts]
    have h1 := irq_threshold H E { d with dma_status := st }
    have hbits := hall st (List.mem_cons_self _ _)
    rw [if_pos ⟨hbits.1, hbits.2, hne, ht⟩] at h1
    dsimp only at h1
    have h2 : u32_add d.tx.xstats.threshold 64 = d.tx.xstats.threshold + 64 := by
      unfold u32_add U32; omega
    rw [h2] at h1
    by_cases hh : d.tx.xstats.threshold + 64 ≤ 256
    · rw [irqs_threshold H E hSF rest _ (fun x hx => hall x (List.mem_cons_of_mem _ hx))
        (by rw [h1]; exact hh) (by rw [h1]; omega), h1, List.length_cons]
      omega
    · rw [irqs_threshold_high H E rest _ (by rw [h1]; omega), h1, List.length_cons]
      omega

/-- The frame loop touches neither the interrupt mask nor the NAPI state. -/
theorem rx_loop_keeps (E : stmmac_rx_env) (N : Nat) :
    ∀ (left entry count : Nat) (s : stmmac_priv),
    (stmmac_rx_loop E N left entry count s).1.dma_intr_ena = s.dma_intr_ena ∧
    (stmmac_rx_loop E N left entry count s).1.napi_scheduled = s.napi_scheduled ∧
    (stmmac_rx_loop E N left entry count s).1.dirty_rx = s.dirty_rx ∧
    (stmmac_rx_loop E N left entry count s).1.dma_rx_size = s.dma_rx_size ∧
    (stmmac_rx_loop E N left entry count s).1.dma_buf_sz = s.dma_buf_sz
  | 0, _, _, _ => ⟨rfl, rfl, rfl, rfl, rfl⟩
  | left + 1, entry, count, s => by
    rw [stmmac_rx_loop]
    by_cases h1 : E.ops.get_rx_owner (desc_at s.dma_rx entry) = true
    · rw [if_pos h1]
      exact ⟨rfl, rfl, rfl, rfl, rfl⟩
    · rw [if_neg h1]
      dsimp only
      obtain ⟨slots, st, xs, unm, dl, lr, hsh, _, _, _⟩ :=
        rx_frame_shape E entry { s with cur_rx := u32_add s.cur_rx 1 }
      generalize stmmac_rx_frame E entry { s with cur_rx := u32_add s.cur_rx 1 } = fr at *
      obtain ⟨s1, go⟩ := fr
      dsimp only at hsh ⊢
      subst hsh
      cases go with
      | false => exact ⟨rfl, rfl, rfl, rfl, rfl⟩
      | true =>
        rw [if_pos rfl]
        exact rx_loop_keeps E N left _ _ _

/-- A call of `stmmac_rx` touches neither the interrupt mask nor the NAPI
state. -/
theorem stmmac_rx_keeps (E : stmmac_rx_env) (s : stmmac_priv) (B : Int) :
    (stmmac_rx E s B).1.dma_intr_ena = s.dma_intr_ena ∧
    (stmmac_rx E s B).1.napi_scheduled = s.napi_scheduled := by
  obtain ⟨h1, h2, _⟩ := rx_loop_keeps E s.dma_rx_size (int_to_u32 B)
    (s.cur_rx % s.dma_rx_size) 0 s
  unfold stmmac_rx stmmac_rx_refill
  dsimp only
  rw [refill_loop_frame]
  exact ⟨h1, h2⟩

/-- The handler as a whole, receive side and tasklet. -/
theorem irq_spec_normal (H : dma_h) (E : stmmac_env) (d : stmmac_dev) :
    (stmmac_dma_interrupt H E d).rx =
      (if Nat.land d.dma_status H.DMA_STATUS_NIS ≠ 0 ∧ Nat.land d.dma_status H.DMA_STATUS_RI ≠ 0
        then stmmac_schedule_rx H d.rx else d.rx) ∧
    (stmmac_dma_interrupt H E d).tx_task_scheduled =
      (if Nat.land d.dma_status H.DMA_STATUS_NIS ≠ 0 ∧ Nat.land d.dma_status H.DMA_STATUS_TI ≠ 0
        then true else d.tx_task_scheduled) ∧
    (stmmac_dma_interrupt H E d).irq.dma_rx_normal_irq =
      (if Nat.land d.dma_status H.DMA_STATUS_NIS ≠ 0 ∧ Nat.land d.dma_status H.DMA_STATUS_RI ≠ 0
        then u32_add d.irq.dma_rx_normal_irq 1 else d.irq.dma_rx_normal_irq) ∧
    (stmmac_dma_interrupt H E d).irq.dma_tx_normal_irq =
      (if Nat.land d.dma_status H.DMA_STATUS_NIS ≠ 0 ∧ Nat.land d.dma_status H.DMA_STATUS_TI ≠ 0
        then u32_add d.irq.dma_tx_normal_irq 1 else d.irq.dma_tx_normal_irq) := by
  unfold stmmac_dma_interrupt
  dsimp only
  have ha : ∀ x : stmmac_dev,
      x = (if Nat.land d.dma_status H.DMA_STATUS_AIS ≠ 0 then
        stmmac_dma_irq_abnormal H E d.dma_status
          { d with dma_status_written := d.dma_status_written ++ [Nat.land d.dma_status 0x1ffff] }
        else { d with
          dma_status_written := d.dma_status_written ++ [Nat.land d.dma_status 0x1ffff] }) →
      x.rx = d.rx ∧ x.tx_task_scheduled = d.tx_task_scheduled ∧
      x.irq.dma_rx_normal_irq = d.irq.dma_rx_normal_irq ∧
      x.irq.dma_tx_normal_irq = d.irq.dma_tx_normal_irq := by
    intro x hx
    rw [hx]
    split_ifs
    · obtain ⟨a1, a2, _, _, _, _, _, a8, a9, _⟩ := irq_abnormal_spec H E d.dma_status
        { d with dma_status_written := d.dma_status_written ++ [Nat.land d.dma_status 0x1ffff] }
      exact ⟨a1, a2, a8, a9⟩
    · exact ⟨rfl, rfl, rfl, rfl⟩
  obtain ⟨b1, b2, b3, b4⟩ := ha _ rfl
  generalize (if Nat.land d.dma_status H.DMA_STATUS_AIS ≠ 0 then
        stmmac_dma_irq_abnormal H E d.dma_status
          { d with dma_status_written := d.dma_status_written ++ [Nat.land d.dma_status 0x1ffff] }
        else { d with
          dma_status_written := d.dma_status_written ++ [Nat.land d.dma_status 0x1ffff] }) = x
    at *
  by_cases hn : Nat.land d.dma_status H.DMA_STATUS_NIS ≠ 0
  · rw [if_pos hn]
    obtain ⟨_, c2, c3, c4, c5, _, _⟩ := irq_normal_spec H d.dma_status x
    rw [c2, c3, c4, c5, b1, b2, b3, b4]
    simp only [hn, ne_eq, not_false_eq_true, true_and, and_self]
  · rw [if_neg hn, b1, b2, b3, b4]
    simp only [hn, false_and, if_false, and_self]

/-- The handler as a whole, transmit side: after an abnormal interrupt with
the transmit process stopped or a fatal bus error, the transmit state is one
that `stmmac_tx_err` has left. -/
theorem irq_spec_tx (H : dma_h) (E : stmmac_env) (d : stmmac_dev)
    (hA : Nat.land d.dma_status H.DMA_STATUS_AIS ≠ 0)
    (hF : Nat.land d.dma_status H.DMA_STATUS_TPS ≠ 0 ∨
      Nat.land d.dma_status H.DMA_STATUS_FBI ≠ 0) :
    (∃ t, (stmmac_dma_interrupt H E d).tx = stmmac_tx_err E t ∧
      t.dma_tx_size = d.tx.dma_tx_size ∧ t.tx_skbuff.length = d.tx.tx_skbuff.length) ∧
    (stmmac_dma_interrupt H E d).irq.tx_process_stopped_irq =
      (if Nat.land d.dma_status H.DMA_STATUS_TPS ≠ 0 then
        u32_add d.irq.tx_process_stopped_irq 1 else d.irq.tx_process_stopped_irq) ∧
    (stmmac_dma_interrupt H E d).irq.fatal_bus_error_irq =
      (if Nat.land d.dma_status H.DMA_STATUS_FBI ≠ 0 then
        u32_add d.irq.fatal_bus_error_irq 1 else d.irq.fatal_bus_error_irq) := by
  unfold stmmac_dma_interrupt
  dsimp only
  rw [if_pos hA]
  obtain ⟨_, _, _, _, _, a6, a7, _, _, a10⟩ := irq_abnormal_spec H E d.dma_status
    { d with dma_status_written := d.dma_status_written ++ [Nat.land d.dma_status 0x1ffff] }
  obtain ⟨t, ht, hs, hl⟩ := a10 hF
  generalize stmmac_dma_irq_abnormal H E d.dma_status
    { d with dma_status_written := d.dma_status_written ++ [Nat.land d.dma_status 0x1ffff] } = x
    at *
  by_cases hn : Nat.land d.dma_status H.DMA_STATUS_NIS ≠ 0
  · rw [if_pos hn]
    obtain ⟨c1, _, _, _, _, c6, c7⟩ := irq_normal_spec H d.dma_status x
    rw [c1, c6, c7]
    exact ⟨⟨t, ht, hs, hl⟩, a6, a7⟩
  · rw [if_neg hn]
    exact ⟨⟨t, ht, hs, hl⟩, a6, a7⟩

/-! ## Lemmas about bring-up -/

theorem init_rx_slot_shape (R : stmmac_rx_env) (bf : Nat) (b2 : Bool) (i : Nat) (skb : sk_buff)
    (s : stmmac_priv) :
    ∃ addrs ring, init_rx_slot R bf b2 i skb s =
      { s with rx_skbuff := s.rx_skbuff.set i (some (skb_reserve skb R.NET_IP_ALIGN)),
               rx_skbuff_dma := addrs, dma_rx := ring } := by
  unfold init_rx_slot
  dsimp only
  split_ifs
  · exact ⟨_, _, rfl⟩
  · exact ⟨_, _, rfl⟩

/-- The RX initialisation loop: it stops at an index `i'` between `i` and
`i + k`, short of `i + k` only after a failed allocation; the slots from `i`
to `i'` hold a buffer; nothing but slots, addresses, descriptors and the
count of allocator calls changes. -/
theorem init_rx_loop_spec (R : stmmac_rx_env) (bf : Nat) (b2 : Bool) :
    ∀ (k i : Nat) (s : stmmac_priv),
    i ≤ (init_rx_loop R bf b2 k i s).2 ∧ (init_rx_loop R bf b2 k i s).2 ≤ i + k ∧
    (init_rx_loop R bf b2 k i s).1 =
      { s with rx_skbuff := (init_rx_loop R bf b2 k i s).1.rx_skbuff,
               rx_skbuff_dma := (init_rx_loop R bf b2 k i s).1.rx_skbuff_dma,
               dma_rx := (init_rx_loop R bf b2 k i s).1.dma_rx,
               alloc_calls := (init_rx_loop R bf b2 k i s).1.alloc_calls } ∧
    (init_rx_loop R bf b2 k i s).1.rx_skbuff.length = s.rx_skbuff.length ∧
    ((init_rx_loop R bf b2 k i s).2 < i + k →
      0 < (init_rx_loop R bf b2 k i s).1.alloc_calls ∧
      R.netdev_alloc_skb ((init_rx_loop R bf b2 k i s).1.alloc_calls - 1) bf = none) ∧
    ((∀ c len, (R.netdev_alloc_skb c len).isSome = true) →
      (init_rx_loop R bf b2 k i s).2 = i + k) ∧
    (∀ j, j < (init_rx_loop R bf b2 k i s).2 → j < s.rx_skbuff.length →
      (i ≤ j ∨ (skb_at s.rx_skbuff j).isSome = true) →
      (skb_at (init_rx_loop R bf b2 k i s).1.rx_skbuff j).isSome = true)
  | 0, i, s => ⟨le_refl _, le_refl _, rfl, rfl, fun h => absurd h (lt_irrefl _), fun _ => rfl,
      fun j hj _ h => by
        rcases h with h | h
        · exact absurd hj (by simp only [init_rx_loop]; omega)
        · exact h⟩
  | k + 1, i, s => by
    rw [init_rx_loop]
    cases ha : R.netdev_alloc_skb s.alloc_calls bf with
    | none =>
      dsimp only
      refine ⟨le_refl _, by omega, rfl, rfl, fun _ => ⟨Nat.succ_pos _, ha⟩, fun h => ?_,
        fun j hj _ h => ?_⟩
      · have := h s.alloc_calls bf
        rw [ha] at this
        exact absurd this (by simp)
      · rcases h with h | h
        · omega
        · exact h
    | some skb =>
      dsimp only
      obtain ⟨addrs, ring, hsh⟩ := init_rx_slot_shape R bf b2 i skb
        { s with alloc_calls := s.alloc_calls + 1 }
      obtain ⟨h1, h2, h3, h4, h5, h6, h7⟩ := init_rx_loop_spec R bf b2 k (i + 1)
        (init_rx_slot R bf b2 i skb { s with alloc_calls := s.alloc_calls + 1 })
      generalize init_rx_loop R bf b2 k (i + 1)
        (init_rx_slot R bf b2 i skb { s with alloc_calls := s.alloc_calls + 1 }) = r at *
      rw [hsh] at h3 h4 h7
      dsimp only at h4 h7
      rw [List.length_set] at h4 h7
      refine ⟨by omega, by omega, by rw [h3], h4, fun h => h5 (by omega),
        fun h => by rw [h6 h]; omega, fun j hj hl h => ?_⟩
      apply h7 j hj hl
      by_cases hji : j = i
      · right
        rw [hji, skb_at_set_self _ _ _ (by omega)]
        rfl
      · rcases h with h | h
        · left; omega
        · right; rw [skb_at_set_ne _ _ _ _ hji]; exact h

/-- The receive half of ring initialisation: `cur_rx` is 0, `dirty_rx` is
`i - rxsize` for the number `i` of buffers allocated, and the first `i` slots
hold a buffer. -/
theorem init_rings_rx_spec (R : stmmac_rx_env) (bf : Nat) (rc : Int) (s : stmmac_priv)
    (hl : s.rx_skbuff.length = s.dma_rx_size) :
    (init_dma_desc_rings_rx R bf rc s).cur_rx = 0 ∧
    (init_dma_desc_rings_rx R bf rc s).dma_rx_size = s.dma_rx_size ∧
    (init_dma_desc_rings_rx R bf rc s).dma_buf_sz = bf ∧
    ∃ i, i ≤ s.dma_rx_size ∧
      (init_dma_desc_rings_rx R bf rc s).dirty_rx = u32_sub i s.dma_rx_size ∧
      (∀ j, j < i → (skb_at (init_dma_desc_rings_rx R bf rc s).rx_skbuff j).isSome = true) ∧
      (i < s.dma_rx_size →
        0 < (init_dma_desc_rings_rx R bf rc s).alloc_calls ∧
        R.netdev_alloc_skb ((init_dma_desc_rings_rx R bf rc s).alloc_calls - 1) bf = none) ∧
      ((∀ c len, (R.netdev_alloc_skb c len).isSome = true) → i = s.dma_rx_size) := by
  obtain ⟨_, h2, h3, h4, h5, h6, h7⟩ :=
    init_rx_loop_spec R bf (decide (bf ≥ BUF_SIZE_8KiB)) s.dma_rx_size 0 s
  unfold init_dma_desc_rings_rx
  dsimp only
  generalize init_rx_loop R bf (decide (bf ≥ BUF_SIZE_8KiB)) s.dma_rx_size 0 s = r at *
  have hsz : r.1.dma_rx_size = s.dma_rx_size := by rw [h3]
  rw [Nat.zero_add] at h2 h5 h6
  refine ⟨rfl, hsz, rfl, r.2, h2, rfl, fun j hj => h7 j hj (by omega) (Or.inl (Nat.zero_le _)),
    h5, h6⟩

theorem land_lor_self (x b : Nat) : Nat.land (Nat.lor x b) b = b := by
  apply Nat.eq_of_testBit_eq
  intro i
  show ((x ||| b) &&& b).testBit i = _
  simp only [Nat.testBit_lor, Nat.testBit_land]
  cases x.testBit i <;> cases b.testBit i <;> rfl

theorem land_lor_lor_self (x a b : Nat) : Nat.land (Nat.lor (Nat.lor x a) b) a = a := by
  apply Nat.eq_of_testBit_eq
  intro i
  show (((x ||| a) ||| b) &&& a).testBit i = _
  simp only [Nat.testBit_lor, Nat.testBit_land]
  cases x.testBit i <;> cases a.testBit i <;> cases b.testBit i <;> rfl

theorem open_mac_spec (n : stmmac_iface) :
    (∃ new, (stmmac_open_mac n).calls = n.calls ++ new) ∧
    (stmmac_open_mac n).dev.rx = { n.dev.rx with xstats := ⟨0, 0, 0⟩ } ∧
    (stmmac_open_mac n).phydev = n.phydev := by
  unfold stmmac_open_mac
  dsimp only
  exact ⟨⟨_, List.append_assoc _ _ _⟩, rfl, rfl⟩

theorem open_mode_spec (E : open_env) (n : stmmac_iface) :
    (stmmac_dma_operation_mode E n).calls = n.calls ∧
    (stmmac_dma_operation_mode E n).dev.rx = n.dev.rx ∧
    (stmmac_dma_operation_mode E n).phydev = n.phydev := by
  unfold stmmac_dma_operation_mode
  dsimp only
  split_ifs <;> exact ⟨rfl, rfl, rfl⟩

theorem open_dma_start_spec (E : open_env) (n : stmmac_iface) :
    (∃ new, (stmmac_open_dma_start E n).calls = n.calls ++ new ∧
      open_call.stmmac_dma_start_tx ∈ new ∧ open_call.stmmac_dma_start_rx ∈ new) ∧
    (∃ ts, (stmmac_open_dma_start E n).dev.rx = { n.dev.rx with timer_starts := ts }) ∧
    (stmmac_open_dma_start E n).phydev = n.phydev ∧
    (stmmac_open_dma_start E n).dev.tx = stmmac_dma_start_rx (stmmac_dma_start_tx n.dev.tx) := by
  unfold stmmac_open_dma_start
  dsimp only
  split_ifs
  · exact ⟨⟨_, List.append_assoc _ _ _, by simp, by simp⟩, ⟨_, rfl⟩, rfl, rfl⟩
  · exact ⟨⟨_, rfl, by simp, by simp⟩, ⟨_, rfl⟩, rfl, rfl⟩

theorem open_finish_spec (n : stmmac_iface) :
    (∃ new, (stmmac_open_finish n).calls = n.calls ++ new ∧
      open_call.netif_start_queue ∈ new) ∧
    (stmmac_open_finish n).dev.rx = n.dev.rx ∧
    (stmmac_open_finish n).dev.tx = netif_start_queue n.dev.tx := by
  unfold stmmac_open_finish
  dsimp only
  split_ifs
  · refine ⟨⟨[open_call.tasklet_init, open_call.phy_start, open_call.napi_enable,
      open_call.netif_start_queue], by simp, by simp⟩, rfl, rfl⟩
  · refine ⟨⟨[open_call.tasklet_init, open_call.napi_enable, open_call.netif_start_queue],
      by simp, by simp⟩, rfl, rfl⟩

/-- The last part of `stmmac_open`: it starts the DMA in both directions and
the queue, and leaves the receive ring as `init_dma_desc_rings` built it. -/
theorem open_start_spec (E : open_env) (n : stmmac_iface) :
    (∃ new, (stmmac_open_start E n).calls = n.calls ++ new ∧
      open_call.stmmac_dma_start_tx ∈ new ∧ open_call.stmmac_dma_start_rx ∈ new ∧
      open_call.netif_start_queue ∈ new) ∧
    (stmmac_open_start E n).dev.tx.queue_stopped = false ∧
    Nat.land (stmmac_open_start E n).dev.tx.dma_control DMA_CONTROL_ST = DMA_CONTROL_ST ∧
    Nat.land (stmmac_open_start E n).dev.tx.dma_control DMA_CONTROL_SR = DMA_CONTROL_SR ∧
    ∃ xs ts, (stmmac_open_start E n).dev.rx = { n.dev.rx with xstats := xs, timer_starts := ts } := by
  unfold stmmac_open_start
  dsimp only
  obtain ⟨⟨l1, a1⟩, a2, _⟩ := open_mac_spec n
  generalize stmmac_open_mac n = n1 at *
  obtain ⟨b1, b2, _⟩ := open_mode_spec E n1
  generalize stmmac_dma_operation_mode E n1 = n2 at *
  obtain ⟨⟨l3, c1, c2, c3⟩, ⟨ts, c4⟩, _, c6⟩ := open_dma_start_spec E n2
  generalize stmmac_open_dma_start E n2 = n3 at *
  obtain ⟨⟨l4, d1, d2⟩, d3, d4⟩ := open_finish_spec n3
  generalize stmmac_open_finish n3 = n4 at *
  refine ⟨⟨l1 ++ (l3 ++ l4), ?_, ?_, ?_, ?_⟩, ?_, ?_, ?_, ⟨⟨0, 0, 0⟩, ts, ?_⟩⟩
  · rw [d1, c1, b1, a1, List.append_assoc, List.append_assoc]
  · simp [c2]
  · simp [c3]
  · simp [d2]
  · rw [d4]; rfl
  · rw [d4, c6]
    exact land_lor_lor_self _ _ _
  · rw [d4, c6]
    exact land_lor_self _ _
  · rw [d3, c4, b2, a2]

theorem init_rings_ok (E : open_env) (n : stmmac_iface)
    (hrx : E.dma_alloc_rx = true) (htx : E.dma_alloc_tx = true) :
    init_dma_desc_rings E n =
      { n with
        dev := { n.dev with
          rx := init_dma_desc_rings_rx E.rx (mtu_bfsize n.mtu) n.params.rx_coalesce
            { n.dev.rx with
              rx_skbuff_dma := (List.range n.dev.rx.dma_rx_size).map E.kmalloc_rx_skbuff_dma
              rx_skbuff := (List.range n.dev.rx.dma_rx_size).map E.kmalloc_rx_skbuff
              dma_rx := (List.range n.dev.rx.dma_rx_size).map E.coherent_rx }
          tx := init_dma_desc_rings_tx E.tx
            { n.dev.tx with
              tx_skbuff := (List.range n.dev.tx.dma_tx_size).map E.tx.kmalloc_tx_skbuff
              dma_tx := (List.range n.dev.tx.dma_tx_size).map E.tx.coherent_tx } }
        params := { n.params with buf_sz := mtu_bfsize n.mtu } } := by
  unfold init_dma_desc_rings
  simp only [hrx, htx, Bool.not_true, Bool.or_self, if_true, Bool.false_eq_true, if_false]

theorem init_phy_spec (E : open_env) (n : stmmac_iface) :
    (∃ new, (stmmac_init_phy E n).1.calls = n.calls ++ new ∧
      ∀ c ∈ new, c = open_call.phy_connect ∨ c = open_call.phy_disconnect) ∧
    (stmmac_init_phy E n).1.params = n.params ∧
    (stmmac_init_phy E n).1.mtu = n.mtu := by
  unfold stmmac_init_phy
  split_ifs
  · exact ⟨⟨[], by simp, by simp⟩, rfl, rfl⟩
  · dsimp only
    split
    · exact ⟨⟨[open_call.phy_connect], rfl, by simp⟩, rfl, rfl⟩
    · split_ifs
      · exact ⟨⟨[open_call.phy_connect, open_call.phy_disconnect], by simp, by simp⟩, rfl, rfl⟩
      · exact ⟨⟨[open_call.phy_connect], rfl, by simp⟩, rfl, rfl⟩

theorem open_timer_spec (E : open_env) (n : stmmac_iface) :
    (∃ new, (stmmac_open_timer E n).1.calls = n.calls ++ new ∧
      ∀ c ∈ new, c = open_call.kmalloc_tm ∨ c = open_call.stmmac_open_hw_timer) ∧
    (stmmac_open_timer E n).2 = E.kmalloc_tm ∧
    (stmmac_open_timer E n).1.params.dma_rxsize = n.params.dma_rxsize ∧
    (stmmac_open_timer E n).1.mtu = n.mtu := by
  unfold stmmac_open_timer
  dsimp only
  by_cases hk : E.kmalloc_tm = true
  · rw [if_neg (by rw [hk]; simp)]
    split_ifs
    · exact ⟨⟨[open_call.kmalloc_tm, open_call.stmmac_open_hw_timer], by simp, by simp⟩,
        hk.symm, rfl, rfl⟩
    · exact ⟨⟨[open_call.kmalloc_tm, open_call.stmmac_open_hw_timer], by simp, by simp⟩,
        hk.symm, rfl, rfl⟩
  · have hk2 : E.kmalloc_tm = false := by
      cases h : E.kmalloc_tm
      · rfl
      · exact absurd h hk
    rw [if_pos (by rw [hk2]; rfl)]
    exact ⟨⟨[open_call.kmalloc_tm], rfl, by simp⟩, hk2.symm, rfl, rfl⟩

/-! ## Lemmas about ring indices, buffer sizes and the timer -/

theorem u32_add_mod_dvd (N c k : Nat) (h : N ∣ U32) : u32_add c k % N = (c + k) % N := by
  unfold u32_add
  exact Nat.mod_mod_of_dvd _ h

theorem u32_sub_mod_dvd (N i : Nat) (h : N ∣ U32) (hi : i ≤ N) (hN : N ≤ U32) :
    u32_sub i N % N = i % N := by
  obtain ⟨q, hq⟩ := h
  unfold u32_sub
  rw [Nat.mod_mod_of_dvd _ ⟨q, hq⟩]
  by_cases h1 : N = U32
  · subst h1
    simp
  · have h2 : N < U32 := lt_of_le_of_ne hN h1
    have h3 : i < U32 ∨ i = N := by omega
    rw [Nat.mod_eq_of_lt h2]
    rcases Nat.lt_or_ge i U32 with h4 | h4
    · rw [Nat.mod_eq_of_lt h4]
      have : i + U32 - N = i + N * (q - 1) := by
        have hq1 : 1 ≤ q := by
          rcases q with _ | q
          · simp [U32] at hq
          · omega
        have : N * q = N * (q - 1) + N := by
          conv_lhs => rw [show q = (q - 1) + 1 by omega]
          rw [Nat.mul_add, Nat.mul_one]
        omega
      rw [this, Nat.add_mul_mod_self_left]
    · omega

theorem mtu_bfsize_cases (mtu : Nat) :
    mtu_bfsize mtu =
      if mtu < 2048 then 2048 else if mtu < 4096 then 4096 else if mtu < 8192 then 8192
      else 16384 := by
  unfold mtu_bfsize DMA_BUFFER_SIZE BUF_SIZE_2KiB BUF_SIZE_4KiB BUF_SIZE_8KiB BUF_SIZE_16KiB
  split_ifs <;> omega

theorem timer_work_reads_rx (H : dma_h) (E : stmmac_env) (R : stmmac_rx_env) (d : stmmac_dev) :
    (stmmac_timer_work H E R d).1.tx_task_scheduled =
      (d.tx_task_scheduled ||
        !E.ops.get_tx_owner (desc_at d.rx.dma_rx (d.tx.dirty_tx % d.tx.dma_tx_size))) := by
  unfold stmmac_timer_work
  dsimp only
  cases h1 : R.ops.get_rx_owner (desc_at d.rx.dma_rx (d.rx.cur_rx % d.rx.dma_rx_size)) <;>
    cases h2 : E.ops.get_tx_owner (desc_at d.rx.dma_rx (d.tx.dirty_tx % d.tx.dma_tx_size)) <;>
    simp [stmmac_schedule_rx, stmmac_dma_disable_irq_rx, h2]

/-! ## Exact effect of a submission -/

theorem xmit_head_exact (E : stmmac_env) (skb : sk_buff) (c : Nat) (s : net_device) :
    ∃ ring,
      stmmac_xmit_head E skb c s =
        ({ s with
            cur_tx := if head_is_split skb then u32_add s.cur_tx 1 else s.cur_tx
            tx_skbuff := clear_slots s.dma_tx_size (if head_is_split skb then 1 else 0) s.cur_tx
              (s.tx_skbuff.set (s.cur_tx % s.dma_tx_size) (some skb))
            dma_tx := ring
            tx_trace := s.tx_trace ++ head_writes s.dma_tx_size s.cur_tx skb },
          (if head_is_split skb then u32_add s.cur_tx 1 else s.cur_tx) % s.dma_tx_size) := by
  refine ⟨(stmmac_xmit_head E skb c s).1.dma_tx, ?_⟩
  by_cases hlen : skb.len ≥ BUF_SIZE_4KiB
  · by_cases h8 : skb_headlen skb > BUF_SIZE_8KiB
    · simp [stmmac_xmit_head, stmmac_handle_jumbo_frames, head_writes, head_is_split, h8, hlen,
        tx_write, clear_slots]
    · simp [stmmac_xmit_head, stmmac_handle_jumbo_frames, head_writes, head_is_split, h8, hlen,
        tx_write, clear_slots]
  · simp [stmmac_xmit_head, head_writes, head_is_split, hlen, tx_write, clear_slots]

theorem xmit_frags_exact (E : stmmac_env) (c N : Nat) :
    ∀ (frags : List skb_frag_t) (s : net_device) (e : Nat), e = s.cur_tx % N →
      ∃ cur ring,
        stmmac_xmit_frags E c N frags s e =
          ({ s with cur_tx := cur, tx_skbuff := clear_slots N frags.length s.cur_tx s.tx_skbuff,
                    dma_tx := ring,
                    tx_trace := s.tx_trace ++ frag_writes N s.cur_tx frags.length },
            cur % N) ∧
        cur % U32 = (s.cur_tx + frags.length) % U32
  | [], s, e, he => ⟨s.cur_tx, s.dma_tx, by simp [stmmac_xmit_frags, frag_writes, he, clear_slots], by simp⟩
  | frag :: frags, s, e, he => by
    rw [stmmac_xmit_frags]
    dsimp only
    obtain ⟨cur, ring, h1, h2⟩ := xmit_frags_exact E c N frags
      (tx_write (.set_tx_owner (u32_add s.cur_tx 1 % N)) E.ops.set_tx_owner
        (tx_write (.prepare_tx_desc (u32_add s.cur_tx 1 % N))
          (fun d => E.ops.prepare_tx_desc d 0 frag.size c)
          { tx_write (.des2 (u32_add s.cur_tx 1 % N))
              (fun d => { d with des2 := E.dma_map_page frag.page frag.page_offset frag.size })
              { s with cur_tx := u32_add s.cur_tx 1 } with
            tx_skbuff := (tx_write (.des2 (u32_add s.cur_tx 1 % N))
              (fun d => { d with des2 := E.dma_map_page frag.page frag.page_offset frag.size })
              { s with cur_tx := u32_add s.cur_tx 1 }).tx_skbuff.set (u32_add s.cur_tx 1 % N) none }))
      (u32_add s.cur_tx 1 % N) rfl
    refine ⟨cur, ring, ?_, ?_⟩
    · rw [h1]
      simp [tx_write, frag_writes, List.append_assoc, clear_slots]
    · simp only [tx_write, List.length_cons] at h2 ⊢
      unfold u32_add at h2
      unfold U32 at *
      omega

theorem xmit_finish_exact (E : stmmac_env) (skb : sk_buff) (c first entry : Nat)
    (s : net_device) (stop : Bool)
    (hstop : stop = (decide (u32_sub (u32_sub (u32_add s.dirty_tx s.dma_tx_size)
        (u32_add s.cur_tx 1)) 1 ≤ E.MAX_SKB_FRAGS + 1) || (s.link_duplex == 0 && c != 0))) :
    ∃ ring,
      stmmac_xmit_finish E skb c first entry s =
        { s with
          cur_tx := u32_add s.cur_tx 1, dma_tx := ring
          tx_trace := s.tx_trace ++ ([.close_tx_desc entry, .set_tx_owner first] ++
            (if stop = true then []
              else if s.tx_coalesce ≤ s.mod_tx_coalesce then [.clear_tx_ic entry] else []))
          queue_stopped := stop || s.queue_stopped
          tx_coalesce :=
            if stop = true then s.tx_coalesce
            else if s.tx_coalesce ≤ s.mod_tx_coalesce then s.tx_coalesce + 1 else 0
          stats := { s.stats with tx_bytes := u32_add s.stats.tx_bytes skb.len }
          xmt_poll_demand := s.xmt_poll_demand + 1
          trans_start := s.jiffies } := by
  unfold stmmac_xmit_finish
  simp only [tx_write, stmmac_tx_avail, ← hstop]
  cases stop
  · by_cases h2 : s.tx_coalesce ≤ s.mod_tx_coalesce
    · simp only [Bool.false_eq_true, if_false, if_pos h2]
      exact ⟨_, by simp only [List.append_assoc, List.cons_append, List.nil_append, List.append_nil, Bool.false_or, Bool.true_or]; rfl⟩
    · simp only [Bool.false_eq_true, if_false, if_neg h2]
      exact ⟨_, by simp only [List.append_assoc, List.cons_append, List.nil_append, List.append_nil, Bool.false_or, Bool.true_or]; rfl⟩
  · simp only [if_true, netif_stop_queue]
    exact ⟨_, by simp only [List.append_assoc, List.cons_append, List.nil_append, List.append_nil, Bool.false_or, Bool.true_or]; rfl⟩

theorem u32_add_of_mod (cur c k : Nat) (h : cur % U32 = (c + k) % U32) :
    u32_add cur 1 = u32_add c (k + 1) := by
  unfold u32_add
  unfold U32 at *
  omega

theorem xmit_queue_exact (E : stmmac_env) (skb : sk_buff) (s : net_device) (stop : Bool)
    (hstop : stop = (decide (u32_sub (u32_sub (u32_add s.dirty_tx s.dma_tx_size)
        (u32_add s.cur_tx (tx_desc_count skb))) 1 ≤ E.MAX_SKB_FRAGS + 1) ||
          (s.link_duplex == 0 && (stmmac_xmit_csum skb s).2 != 0))) :
    ∃ ring csh pre e,
      stmmac_xmit_queue E skb s =
        ({ s with
            cur_tx := u32_add s.cur_tx (tx_desc_count skb)
            tx_skbuff := clear_slots s.dma_tx_size
              (skb.frags.length + (if head_is_split skb then 1 else 0)) s.cur_tx
              (s.tx_skbuff.set (s.cur_tx % s.dma_tx_size) (some skb))
            dma_tx := ring
            tx_trace := s.tx_trace ++ (pre ++
              (if stop = true then []
                else if s.tx_coalesce ≤ s.mod_tx_coalesce then
                  [.clear_tx_ic e]
                else []))
            queue_stopped := stop || s.queue_stopped
            tx_coalesce :=
              if stop = true then s.tx_coalesce
              else if s.tx_coalesce ≤ s.mod_tx_coalesce then s.tx_coalesce + 1 else 0
            csum_helped := csh
            stats := { s.stats with tx_bytes := u32_add s.stats.tx_bytes skb.len }
            xmt_poll_demand := s.xmt_poll_demand + 1
            trans_start := s.jiffies },
          NETDEV_TX_OK) ∧
      (∀ w ∈ pre, w.is_clear_ic = false) := by
  unfold stmmac_xmit_queue
  dsimp only
  obtain ⟨csh, hs0⟩ := xmit_csum_spec skb s
  rw [hs0]
  generalize (stmmac_xmit_csum skb s).2 = c at hstop
  obtain ⟨ring1, hh⟩ := xmit_head_exact E skb c { s with csum_helped := csh }
  dsimp only at hh
  rw [hh]
  dsimp only
  obtain ⟨cur, ring2, hf, hcur⟩ := xmit_frags_exact E c s.dma_tx_size skb.frags
    { s with
      csum_helped := csh
      cur_tx := if head_is_split skb then u32_add s.cur_tx 1 else s.cur_tx
      tx_skbuff := clear_slots s.dma_tx_size (if head_is_split skb then 1 else 0) s.cur_tx
        (s.tx_skbuff.set (s.cur_tx % s.dma_tx_size) (some skb))
      dma_tx := ring1
      tx_trace := s.tx_trace ++ head_writes s.dma_tx_size s.cur_tx skb }
    ((if head_is_split skb then u32_add s.cur_tx 1 else s.cur_tx) % s.dma_tx_size) rfl
  dsimp only at hf hcur
  rw [hf]
  dsimp only
  have hcur2 : cur % U32 = (s.cur_tx + (skb.frags.length + (if head_is_split skb then 1 else 0))) % U32 := by
    rw [hcur]
    split_ifs
    · unfold u32_add U32; omega
    · rfl
  have hc1 : u32_add cur 1 = u32_add s.cur_tx (tx_desc_count skb) := by
    rw [u32_add_of_mod cur s.cur_tx _ hcur2]
    unfold tx_desc_count
    congr 1
    omega
  have hslots : clear_slots s.dma_tx_size skb.frags.length
      (if head_is_split skb then u32_add s.cur_tx 1 else s.cur_tx)
      (clear_slots s.dma_tx_size (if head_is_split skb then 1 else 0) s.cur_tx
        (s.tx_skbuff.set (s.cur_tx % s.dma_tx_size) (some skb)))
      = clear_slots s.dma_tx_size (skb.frags.length + (if head_is_split skb then 1 else 0))
          s.cur_tx (s.tx_skbuff.set (s.cur_tx % s.dma_tx_size) (some skb)) := by
    split_ifs
    · rfl
    · rfl
  obtain ⟨ring3, hfin⟩ := xmit_finish_exact E skb c (s.cur_tx % s.dma_tx_size)
    (cur % s.dma_tx_size)
    { s with
      csum_helped := csh
      cur_tx := cur
      tx_skbuff := clear_slots s.dma_tx_size skb.frags.length
        (if head_is_split skb then u32_add s.cur_tx 1 else s.cur_tx)
        (clear_slots s.dma_tx_size (if head_is_split skb then 1 else 0) s.cur_tx
          (s.tx_skbuff.set (s.cur_tx % s.dma_tx_size) (some skb)))
      dma_tx := ring2
      tx_trace := s.tx_trace ++ head_writes s.dma_tx_size s.cur_tx skb ++
        frag_writes s.dma_tx_size
          (if head_is_split skb then u32_add s.cur_tx 1 else s.cur_tx) skb.frags.length }
    stop (by dsimp only; rw [hc1]; exact hstop)
  dsimp only at hfin
  rw [hfin, hc1, hslots]
  refine ⟨ring3, csh, head_writes s.dma_tx_size s.cur_tx skb ++
    frag_writes s.dma_tx_size
      (if head_is_split skb then u32_add s.cur_tx 1 else s.cur_tx) skb.frags.length ++
    [.close_tx_desc (cur % s.dma_tx_size),
      .set_tx_owner (s.cur_tx % s.dma_tx_size)], cur % s.dma_tx_size, ?_, ?_⟩
  · simp [List.append_assoc]
  · intro w hw
    rcases List.mem_append.mp hw with h | h
    · rcases List.mem_append.mp h with h | h
      · exact head_writes_no_ic _ _ _ w h
      · exact frag_writes_no_ic _ _ _ w h
    · simp only [List.mem_cons, List.mem_singleton, List.not_mem_nil, or_false] at h
      rcases h with h | h <;> (rw [h]; rfl)

/-! ## Interrupt moderation -/

theorem xmit_moderation (E : stmmac_env) (trylock : Bool) (skb : sk_buff) (s : net_device)
    (hgso : skb_is_gso skb = false)
    (hok : (stmmac_xmit E trylock skb s).2 = NETDEV_TX_OK)
    (hq : (stmmac_xmit E trylock skb s).1.queue_stopped = false) :
    (stmmac_xmit E trylock skb s).1.mod_tx_coalesce = s.mod_tx_coalesce ∧
    ic_cleared s (stmmac_xmit E trylock skb s).1 = decide (s.tx_coalesce ≤ s.mod_tx_coalesce) ∧
    (stmmac_xmit E trylock skb s).1.tx_coalesce =
      (if s.tx_coalesce ≤ s.mod_tx_coalesce then s.tx_coalesce + 1 else 0) := by
  obtain ⟨_, _, _, hx⟩ := xmit_queued E trylock skb s hgso hok
  rw [hx] at hq ⊢
  obtain ⟨ring, csh, pre, e, hs, hpre⟩ := xmit_queue_exact E skb s _ rfl
  rw [hs] at hq ⊢
  dsimp only at hq ⊢
  generalize (decide (u32_sub (u32_sub (u32_add s.dirty_tx s.dma_tx_size)
    (u32_add s.cur_tx (tx_desc_count skb))) 1 ≤ E.MAX_SKB_FRAGS + 1) ||
      (s.link_duplex == 0 && (stmmac_xmit_csum skb s).2 != 0)) = stop at hq ⊢
  have hstop : stop = false := by
    cases stop
    · rfl
    · simp at hq
  subst hstop
  have hany : pre.any tx_desc_write.is_clear_ic = false := by
    rw [List.any_eq_false]
    intro w hw
    rw [hpre w hw]
    simp
  refine ⟨rfl, ?_, by simp⟩
  unfold ic_cleared
  dsimp only
  rw [List.drop_left, List.any_append, hany]
  by_cases h : s.tx_coalesce ≤ s.mod_tx_coalesce
  · simp [h, tx_desc_write.is_clear_ic]
  · simp [h]

theorem coalesced_run_bound (E : stmmac_env) : ∀ (pkts : List sk_buff) (s : net_device),
    (∀ p ∈ pkts, skb_is_gso p = false) → coalesced_run E pkts s = true →
    pkts = [] ∨ (pkts.length : Int) + s.tx_coalesce ≤ s.mod_tx_coalesce + 1
  | [], _, _, _ => Or.inl rfl
  | p :: ps, s, hg, hrun => by
    right
    rw [coalesced_run] at hrun
    simp only [Bool.and_eq_true, decide_eq_true_eq, Bool.not_eq_true'] at hrun
    obtain ⟨⟨⟨hok, hq⟩, hic⟩, hrest⟩ := hrun
    obtain ⟨hm, hc, htc⟩ := xmit_moderation E true p s (hg p (List.mem_cons_self _ _)) hok hq
    rw [hic] at hc
    have hle : s.tx_coalesce ≤ s.mod_tx_coalesce := by simpa using hc.symm
    rw [if_pos hle] at htc
    rcases coalesced_run_bound E ps _ (fun x hx => hg x (List.mem_cons_of_mem _ hx)) hrest with h | h
    · rw [h]
      simp only [List.length_singleton, Nat.cast_one]
      omega
    · rw [hm, htc] at h
      simp only [List.length_cons, Nat.cast_add, Nat.cast_one]
      omega

theorem xmit_counter_nonneg (E : stmmac_env) (trylock : Bool) (skb : sk_buff) (s : net_device)
    (hgso : skb_is_gso skb = false) (h0 : 0 ≤ s.tx_coalesce) :
    0 ≤ (stmmac_xmit E trylock skb s).1.tx_coalesce := by
  rw [xmit_unfold]
  unfold stmmac_xmit_body
  dsimp only
  rw [hgso]
  simp only [Bool.false_eq_true, if_false]
  split_ifs
  · exact h0
  · exact h0
  · exact h0
  · obtain ⟨ring, csh, pre, e, hs, _⟩ := xmit_queue_exact E skb s _ rfl
    rw [hs]
    dsimp only
    split_ifs <;> omega

/-! ## The slots written by a submission -/

theorem skb_at_set_none_eq (l : List (Option sk_buff)) (i j : Nat) :
    skb_at (l.set i none) j = if i = j then none else skb_at l j := by
  rw [skb_at_set]
  by_cases h : i = j
  · subst h
    by_cases h2 : i < l.length
    · simp [h2]
    · simp only [h2, and_false, if_false, if_true]
      unfold skb_at
      rw [List.getD_eq_default _ _ (by omega)]
  · simp [h]

theorem u32_add_succ_left (c i : Nat) : u32_add (u32_add c 1) i = u32_add c (i + 1) := by
  unfold u32_add U32
  omega

theorem clear_slots_length (N : Nat) : ∀ (k cur : Nat) (l : List (Option sk_buff)),
    (clear_slots N k cur l).length = l.length
  | 0, _, _ => rfl
  | k + 1, cur, l => by
    rw [clear_slots, clear_slots_length N k, List.length_set]

theorem clear_slots_none (N j : Nat) : ∀ (k cur : Nat) (l : List (Option sk_buff)),
    skb_at l j = none → skb_at (clear_slots N k cur l) j = none
  | 0, _, _, h => h
  | k + 1, cur, l, h => by
    rw [clear_slots]
    exact clear_slots_none N j k _ _ (skb_at_set_none _ _ _ h)

theorem clear_slots_hit (N : Nat) : ∀ (k cur : Nat) (l : List (Option sk_buff)) (i : Nat),
    1 ≤ i → i ≤ k → skb_at (clear_slots N k cur l) (u32_add cur i % N) = none
  | 0, _, _, i, h1, h2 => by omega
  | k + 1, cur, l, i, h1, h2 => by
    rw [clear_slots]
    by_cases hi : i = 1
    · subst hi
      exact clear_slots_none N _ k _ _ (skb_at_set_none_self _ _)
    · have := clear_slots_hit N k (u32_add cur 1) (l.set (u32_add cur 1 % N) none) (i - 1)
        (by omega) (by omega)
      rw [u32_add_succ_left, show i - 1 + 1 = i by omega] at this
      exact this

theorem clear_slots_miss (N j : Nat) : ∀ (k cur : Nat) (l : List (Option sk_buff)),
    (∀ i, 1 ≤ i → i ≤ k → j ≠ u32_add cur i % N) →
    skb_at (clear_slots N k cur l) j = skb_at l j
  | 0, _, _, _ => rfl
  | k + 1, cur, l, h => by
    rw [clear_slots]
    rw [clear_slots_miss N j k (u32_add cur 1) _ (fun i h1 h2 => by
      have := h (i + 1) (by omega) (by omega)
      rw [u32_add_succ_left]
      exact this)]
    rw [skb_at_set_none_eq, if_neg]
    exact fun e => h 1 (le_refl _) (by omega) e.symm

theorem u32_sub_norm (c d : Nat) (hc : c < U32) (hd : d < U32) :
    u32_sub c d = (c + U32 - d) % U32 := by
  unfold u32_sub
  rw [Nat.mod_eq_of_lt hc, Nat.mod_eq_of_lt hd]

theorem u32_avail_norm (d c N : Nat) (hc : c < U32) :
    u32_sub (u32_sub (u32_add d N) c) 1 = (((d + N) % U32 + U32 - c) % U32 + U32 - 1) % U32 := by
  unfold u32_sub u32_add
  rw [Nat.mod_mod, Nat.mod_mod, Nat.mod_eq_of_lt hc, Nat.mod_eq_of_lt (show 1 < U32 by decide)]

theorem u32_avail_eq (d c N : Nat) (hN : N < U32) (hc : c < U32) (hd : d < U32)
    (hfl : u32_sub c d + 1 ≤ N) :
    u32_sub (u32_sub (u32_add d N) c) 1 + u32_sub c d + 1 = N := by
  rw [u32_sub_norm c d hc hd] at hfl ⊢
  rw [u32_avail_norm d c N hc]
  unfold U32 at *
  omega

theorem u32_window_end (d c : Nat) (hc : c < U32) (hd : d < U32) (i : Nat) :
    u32_add d (u32_sub c d + i) = u32_add c i := by
  rw [u32_sub_norm c d hc hd]
  unfold u32_add U32 at *
  omega

theorem u32_in_flight_add (d c N k : Nat) (hN : N < U32) (hc : c < U32) (hd : d < U32)
    (hfl : u32_sub c d + 1 ≤ N)
    (hav : k ≤ u32_sub (u32_sub (u32_add d N) c) 1) :
    u32_sub (u32_add c k) d = u32_sub c d + k ∧ u32_sub c d + k + 1 ≤ N ∧
    u32_sub (u32_sub (u32_add d N) (u32_add c k)) 1 + k = u32_sub (u32_sub (u32_add d N) c) 1 := by
  have h1 := u32_avail_eq d c N hN hc hd hfl
  have hk : u32_sub c d + k + 1 ≤ N := by omega
  have hck : u32_add c k < U32 := Nat.mod_lt _ (by decide)
  have e1 : u32_sub (u32_add c k) d = u32_sub c d + k := by
    rw [u32_sub_norm _ d hck hd, u32_sub_norm c d hc hd] at *
    unfold u32_add U32 at *
    omega
  have h2 := u32_avail_eq d (u32_add c k) N hN hck hd (by rw [e1]; exact hk)
  refine ⟨e1, hk, ?_⟩
  omega

theorem entries_distinct (N d i k : Nat) (h : N ∣ U32 ∨ d + N ≤ U32)
    (hik : i < k) (hk : k < N) : u32_add d i % N ≠ u32_add d k % N := by
  have key : (d + i) % N ≠ (d + k) % N := by
    intro e
    have := mod_add_ne N (d + i) (k - i) (by omega) (by omega)
    rw [show d + i + (k - i) = d + k by omega] at this
    exact this e.symm
  rcases h with h | h
  · rw [u32_add_mod_dvd N d i h, u32_add_mod_dvd N d k h]
    exact key
  · unfold u32_add
    rw [Nat.mod_eq_of_lt (show d + i < U32 by omega), Nat.mod_eq_of_lt (show d + k < U32 by omega)]
    exact key

theorem u32_add_zero_lt (c : Nat) (h : c < U32) : u32_add c 0 = c := by
  unfold u32_add
  rw [Nat.add_zero, Nat.mod_eq_of_lt h]

theorem xmit_queue_window (E : stmmac_env) (skb : sk_buff) (s : net_device)
    (h : tx_window_inv s) (hav : tx_desc_count skb ≤ stmmac_tx_avail s) :
    tx_window_inv (stmmac_xmit_queue E skb s).1 ∧
    tx_in_flight (stmmac_xmit_queue E skb s).1 = tx_in_flight s + tx_desc_count skb ∧
    stmmac_tx_avail (stmmac_xmit_queue E skb s).1 + tx_desc_count skb = stmmac_tx_avail s ∧
    (stmmac_xmit_queue E skb s).1.dma_tx_size = s.dma_tx_size ∧
    (stmmac_xmit_queue E skb s).1.dirty_tx = s.dirty_tx ∧
    (stmmac_xmit_queue E skb s).1.cur_tx = u32_add s.cur_tx (tx_desc_count skb) ∧
    (stmmac_xmit_queue E skb s).1.tx_skbuff =
      clear_slots s.dma_tx_size (skb.frags.length + (if head_is_split skb then 1 else 0))
        s.cur_tx (s.tx_skbuff.set (s.cur_tx % s.dma_tx_size) (some skb)) ∧
    ((stmmac_xmit_queue E skb s).1.queue_stopped = false →
      s.queue_stopped = false ∧
      E.MAX_SKB_FRAGS + 1 < stmmac_tx_avail (stmmac_xmit_queue E skb s).1) ∧
    (stmmac_xmit_queue E skb s).1.queue_stopped =
      ((decide (stmmac_tx_avail (stmmac_xmit_queue E skb s).1 ≤ E.MAX_SKB_FRAGS + 1) ||
        (s.link_duplex == 0 && (stmmac_xmit_csum skb s).2 != 0)) || s.queue_stopped) := by
  obtain ⟨hN, hc, hd, hfl, hlen, hout⟩ := h
  obtain ⟨ring, csh, pre, e, hs, _⟩ := xmit_queue_exact E skb s _ rfl
  rw [hs]
  dsimp only
  obtain ⟨a1, a2, a3⟩ := u32_in_flight_add s.dirty_tx s.cur_tx s.dma_tx_size (tx_desc_count skb)
    hN hc hd hfl hav
  refine ⟨⟨hN, Nat.mod_lt _ (by decide), hd, ?_, ?_, ?_⟩, a1, a3, rfl, rfl, rfl, rfl, ?_, rfl⟩
  · show u32_sub (u32_add s.cur_tx (tx_desc_count skb)) s.dirty_tx + 1 ≤ s.dma_tx_size
    rw [a1]
    exact a2
  · rw [clear_slots_length, List.length_set]
    exact hlen
  · intro j hj
    change ∀ i, i < u32_sub (u32_add s.cur_tx (tx_desc_count skb)) s.dirty_tx →
      j ≠ u32_add s.dirty_tx i % s.dma_tx_size at hj
    rw [a1] at hj
    apply clear_slots_none
    have hcur : j ≠ s.cur_tx % s.dma_tx_size := by
      have := hj (u32_sub s.cur_tx s.dirty_tx) (by unfold tx_desc_count; omega)
      have e2 := u32_window_end s.dirty_tx s.cur_tx hc hd 0
      rw [Nat.add_zero, u32_add_zero_lt _ hc] at e2
      rw [e2] at this
      exact this
    rw [skb_at_set, if_neg (fun e => hcur e.1.symm)]
    exact hout j (fun i hi => hj i (by
      have : i < u32_sub s.cur_tx s.dirty_tx := hi
      omega))
  · intro hq
    simp only [Bool.or_eq_false_iff, decide_eq_false_iff_not, not_le] at hq
    exact ⟨hq.2, hq.1.1⟩

/-! ## The window invariant under reclaim and recovery -/

theorem reclaim_one_length (E : stmmac_env) (e : Nat) (s : net_device) :
    (stmmac_tx_reclaim_one E e s).tx_skbuff.length = s.tx_skbuff.length := by
  unfold stmmac_tx_reclaim_one
  dsimp only
  split_ifs <;> split <;> simp

theorem u32_add_add (c a b : Nat) : u32_add (u32_add c a) b = u32_add c (a + b) := by
  unfold u32_add U32
  omega

theorem u32_in_flight_sub (d c n : Nat) (hc : c < U32) (hd : d < U32) (hn : n ≤ u32_sub c d) :
    u32_sub c (u32_add d n) + n = u32_sub c d := by
  have h1 : u32_add d n < U32 := Nat.mod_lt _ (by decide)
  rw [u32_sub_norm c _ hc h1]
  rw [u32_sub_norm c d hc hd] at hn ⊢
  unfold u32_add U32 at *
  omega

theorem tx_loop_window (E : stmmac_env) (N : Nat) : ∀ (fuel entry : Nat) (s : net_device),
    entry = s.dirty_tx % N → s.dirty_tx < U32 → s.cur_tx < U32 → fuel ≤ tx_in_flight s →
    ∃ n, n ≤ fuel ∧
      (stmmac_tx_loop E N fuel entry s).dirty_tx = u32_add s.dirty_tx n ∧
      (stmmac_tx_loop E N fuel entry s).cur_tx = s.cur_tx ∧
      (stmmac_tx_loop E N fuel entry s).dma_tx_size = s.dma_tx_size ∧
      (stmmac_tx_loop E N fuel entry s).queue_stopped = s.queue_stopped ∧
      (stmmac_tx_loop E N fuel entry s).tx_skbuff.length = s.tx_skbuff.length ∧
      (∀ i, i < n →
        skb_at (stmmac_tx_loop E N fuel entry s).tx_skbuff (u32_add s.dirty_tx i % N) = none) ∧
      (∀ j, skb_at s.tx_skbuff j = none →
        skb_at (stmmac_tx_loop E N fuel entry s).tx_skbuff j = none) ∧
      (∀ j, skb_at (stmmac_tx_loop E N fuel entry s).tx_skbuff j = skb_at s.tx_skbuff j ∨
        skb_at (stmmac_tx_loop E N fuel entry s).tx_skbuff j = none)
  | 0, entry, s, _, hd, _, _ =>
    ⟨0, le_refl _, (u32_add_zero_lt _ hd).symm, rfl, rfl, rfl, rfl,
      fun i h => absurd h (Nat.not_lt_zero i), fun _ h => h, fun _ => Or.inl rfl⟩
  | fuel + 1, entry, s, he, hd, hc, hf => by
    rw [stmmac_tx_loop]
    by_cases h1 : (s.dirty_tx != s.cur_tx) = true
    · rw [if_pos h1]
      by_cases h2 : E.ops.get_tx_owner (desc_at s.dma_tx entry) = true
      · rw [if_pos h2]
        exact ⟨0, Nat.zero_le _, (u32_add_zero_lt _ hd).symm, rfl, rfl, rfl, rfl,
          fun i h => absurd h (Nat.not_lt_zero i), fun _ h => h, fun _ => Or.inl rfl⟩
      · rw [if_neg h2]
        dsimp only
        obtain ⟨r1, r2, r3, r4, _, r6, _⟩ := reclaim_one_exact E entry s
        have r7 := reclaim_one_length E entry s
        generalize stmmac_tx_reclaim_one E entry s = s1 at r1 r2 r3 r4 r6 r7 ⊢
        have hfl : fuel ≤ tx_in_flight s1 := by
          have := u32_in_flight_sub s.dirty_tx s.cur_tx 1 hc hd (by
            have : fuel + 1 ≤ u32_sub s.cur_tx s.dirty_tx := hf
            omega)
          have hf2 : fuel + 1 ≤ u32_sub s.cur_tx s.dirty_tx := hf
          show fuel ≤ u32_sub s1.cur_tx s1.dirty_tx
          rw [r1, r2]
          omega
        obtain ⟨n, hn, q1, q2, q3, q4, q5, q6, q7, q8⟩ :=
          tx_loop_window E N fuel (s1.dirty_tx % N) s1 rfl
            (by rw [r1]; exact Nat.mod_lt _ (by decide)) (by rw [r2]; exact hc) hfl
        refine ⟨n + 1, by omega, ?_, by rw [q2, r2], by rw [q3, r3], by rw [q4, r4],
          by rw [q5, r7], ?_, ?_, ?_⟩
        · rw [q1, r1, u32_add_add, Nat.add_comm]
        · intro i hi
          by_cases hi0 : i = 0
          · subst hi0
            apply q7
            rw [r6, u32_add_zero_lt _ hd, ← he, if_pos rfl]
          · have := q6 (i - 1) (by omega)
            have e : u32_add s1.dirty_tx (i - 1) = u32_add s.dirty_tx i := by
              rw [r1, u32_add_add, show 1 + (i - 1) = i by omega]
            rw [e] at this
            exact this
        · intro j hj
          apply q7
          rw [r6, hj]
          simp
        · intro j
          rcases q8 j with h | h
          · rw [h, r6]
            by_cases hje : j = entry
            · rw [if_pos hje]
              exact Or.inr rfl
            · rw [if_neg hje]
              exact Or.inl rfl
          · exact Or.inr h
    · rw [if_neg h1]
      exact ⟨0, Nat.zero_le _, (u32_add_zero_lt _ hd).symm, rfl, rfl, rfl, rfl,
        fun i h => absurd h (Nat.not_lt_zero i), fun _ h => h, fun _ => Or.inl rfl⟩

theorem stmmac_tx_window (E : stmmac_env) (s : net_device) (h : tx_window_inv s) :
    tx_window_inv (stmmac_tx E s) ∧
    (stmmac_tx E s).dma_tx_size = s.dma_tx_size ∧
    stmmac_tx_avail s ≤ stmmac_tx_avail (stmmac_tx E s) ∧
    ((stmmac_tx E s).queue_stopped = false →
      s.queue_stopped = false ∨ E.MAX_SKB_FRAGS + 1 < stmmac_tx_avail (stmmac_tx E s)) ∧
    (∀ j, skb_at (stmmac_tx E s).tx_skbuff j = skb_at s.tx_skbuff j ∨
      skb_at (stmmac_tx E s).tx_skbuff j = none) ∧
    (s.queue_stopped = false → (stmmac_tx E s).queue_stopped = false) := by
  obtain ⟨hN, hc, hd, hfl, hlen, hout⟩ := h
  obtain ⟨n, hn, q1, q2, q3, q4, q5, q6, q7, q8⟩ := tx_loop_window E s.dma_tx_size (tx_in_flight s)
    (s.dirty_tx % s.dma_tx_size) s rfl hd hc (le_refl _)
  have hn2 : n ≤ u32_sub s.cur_tx s.dirty_tx := hn
  have hsub := u32_in_flight_sub s.dirty_tx s.cur_tx n hc hd hn2
  have hfl2 : u32_sub s.cur_tx s.dirty_tx + 1 ≤ s.dma_tx_size := hfl
  have hd1 : u32_add s.dirty_tx n < U32 := Nat.mod_lt _ (by decide)
  have hav1 := u32_avail_eq s.dirty_tx s.cur_tx s.dma_tx_size hN hc hd hfl2
  have hav2 := u32_avail_eq (u32_add s.dirty_tx n) s.cur_tx s.dma_tx_size hN hc hd1 (by omega)
  unfold stmmac_tx
  dsimp only
  generalize stmmac_tx_loop E s.dma_tx_size (tx_in_flight s) (s.dirty_tx % s.dma_tx_size) s = r
    at q1 q2 q3 q4 q5 q6 q7 q8 ⊢
  have hinv : tx_window_inv r := by
    refine ⟨by rw [q3]; exact hN, by rw [q2]; exact hc, by rw [q1]; exact hd1, ?_,
      by rw [q5, q3]; exact hlen, ?_⟩
    · show u32_sub r.cur_tx r.dirty_tx + 1 ≤ r.dma_tx_size
      rw [q1, q2, q3]
      omega
    · intro j hj
      change ∀ i, i < u32_sub r.cur_tx r.dirty_tx → j ≠ u32_add r.dirty_tx i % r.dma_tx_size at hj
      rw [q1, q2, q3] at hj
      by_cases hex : ∃ i, i < n ∧ j = u32_add s.dirty_tx i % s.dma_tx_size
      · obtain ⟨i, hi, hji⟩ := hex
        rw [hji]
        exact q6 i hi
      · apply q7
        apply hout
        intro i hi hji
        have hi2 : i < u32_sub s.cur_tx s.dirty_tx := hi
        by_cases hin : i < n
        · exact hex ⟨i, hin, hji⟩
        · have := hj (i - n) (by omega)
          rw [u32_add_add, show n + (i - n) = i by omega] at this
          exact this hji
  have havr : stmmac_tx_avail s ≤ stmmac_tx_avail r := by
    show u32_sub (u32_sub (u32_add s.dirty_tx s.dma_tx_size) s.cur_tx) 1
      ≤ u32_sub (u32_sub (u32_add r.dirty_tx r.dma_tx_size) r.cur_tx) 1
    rw [q1, q2, q3]
    omega
  by_cases hw : (r.queue_stopped && decide (stmmac_tx_avail r > E.MAX_SKB_FRAGS + 1)) = true
  · rw [if_pos hw]
    simp only [Bool.and_eq_true, decide_eq_true_eq] at hw
    exact ⟨hinv, q3, havr, fun _ => Or.inr hw.2, q8, fun _ => rfl⟩
  · rw [if_neg hw]
    exact ⟨hinv, q3, havr, fun hq => Or.inl (by rw [← q4]; exact hq), q8,
      fun hq => by rw [q4]; exact hq⟩

theorem init_tx_loop_length : ∀ (k i : Nat) (s : net_device),
    (init_tx_loop k i s).tx_skbuff.length = s.tx_skbuff.length
  | 0, _, _ => rfl
  | k + 1, i, s => by
    rw [init_tx_loop, init_tx_loop_length k (i + 1)]
    simp

theorem init_rings_tx_window (E : stmmac_env) (s : net_device)
    (h1 : 1 ≤ s.dma_tx_size) (hN : s.dma_tx_size < U32) :
    tx_window_inv (init_dma_desc_rings_tx E s) ∧
    (init_dma_desc_rings_tx E s).dma_tx_size = s.dma_tx_size ∧
    (init_dma_desc_rings_tx E s).queue_stopped = s.queue_stopped ∧
    stmmac_tx_avail (init_dma_desc_rings_tx E s) = s.dma_tx_size - 1 := by
  have hlen : (init_dma_desc_rings_tx E s).tx_skbuff.length = s.dma_tx_size := by
    unfold init_dma_desc_rings_tx
    dsimp only
    rw [init_tx_loop_length]
    simp
  obtain ⟨slots, ring, hs, hnone⟩ := init_rings_tx_spec E s
  rw [hs] at hlen ⊢
  refine ⟨⟨hN, (by decide : 0 < U32), (by decide : 0 < U32), ?_, hlen, fun j _ => hnone j⟩, rfl, rfl, ?_⟩
  · show u32_sub 0 0 + 1 ≤ s.dma_tx_size
    exact h1
  · show u32_sub (u32_sub (u32_add 0 s.dma_tx_size) 0) 1 = s.dma_tx_size - 1
    unfold u32_sub u32_add U32 at *
    omega

theorem tx_err_window (E : stmmac_env) (s : net_device)
    (h1 : 1 ≤ s.dma_tx_size) (hN : s.dma_tx_size < U32)
    (hlen : s.tx_skbuff.length = s.dma_tx_size) :
    tx_window_inv (stmmac_tx_err E s) ∧
    (stmmac_tx_err E s).dma_tx_size = s.dma_tx_size ∧
    (stmmac_tx_err E s).queue_stopped = false ∧
    stmmac_tx_avail (stmmac_tx_err E s) = s.dma_tx_size - 1 := by
  obtain ⟨p1, p2, p3, _, p5, p6⟩ := tx_err_post E s
  have p7 := tx_err_length E s
  have p8 : (stmmac_tx_err E s).queue_stopped = false := by
    obtain ⟨a, b, c, h⟩ := tx_err_shape E s
    rw [h]
  refine ⟨⟨by rw [p3]; exact hN, by rw [p1]; decide, by rw [p2]; decide, ?_,
    by rw [p7, p3]; exact hlen, ?_⟩, p3, p8, p5 h1 hN⟩
  · show u32_sub (stmmac_tx_err E s).cur_tx (stmmac_tx_err E s).dirty_tx + 1
      ≤ (stmmac_tx_err E s).dma_tx_size
    rw [p1, p2, p3]
    exact h1
  · intro j _
    by_cases hj : j < s.dma_tx_size
    · exact p6 j hj
    · unfold skb_at
      rw [List.getD_eq_default _ _ (by rw [p7, hlen]; omega)]

theorem xmit_body_window (E : stmmac_env) (tso : net_device → net_device × Int)
    (trylock : Bool) (skb : sk_buff) (s : net_device)
    (htso : skb_is_gso skb = true → tx_window_inv (tso s).1)
    (hq : skb_is_gso skb = false → skb.frags.length + 1 ≤ stmmac_tx_avail s →
      tx_window_inv (stmmac_xmit_queue E skb s).1)
    (hs : tx_window_inv s) :
    tx_window_inv (stmmac_xmit_body E tso trylock skb s).1 := by
  unfold stmmac_xmit_body
  dsimp only
  split_ifs with h0 h1 h2 h3
  · exact hs
  · exact hs
  · exact hs
  · exact htso h3
  · exact hq (by simpa using h3) (by omega)

theorem sw_tso_window (f : net_device → net_device) (skb : sk_buff) (s : net_device)
    (hf : tx_window_inv s → tx_window_inv (f s))
    (hs : tx_window_inv s) : tx_window_inv (stmmac_sw_tso f skb s).1 := by
  unfold stmmac_sw_tso
  split_ifs
  · exact hs
  · exact hs
  · exact hf hs

theorem xmit_segs_window (E : stmmac_env) : ∀ (l : List sk_buff),
    (∀ x ∈ l, ∀ t s, tx_window_inv s → tx_window_inv (stmmac_xmit E t x s).1) →
    ∀ s, tx_window_inv s → tx_window_inv (stmmac_xmit_segs E l s)
  | [], _, s, hs => by rw [stmmac_xmit_segs]; exact hs
  | a :: r, h, s, hs => by
    rw [stmmac_xmit_segs]
    exact xmit_segs_window E r (fun x hx => h x (List.mem_cons_of_mem _ hx)) _
      (h a (List.mem_cons_self _ _) _ s hs)

theorem xmit_window (E : stmmac_env) : ∀ (skb : sk_buff) (trylock : Bool) (s : net_device),
    heads_fit skb = true → tx_window_inv s → tx_window_inv (stmmac_xmit E trylock skb s).1
  | skb, trylock, s, hfit, hs => by
    have ih : ∀ x ∈ skb.segs, ∀ t s, heads_fit x = true → tx_window_inv s →
        tx_window_inv (stmmac_xmit E t x s).1 := fun x hx t s => xmit_window E x t s
    rw [xmit_unfold]
    rw [heads_fit_unfold] at hfit
    apply xmit_body_window E _ trylock skb s _ _ hs
    · intro hg
      have hg2 : (skb.gso_size != 0) = true := hg
      rw [if_pos hg2] at hfit
      apply sw_tso_window _ skb s _ hs
      exact xmit_segs_window E skb.segs
        (fun x hx t s hs => ih x hx t s (heads_fit_all_mem _ hfit x hx) hs) s
    · intro hg hav
      have hg2 : ¬ (skb.gso_size != 0) = true := by
        intro h
        have : skb_is_gso skb = true := h
        rw [hg] at this
        cases this
      rw [if_neg hg2] at hfit
      have hsp : head_is_split skb = false := by simpa using hfit
      exact (xmit_queue_window E skb s hs (by
        unfold tx_desc_count
        rw [hsp]
        simpa using hav)).1
termination_by skb => sizeOf skb
decreasing_by
  simp_wf
  cases skb
  simp only [sk_buff.segs] at hx
  have := List.sizeOf_lt_of_mem hx
  simp only [sk_buff.mk.sizeOf_spec]
  omega

theorem window_target_empty (s : net_device) (h : tx_window_inv s)
    (hw : s.dma_tx_size ∣ U32 ∨ s.dirty_tx + s.dma_tx_size ≤ U32) (k : Nat)
    (hk : tx_in_flight s + k < s.dma_tx_size) :
    skb_at s.tx_skbuff (u32_add s.cur_tx k % s.dma_tx_size) = none := by
  obtain ⟨hN, hc, hd, hfl, hlen, hout⟩ := h
  apply hout
  intro i hi
  rw [← u32_window_end s.dirty_tx s.cur_tx hc hd k]
  have hi2 : i < u32_sub s.cur_tx s.dirty_tx := hi
  have hk2 : u32_sub s.cur_tx s.dirty_tx + k < s.dma_tx_size := hk
  exact (entries_distinct s.dma_tx_size s.dirty_tx i _ hw (by omega) hk2).symm

theorem xmit_queue_one_slot (E : stmmac_env) (skb : sk_buff) (s : net_device)
    (h : tx_window_inv s) (hav : tx_desc_count skb ≤ stmmac_tx_avail s)
    (hw : s.dma_tx_size ∣ U32 ∨ s.dirty_tx + s.dma_tx_size ≤ U32) :
    skb_at s.tx_skbuff (s.cur_tx % s.dma_tx_size) = none ∧
    skb_at (stmmac_xmit_queue E skb s).1.tx_skbuff (s.cur_tx % s.dma_tx_size) = some skb ∧
    (∀ j, j ≠ s.cur_tx % s.dma_tx_size →
      skb_at (stmmac_xmit_queue E skb s).1.tx_skbuff j = skb_at s.tx_skbuff j) ∧
    (∀ k, 1 ≤ k → k < tx_desc_count skb →
      skb_at (stmmac_xmit_queue E skb s).1.tx_skbuff (u32_add s.cur_tx k % s.dma_tx_size)
        = none) := by
  have hslots := (xmit_queue_window E skb s h hav).2.2.2.2.2.2.1
  rw [hslots]
  have h' := h
  obtain ⟨hN, hc, hd, hfl, hlen, hout⟩ := h
  have hfl2 : u32_sub s.cur_tx s.dirty_tx + 1 ≤ s.dma_tx_size := hfl
  have hav1 := u32_avail_eq s.dirty_tx s.cur_tx s.dma_tx_size hN hc hd hfl2
  have hav2 : tx_desc_count skb ≤ u32_sub (u32_sub (u32_add s.dirty_tx s.dma_tx_size) s.cur_tx) 1 :=
    hav
  have hcnt : tx_desc_count skb = skb.frags.length + (if head_is_split skb then 1 else 0) + 1 := by
    unfold tx_desc_count
    omega
  generalize skb.frags.length + (if head_is_split skb then 1 else 0) = kk at hcnt ⊢
  have hfit : ∀ k, k ≤ kk → tx_in_flight s + k < s.dma_tx_size := by
    intro k hk
    show u32_sub s.cur_tx s.dirty_tx + k < s.dma_tx_size
    omega
  have hc0 : u32_add s.cur_tx 0 = s.cur_tx := u32_add_zero_lt _ hc
  have hdist : ∀ k, 1 ≤ k → k ≤ kk →
      s.cur_tx % s.dma_tx_size ≠ u32_add s.cur_tx k % s.dma_tx_size := by
    intro k h1 h2
    have := entries_distinct s.dma_tx_size s.dirty_tx (u32_sub s.cur_tx s.dirty_tx + 0)
      (u32_sub s.cur_tx s.dirty_tx + k) hw (by omega) (hfit k h2)
    rw [u32_window_end _ _ hc hd, u32_window_end _ _ hc hd, hc0] at this
    exact this
  have h0 := window_target_empty s h' hw 0 (hfit 0 (Nat.zero_le _))
  rw [hc0] at h0
  refine ⟨h0, ?_, ?_, ?_⟩
  · rw [clear_slots_miss _ _ _ _ _ hdist, skb_at_set, if_pos]
    refine ⟨rfl, ?_⟩
    rw [hlen]
    exact Nat.mod_lt _ (by omega)
  · intro j hj
    by_cases hex : ∃ k, 1 ≤ k ∧ k ≤ kk ∧ j = u32_add s.cur_tx k % s.dma_tx_size
    · obtain ⟨k, h1, h2, hjk⟩ := hex
      rw [hjk, clear_slots_hit _ _ _ _ k h1 h2]
      exact (window_target_empty s h' hw k (hfit k h2)).symm
    · rw [clear_slots_miss _ _ _ _ _ (fun k h1 h2 e => hex ⟨k, h1, h2, e⟩), skb_at_set,
        if_neg (fun e => hj e.1.symm)]
  · intro k h1 h2
    exact clear_slots_hit _ _ _ _ k h1 (by omega)

/-! ## The ring under the queue discipline -/

theorem tx_desc_count_le (skb : sk_buff) : tx_desc_count skb ≤ skb.frags.length + 2 := by
  unfold tx_desc_count
  split_ifs <;> omega

theorem xmit_disciplined (E : stmmac_env) (trylock : Bool) (skb : sk_buff) (s : net_device)
    (h : tx_window_inv s) (hav : E.MAX_SKB_FRAGS + 1 < stmmac_tx_avail s)
    (hgso : skb_is_gso skb = false) (hfr : skb.frags.length ≤ E.MAX_SKB_FRAGS) :
    tx_window_inv (stmmac_xmit E trylock skb s).1 ∧
    (stmmac_xmit E trylock skb s).1.dma_tx_size = s.dma_tx_size ∧
    ((stmmac_xmit E trylock skb s).1.queue_stopped = false →
      E.MAX_SKB_FRAGS + 1 < stmmac_tx_avail (stmmac_xmit E trylock skb s).1) ∧
    (stmmac_xmit E trylock skb s).2 ≠ NETDEV_TX_BUSY ∧
    (trylock = true → skb_at s.tx_skbuff (s.cur_tx % s.dma_tx_size) = none →
      (stmmac_xmit E trylock skb s).2 = NETDEV_TX_OK) := by
  have hcnt := tx_desc_count_le skb
  have hw := xmit_queue_window E skb s h (by omega)
  rw [xmit_unfold]
  unfold stmmac_xmit_body
  dsimp only
  rw [hgso]
  simp only [Bool.false_eq_true, if_false]
  have hnb : ¬ stmmac_tx_avail s < skb.frags.length + 1 := by omega
  rw [if_neg hnb]
  cases trylock
  · simp only [Bool.not_false, if_true]
    exact ⟨h, trivial, fun _ => hav, by decide,
      fun h => by cases h⟩
  · simp only [Bool.not_true, Bool.false_eq_true, if_false]
    by_cases hs : (skb_at s.tx_skbuff (s.cur_tx % s.dma_tx_size)).isSome = true
    · rw [if_pos hs]
      refine ⟨h, rfl, fun _ => hav, by dsimp only; decide, fun _ hn => ?_⟩
      rw [hn] at hs
      cases hs
    · rw [if_neg hs]
      obtain ⟨ring, csh, pre, e, hq, _⟩ := xmit_queue_exact E skb s _ rfl
      refine ⟨hw.1, hw.2.2.2.1, fun hq2 => (hw.2.2.2.2.2.2.2.1 hq2).2, ?_, fun _ _ => ?_⟩
      · rw [hq]
        dsimp only
        decide
      · rw [hq]

theorem tx_reachable_inv (E : stmmac_env) (s : net_device) (h : tx_reachable E s) :
    tx_window_inv s ∧ E.MAX_SKB_FRAGS + 2 < s.dma_tx_size ∧
    (s.queue_stopped = false → E.MAX_SKB_FRAGS + 1 < stmmac_tx_avail s) := by
  induction h with
  | opened s0 h1 h2 =>
    obtain ⟨a, b, _, d⟩ := init_rings_tx_window E s0 (by omega) h2
    refine ⟨a, ?_, fun _ => ?_⟩
    · show E.MAX_SKB_FRAGS + 2 < (init_dma_desc_rings_tx E s0).dma_tx_size
      rw [b]
      exact h1
    · show E.MAX_SKB_FRAGS + 1 < stmmac_tx_avail (init_dma_desc_rings_tx E s0)
      rw [d]
      omega
  | xmit s t skb _ hq hg hf ih =>
    obtain ⟨a, b, c, _, _⟩ := xmit_disciplined E t skb s ih.1 (ih.2.2 hq) hg hf
    exact ⟨a, by rw [b]; exact ih.2.1, c⟩
  | reclaim s _ ih =>
    obtain ⟨a, b, c, d, _⟩ := stmmac_tx_window E s ih.1
    refine ⟨a, by rw [b]; exact ih.2.1, fun hq => ?_⟩
    rcases d hq with h | h
    · have := ih.2.2 h
      omega
    · exact h
  | recover s _ ih =>
    have h1 : 1 ≤ s.dma_tx_size := by
      have := ih.2.1
      omega
    obtain ⟨a, b, _, d⟩ := tx_err_window E s h1 ih.1.1 ih.1.2.2.2.2.1
    refine ⟨a, by rw [b]; exact ih.2.1, fun _ => ?_⟩
    rw [d]
    have := ih.2.1
    omega
  | hardware s ring _ ih => exact ih

/-! ## A ring at the wrap of the cursors -/

theorem desc_at_replicate (n e : Nat) : desc_at (List.replicate n default) e = default := by
  unfold desc_at
  by_cases h : e < n
  · rw [List.getD_eq_getElem _ _ (by simpa using h)]
    simp
  · rw [List.getD_eq_default _ _ (by simpa using h)]

theorem u32_sub_self_lt (c : Nat) (h : c < U32) : u32_sub c c = 0 := by
  rw [u32_sub_norm c c h h]
  unfold U32 at *
  omega

theorem linear_skb_csum (data len : Nat) (s : net_device) :
    (stmmac_xmit_csum (linear_skb data len) s).2 = 0 := by
  simp [stmmac_xmit_csum, linear_skb, sk_buff.ip_summed, CHECKSUM_PARTIAL]

theorem xmit_linear_running (E : stmmac_env) (data len : Nat) (s : net_device)
    (hlen : len < BUF_SIZE_4KiB)
    (hinv : tx_window_inv s) (hq : s.queue_stopped = false)
    (hav : E.MAX_SKB_FRAGS + 2 < stmmac_tx_avail s)
    (hslot : skb_at s.tx_skbuff (s.cur_tx % s.dma_tx_size) = none) :
    (stmmac_xmit E true (linear_skb data len) s).2 = NETDEV_TX_OK ∧
    tx_window_inv (stmmac_xmit E true (linear_skb data len) s).1 ∧
    tx_in_flight (stmmac_xmit E true (linear_skb data len) s).1 = tx_in_flight s + 1 ∧
    (stmmac_xmit E true (linear_skb data len) s).1.dma_tx_size = s.dma_tx_size ∧
    (stmmac_xmit E true (linear_skb data len) s).1.dirty_tx = s.dirty_tx ∧
    (stmmac_xmit E true (linear_skb data len) s).1.cur_tx = u32_add s.cur_tx 1 ∧
    (stmmac_xmit E true (linear_skb data len) s).1.tx_skbuff =
      s.tx_skbuff.set (s.cur_tx % s.dma_tx_size) (some (linear_skb data len)) ∧
    (stmmac_xmit E true (linear_skb data len) s).1.queue_stopped = false := by
  have hsp : head_is_split (linear_skb data len) = false := by
    have : ¬ len ≥ BUF_SIZE_4KiB := by omega
    simp [head_is_split, linear_skb, sk_buff.len, this]
  have hcnt : tx_desc_count (linear_skb data len) = 1 := by
    unfold tx_desc_count
    rw [hsp]
    rfl
  have hx := xmit_accepts E (linear_skb data len) s rfl (by
    show 0 + 1 ≤ stmmac_tx_avail s
    omega) hslot
  obtain ⟨w1, w2, w3, w4, w5, w6, w7, _, w9⟩ :=
    xmit_queue_window E (linear_skb data len) s hinv (by rw [hcnt]; omega)
  rw [hx]
  rw [hcnt] at w2 w3 w6
  refine ⟨?_, w1, w2, w4, w5, w6, ?_, ?_⟩
  · obtain ⟨ring, csh, pre, e, hs, _⟩ := xmit_queue_exact E (linear_skb data len) s _ rfl
    rw [hs]
  · rw [w7, hsp]
    rfl
  · rw [w9, hq, linear_skb_csum]
    have : ¬ stmmac_tx_avail (stmmac_xmit_queue E (linear_skb data len) s).1
        ≤ E.MAX_SKB_FRAGS + 1 := by omega
    simp [this]

theorem tx_reclaims_single (E : stmmac_env) (s : net_device) (hinv : tx_window_inv s)
    (hfl : tx_in_flight s = 1)
    (hown : E.ops.get_tx_owner (desc_at s.dma_tx (s.dirty_tx % s.dma_tx_size)) = false)
    (hq : s.queue_stopped = false) :
    (stmmac_tx E s).dirty_tx = u32_add s.dirty_tx 1 ∧
    (stmmac_tx E s).cur_tx = s.cur_tx ∧
    (stmmac_tx E s).dma_tx_size = s.dma_tx_size ∧
    (stmmac_tx E s).queue_stopped = false := by
  obtain ⟨_, b, _, _, _, f⟩ := stmmac_tx_window E s hinv
  obtain ⟨n, dirty, st, xs, unm, ring, freed, slots, q, e1, e2, e3, _, e5, _, e7⟩ :=
    stmmac_tx_spec E s
  have hn : 0 < n := e7 (by rw [hfl]; exact Nat.one_pos) hown
  rw [hfl] at e2
  have hn1 : n = 1 := by omega
  have hd := e5 hn
  rw [hn1] at hd
  refine ⟨?_, ?_, b, f hq⟩
  · rw [e1]
    exact hd
  · rw [e1]


theorem hw_reclaims_single (E : stmmac_env) (s : net_device) (ring : List dma_desc)
    (hinv : tx_window_inv s)
    (hfl : tx_in_flight s = 1)
    (hown : E.ops.get_tx_owner (desc_at ring (s.dirty_tx % s.dma_tx_size)) = false)
    (hq : s.queue_stopped = false) :
    (stmmac_tx E { s with dma_tx := ring }).dirty_tx = u32_add s.dirty_tx 1 ∧
    (stmmac_tx E { s with dma_tx := ring }).cur_tx = s.cur_tx ∧
    (stmmac_tx E { s with dma_tx := ring }).dma_tx_size = s.dma_tx_size ∧
    (stmmac_tx E { s with dma_tx := ring }).queue_stopped = false :=
  tx_reclaims_single E { s with dma_tx := ring } hinv hfl hown hq
theorem idle_step (E : stmmac_env) (s : net_device) (hr : tx_reachable E s)
    (hown : E.ops.get_tx_owner default = false)
    (hN : E.MAX_SKB_FRAGS + 3 < s.dma_tx_size)
    (hcd : s.dirty_tx = s.cur_tx) (hq : s.queue_stopped = false) :
    ∃ t, tx_reachable E t ∧ t.dma_tx_size = s.dma_tx_size ∧ t.dirty_tx = t.cur_tx ∧
      t.cur_tx = u32_add s.cur_tx 1 ∧ t.queue_stopped = false := by
  obtain ⟨hinv, _, _⟩ := tx_reachable_inv E s hr
  have hinv2 := hinv
  obtain ⟨iN, ic, id, ifl, ilen, iout⟩ := hinv2
  have hfl : tx_in_flight s = 0 := by
    show u32_sub s.cur_tx s.dirty_tx = 0
    rw [hcd]
    exact u32_sub_self_lt _ ic
  have hslot : skb_at s.tx_skbuff (s.cur_tx % s.dma_tx_size) = none :=
    iout _ (fun i hi => by rw [hfl] at hi; omega)
  have hav := u32_avail_eq s.dirty_tx s.cur_tx s.dma_tx_size iN ic id ifl
  have hfl2 : u32_sub s.cur_tx s.dirty_tx = 0 := hfl
  have hav2 : E.MAX_SKB_FRAGS + 2 < stmmac_tx_avail s := by
    show E.MAX_SKB_FRAGS + 2 < u32_sub (u32_sub (u32_add s.dirty_tx s.dma_tx_size) s.cur_tx) 1
    omega
  obtain ⟨_, w1, w2, w4, w5, w6, _, w9⟩ :=
    xmit_linear_running E 1000 100 s (by decide) hinv hq hav2 hslot
  have r1 := tx_reachable.xmit s true (linear_skb 1000 100) hr hq rfl (Nat.zero_le _)
  generalize (stmmac_xmit E true (linear_skb 1000 100) s).1 = s1 at w1 w2 w4 w5 w6 w9 r1
  have r2 := tx_reachable.hardware s1 (List.replicate s1.dma_tx_size default) r1
  have g7 : tx_in_flight s1 = 1 := by rw [w2, hfl]
  obtain ⟨t1, t2, t3, t4⟩ := hw_reclaims_single E s1 (List.replicate s1.dma_tx_size default)
    w1 g7 (by rw [desc_at_replicate]; exact hown) w9
  refine ⟨_, tx_reachable.reclaim _ r2, by rw [t3, w4], ?_, by rw [t2, w6], t4⟩
  rw [t1, t2, w5, w6, hcd]
theorem idle_reach (E : stmmac_env) (s0 : net_device)
    (hown : E.ops.get_tx_owner default = false)
    (hN : E.MAX_SKB_FRAGS + 3 < s0.dma_tx_size) (hU : s0.dma_tx_size < U32) :
    ∀ c, c < U32 →
      ∃ s, tx_reachable E s ∧ s.dma_tx_size = s0.dma_tx_size ∧ s.dirty_tx = c ∧ s.cur_tx = c ∧
        s.queue_stopped = false
  | 0, _ => by
    obtain ⟨slots, ring, hs, _⟩ := init_rings_tx_spec E s0
    have r : tx_reachable E (netif_start_queue (init_dma_desc_rings_tx E s0)) :=
      tx_reachable.opened s0 (by omega) hU
    generalize ht : netif_start_queue (init_dma_desc_rings_tx E s0) = t at r
    rw [hs] at ht
    refine ⟨t, r, ?_, ?_, ?_, ?_⟩ <;> rw [← ht] <;> rfl
  | c + 1, h => by
    obtain ⟨s, h1, h2, h3, h4, h5⟩ := idle_reach E s0 hown hN hU c (by omega)
    obtain ⟨t, g1, g2, g3, g4, g5⟩ := idle_step E s h1 hown (by rw [h2]; exact hN)
      (h3.trans h4.symm) h5
    have e : u32_add c 1 = c + 1 := Nat.mod_eq_of_lt h
    rw [h4, e] at g4
    exact ⟨t, g1, g2.trans h2, g3.trans g4, g4, g5⟩

theorem wrap_in_flight (k : Nat) (hk : k ≤ 64) :
    u32_sub (u32_add 4294967256 k) 4294967256 = k := by
  unfold u32_sub u32_add U32
  omega

theorem wrap_entry (m : Nat) (h : m < 65) :
    u32_add 4294967256 m % 96 = if m < 40 then m + 24 else m - 40 := by
  unfold u32_add U32
  by_cases h1 : m < 40
  · have e : (4294967256 + m) % 4294967296 = 4294967256 + m := Nat.mod_eq_of_lt (by omega)
    rw [if_pos h1, e]
    omega
  · rw [if_neg h1]
    have e : (4294967256 + m) % 4294967296 = m - 40 := by omega
    rw [e]
    exact Nat.mod_eq_of_lt (by omega)

theorem wrap_entries_distinct (i m : Nat) (h1 : i < m) (h2 : m < 64) :
    u32_add 4294967256 m % 96 ≠ u32_add 4294967256 i % 96 := by
  rw [wrap_entry m (by omega), wrap_entry i (by omega)]
  split_ifs <;> omega

theorem fill_step (E : stmmac_env) (hmax : E.MAX_SKB_FRAGS = 18) (k : Nat) (hk : k < 64)
    (s : net_device) (hr : tx_reachable E s) (hN : s.dma_tx_size = 96)
    (hd : s.dirty_tx = 4294967256) (hc : s.cur_tx = u32_add 4294967256 k)
    (hq : s.queue_stopped = false)
    (h24 : 1 ≤ k → (skb_at s.tx_skbuff 24).isSome = true) :
    ∃ t, tx_reachable E t ∧ t.dma_tx_size = 96 ∧ t.dirty_tx = 4294967256 ∧
      t.cur_tx = u32_add 4294967256 (k + 1) ∧ t.queue_stopped = false ∧
      (skb_at t.tx_skbuff 24).isSome = true := by
  obtain ⟨hinv, _, _⟩ := tx_reachable_inv E s hr
  have hinv2 := hinv
  obtain ⟨iN, ic, id, ifl, ilen, iout⟩ := hinv2
  have hfl : tx_in_flight s = k := by
    show u32_sub s.cur_tx s.dirty_tx = k
    rw [hc, hd]
    exact wrap_in_flight k (by omega)
  have hfl2 : u32_sub s.cur_tx s.dirty_tx = k := hfl
  have hslot : skb_at s.tx_skbuff (s.cur_tx % s.dma_tx_size) = none := by
    apply iout
    intro i hi
    rw [hfl] at hi
    rw [hc, hd, hN]
    exact wrap_entries_distinct i k hi hk
  have hav := u32_avail_eq s.dirty_tx s.cur_tx s.dma_tx_size iN ic id ifl
  have hav2 : E.MAX_SKB_FRAGS + 2 < stmmac_tx_avail s := by
    show E.MAX_SKB_FRAGS + 2 < u32_sub (u32_sub (u32_add s.dirty_tx s.dma_tx_size) s.cur_tx) 1
    omega
  obtain ⟨_, _, _, w4, w5, w6, w7, w9⟩ :=
    xmit_linear_running E 1000 100 s (by decide) hinv hq hav2 hslot
  have r1 := tx_reachable.xmit s true (linear_skb 1000 100) hr hq rfl (Nat.zero_le _)
  refine ⟨_, r1, w4.trans hN, w5.trans hd, ?_, w9, ?_⟩
  · rw [w6, hc, u32_add_add]
  · rw [w7, skb_at_set]
    split_ifs with h
    · rfl
    · apply h24
      by_contra hk0
      have hk00 : k = 0 := by omega
      apply h
      rw [hc, hN, hk00, ilen, hN]
      decide

theorem fill_reach (E : stmmac_env) (hmax : E.MAX_SKB_FRAGS = 18)
    (hown : E.ops.get_tx_owner default = false) :
    ∀ k, k ≤ 64 →
      ∃ s, tx_reachable E s ∧ s.dma_tx_size = 96 ∧ s.dirty_tx = 4294967256 ∧
        s.cur_tx = u32_add 4294967256 k ∧ s.queue_stopped = false ∧
        (1 ≤ k → (skb_at s.tx_skbuff 24).isSome = true)
  | 0, _ => by
    obtain ⟨s, h1, h2, h3, h4, h5⟩ := idle_reach E (blank_dev 96) hown
      (by rw [hmax]; decide) (by decide) 4294967256 (by decide)
    exact ⟨s, h1, h2, h3, h4, h5, fun h => by omega⟩
  | k + 1, hk => by
    obtain ⟨s, h1, h2, h3, h4, h5, h6⟩ := fill_reach E hmax hown k (by omega)
    obtain ⟨t, g1, g2, g3, g4, g5, g6⟩ := fill_step E hmax k (by omega) s h1 h2 h3 h4 h5 h6
    exact ⟨t, g1, g2, g3, g4, g5, fun _ => g6⟩

theorem xmit_slot_occupied (E : stmmac_env) (trylock : Bool) (skb : sk_buff) (s : net_device)
    (ht : trylock = true)
    (hav : skb.frags.length + 1 ≤ stmmac_tx_avail s)
    (hs : (skb_at s.tx_skbuff (s.cur_tx % s.dma_tx_size)).isSome = true) :
    (stmmac_xmit E trylock skb s).2 = NETDEV_TX_LOCKED ∧
    (stmmac_xmit E trylock skb s).1.freed_skbs = s.freed_skbs ++ [skb] ∧
    (stmmac_xmit E trylock skb s).1.stats.tx_dropped = u32_add s.stats.tx_dropped 1 := by
  rw [xmit_unfold]
  unfold stmmac_xmit_body
  dsimp only
  have h0 : ¬ (!trylock) = true := by rw [ht]; decide
  have h1 : ¬ stmmac_tx_avail s < skb.frags.length + 1 := by omega
  rw [if_neg h0, if_neg h1, if_pos hs]
  exact ⟨rfl, rfl, rfl⟩

/-! ## Two runs of the recovery, and the ownership flips of a submission -/

theorem tx_err_twice_ring (E : stmmac_env) (s : net_device) :
    stmmac_tx_err E (stmmac_tx_err E s) =
      { stmmac_tx_err E s with
        dma_tx := E.ops.init_tx_desc (stmmac_tx_err E s).dma_tx s.dma_tx_size
        stats := { (stmmac_tx_err E s).stats with
          tx_errors := u32_add (stmmac_tx_err E s).stats.tx_errors 1 } } := by
  have hslots := tx_err_slots E s
  obtain ⟨a, b, c, h1⟩ := tx_err_shape E s
  rw [h1] at hslots ⊢
  simp only at hslots
  simp only [stmmac_tx_err, netif_wake_queue, stmmac_dma_start_tx, dma_free_tx_skbufs,
    stmmac_dma_stop_tx, netif_stop_queue]
  rw [free_loop_id E _ 0 _ (fun j _ hj => hslots j (by simpa using hj))]
  simp only [dma_control_restart]

theorem head_writes_owner (N cur : Nat) (skb : sk_buff) :
    ∀ w ∈ head_writes N cur skb, w.is_owner = true →
      head_is_split skb = true ∧ w = .set_tx_owner (u32_add cur 1 % N) := by
  intro w hw ho
  unfold head_writes at hw
  dsimp only at hw
  split_ifs at hw with h1 h2
  · simp only [List.mem_cons, List.mem_singleton, List.not_mem_nil, or_false] at hw
    rcases hw with h | h | h | h | h | h | h
    · subst h; simp [tx_desc_write.is_owner] at ho
    · subst h; simp [tx_desc_write.is_owner] at ho
    · subst h; simp [tx_desc_write.is_owner] at ho
    · subst h; simp [tx_desc_write.is_owner] at ho
    · subst h; simp [tx_desc_write.is_owner] at ho
    · subst h; simp [tx_desc_write.is_owner] at ho
    · subst h
      refine ⟨?_, rfl⟩
      simp [head_is_split, h1, h2]
  · simp only [List.mem_cons, List.mem_singleton, List.not_mem_nil, or_false] at hw
    rcases hw with h | h | h <;> subst h <;> simp [tx_desc_write.is_owner] at ho
  · simp only [List.mem_cons, List.mem_singleton, List.not_mem_nil, or_false] at hw
    rcases hw with h | h <;> subst h <;> simp [tx_desc_write.is_owner] at ho

theorem frag_writes_owner (N : Nat) : ∀ (n c : Nat),
    ∀ w ∈ frag_writes N c n, w.is_owner = true →
      ∃ j, 1 ≤ j ∧ j ≤ n ∧ w = .set_tx_owner (u32_add c j % N)
  | 0, _, w, hw, _ => by simp [frag_writes] at hw
  | n + 1, c, w, hw, ho => by
    rw [frag_writes] at hw
    rcases List.mem_append.mp hw with h | h
    · simp only [List.mem_cons, List.mem_singleton, List.not_mem_nil, or_false] at h
      rcases h with h | h | h
      · subst h; simp [tx_desc_write.is_owner] at ho
      · subst h; simp [tx_desc_write.is_owner] at ho
      · exact ⟨1, le_refl _, by omega, h⟩
    · obtain ⟨j, h1, h2, h3⟩ := frag_writes_owner N n (u32_add c 1) w h ho
      refine ⟨j + 1, by omega, by omega, ?_⟩
      rw [h3]
      congr 2
      unfold u32_add U32
      omega

theorem xmit_pre_owner (N cur : Nat) (skb : sk_buff) (e : Nat) :
    ∀ w ∈ head_writes N cur skb ++
        frag_writes N (if head_is_split skb then u32_add cur 1 else cur) skb.frags.length ++
        [tx_desc_write.close_tx_desc e],
      w.is_owner = true →
      ∃ k, 1 ≤ k ∧ k ≤ skb.frags.length + (if head_is_split skb then 1 else 0) ∧
        w = .set_tx_owner (u32_add cur k % N) := by
  intro w hw ho
  rcases List.mem_append.mp hw with h | h
  · rcases List.mem_append.mp h with h | h
    · obtain ⟨hs, he⟩ := head_writes_owner N cur skb w h ho
      rw [hs]
      exact ⟨1, le_refl _, by simp, he⟩
    · obtain ⟨j, h1, h2, h3⟩ := frag_writes_owner N _ _ w h ho
      by_cases hs : head_is_split skb = true
      · rw [hs] at h3 ⊢
        simp only [if_true] at h3 ⊢
        refine ⟨j + 1, by omega, by omega, ?_⟩
        rw [h3]
        congr 2
        unfold u32_add U32
        omega
      · have hs2 : head_is_split skb = false := by simpa using hs
        rw [hs2] at h3 ⊢
        simp only [Bool.false_eq_true, if_false, Nat.add_zero] at h3 ⊢
        exact ⟨j, h1, h2, h3⟩
  · rw [List.mem_singleton.mp h] at ho
    simp [tx_desc_write.is_owner] at ho

theorem xmit_pre_owner_mem (N cur : Nat) (skb : sk_buff) (e k : Nat) (hk1 : 1 ≤ k)
    (hk2 : k ≤ skb.frags.length + (if head_is_split skb then 1 else 0)) :
    tx_desc_write.set_tx_owner (u32_add cur k % N) ∈ head_writes N cur skb ++
        frag_writes N (if head_is_split skb then u32_add cur 1 else cur) skb.frags.length ++
        [tx_desc_write.close_tx_desc e] := by
  by_cases hs : head_is_split skb = true
  · rw [hs] at hk2 ⊢
    simp only [if_true] at hk2 ⊢
    by_cases hk : k = 1
    · subst hk
      have := head_writes_split_mem N cur skb hs
      exact List.mem_append_left _ (List.mem_append_left _ this.2)
    · have e : u32_add cur k = u32_add (u32_add cur 1) (k - 1) := by
        unfold u32_add U32; omega
      have := frag_writes_mem N skb.frags.length (u32_add cur 1) (k - 1) (by omega) (by omega)
      rw [e]
      exact List.mem_append_left _ (List.mem_append_right _ this.2)
  · have hs2 : head_is_split skb = false := by simpa using hs
    rw [hs2] at hk2 ⊢
    simp only [Bool.false_eq_true, if_false, Nat.add_zero] at hk2 ⊢
    have := frag_writes_mem N skb.frags.length cur k hk1 hk2
    exact List.mem_append_left _ (List.mem_append_right _ this.2)

theorem xmit_pre_first_owner (N cur : Nat) (skb : sk_buff) (e : Nat) :
    tx_desc_write.set_tx_owner (cur % N) ∈ head_writes N cur skb ++
        frag_writes N (if head_is_split skb then u32_add cur 1 else cur) skb.frags.length ++
        [tx_desc_write.close_tx_desc e] ↔
      ∃ k, 1 ≤ k ∧ k ≤ skb.frags.length + (if head_is_split skb then 1 else 0) ∧
        u32_add cur k % N = cur % N := by
  constructor
  · intro hmem
    obtain ⟨k, h1, h2, h3⟩ := xmit_pre_owner N cur skb e _ hmem rfl
    injection h3 with h3
    exact ⟨k, h1, h2, h3.symm⟩
  · rintro ⟨k, h1, h2, h3⟩
    rw [← h3]
    exact xmit_pre_owner_mem N cur skb e k h1 h2

/-! ## The rounds of the receive loop -/

theorem rx_round_shape (E : stmmac_rx_env) (N : Nat) (s : stmmac_priv) :
    (stmmac_rx_round E N s).1.cur_rx = u32_add s.cur_rx 1 ∧
    (stmmac_rx_round E N s).1.dma_rx = s.dma_rx := by
  obtain ⟨slots, st, xs, unm, dl, lr, hsh, _, _, _⟩ :=
    rx_frame_shape E (s.cur_rx % N) { s with cur_rx := u32_add s.cur_rx 1 }
  unfold stmmac_rx_round
  rw [hsh]
  exact ⟨rfl, rfl⟩

theorem rx_rounds_succ (E : stmmac_rx_env) (N : Nat) : ∀ (j : Nat) (s : stmmac_priv),
    stmmac_rx_rounds E N (j + 1) s = (stmmac_rx_round E N (stmmac_rx_rounds E N j s)).1
  | 0, _ => rfl
  | j + 1, s => by
    rw [stmmac_rx_rounds, rx_rounds_succ E N j]
    rfl

theorem rx_rounds_keep (E : stmmac_rx_env) (N : Nat) : ∀ (j : Nat) (s : stmmac_priv),
    s.cur_rx < U32 →
    (stmmac_rx_rounds E N j s).cur_rx = u32_add s.cur_rx j ∧
    (stmmac_rx_rounds E N j s).dma_rx = s.dma_rx
  | 0, s, hc => ⟨(u32_add_zero_of_lt _ hc).symm, rfl⟩
  | j + 1, s, hc => by
    obtain ⟨h1, h2⟩ := rx_round_shape E N s
    obtain ⟨h3, h4⟩ := rx_rounds_keep E N j (stmmac_rx_round E N s).1
      (by rw [h1]; exact u32_add_lt _ _)
    rw [stmmac_rx_rounds]
    refine ⟨?_, by rw [h4, h2]⟩
    rw [h3, h1]
    unfold u32_add U32
    omega

theorem rx_loop_rounds (E : stmmac_rx_env) (N : Nat) :
    ∀ (left count : Nat) (s : stmmac_priv),
    ∃ k, k ≤ left ∧
      stmmac_rx_loop E N left (s.cur_rx % N) count s = (stmmac_rx_rounds E N k s, count + k) ∧
      (∀ j, j < k → E.ops.get_rx_owner (desc_at (stmmac_rx_rounds E N j s).dma_rx
        ((stmmac_rx_rounds E N j s).cur_rx % N)) = false) ∧
      (k = left ∨
        E.ops.get_rx_owner (desc_at (stmmac_rx_rounds E N k s).dma_rx
          ((stmmac_rx_rounds E N k s).cur_rx % N)) = true ∨
        (0 < k ∧ (stmmac_rx_round E N (stmmac_rx_rounds E N (k - 1) s)).2 = false))
  | 0, count, s => ⟨0, le_refl _, rfl, fun j h => absurd h (Nat.not_lt_zero j), Or.inl rfl⟩
  | left + 1, count, s => by
    rw [stmmac_rx_loop]
    by_cases h1 : E.ops.get_rx_owner (desc_at s.dma_rx (s.cur_rx % N)) = true
    · rw [if_pos h1]
      exact ⟨0, Nat.zero_le _, rfl, fun j h => absurd h (Nat.not_lt_zero j), Or.inr (Or.inl h1)⟩
    · rw [if_neg h1]
      have h1f : E.ops.get_rx_owner (desc_at s.dma_rx (s.cur_rx % N)) = false := by
        simpa using h1
      dsimp only
      have hr : stmmac_rx_frame E (s.cur_rx % N) { s with cur_rx := u32_add s.cur_rx 1 }
          = stmmac_rx_round E N s := rfl
      rw [hr]
      obtain ⟨hcur, _⟩ := rx_round_shape E N s
      by_cases h2 : (stmmac_rx_round E N s).2 = true
      · rw [if_pos h2]
        obtain ⟨k, hk, e1, e2, e3⟩ := rx_loop_rounds E N left (count + 1) (stmmac_rx_round E N s).1
        rw [hcur] at e1
        refine ⟨k + 1, by omega, ?_, ?_, ?_⟩
        · rw [e1, stmmac_rx_rounds]
          congr 1
          omega
        · intro j hj
          cases j with
          | zero => exact h1f
          | succ j => exact e2 j (by omega)
        · rcases e3 with e3 | e3 | e3
          · exact Or.inl (by omega)
          · exact Or.inr (Or.inl e3)
          · refine Or.inr (Or.inr ⟨by omega, ?_⟩)
            obtain ⟨k0, e4⟩ := e3
            have hk1 : k + 1 - 1 = (k - 1) + 1 := by omega
            rw [hk1, stmmac_rx_rounds]
            exact e4
      · rw [if_neg h2]
        have h2f : (stmmac_rx_round E N s).2 = false := by simpa using h2
        refine ⟨1, by omega, rfl, ?_, Or.inr (Or.inr ⟨by omega, h2f⟩)⟩
        intro j hj
        have : j = 0 := by omega
        subst this
        exact h1f

theorem u32_to_int_of_lt (k : Nat) (h : k < 2147483648) : u32_to_int k = (k : Int) := by
  unfold u32_to_int U32
  rw [Nat.mod_eq_of_lt (by omega), if_pos h]

theorem int_to_u32_cast (B : Int) (h0 : 0 ≤ B) (h1 : B < 2147483648) :
    ((int_to_u32 B : Nat) : Int) = B := by
  unfold int_to_u32 U32
  rw [Int.emod_eq_of_lt (by omega) (by omega)]
  omega

theorem u32_pending_index (c d j2 k i : Nat) (hc : c < U32)
    (hp : u32_sub c d < 2147483648) (hk : k < 2147483648)
    (hj : j2 ≤ u32_sub (u32_add c k) d)
    (he : u32_add d j2 = u32_add c k) (hi : i < k) :
    u32_sub (u32_add c i) d < j2 ∧ u32_add d (u32_sub (u32_add c i) d) = u32_add c i := by
  unfold u32_sub u32_add U32 at *
  omega

theorem u32_add_inj (c k1 k2 : Nat) (h1 : k1 < 2147483648) (h2 : k2 < 2147483648)
    (h : u32_add c k1 = u32_add c k2) : k1 = k2 := by
  unfold u32_add U32 at *
  omega

/-! ## Theorems -/

set_option maxRecDepth 100000

/-- C1: `stmmac_tx_avail` is `dirty_tx + N - cur_tx - 1` modulo `2^32`, for
all cursors and ring sizes; hence, for a 32-bit ring size `N`, whenever the
number of descriptors in flight `cur_tx - dirty_tx` (modulo `2^32`) is at most
`N - 1`, the available slots and the descriptors in flight add up to `N - 1`,
wherever the cursors stand with respect to the wrap at `2^32`. -/
theorem stmmac_tx_avail_plus_in_flight (s : net_device) :
    ((stmmac_tx_avail s : Nat) : Int)
        = ((s.dirty_tx : Int) + s.dma_tx_size - s.cur_tx - 1) % 4294967296
      ∧ (s.dma_tx_size < U32 → tx_in_flight s + 1 ≤ s.dma_tx_size →
          stmmac_tx_avail s + tx_in_flight s = s.dma_tx_size - 1) := by
  unfold stmmac_tx_avail tx_in_flight u32_sub u32_add U32
  constructor
  · omega
  · intro h1 h2
    omega

/-- C1, on a ring of 128 whose submission cursor has wrapped: 3 descriptors
are in flight and 124 slots are available. -/
theorem stmmac_tx_avail_wrapped :
    tx_in_flight wrapped_dev = 3 ∧ stmmac_tx_avail wrapped_dev = 124 ∧
    stmmac_tx_avail wrapped_dev + tx_in_flight wrapped_dev = wrapped_dev.dma_tx_size - 1 :=
  ⟨by decide, by decide,
    (stmmac_tx_avail_plus_in_flight wrapped_dev).2 (by decide) (by decide)⟩

/-- C3: when the lock is taken and fewer than `nfrags + 1` slots are
available, `stmmac_xmit` returns `NETDEV_TX_BUSY` and the device afterwards is
the device before with the queue stopped: cursors, slots, descriptors,
counters and the list of freed packets are the same. -/
theorem stmmac_xmit_busy (E : stmmac_env) (skb : sk_buff) (s : net_device)
    (h : stmmac_tx_avail s < skb.frags.length + 1) :
    (stmmac_xmit E true skb s).2 = NETDEV_TX_BUSY ∧
    (stmmac_xmit E true skb s).1.queue_stopped = true ∧
    (stmmac_xmit E true skb s).1 = { s with queue_stopped := true } := by
  rw [xmit_busy_eq E skb s h]
  exact ⟨rfl, rfl, rfl⟩

/-- C3, on the ring of 32 with 31 packets in flight: one more packet is
refused and nothing but the queue state changes. -/
theorem stmmac_xmit_busy_full_ring :
    stmmac_tx_avail thirty_one_in_flight = 0 ∧
    (stmmac_xmit spec_env true (linear_skb 4000 100) thirty_one_in_flight).2 = NETDEV_TX_BUSY ∧
    (stmmac_xmit spec_env true (linear_skb 4000 100) thirty_one_in_flight).1
      = { thirty_one_in_flight with queue_stopped := true } :=
  ⟨by decide,
    (stmmac_xmit_busy spec_env (linear_skb 4000 100) thirty_one_in_flight (by decide)).1,
    (stmmac_xmit_busy spec_env (linear_skb 4000 100) thirty_one_in_flight (by decide)).2.2⟩

/-- C5: after `stmmac_tx_err`, from any device state, both cursors are 0, the
available slots are `N - 1` (in `u32`, and as a number when `1 ≤ N < 2^32`),
and every slot of the ring is empty. -/
theorem stmmac_tx_err_resets (E : stmmac_env) (s : net_device) :
    (stmmac_tx_err E s).cur_tx = 0 ∧ (stmmac_tx_err E s).dirty_tx = 0 ∧
    (stmmac_tx_err E s).dma_tx_size = s.dma_tx_size ∧
    stmmac_tx_avail (stmmac_tx_err E s) = u32_sub s.dma_tx_size 1 ∧
    (1 ≤ s.dma_tx_size → s.dma_tx_size < U32 →
      stmmac_tx_avail (stmmac_tx_err E s) = s.dma_tx_size - 1) ∧
    ∀ j, j < s.dma_tx_size → skb_at (stmmac_tx_err E s).tx_skbuff j = none :=
  tx_err_post E s

/-- C5, on the ring of 32 with 31 packets in flight. -/
theorem stmmac_tx_err_resets_full_ring :
    stmmac_tx_avail (stmmac_tx_err spec_env thirty_one_in_flight) = 31 ∧
    (stmmac_tx_err spec_env thirty_one_in_flight).tx_skbuff = List.replicate 32 none :=
  ⟨(stmmac_tx_err_resets spec_env thirty_one_in_flight).2.2.2.2.1 (by decide) (by decide), by rfl⟩

/-- C6, as stated, fails: on the ring of 32 with 30 packets in flight a
second run of `stmmac_tx_err` does not give the device of the first run; the
counter `tx_errors` is 1 after one run and 2 after two. -/
theorem stmmac_tx_err_twice_differs :
    stmmac_tx_err spec_env (stmmac_tx_err spec_env thirty_in_flight)
        ≠ stmmac_tx_err spec_env thirty_in_flight ∧
    (stmmac_tx_err spec_env thirty_in_flight).stats.tx_errors = 1 ∧
    (stmmac_tx_err spec_env (stmmac_tx_err spec_env thirty_in_flight)).stats.tx_errors = 2 := by
  refine ⟨fun h => ?_, by decide, by decide⟩
  have h2 := congrArg (fun d => d.stats.tx_errors) h
  revert h2
  decide

/-- C6, amended: in every case a second run of `stmmac_tx_err` gives the
device of the first run with `tx_errors` incremented once more and the
descriptor ring passed through `init_tx_desc` once more; cursors, slots,
freed packets, unmapped buffers, queue state, DMA control register and every
other field are those of the first run. When `init_tx_desc` is idempotent the
descriptor ring is that of the first run too. -/
theorem stmmac_tx_err_idempotent (E : stmmac_env) (s : net_device) :
    stmmac_tx_err E (stmmac_tx_err E s) =
      { stmmac_tx_err E s with
        dma_tx := E.ops.init_tx_desc (stmmac_tx_err E s).dma_tx s.dma_tx_size
        stats := { (stmmac_tx_err E s).stats with
          tx_errors := u32_add (stmmac_tx_err E s).stats.tx_errors 1 } } ∧
    ((∀ ring n,
        E.ops.init_tx_desc (E.ops.init_tx_desc ring n) n = E.ops.init_tx_desc ring n) →
      stmmac_tx_err E (stmmac_tx_err E s) =
        { stmmac_tx_err E s with
          stats := { (stmmac_tx_err E s).stats with
            tx_errors := u32_add (stmmac_tx_err E s).stats.tx_errors 1 } }) :=
  ⟨tx_err_twice_ring E s, tx_err_twice E s⟩

/-- C6, amended, on the ring of 32 with 30 packets in flight, where
`init_tx_desc` is idempotent. -/
theorem stmmac_tx_err_idempotent_thirty_in_flight :
    stmmac_tx_err spec_env (stmmac_tx_err spec_env thirty_in_flight) =
      { stmmac_tx_err spec_env thirty_in_flight with
        stats := { (stmmac_tx_err spec_env thirty_in_flight).stats with
          tx_errors := u32_add (stmmac_tx_err spec_env thirty_in_flight).stats.tx_errors 1 } } :=
  (stmmac_tx_err_idempotent spec_env thirty_in_flight).2 spec_init_tx_desc_idem

/-- C9: a packet that is not GSO, whose linear part is at most 8 KiB, and
that `stmmac_xmit` accepts, advances `cur_tx` by `nfrags + 1` (in `u32`),
leaves `dirty_tx` and the ring size as they are, and lowers
`stmmac_tx_avail` by exactly `nfrags + 1`. -/
theorem stmmac_xmit_consumes (E : stmmac_env) (trylock : Bool) (skb : sk_buff) (s : net_device)
    (hgso : skb_is_gso skb = false)
    (hhead : skb_headlen skb ≤ BUF_SIZE_8KiB)
    (hok : (stmmac_xmit E trylock skb s).2 = NETDEV_TX_OK) :
    (stmmac_xmit E trylock skb s).1.cur_tx = u32_add s.cur_tx (skb.frags.length + 1) ∧
    (stmmac_xmit E trylock skb s).1.dirty_tx = s.dirty_tx ∧
    (stmmac_xmit E trylock skb s).1.dma_tx_size = s.dma_tx_size ∧
    stmmac_tx_avail (stmmac_xmit E trylock skb s).1 + (skb.frags.length + 1)
      = stmmac_tx_avail s := by
  obtain ⟨_, hav, _, heq⟩ := xmit_queued E trylock skb s hgso hok
  obtain ⟨cur, slots, ring, post, q, tc, csh, hq, hcur, _, _, _⟩ := xmit_queue_spec E skb s
  have hsplit : head_is_split skb = false := by
    unfold head_is_split
    have : ¬ skb_headlen skb > BUF_SIZE_8KiB := by omega
    simp [this]
  rw [heq, hq]
  rw [hsplit] at hcur
  simp only [Bool.false_eq_true, if_false, Nat.add_zero] at hcur
  have hc : u32_add cur 1 = u32_add s.cur_tx (skb.frags.length + 1) := by
    unfold u32_add U32 at *; omega
  refine ⟨hc, rfl, rfl, ?_⟩
  unfold stmmac_tx_avail at hav ⊢
  dsimp only
  rw [hc]
  unfold u32_sub u32_add U32 at *
  omega

/-- C9, for a chain of three segments on the ring of 32: three descriptors
are consumed, 31 slots were available and 28 are left. -/
theorem stmmac_xmit_consumes_three :
    (stmmac_xmit spec_env true chain_skb ring32).1.cur_tx = 3 ∧
    stmmac_tx_avail ring32 = 31 ∧
    stmmac_tx_avail (stmmac_xmit spec_env true chain_skb ring32).1 + (2 + 1) = 31 :=
  ⟨(stmmac_xmit_consumes spec_env true chain_skb ring32 (by decide) (by decide) (by decide)).1,
    by decide,
    (stmmac_xmit_consumes spec_env true chain_skb ring32 (by decide) (by decide) (by decide)).2.2.2⟩

/-- C10, the code at the failing input: on the ring of 32 with 30 descriptors
in flight (one slot available) a linear packet of 9000 bytes is accepted and
takes two descriptors; 32 descriptors are then in flight, none is reserved,
and `stmmac_tx_avail` wraps to `2^32 - 1`. -/
theorem stmmac_xmit_jumbo_overruns :
    tx_in_flight thirty_in_flight = 30 ∧ stmmac_tx_avail thirty_in_flight = 1 ∧
    (stmmac_xmit spec_env true jumbo_skb thirty_in_flight).2 = NETDEV_TX_OK ∧
    tx_in_flight (stmmac_xmit spec_env true jumbo_skb thirty_in_flight).1 = 32 ∧
    stmmac_tx_avail (stmmac_xmit spec_env true jumbo_skb thirty_in_flight).1 = 4294967295 := by
  refine ⟨by decide, by decide, by decide, by decide, by decide⟩

/-- C7, as stated, fails: for the chain of three segments on the ring of 32
the packet is accepted, and the last descriptor (entry 2) is written by
`close_tx_desc` after `set_tx_owner` has been applied to it. -/
theorem stmmac_xmit_closes_after_owner :
    (stmmac_xmit spec_env true chain_skb ring32).2 = NETDEV_TX_OK ∧
    (stmmac_xmit spec_env true chain_skb ring32).1.tx_trace =
      [.des2 0, .prepare_tx_desc 0,
       .des2 1, .prepare_tx_desc 1, .set_tx_owner 1,
       .des2 2, .prepare_tx_desc 2, .set_tx_owner 2,
       .close_tx_desc 2, .set_tx_owner 0] ∧
    written_after_owner (stmmac_xmit spec_env true chain_skb ring32).1.tx_trace = true := by
  refine ⟨by decide, by decide, by decide⟩

/-- C7, amended: for every packet that is not GSO and that `stmmac_xmit`
accepts, the descriptor writes of the call are `pre`, then `set_tx_owner` on
the first descriptor of the chain, then `post`, where every `des2`/`des3`
store, `prepare_tx_desc` and `close_tx_desc` of the call is in `pre`: `post`
holds nothing but `clear_tx_ic`, and `pre` holds no `clear_tx_ic`. Every
ownership flip in `pre` is the flip of a trailing descriptor of the chain
(the `k`-th after the first, `1 ≤ k ≤ n`, with `n` the number of trailing
descriptors), so the flip that follows `pre` is the only one the code applies
to the first descriptor; `pre` holds a `set_tx_owner` on the ring entry of
the first descriptor exactly when a trailing descriptor of the chain falls on
that entry. -/
theorem stmmac_xmit_fields_before_first_owner (E : stmmac_env) (trylock : Bool) (skb : sk_buff)
    (s : net_device)
    (hgso : skb_is_gso skb = false)
    (hok : (stmmac_xmit E trylock skb s).2 = NETDEV_TX_OK) :
    ∃ pre post,
      (stmmac_xmit E trylock skb s).1.tx_trace =
        s.tx_trace ++ pre ++ [.set_tx_owner (s.cur_tx % s.dma_tx_size)] ++ post ∧
      (∀ w ∈ post, w.is_clear_ic = true) ∧
      (∀ w ∈ pre, w.is_clear_ic = false) ∧
      (∀ w ∈ pre, w.is_owner = true →
        ∃ k, 1 ≤ k ∧ k ≤ skb.frags.length + (if head_is_split skb then 1 else 0) ∧
          w = .set_tx_owner (u32_add s.cur_tx k % s.dma_tx_size)) ∧
      (tx_desc_write.set_tx_owner (s.cur_tx % s.dma_tx_size) ∈ pre ↔
        ∃ k, 1 ≤ k ∧ k ≤ skb.frags.length + (if head_is_split skb then 1 else 0) ∧
          u32_add s.cur_tx k % s.dma_tx_size = s.cur_tx % s.dma_tx_size) := by
  obtain ⟨cur, post, htr, _, _, hpost, _⟩ := xmit_trace_shape E trylock skb s hgso hok
  refine ⟨_, post, htr, ?_, ?_, xmit_pre_owner _ _ _ _, xmit_pre_first_owner _ _ _ _⟩
  · intro w hw
    rcases hpost with h | h
    · rw [h] at hw; cases hw
    · rw [h] at hw
      rw [List.mem_singleton.mp hw]
      rfl
  · intro w hw
    rcases List.mem_append.mp hw with h1 | h1
    · rcases List.mem_append.mp h1 with h2 | h2
      · exact head_writes_no_ic _ _ _ w h2
      · exact frag_writes_no_ic _ _ _ w h2
    · rw [List.mem_singleton.mp h1]
      rfl

/-- C7, amended, for the chain of three segments on the ring of 32 with
interrupt moderation on (`tx_coalesce = 2`): entries 1 and 2 are not entry 0,
so `pre` holds no ownership flip of entry 0. -/
theorem stmmac_xmit_fields_before_first_owner_chain :
    ∃ pre post,
      (stmmac_xmit spec_env true chain_skb moderated_ring).1.tx_trace =
        moderated_ring.tx_trace ++ pre ++
          [.set_tx_owner (moderated_ring.cur_tx % moderated_ring.dma_tx_size)] ++ post ∧
      (∀ w ∈ post, w.is_clear_ic = true) ∧
      (∀ w ∈ pre, w.is_clear_ic = false) ∧
      (∀ w ∈ pre, w.is_owner = true →
        ∃ k, 1 ≤ k ∧ k ≤ chain_skb.frags.length + (if head_is_split chain_skb then 1 else 0) ∧
          w = .set_tx_owner (u32_add moderated_ring.cur_tx k % moderated_ring.dma_tx_size)) ∧
      tx_desc_write.set_tx_owner (moderated_ring.cur_tx % moderated_ring.dma_tx_size) ∉ pre := by
  obtain ⟨pre, post, h1, h2, h3, h4, h5⟩ :=
    stmmac_xmit_fields_before_first_owner spec_env true chain_skb moderated_ring
      (by decide) (by decide)
  refine ⟨pre, post, h1, h2, h3, h4, fun hm => ?_⟩
  obtain ⟨k, hk1, hk2, hk3⟩ := h5.mp hm
  have hk4 : k ≤ 2 := hk2
  interval_cases k
  · exact absurd hk3 (by decide)
  · exact absurd hk3 (by decide)

/-- C8: for every packet that is not GSO and that `stmmac_xmit` accepts, on a
32-bit cursor, with `n` the number of trailing descriptors of its chain
(`nfrags`, one more when the linear part is split): `cur_tx` advances by
`n + 1`; the descriptor writes of the call are `pre`, then `set_tx_owner` on
the first descriptor, then `post`; every trailing descriptor is prepared and
handed to the hardware in `pre`, the last one is closed in `pre`, and `post`
holds no ownership flip. Every ownership flip in `pre` is the flip of one of
the `n` trailing descriptors, so the first descriptor is handed over once, by
the flip that follows `pre`; `pre` holds a `set_tx_owner` on the ring entry
of the first descriptor exactly when a trailing descriptor of the chain falls
on that entry. -/
theorem stmmac_xmit_first_owner_last (E : stmmac_env) (trylock : Bool) (skb : sk_buff)
    (s : net_device)
    (hgso : skb_is_gso skb = false)
    (hcur : s.cur_tx < U32)
    (hok : (stmmac_xmit E trylock skb s).2 = NETDEV_TX_OK) :
    ∃ pre post,
      (stmmac_xmit E trylock skb s).1.tx_trace =
        s.tx_trace ++ pre ++ [.set_tx_owner (s.cur_tx % s.dma_tx_size)] ++ post ∧
      (stmmac_xmit E trylock skb s).1.cur_tx =
        u32_add s.cur_tx (skb.frags.length + (if head_is_split skb then 1 else 0) + 1) ∧
      (∀ k, 1 ≤ k → k ≤ skb.frags.length + (if head_is_split skb then 1 else 0) →
        tx_desc_write.prepare_tx_desc (u32_add s.cur_tx k % s.dma_tx_size) ∈ pre ∧
        tx_desc_write.set_tx_owner (u32_add s.cur_tx k % s.dma_tx_size) ∈ pre) ∧
      tx_desc_write.close_tx_desc
        (u32_add s.cur_tx (skb.frags.length + (if head_is_split skb then 1 else 0))
          % s.dma_tx_size) ∈ pre ∧
      (∀ w ∈ post, w.is_owner = false) ∧
      (∀ w ∈ pre, w.is_owner = true →
        ∃ k, 1 ≤ k ∧ k ≤ skb.frags.length + (if head_is_split skb then 1 else 0) ∧
          w = .set_tx_owner (u32_add s.cur_tx k % s.dma_tx_size)) ∧
      (tx_desc_write.set_tx_owner (s.cur_tx % s.dma_tx_size) ∈ pre ↔
        ∃ k, 1 ≤ k ∧ k ≤ skb.frags.length + (if head_is_split skb then 1 else 0) ∧
          u32_add s.cur_tx k % s.dma_tx_size = s.cur_tx % s.dma_tx_size) := by
  obtain ⟨cur, post, htr, hc, hcur2, hpost, hlt⟩ := xmit_trace_shape E trylock skb s hgso hok
  have hcur3 : cur = u32_add s.cur_tx
      (skb.frags.length + (if head_is_split skb then 1 else 0)) := by
    have := hlt hcur
    unfold u32_add
    unfold U32 at *
    omega
  refine ⟨_, post, htr, ?_, ?_, ?_, ?_, xmit_pre_owner _ _ _ _, xmit_pre_first_owner _ _ _ _⟩
  · rw [hc, hcur3]
    unfold u32_add U32
    omega
  · intro k hk1 hk2
    by_cases hs : head_is_split skb = true
    · rw [hs] at hk2 ⊢
      simp only [if_true] at hk2 ⊢
      by_cases hk : k = 1
      · subst hk
        have := head_writes_split_mem s.dma_tx_size s.cur_tx skb hs
        exact ⟨List.mem_append_left _ (List.mem_append_left _ this.1),
          List.mem_append_left _ (List.mem_append_left _ this.2)⟩
      · have e : u32_add s.cur_tx k = u32_add (u32_add s.cur_tx 1) (k - 1) := by
          unfold u32_add U32; omega
        have := frag_writes_mem s.dma_tx_size skb.frags.length (u32_add s.cur_tx 1) (k - 1)
          (by omega) (by omega)
        rw [e]
        exact ⟨List.mem_append_left _ (List.mem_append_right _ this.1),
          List.mem_append_left _ (List.mem_append_right _ this.2)⟩
    · have hs2 : head_is_split skb = false := by simpa using hs
      rw [hs2] at hk2 ⊢
      simp only [Bool.false_eq_true, if_false, Nat.add_zero] at hk2 ⊢
      have := frag_writes_mem s.dma_tx_size skb.frags.length s.cur_tx k hk1 hk2
      exact ⟨List.mem_append_left _ (List.mem_append_right _ this.1),
        List.mem_append_left _ (List.mem_append_right _ this.2)⟩
  · rw [← hcur3]
    exact List.mem_append_right _ (List.mem_singleton.mpr rfl)
  · intro w hw
    rcases hpost with h | h
    · rw [h] at hw; cases hw
    · rw [h] at hw
      rw [List.mem_singleton.mp hw]
      rfl

/-- C8, for the chain of three segments on the ring of 32: the writes of the
call end with the ownership flip of entry 0, after entries 1 and 2 have been
prepared and handed over and entry 2 has been closed; entry 0 is not flipped
before. -/
theorem stmmac_xmit_first_owner_last_chain :
    ∃ pre post,
      (stmmac_xmit spec_env true chain_skb ring32).1.tx_trace =
        ring32.tx_trace ++ pre ++ [.set_tx_owner (ring32.cur_tx % ring32.dma_tx_size)] ++ post ∧
      (stmmac_xmit spec_env true chain_skb ring32).1.cur_tx =
        u32_add ring32.cur_tx
          (chain_skb.frags.length + (if head_is_split chain_skb then 1 else 0) + 1) ∧
      (∀ k, 1 ≤ k → k ≤ chain_skb.frags.length + (if head_is_split chain_skb then 1 else 0) →
        tx_desc_write.prepare_tx_desc (u32_add ring32.cur_tx k % ring32.dma_tx_size) ∈ pre ∧
        tx_desc_write.set_tx_owner (u32_add ring32.cur_tx k % ring32.dma_tx_size) ∈ pre) ∧
      tx_desc_write.close_tx_desc
        (u32_add ring32.cur_tx (chain_skb.frags.length + (if head_is_split chain_skb then 1 else 0))
          % ring32.dma_tx_size) ∈ pre ∧
      (∀ w ∈ post, w.is_owner = false) ∧
      (∀ w ∈ pre, w.is_owner = true →
        ∃ k, 1 ≤ k ∧ k ≤ chain_skb.frags.length + (if head_is_split chain_skb then 1 else 0) ∧
          w = .set_tx_owner (u32_add ring32.cur_tx k % ring32.dma_tx_size)) ∧
      tx_desc_write.set_tx_owner (ring32.cur_tx % ring32.dma_tx_size) ∉ pre := by
  obtain ⟨pre, post, h1, h2, h3, h4, h5, h6, h7⟩ :=
    stmmac_xmit_first_owner_last spec_env true chain_skb ring32 (by decide) (by decide) (by decide)
  refine ⟨pre, post, h1, h2, h3, h4, h5, h6, fun hm => ?_⟩
  obtain ⟨k, hk1, hk2, hk3⟩ := h7.mp hm
  have hk4 : k ≤ 2 := hk2
  interval_cases k
  · exact absurd hk3 (by decide)
  · exact absurd hk3 (by decide)

/-- C2, as stated, fails: the ring of 32 with the cursors 32 apart satisfies
`dirty_tx ≤ cur_tx ≤ dirty_tx + N`; `stmmac_tx_avail` wraps to `2^32 - 1`
there, so a linear packet is accepted, `cur_tx` becomes 33 and 33
descriptors are in flight on a ring of 32. -/
theorem stmmac_xmit_breaks_spec_inv :
    tx_ring_inv_spec overfull_ring ∧
    stmmac_tx_avail overfull_ring = 4294967295 ∧
    (stmmac_xmit spec_env true (linear_skb 1000 100) overfull_ring).2 = NETDEV_TX_OK ∧
    (stmmac_xmit spec_env true (linear_skb 1000 100) overfull_ring).1.cur_tx = 33 ∧
    tx_in_flight (stmmac_xmit spec_env true (linear_skb 1000 100) overfull_ring).1 = 33 ∧
    ¬ tx_ring_inv_spec (stmmac_xmit spec_env true (linear_skb 1000 100) overfull_ring).1 := by
  refine ⟨by decide, by decide, by decide, by decide, by decide, by decide⟩

/-- C2, amended: the invariant "at most `N - 1` descriptors in flight"
(`cur_tx - dirty_tx` modulo `2^32`) is preserved by `stmmac_xmit`, whatever it
returns and whether the lock is obtained or not, for every packet whose
linear part is not split over two descriptors (for a GSO packet: none of its
segments is), by `stmmac_tx` and by `stmmac_tx_err`. -/
theorem tx_ring_inv_preserved (E : stmmac_env) (s : net_device) (h : tx_ring_inv s) :
    (∀ (trylock : Bool) (skb : sk_buff), heads_fit skb = true →
      tx_ring_inv (stmmac_xmit E trylock skb s).1) ∧
    tx_ring_inv (stmmac_tx E s) ∧
    tx_ring_inv (stmmac_tx_err E s) :=
  ⟨fun trylock skb hfit => xmit_inv E skb trylock s hfit h, stmmac_tx_inv E s h,
    stmmac_tx_err_inv E s h⟩

/-- C2, amended, on the ring of 32 with 30 packets in flight: one more
packet, a reclaim and a recovery each leave at most 31 descriptors in
flight. -/
theorem tx_ring_inv_preserved_thirty_in_flight :
    tx_ring_inv thirty_in_flight ∧
    tx_ring_inv (stmmac_xmit spec_env true (linear_skb 3000 100) thirty_in_flight).1 ∧
    tx_ring_inv (stmmac_tx spec_env thirty_in_flight) ∧
    tx_ring_inv (stmmac_tx_err spec_env thirty_in_flight) :=
  ⟨by decide,
    (tx_ring_inv_preserved spec_env thirty_in_flight (by decide)).1 true (linear_skb 3000 100)
      (by decide),
    (tx_ring_inv_preserved spec_env thirty_in_flight (by decide)).2.1,
    (tx_ring_inv_preserved spec_env thirty_in_flight (by decide)).2.2⟩

/-- C4: on a ring of `N ≥ 2` descriptors that has just been initialised, with
no reclaim in between, `N - 1` consecutive submissions of single-descriptor
packets all return `NETDEV_TX_OK` and the next one returns `NETDEV_TX_BUSY`;
when the hardware has then completed the first descriptor, `stmmac_tx`
reclaims at least one, and whenever `stmmac_tx` has reclaimed at least one
(whatever the hardware wrote to the descriptors) a further submission returns
`NETDEV_TX_OK`. -/
theorem stmmac_xmit_fills_ring (E : stmmac_env) (s0 : net_device) (pkts : List sk_buff)
    (p q : sk_buff)
    (hN : 2 ≤ s0.dma_tx_size) (hN32 : s0.dma_tx_size < U32)
    (hlen : pkts.length + 1 = s0.dma_tx_size)
    (hpk : ∀ x ∈ pkts, single_desc x = true)
    (hp : single_desc p = true) (hq : single_desc q = true) :
    (stmmac_xmit_seq E pkts (init_dma_desc_rings_tx E s0)).2
      = List.replicate (s0.dma_tx_size - 1) NETDEV_TX_OK ∧
    (stmmac_xmit E true p (stmmac_xmit_seq E pkts (init_dma_desc_rings_tx E s0)).1).2
      = NETDEV_TX_BUSY ∧
    (∀ ring, E.ops.get_tx_owner (desc_at ring 0) = false →
      (stmmac_tx E
        { (stmmac_xmit E true p (stmmac_xmit_seq E pkts (init_dma_desc_rings_tx E s0)).1).1 with
          dma_tx := ring }).dirty_tx ≠ 0) ∧
    (∀ ring,
      (stmmac_tx E
        { (stmmac_xmit E true p (stmmac_xmit_seq E pkts (init_dma_desc_rings_tx E s0)).1).1 with
          dma_tx := ring }).dirty_tx ≠ 0 →
      (stmmac_xmit E true q (stmmac_tx E
        { (stmmac_xmit E true p (stmmac_xmit_seq E pkts (init_dma_desc_rings_tx E s0)).1).1 with
          dma_tx := ring })).2 = NETDEV_TX_OK) := by
  obtain ⟨slots0, ring0, hinit, hnone⟩ := init_rings_tx_spec E s0
  have hfill := xmit_seq_fill E pkts (init_dma_desc_rings_tx E s0) hpk (by rw [hinit])
    (by rw [hinit]; dsimp only; omega) (by rw [hinit]; exact hN32)
    (by rw [hinit]; exact fun j _ => hnone j)
  have hc0 : (init_dma_desc_rings_tx E s0).cur_tx = 0 := by rw [hinit]
  have hz0 : (init_dma_desc_rings_tx E s0).dma_tx_size = s0.dma_tx_size := by rw [hinit]
  rw [hc0, hz0] at hfill
  generalize stmmac_xmit_seq E pkts (init_dma_desc_rings_tx E s0) = r at hfill ⊢
  obtain ⟨f1, f2, f3, f4, f5⟩ := hfill
  have hpl : pkts.length = s0.dma_tx_size - 1 := by omega
  rw [Nat.zero_add, hpl] at f3 f5
  obtain ⟨hpf, _, _⟩ := single_desc_iff p hp
  have havail : stmmac_tx_avail r.1 = 0 := by
    unfold stmmac_tx_avail
    rw [f2, f3, f4]
    unfold u32_sub u32_add
    unfold U32 at *
    omega
  have hbusy := xmit_busy_eq E p r.1 (by rw [havail]; omega)
  rw [hbusy]
  dsimp only
  have key : ∀ ring, ∃ n dirty st xs unm ring2 freed slots qs,
      stmmac_tx E { r.1 with queue_stopped := true, dma_tx := ring } =
        { r.1 with dirty_tx := dirty, stats := st, xstats := xs, unmapped := unm,
                   dma_tx := ring2, freed_skbs := freed, tx_skbuff := slots,
                   queue_stopped := qs } ∧
      n + 1 ≤ s0.dma_tx_size ∧ dirty = n ∧
      skb_at slots (s0.dma_tx_size - 1) = none ∧
      (E.ops.get_tx_owner (desc_at ring 0) = false → 0 < n) := by
    intro ring
    obtain ⟨n, dirty, st, xs, unm, ring2, freed, slots, qs, he, hn, hfl, hd0, hd, hs, hpr⟩ :=
      stmmac_tx_spec E { r.1 with queue_stopped := true, dma_tx := ring }
    have hif : tx_in_flight { r.1 with queue_stopped := true, dma_tx := ring }
        = s0.dma_tx_size - 1 := by
      unfold tx_in_flight
      dsimp only
      rw [f2, f3]
      unfold u32_sub
      unfold U32 at *
      omega
    rw [hif] at hn hpr
    dsimp only at hd0 hd hs hpr he
    rw [f2] at hd0 hd hpr
    refine ⟨n, dirty, st, xs, unm, ring2, freed, slots, qs, he, by omega, ?_,
      hs _ (f5 _ (by omega)), ?_⟩
    · by_cases hn0 : n = 0
      · rw [hd0 hn0, hn0]
      · rw [hd (by omega)]
        unfold u32_add
        unfold U32 at *
        omega
    · intro ho
      exact hpr (by omega) (by simpa using ho)
  refine ⟨by rw [f1, hpl], rfl, ?_, ?_⟩
  · intro ring ho
    obtain ⟨n, dirty, st, xs, unm, ring2, freed, slots, qs, he, hn, hd, hsl, hpr⟩ := key ring
    rw [he]
    dsimp only
    have := hpr ho
    omega
  · intro ring hne
    obtain ⟨n, dirty, st, xs, unm, ring2, freed, slots, qs, he, hn, hd, hsl, hpr⟩ := key ring
    rw [he] at hne ⊢
    dsimp only at hne
    have hm : (s0.dma_tx_size - 1) % s0.dma_tx_size = s0.dma_tx_size - 1 :=
      Nat.mod_eq_of_lt (by omega)
    obtain ⟨ring3, q3, tc3, csh3, tr3, st3, hx⟩ := xmit_single E q
      { r.1 with dirty_tx := dirty, stats := st, xstats := xs, unmapped := unm,
                 dma_tx := ring2, freed_skbs := freed, tx_skbuff := slots,
                 queue_stopped := qs } hq
      (by
        unfold stmmac_tx_avail
        dsimp only
        rw [f3, f4, hd]
        unfold u32_sub u32_add
        unfold U32 at *
        omega)
      (by
        dsimp only
        rw [f3, f4, hm]
        exact hsl)
    rw [hx]

/-- C4, on a ring of 128 descriptors: 127 packets of 64 bytes are accepted,
the 128th is refused, and after a reclaim of at least one descriptor a packet
is accepted again. -/
theorem stmmac_xmit_fills_ring_128 :
    (stmmac_xmit_seq spec_env (List.replicate 127 (linear_skb 1000 64))
      (init_dma_desc_rings_tx spec_env (blank_dev 128))).2
      = List.replicate 127 NETDEV_TX_OK ∧
    (stmmac_xmit spec_env true (linear_skb 2000 64)
      (stmmac_xmit_seq spec_env (List.replicate 127 (linear_skb 1000 64))
        (init_dma_desc_rings_tx spec_env (blank_dev 128))).1).2
      = NETDEV_TX_BUSY ∧
    (∀ ring, spec_env.ops.get_tx_owner (desc_at ring 0) = false →
      (stmmac_tx spec_env
        { (stmmac_xmit spec_env true (linear_skb 2000 64)
            (stmmac_xmit_seq spec_env (List.replicate 127 (linear_skb 1000 64))
              (init_dma_desc_rings_tx spec_env (blank_dev 128))).1).1 with
          dma_tx := ring }).dirty_tx ≠ 0) ∧
    (∀ ring,
      (stmmac_tx spec_env
        { (stmmac_xmit spec_env true (linear_skb 2000 64)
            (stmmac_xmit_seq spec_env (List.replicate 127 (linear_skb 1000 64))
              (init_dma_desc_rings_tx spec_env (blank_dev 128))).1).1 with
          dma_tx := ring }).dirty_tx ≠ 0 →
      (stmmac_xmit spec_env true (linear_skb 3000 64) (stmmac_tx spec_env
        { (stmmac_xmit spec_env true (linear_skb 2000 64)
            (stmmac_xmit_seq spec_env (List.replicate 127 (linear_skb 1000 64))
              (init_dma_desc_rings_tx spec_env (blank_dev 128))).1).1 with
          dma_tx := ring })).2 = NETDEV_TX_OK) :=
  stmmac_xmit_fills_ring spec_env (blank_dev 128) (List.replicate 127 (linear_skb 1000 64))
    (linear_skb 2000 64) (linear_skb 3000 64) (by decide) (by decide)
    (by rw [List.length_replicate]; rfl)
    (fun x hx => by rw [List.eq_of_mem_replicate hx]; decide) (by decide) (by decide)

/-- C20: `stmmac_verify_args` replaces every out-of-range tunable by its
default and leaves in-range values unchanged: a negative `watchdog` becomes
`TX_TIMEO`; a negative `dma_rxsize` or `dma_txsize` becomes 128; `buf_sz`
outside 2 KiB .. 16 KiB becomes 2 KiB; `pause` outside `0 .. 0xffff`
becomes `PAUSE_TIME`; `flow_ctrl > 1` becomes `FLOW_AUTO` and
`flow_ctrl < 0` becomes `FLOW_OFF`; `tx_coalesce` at or above the corrected
`dma_txsize` becomes -1 and `rx_coalesce` above the corrected `dma_rxsize`
becomes 1; `tc` is not touched. -/
theorem stmmac_verify_args_clamps (H : stmmac_h) (p : module_params) :
    (stmmac_verify_args H p).watchdog = (if p.watchdog < 0 then 5 * H.HZ else p.watchdog) ∧
    (stmmac_verify_args H p).dma_rxsize = (if p.dma_rxsize < 0 then 128 else p.dma_rxsize) ∧
    (stmmac_verify_args H p).dma_txsize = (if p.dma_txsize < 0 then 128 else p.dma_txsize) ∧
    (stmmac_verify_args H p).buf_sz =
      (if p.buf_sz < 2048 ∨ 16384 < p.buf_sz then 2048 else p.buf_sz) ∧
    (stmmac_verify_args H p).pause =
      (if p.pause < 0 ∨ 0xffff < p.pause then H.PAUSE_TIME else p.pause) ∧
    (stmmac_verify_args H p).flow_ctrl =
      (if 1 < p.flow_ctrl then H.FLOW_AUTO
       else if p.flow_ctrl < 0 then H.FLOW_OFF else p.flow_ctrl) ∧
    (stmmac_verify_args H p).tx_coalesce =
      (if (stmmac_verify_args H p).dma_txsize ≤ p.tx_coalesce then -1 else p.tx_coalesce) ∧
    (stmmac_verify_args H p).rx_coalesce =
      (if (stmmac_verify_args H p).dma_rxsize < p.rx_coalesce then 1 else p.rx_coalesce) ∧
    (stmmac_verify_args H p).tc = p.tc := by
  obtain ⟨w, tx, rx, fc, pa, tc, rc, tcl, bs, coe⟩ := p
  simp only [stmmac_verify_args, TX_TIMEO, DMA_RX_SIZE, DMA_TX_SIZE, TX_NO_COALESCE,
    RX_NO_COALESCE, DMA_BUFFER_SIZE, BUF_SIZE_2KiB, BUF_SIZE_16KiB,
    apply_ite module_params.watchdog, apply_ite module_params.dma_rxsize,
    apply_ite module_params.dma_txsize, apply_ite module_params.buf_sz,
    apply_ite module_params.pause, apply_ite module_params.flow_ctrl,
    apply_ite module_params.tx_coalesce, apply_ite module_params.rx_coalesce,
    apply_ite module_params.tc, ite_self, gt_iff_lt, ge_iff_le, Nat.cast_ofNat, and_self]

/-- C11: reclamation is in order and stops at hardware-owned descriptors.
For a TX state with `dirty_tx ≤ cur_tx < 2^32` and at most `N` descriptors in
flight, `stmmac_tx` advances `dirty_tx` by exactly `k`, where the `k`
descriptors from slot `dirty_tx % N` on are owned by software and either
`k = cur_tx - dirty_tx` or the next descriptor is owned by hardware; it
empties exactly those `k` slots, frees their packets in ring order, does not
move `dirty_tx` past `cur_tx`, and leaves `cur_tx` and all other slots
unchanged. -/
theorem stmmac_tx_reclaims_run (E : stmmac_env) (s : net_device)
    (hle : s.dirty_tx ≤ s.cur_tx) (hfl : s.cur_tx - s.dirty_tx ≤ s.dma_tx_size)
    (hU : s.cur_tx < U32) :
    ∃ k, k ≤ s.cur_tx - s.dirty_tx ∧
      (∀ i, i < k →
        E.ops.get_tx_owner (desc_at s.dma_tx ((s.dirty_tx + i) % s.dma_tx_size)) = false) ∧
      (k < s.cur_tx - s.dirty_tx →
        E.ops.get_tx_owner (desc_at s.dma_tx ((s.dirty_tx + k) % s.dma_tx_size)) = true) ∧
      (stmmac_tx E s).dirty_tx = s.dirty_tx + k ∧
      (stmmac_tx E s).dirty_tx ≤ (stmmac_tx E s).cur_tx ∧
      (stmmac_tx E s).cur_tx = s.cur_tx ∧
      (∀ i, i < k →
        skb_at (stmmac_tx E s).tx_skbuff ((s.dirty_tx + i) % s.dma_tx_size) = none) ∧
      (∀ j, (∀ i, i < k → j ≠ (s.dirty_tx + i) % s.dma_tx_size) →
        skb_at (stmmac_tx E s).tx_skbuff j = skb_at s.tx_skbuff j) ∧
      (stmmac_tx E s).freed_skbs = s.freed_skbs ++
        (List.range k).filterMap
          (fun i => skb_at s.tx_skbuff ((s.dirty_tx + i) % s.dma_tx_size)) := by
  have hfuel : tx_in_flight s = s.cur_tx - s.dirty_tx := by
    unfold tx_in_flight u32_sub U32 at *
    omega
  obtain ⟨k, hk, e1, e2, _, _, e5, e6, e7, e8, e9⟩ :=
    tx_loop_run E s.dma_tx_size (s.cur_tx - s.dirty_tx) s hfl (by omega) hU
  have hwake : ∀ r : net_device, (netif_wake_queue r).dirty_tx = r.dirty_tx ∧
      (netif_wake_queue r).cur_tx = r.cur_tx ∧
      (netif_wake_queue r).tx_skbuff = r.tx_skbuff ∧
      (netif_wake_queue r).freed_skbs = r.freed_skbs := fun r => ⟨rfl, rfl, rfl, rfl⟩
  unfold stmmac_tx
  dsimp only
  rw [hfuel]
  generalize stmmac_tx_loop E s.dma_tx_size (s.cur_tx - s.dirty_tx)
    (s.dirty_tx % s.dma_tx_size) s = r at *
  refine ⟨k, hk, e5, e6, ?_⟩
  split_ifs
  · obtain ⟨w1, w2, w3, w4⟩ := hwake r
    rw [w1, w2, w3, w4]
    exact ⟨e1, by omega, e2, e7, e8, e9⟩
  · exact ⟨e1, by omega, e2, e7, e8, e9⟩

/-- C11, on the ring of 32 with a chain of three descriptors in flight of
which the hardware has completed the first two: `stmmac_tx` reclaims two. -/
theorem stmmac_tx_reclaims_run_two_of_three :
    two_of_three_done.dirty_tx = 0 ∧ two_of_three_done.cur_tx = 3 ∧
    (stmmac_tx spec_env two_of_three_done).dirty_tx = 2 ∧
    ∃ k, k ≤ 3 ∧ (stmmac_tx spec_env two_of_three_done).dirty_tx = 0 + k ∧
      (stmmac_tx spec_env two_of_three_done).freed_skbs = [] ++
        (List.range k).filterMap (fun i => skb_at two_of_three_done.tx_skbuff ((0 + i) % 32)) := by
  obtain ⟨k, h1, -, -, h4, -, -, -, -, h9⟩ :=
    stmmac_tx_reclaims_run spec_env two_of_three_done (by decide) (by decide) (by decide)
  exact ⟨by decide, by decide, by decide, k, h1, h4, h9⟩

/-- C12: RX poll respects its budget. For every receive state and every
budget `B` with `0 ≤ B` (an `int`), `stmmac_rx` returns a count between 0 and
`B`, and `cur_rx` has advanced by exactly that count (in `u32`). -/
theorem stmmac_rx_respects_budget (E : stmmac_rx_env) (s : stmmac_priv) (B : Int)
    (h0 : 0 ≤ B) (h1 : B < 2147483648) (hc : s.cur_rx < U32) :
    0 ≤ (stmmac_rx E s B).2 ∧ (stmmac_rx E s B).2 ≤ B ∧
    (stmmac_rx E s B).1.cur_rx = u32_add s.cur_rx ((stmmac_rx E s B).2).toNat := by
  have hB : int_to_u32 B = B.toNat := by
    unfold int_to_u32 U32
    rw [Int.emod_eq_of_lt h0 (by omega)]
  obtain ⟨k, hk, e1, e2, _⟩ :=
    rx_loop_spec E s.dma_rx_size (int_to_u32 B) (s.cur_rx % s.dma_rx_size) 0 s hc
  have hcount : (stmmac_rx E s B).2 = (k : Int) := by
    unfold stmmac_rx
    dsimp only
    rw [e1, Nat.zero_add]
    unfold u32_to_int U32
    rw [hB] at hk
    have hk2 : k < 2147483648 := by omega
    rw [Nat.mod_eq_of_lt (by omega), if_pos hk2]
  have hcur : (stmmac_rx E s B).1.cur_rx = u32_add s.cur_rx k := by
    unfold stmmac_rx stmmac_rx_refill
    dsimp only
    rw [refill_loop_cur, e2]
  rw [hcount, hcur]
  rw [hB] at hk
  refine ⟨by omega, by omega, by simp⟩

/-- C12, on the ring of 32 with three completed descriptors and a budget of
2: two descriptors are processed and `cur_rx` is 2. -/
theorem stmmac_rx_respects_budget_two_of_three :
    (stmmac_rx spec_rx_env three_frames 2).2 = 2 ∧
    (stmmac_rx spec_rx_env three_frames 2).1.cur_rx = 2 ∧
    (0 : Int) ≤ (stmmac_rx spec_rx_env three_frames 2).2 ∧
    (stmmac_rx spec_rx_env three_frames 2).2 ≤ 2 ∧
    (stmmac_rx spec_rx_env three_frames 2).1.cur_rx
      = u32_add three_frames.cur_rx ((stmmac_rx spec_rx_env three_frames 2).2).toNat :=
  ⟨by decide, by decide,
    stmmac_rx_respects_budget spec_rx_env three_frames 2 (by decide) (by decide) (by decide)⟩

/-- C14: when buffer allocation always succeeds (and `set_rx_owner` makes
`get_rx_owner` answer yes), every call of `stmmac_rx`, whatever the budget,
ends with `dirty_rx = cur_rx`, and every slot from the old `dirty_rx` up to
the new `cur_rx` (the slots pending before the call and the slots vacated
during it) holds a buffer and has its descriptor owned by the hardware. -/
theorem stmmac_rx_refills_all (E : stmmac_rx_env) (s : stmmac_priv) (B : Int)
    (halloc : ∀ n len, (E.netdev_alloc_skb n len).isSome = true)
    (hown : ∀ d, E.ops.get_rx_owner (E.ops.set_rx_owner d) = true)
    (hN : 0 < s.dma_rx_size) (hl1 : s.rx_skbuff.length = s.dma_rx_size)
    (hl2 : s.dma_rx.length = s.dma_rx_size) (hc : s.cur_rx < U32) (hd : s.dirty_rx < U32) :
    (stmmac_rx E s B).1.dirty_rx = (stmmac_rx E s B).1.cur_rx ∧
    ∀ i, i < u32_sub (stmmac_rx E s B).1.cur_rx s.dirty_rx →
      (skb_at (stmmac_rx E s B).1.rx_skbuff (u32_add s.dirty_rx i % s.dma_rx_size)).isSome
        = true ∧
      E.ops.get_rx_owner
        (desc_at (stmmac_rx E s B).1.dma_rx (u32_add s.dirty_rx i % s.dma_rx_size)) = true := by
  obtain ⟨k, j, _, e1, e2, e3, _, _, _, e4, e5⟩ := stmmac_rx_spec E s B hN hl1 hl2 hc hd
  have hj : j = u32_sub (stmmac_rx E s B).1.cur_rx s.dirty_rx := by
    rcases Nat.lt_or_ge j (u32_sub (stmmac_rx E s B).1.cur_rx s.dirty_rx) with h | h
    · have h2 := (e5 h).2
      have h3 := halloc ((stmmac_rx E s B).1.alloc_calls - 1) (u32_to_int s.dma_buf_sz)
      rw [h2] at h3
      exact absurd h3 (by simp)
    · exact Nat.le_antisymm e2 h
  have hcur : (stmmac_rx E s B).1.cur_rx < U32 := by rw [e1]; exact u32_add_lt _ _
  refine ⟨?_, ?_⟩
  · rw [e3, hj, u32_add_sub_cancel _ _ hcur]
  · intro i hi
    rw [← hj] at hi
    obtain ⟨h1, d, h2⟩ := e4 i hi
    exact ⟨h1, by rw [h2]; exact hown d⟩

/-- C14, on the ring of 32 with three completed frames and a budget of 2:
the two slots of the processed descriptors are refilled. -/
theorem stmmac_rx_refills_all_two_of_three :
    (stmmac_rx spec_rx_env three_frames 2).1.dirty_rx = 2 ∧
    (stmmac_rx spec_rx_env three_frames 2).1.dirty_rx
      = (stmmac_rx spec_rx_env three_frames 2).1.cur_rx ∧
    ∀ i, i < u32_sub (stmmac_rx spec_rx_env three_frames 2).1.cur_rx three_frames.dirty_rx →
      (skb_at (stmmac_rx spec_rx_env three_frames 2).1.rx_skbuff
        (u32_add three_frames.dirty_rx i % three_frames.dma_rx_size)).isSome = true ∧
      spec_rx_env.ops.get_rx_owner
        (desc_at (stmmac_rx spec_rx_env three_frames 2).1.dma_rx
          (u32_add three_frames.dirty_rx i % three_frames.dma_rx_size)) = true :=
  ⟨by decide,
    stmmac_rx_refills_all spec_rx_env three_frames 2 (fun _ _ => rfl) spec_rx_owner
      (by decide) (by decide) (by decide) (by decide) (by decide)⟩

/-- C13, as stated, fails: with memory exhausted, on the ring of 32 with a
good frame in descriptor 0 and a frame in error in descriptor 1, a poll with
a budget of 3 processes the descriptor in error (`rx_errors` is 1, two frames
are delivered) but the refill stops at the empty slot 0, so at the end of the
call `dirty_rx` is still 0 and descriptor 1 is not owned by the hardware. -/
theorem stmmac_rx_leaves_discarded_unowned :
    (no_memory_env.ops.rx_status three_frames.stats three_frames.xstats
      (desc_at three_frames.dma_rx 1)).2.2 = no_memory_env.discard_frame ∧
    (stmmac_rx no_memory_env three_frames 3).2 = 3 ∧
    (stmmac_rx no_memory_env three_frames 3).1.stats.rx_errors = 1 ∧
    (stmmac_rx no_memory_env three_frames 3).1.delivered.length = 2 ∧
    (stmmac_rx no_memory_env three_frames 3).1.dirty_rx = 0 ∧
    no_memory_env.ops.get_rx_owner
      (desc_at (stmmac_rx no_memory_env three_frames 3).1.dma_rx 1) = false := by
  decide

/-- C13, amended. A call of `stmmac_rx` with a budget `0 ≤ B < 2^31` runs
`k ≤ B` rounds of its loop, then the refill, and returns `k`; it stops when
the budget is used up, at a descriptor the hardware owns, or after a round
that found its slot empty. Every round `j < k` is on a completed descriptor,
the one at `cur_rx + j`. For every such descriptor whose status classifies as
`discard_frame`, the round moves `cur_rx` past it and leaves `rx_errors` one
more than `rx_status` left it, and nothing else: no packet is delivered,
`rx_packets` and `rx_bytes` are as `rx_status` left them, slot and
descriptor are untouched, and the loop goes on. The refill changes neither
the counters nor the delivered packets. If the refill gets past the
descriptor (`dirty_rx` has advanced by more than the distance from its old
value to the descriptor), and in particular if the refill runs to completion
(`dirty_rx = cur_rx` at the end of the call, as it is when no allocation
fails), the slot of the descriptor holds a buffer and the descriptor is owned
by the hardware. -/
theorem stmmac_rx_discards_frame (E : stmmac_rx_env) (s : stmmac_priv) (B : Int)
    (hown : ∀ d, E.ops.get_rx_owner (E.ops.set_rx_owner d) = true)
    (hN : 0 < s.dma_rx_size) (hl1 : s.rx_skbuff.length = s.dma_rx_size)
    (hl2 : s.dma_rx.length = s.dma_rx_size) (hc : s.cur_rx < U32) (hd : s.dirty_rx < U32)
    (hp : u32_sub s.cur_rx s.dirty_rx < 2147483648)
    (h0 : 0 ≤ B) (h1 : B < 2147483648) :
    ∃ k : Nat,
      (stmmac_rx E s B).2 = (k : Int) ∧ (k : Int) ≤ B ∧
      (stmmac_rx E s B).1 = stmmac_rx_refill E (stmmac_rx_rounds E s.dma_rx_size k s) ∧
      (stmmac_rx E s B).1.stats = (stmmac_rx_rounds E s.dma_rx_size k s).stats ∧
      (stmmac_rx E s B).1.xstats = (stmmac_rx_rounds E s.dma_rx_size k s).xstats ∧
      (stmmac_rx E s B).1.delivered = (stmmac_rx_rounds E s.dma_rx_size k s).delivered ∧
      ((k : Int) = B ∨
        E.ops.get_rx_owner (desc_at s.dma_rx (u32_add s.cur_rx k % s.dma_rx_size)) = true ∨
        (0 < k ∧
          (stmmac_rx_round E s.dma_rx_size (stmmac_rx_rounds E s.dma_rx_size (k - 1) s)).2
            = false)) ∧
      ∀ j, j < k → ∀ t, t = stmmac_rx_rounds E s.dma_rx_size j s →
        t.cur_rx = u32_add s.cur_rx j ∧ t.dma_rx = s.dma_rx ∧
        stmmac_rx_rounds E s.dma_rx_size (j + 1) s = (stmmac_rx_round E s.dma_rx_size t).1 ∧
        E.ops.get_rx_owner (desc_at t.dma_rx (t.cur_rx % s.dma_rx_size)) = false ∧
        ((E.ops.rx_status t.stats t.xstats
            (desc_at t.dma_rx (t.cur_rx % s.dma_rx_size))).2.2 = E.discard_frame →
          stmmac_rx_round E s.dma_rx_size t =
            ({ t with
                cur_rx := u32_add t.cur_rx 1
                stats := { (E.ops.rx_status t.stats t.xstats
                    (desc_at t.dma_rx (t.cur_rx % s.dma_rx_size))).1 with
                  rx_errors := u32_add (E.ops.rx_status t.stats t.xstats
                    (desc_at t.dma_rx (t.cur_rx % s.dma_rx_size))).1.rx_errors 1 }
                xstats := (E.ops.rx_status t.stats t.xstats
                  (desc_at t.dma_rx (t.cur_rx % s.dma_rx_size))).2.1 }, true) ∧
          (u32_sub t.cur_rx s.dirty_rx < u32_sub (stmmac_rx E s B).1.dirty_rx s.dirty_rx →
            (skb_at (stmmac_rx E s B).1.rx_skbuff (t.cur_rx % s.dma_rx_size)).isSome = true ∧
            E.ops.get_rx_owner (desc_at (stmmac_rx E s B).1.dma_rx (t.cur_rx % s.dma_rx_size))
              = true) ∧
          ((stmmac_rx E s B).1.dirty_rx = (stmmac_rx E s B).1.cur_rx →
            (skb_at (stmmac_rx E s B).1.rx_skbuff (t.cur_rx % s.dma_rx_size)).isSome = true ∧
            E.ops.get_rx_owner (desc_at (stmmac_rx E s B).1.dma_rx (t.cur_rx % s.dma_rx_size))
              = true)) := by
  obtain ⟨k, hk, hloop, hnown, hstop⟩ :=
    rx_loop_rounds E s.dma_rx_size (int_to_u32 B) 0 s
  have hB := int_to_u32_le B h0 h1
  have hBc := int_to_u32_cast B h0 h1
  have hk2 : k < 2147483648 := by omega
  have hfin : (stmmac_rx E s B).1 = stmmac_rx_refill E (stmmac_rx_rounds E s.dma_rx_size k s) := by
    unfold stmmac_rx
    dsimp only
    rw [hloop]
  have hfr := refill_loop_frame E (stmmac_rx_rounds E s.dma_rx_size k s).dma_rx_size
    (u32_to_int (stmmac_rx_rounds E s.dma_rx_size k s).dma_buf_sz)
    (u32_sub (stmmac_rx_rounds E s.dma_rx_size k s).cur_rx
      (stmmac_rx_rounds E s.dma_rx_size k s).dirty_rx)
    (stmmac_rx_rounds E s.dma_rx_size k s)
  have hfr2 : stmmac_rx_refill E (stmmac_rx_rounds E s.dma_rx_size k s) =
      stmmac_rx_refill_loop E (stmmac_rx_rounds E s.dma_rx_size k s).dma_rx_size
        (u32_to_int (stmmac_rx_rounds E s.dma_rx_size k s).dma_buf_sz)
        (u32_sub (stmmac_rx_rounds E s.dma_rx_size k s).cur_rx
          (stmmac_rx_rounds E s.dma_rx_size k s).dirty_rx)
        (stmmac_rx_rounds E s.dma_rx_size k s) := rfl
  have hkeepk := rx_rounds_keep E s.dma_rx_size k s hc
  refine ⟨k, ?_, by omega, hfin, ?_, ?_, ?_, ?_, ?_⟩
  · unfold stmmac_rx
    dsimp only
    rw [hloop]
    dsimp only
    rw [Nat.zero_add, u32_to_int_of_lt k hk2]
  · rw [hfin, hfr2, hfr]
  · rw [hfin, hfr2, hfr]
  · rw [hfin, hfr2, hfr]
  · rcases hstop with h | h | h
    · exact Or.inl (by omega)
    · rw [hkeepk.1, hkeepk.2] at h
      exact Or.inr (Or.inl h)
    · exact Or.inr (Or.inr h)
  · intro j hj t ht
    obtain ⟨t1, t2⟩ := rx_rounds_keep E s.dma_rx_size j s hc
    have hno := hnown j hj
    rw [← ht] at t1 t2 hno
    refine ⟨t1, t2, by rw [rx_rounds_succ, ← ht], hno, ?_⟩
    intro hst
    obtain ⟨k2, j2, g0, g1, g2, g3, _, _, _, g4, _⟩ := stmmac_rx_spec E s B hN hl1 hl2 hc hd
    have htc : t.cur_rx < U32 := by rw [t1]; exact u32_add_lt _ _
    have hpast : u32_sub t.cur_rx s.dirty_rx < u32_sub (stmmac_rx E s B).1.dirty_rx s.dirty_rx →
        (skb_at (stmmac_rx E s B).1.rx_skbuff (t.cur_rx % s.dma_rx_size)).isSome = true ∧
        E.ops.get_rx_owner (desc_at (stmmac_rx E s B).1.dma_rx (t.cur_rx % s.dma_rx_size))
          = true := by
      intro hlt
      rw [g3] at hlt
      have hle : u32_sub (u32_add s.dirty_rx j2) s.dirty_rx ≤ j2 := by
        unfold u32_sub u32_add U32 at *
        omega
      obtain ⟨h3, d, h4⟩ := g4 (u32_sub t.cur_rx s.dirty_rx) (by omega)
      rw [u32_add_sub_cancel _ _ htc] at h3 h4
      exact ⟨h3, by rw [h4]; exact hown d⟩
    refine ⟨rx_frame_discard E (t.cur_rx % s.dma_rx_size)
      { t with cur_rx := u32_add t.cur_rx 1 } hst, hpast, ?_⟩
    intro hdone
    apply hpast
    have hk3 : k2 < 2147483648 := by omega
    have hcur : (stmmac_rx E s B).1.cur_rx = u32_add s.cur_rx k := by
      rw [hfin, hfr2, hfr]
      exact hkeepk.1
    have hkk : k2 = k := u32_add_inj s.cur_rx k2 k hk3 hk2 (by rw [← g1, hcur])
    subst hkk
    rw [g1] at g2
    have g3b := g3
    rw [hdone, g1] at g3b
    obtain ⟨i1, _⟩ := u32_pending_index s.cur_rx s.dirty_rx j2 k2 j hc hp hk2 g2 g3b.symm hj
    rw [g3, t1]
    have hj2 : j2 < U32 := by
      have : u32_sub (u32_add s.cur_rx k2) s.dirty_rx < U32 := by
        unfold u32_sub
        exact Nat.mod_lt _ (by decide)
      omega
    have e2 : u32_sub (u32_add s.dirty_rx j2) s.dirty_rx = j2 := by
      unfold u32_sub u32_add U32 at *
      omega
    rw [e2]
    exact i1

/-- C13 amended, on the ring of 32 with a good frame in descriptor 0, a frame
in error in descriptor 1 and a good frame in descriptor 2: the poll with a
budget of 3 processes all three, counts one error for descriptor 1, delivers
the two good frames, and at the end of the call slot 1 holds a buffer and
descriptor 1 is owned by the hardware. -/
theorem stmmac_rx_discards_frame_error_second :
    (stmmac_rx spec_rx_env three_frames 3).2 = 3 ∧
    (spec_rx_env.ops.rx_status (stmmac_rx_rounds spec_rx_env 32 1 three_frames).stats
      (stmmac_rx_rounds spec_rx_env 32 1 three_frames).xstats
      (desc_at three_frames.dma_rx 1)).2.2 = spec_rx_env.discard_frame ∧
    (stmmac_rx_rounds spec_rx_env 32 2 three_frames).stats.rx_errors = 1 ∧
    (stmmac_rx_rounds spec_rx_env 32 2 three_frames).delivered.length = 1 ∧
    (stmmac_rx spec_rx_env three_frames 3).1.stats.rx_errors = 1 ∧
    (stmmac_rx spec_rx_env three_frames 3).1.delivered.length = 2 ∧
    (skb_at (stmmac_rx spec_rx_env three_frames 3).1.rx_skbuff 1).isSome = true ∧
    spec_rx_env.ops.get_rx_owner (desc_at (stmmac_rx spec_rx_env three_frames 3).1.dma_rx 1)
      = true := by
  obtain ⟨k, hk, _, _, _, _, _, _, hall⟩ :=
    stmmac_rx_discards_frame spec_rx_env three_frames 3 spec_rx_owner (by decide) (by decide)
      (by decide) (by decide) (by decide) (by decide) (by decide) (by decide)
  have h3 : (stmmac_rx spec_rx_env three_frames 3).2 = 3 := by decide
  have hk3 : k = 3 := by
    rw [h3] at hk
    exact_mod_cast hk.symm
  subst hk3
  obtain ⟨_, _, _, _, hdis⟩ := hall 1 (by decide) _ rfl
  have hend := (hdis (by decide)).2.2 (by decide)
  exact ⟨h3, by decide, by decide, by decide, by decide, by decide, hend.1, hend.2⟩

/-- C17: on a DMA status with the abnormal summary bit and the
fatal-bus-error bit or the TX-process-stopped bit set, `stmmac_dma_interrupt`
increments the matching counter and runs the TX recovery: from every prior
state (ring of `2 ≤ N < 2^32` slots), afterwards every TX slot is empty,
`cur_tx = dirty_tx = 0`, the start bit of the DMA control register is set,
and the next single-descriptor `stmmac_xmit` returns `NETDEV_TX_OK` and
occupies slot 0. -/
theorem stmmac_dma_interrupt_recovers_tx (H : dma_h) (E : stmmac_env) (d : stmmac_dev)
    (skb : sk_buff)
    (hA : Nat.land d.dma_status H.DMA_STATUS_AIS ≠ 0)
    (hF : Nat.land d.dma_status H.DMA_STATUS_TPS ≠ 0 ∨
      Nat.land d.dma_status H.DMA_STATUS_FBI ≠ 0)
    (hN : 2 ≤ d.tx.dma_tx_size) (hU : d.tx.dma_tx_size < U32)
    (hlen : d.tx.tx_skbuff.length = d.tx.dma_tx_size)
    (hp : single_desc skb = true) :
    (Nat.land d.dma_status H.DMA_STATUS_FBI ≠ 0 →
      (stmmac_dma_interrupt H E d).irq.fatal_bus_error_irq
        = u32_add d.irq.fatal_bus_error_irq 1) ∧
    (Nat.land d.dma_status H.DMA_STATUS_TPS ≠ 0 →
      (stmmac_dma_interrupt H E d).irq.tx_process_stopped_irq
        = u32_add d.irq.tx_process_stopped_irq 1) ∧
    (stmmac_dma_interrupt H E d).tx.cur_tx = 0 ∧
    (stmmac_dma_interrupt H E d).tx.dirty_tx = 0 ∧
    (stmmac_dma_interrupt H E d).tx.dma_tx_size = d.tx.dma_tx_size ∧
    (∀ j, j < d.tx.dma_tx_size →
      skb_at (stmmac_dma_interrupt H E d).tx.tx_skbuff j = none) ∧
    Nat.land (stmmac_dma_interrupt H E d).tx.dma_control DMA_CONTROL_ST = DMA_CONTROL_ST ∧
    (stmmac_xmit E true skb (stmmac_dma_interrupt H E d).tx).2 = NETDEV_TX_OK ∧
    skb_at (stmmac_xmit E true skb (stmmac_dma_interrupt H E d).tx).1.tx_skbuff 0 = some skb ∧
    (stmmac_xmit E true skb (stmmac_dma_interrupt H E d).tx).1.cur_tx = 1 := by
  obtain ⟨⟨t, ht, hs, hl⟩, h2, h3⟩ := irq_spec_tx H E d hA hF
  obtain ⟨p1, p2, p3, _, p5, p6⟩ := tx_err_post E t
  have hlen2 := tx_err_length E t
  have hst := tx_err_start_bit E t
  rw [← ht] at p1 p2 p3 p5 p6 hlen2 hst
  generalize (stmmac_dma_interrupt H E d).tx = r at *
  rw [hs] at p3 p5 p6
  have hav : stmmac_tx_avail r = d.tx.dma_tx_size - 1 := p5 (by omega) hU
  have hslot : skb_at r.tx_skbuff (r.cur_tx % r.dma_tx_size) = none := by
    rw [p1, Nat.zero_mod]
    exact p6 0 (by omega)
  obtain ⟨ring, q, tc, csh, tr, st, hx⟩ := xmit_single E skb r hp (by rw [hav]; omega) hslot
  rw [hx]
  dsimp only
  refine ⟨fun h => by rw [h3, if_pos h], fun h => by rw [h2, if_pos h], p1, p2, p3, p6, hst,
    rfl, ?_, ?_⟩
  · rw [p1, Nat.zero_mod]
    exact skb_at_set_self _ _ _ (by rw [hlen2, hl, hlen]; omega)
  · rw [p1]
    rfl

/-- C17, on the ring of 32 with 10 descriptors in flight and a fatal bus
error: the counter is 1, the ring is empty and restarted, and the next
linear packet goes into slot 0. -/
theorem stmmac_dma_interrupt_recovers_tx_ten_in_flight :
    tx_in_flight bus_error_dev.tx = 10 ∧
    (stmmac_dma_interrupt spec_dma_h spec_env bus_error_dev).irq.fatal_bus_error_irq = 1 ∧
    (stmmac_dma_interrupt spec_dma_h spec_env bus_error_dev).tx.freed_skbs.length = 10 ∧
    (stmmac_dma_interrupt spec_dma_h spec_env bus_error_dev).tx.cur_tx = 0 ∧
    (stmmac_dma_interrupt spec_dma_h spec_env bus_error_dev).tx.dirty_tx = 0 ∧
    (∀ j, j < bus_error_dev.tx.dma_tx_size →
      skb_at (stmmac_dma_interrupt spec_dma_h spec_env bus_error_dev).tx.tx_skbuff j = none) ∧
    (stmmac_xmit spec_env true (linear_skb 7000 60)
      (stmmac_dma_interrupt spec_dma_h spec_env bus_error_dev).tx).2 = NETDEV_TX_OK ∧
    skb_at (stmmac_xmit spec_env true (linear_skb 7000 60)
      (stmmac_dma_interrupt spec_dma_h spec_env bus_error_dev).tx).1.tx_skbuff 0
      = some (linear_skb 7000 60) :=
  ⟨by decide, by decide, by decide, by decide, by decide,
    (stmmac_dma_interrupt_recovers_tx spec_dma_h spec_env bus_error_dev (linear_skb 7000 60)
      (by decide) (Or.inr (by decide)) (by decide) (by decide) (by decide) (by decide)).2.2.2.2.2.1,
    (stmmac_dma_interrupt_recovers_tx spec_dma_h spec_env bus_error_dev (linear_skb 7000 60)
      (by decide) (Or.inr (by decide)) (by decide) (by decide) (by decide)
      (by decide)).2.2.2.2.2.2.2.1,
    (stmmac_dma_interrupt_recovers_tx spec_dma_h spec_env bus_error_dev (linear_skb 7000 60)
      (by decide) (Or.inr (by decide)) (by decide) (by decide) (by decide)
      (by decide)).2.2.2.2.2.2.2.2.1⟩

/-- C18: the DMA transmit threshold raised on TX underflow is bounded. With
`SF_DMA_MODE < 64`, over a run of underflow interrupts from a threshold
`t0 ≤ 256` different from `SF_DMA_MODE` the threshold is
`t0 + 64 * min n ((256 - t0) / 64 + 1)` after `n` interrupts: it never
decreases, one more underflow adds exactly 64 while it is at most 256 and
nothing above, and it never exceeds 320. For every state, an interrupt of any
status leaves a threshold equal to `SF_DMA_MODE` or above 256 unchanged. -/
theorem underflow_threshold_bounded (H : dma_h) (E : stmmac_env) (d : stmmac_dev)
    (sts : List Nat) (st : Nat) (hSF : H.SF_DMA_MODE < 64)
    (ht : d.tx.xstats.threshold ≤ 256) (hne : d.tx.xstats.threshold ≠ H.SF_DMA_MODE)
    (hall : ∀ x ∈ sts, Nat.land x H.DMA_STATUS_AIS ≠ 0 ∧ Nat.land x H.DMA_STATUS_UNF ≠ 0)
    (hst : Nat.land st H.DMA_STATUS_AIS ≠ 0 ∧ Nat.land st H.DMA_STATUS_UNF ≠ 0) :
    (stmmac_dma_interrupts H E sts d).tx.xstats.threshold =
      d.tx.xstats.threshold + 64 * min sts.length ((256 - d.tx.xstats.threshold) / 64 + 1) ∧
    d.tx.xstats.threshold ≤ (stmmac_dma_interrupts H E sts d).tx.xstats.threshold ∧
    (stmmac_dma_interrupts H E sts d).tx.xstats.threshold ≤ 320 ∧
    (stmmac_dma_interrupts H E sts d).tx.xstats.threshold ≤
      (stmmac_dma_interrupt H E
        { stmmac_dma_interrupts H E sts d with dma_status := st }).tx.xstats.threshold ∧
    ((stmmac_dma_interrupts H E sts d).tx.xstats.threshold ≤ 256 →
      (stmmac_dma_interrupt H E
        { stmmac_dma_interrupts H E sts d with dma_status := st }).tx.xstats.threshold
        = (stmmac_dma_interrupts H E sts d).tx.xstats.threshold + 64) ∧
    (256 < (stmmac_dma_interrupts H E sts d).tx.xstats.threshold →
      (stmmac_dma_interrupt H E
        { stmmac_dma_interrupts H E sts d with dma_status := st }).tx.xstats.threshold
        = (stmmac_dma_interrupts H E sts d).tx.xstats.threshold) ∧
    (stmmac_dma_interrupt H E
      { stmmac_dma_interrupts H E sts d with dma_status := st }).tx.xstats.threshold ≤ 320 ∧
    ∀ d2 : stmmac_dev,
      d2.tx.xstats.threshold = H.SF_DMA_MODE ∨ 256 < d2.tx.xstats.threshold →
      (stmmac_dma_interrupt H E d2).tx.xstats.threshold = d2.tx.xstats.threshold := by
  have h1 := irqs_threshold H E hSF sts d hall ht hne
  have h2 := irq_threshold H E { stmmac_dma_interrupts H E sts d with dma_status := st }
  dsimp only at h2
  generalize (stmmac_dma_interrupt H E
    { stmmac_dma_interrupts H E sts d with dma_status := st }).tx.xstats.threshold = b at *
  generalize (stmmac_dma_interrupts H E sts d).tx.xstats.threshold = a at *
  have hlast : ∀ d2 : stmmac_dev,
      d2.tx.xstats.threshold = H.SF_DMA_MODE ∨ 256 < d2.tx.xstats.threshold →
      (stmmac_dma_interrupt H E d2).tx.xstats.threshold = d2.tx.xstats.threshold := by
    intro d2 h
    rw [irq_threshold, if_neg]
    intro hc
    rcases h with h | h
    · exact hc.2.2.1 h
    · have := hc.2.2.2
      omega
  have ha : a ≠ H.SF_DMA_MODE := by
    rcases Nat.eq_zero_or_pos sts.length with h | h
    · rw [h, Nat.zero_min, Nat.mul_zero, Nat.add_zero] at h1
      rw [h1]; exact hne
    · omega
  by_cases hc : a ≤ 256
  · rw [if_pos ⟨hst.1, hst.2, ha, hc⟩] at h2
    have h3 : u32_add a 64 = a + 64 := by unfold u32_add U32; omega
    rw [h3] at h2
    exact ⟨h1, by omega, by omega, by omega, fun _ => h2, fun h => by omega, by omega, hlast⟩
  · rw [if_neg (fun h => hc h.2.2.2)] at h2
    exact ⟨h1, by omega, by omega, by omega, fun h => absurd h hc, fun _ => h2, by omega,
      hlast⟩

/-- C18, from the default threshold of 64: five underflows in a row give 128,
192, 256, 320 and again 320. -/
theorem underflow_threshold_bounded_from_default :
    (quiet_dev ring32 (rx_ring 32)).tx.xstats.threshold = 64 ∧
    (stmmac_dma_interrupts spec_dma_h spec_env [0x8020, 0x8020, 0x8020]
      (quiet_dev ring32 (rx_ring 32))).tx.xstats.threshold = 256 ∧
    (stmmac_dma_interrupts spec_dma_h spec_env [0x8020, 0x8020, 0x8020, 0x8020]
      (quiet_dev ring32 (rx_ring 32))).tx.xstats.threshold = 320 ∧
    (stmmac_dma_interrupts spec_dma_h spec_env [0x8020, 0x8020, 0x8020, 0x8020, 0x8020]
      (quiet_dev ring32 (rx_ring 32))).tx.xstats.threshold = 320 ∧
    (stmmac_dma_interrupts spec_dma_h spec_env [0x8020, 0x8020, 0x8020, 0x8020]
      (quiet_dev ring32 (rx_ring 32))).tx.xstats.threshold
      = 64 + 64 * min 4 ((256 - 64) / 64 + 1) :=
  ⟨by decide, by decide, by decide, by decide,
    (underflow_threshold_bounded spec_dma_h spec_env (quiet_dev ring32 (rx_ring 32))
      [0x8020, 0x8020, 0x8020, 0x8020] 0x8020 (by decide) (by decide) (by decide)
      (by decide) (by decide)).1⟩

/-- C19: RX interrupts are masked exactly while polling is pending. On a
status with the normal summary and receive bits set, `stmmac_dma_interrupt`
writes the no-RX mask to `DMA_INTR_ENA`, schedules the NAPI poll and counts;
with the transmit bit it schedules the TX tasklet; on any other status the
receive state is not touched. `stmmac_poll` returns the count of
`stmmac_rx`; if that count is strictly less than the budget it writes the
default mask and completes NAPI, otherwise it leaves both as they were. -/
theorem rx_irq_masked_while_polling (H : dma_h) (E : stmmac_env) (R : stmmac_rx_env)
    (d : stmmac_dev) (s : stmmac_priv) (budget : Int) :
    (Nat.land d.dma_status H.DMA_STATUS_NIS ≠ 0 → Nat.land d.dma_status H.DMA_STATUS_RI ≠ 0 →
      (stmmac_dma_interrupt H E d).rx.dma_intr_ena = H.DMA_INTR_NO_RX ∧
      (stmmac_dma_interrupt H E d).rx.napi_scheduled = true ∧
      (stmmac_dma_interrupt H E d).irq.dma_rx_normal_irq = u32_add d.irq.dma_rx_normal_irq 1) ∧
    (Nat.land d.dma_status H.DMA_STATUS_NIS ≠ 0 → Nat.land d.dma_status H.DMA_STATUS_TI ≠ 0 →
      (stmmac_dma_interrupt H E d).tx_task_scheduled = true ∧
      (stmmac_dma_interrupt H E d).irq.dma_tx_normal_irq = u32_add d.irq.dma_tx_normal_irq 1) ∧
    (¬ (Nat.land d.dma_status H.DMA_STATUS_NIS ≠ 0 ∧ Nat.land d.dma_status H.DMA_STATUS_RI ≠ 0) →
      (stmmac_dma_interrupt H E d).rx = d.rx) ∧
    (stmmac_poll H R s budget).2 = (stmmac_rx R s budget).2 ∧
    ((stmmac_rx R s budget).2 < budget →
      (stmmac_poll H R s budget).1.dma_intr_ena = H.DMA_INTR_DEFAULT_MASK ∧
      (stmmac_poll H R s budget).1.napi_scheduled = false) ∧
    (¬ (stmmac_rx R s budget).2 < budget →
      (stmmac_poll H R s budget).1.dma_intr_ena = s.dma_intr_ena ∧
      (stmmac_poll H R s budget).1.napi_scheduled = s.napi_scheduled) := by
  obtain ⟨a1, a2, a3, a4⟩ := irq_spec_normal H E d
  obtain ⟨k1, k2⟩ := stmmac_rx_keeps R s budget
  refine ⟨fun h1 h2 => ?_, fun h1 h2 => ?_, fun h => ?_, ?_, fun h => ?_, fun h => ?_⟩
  · rw [a1, a3, if_pos ⟨h1, h2⟩, if_pos ⟨h1, h2⟩]
    exact ⟨rfl, rfl, rfl⟩
  · rw [a2, a4, if_pos ⟨h1, h2⟩, if_pos ⟨h1, h2⟩]
    exact ⟨rfl, rfl⟩
  · rw [a1, if_neg h]
  · unfold stmmac_poll
    dsimp only
    split_ifs <;> rfl
  · unfold stmmac_poll
    dsimp only
    rw [if_pos h]
    unfold stmmac_dma_enable_irq_rx
    split_ifs <;> exact ⟨rfl, rfl⟩
  · unfold stmmac_poll
    dsimp only
    rw [if_neg h]
    exact ⟨k1, k2⟩

/-- C19, on the interface with three frames waiting: the interrupt masks RX
and schedules the poll and the tasklet; a poll with a budget of 64 finds 3
frames, unmasks and completes; a poll with a budget of 2 does neither. -/
theorem rx_irq_masked_while_polling_three_frames :
    (stmmac_dma_interrupt spec_dma_h spec_env rx_tx_irq_dev).rx.dma_intr_ena = 0x1a021 ∧
    (stmmac_dma_interrupt spec_dma_h spec_env rx_tx_irq_dev).rx.napi_scheduled = true ∧
    (stmmac_dma_interrupt spec_dma_h spec_env rx_tx_irq_dev).tx_task_scheduled = true ∧
    (stmmac_poll spec_dma_h spec_rx_env
      (stmmac_dma_interrupt spec_dma_h spec_env rx_tx_irq_dev).rx 64).2 = 3 ∧
    (stmmac_poll spec_dma_h spec_rx_env
      (stmmac_dma_interrupt spec_dma_h spec_env rx_tx_irq_dev).rx 64).1.dma_intr_ena = 0x1a061 ∧
    (stmmac_poll spec_dma_h spec_rx_env
      (stmmac_dma_interrupt spec_dma_h spec_env rx_tx_irq_dev).rx 2).1.dma_intr_ena = 0x1a021 ∧
    (stmmac_poll spec_dma_h spec_rx_env
      (stmmac_dma_interrupt spec_dma_h spec_env rx_tx_irq_dev).rx 2).1.napi_scheduled = true :=
  ⟨((rx_irq_masked_while_polling spec_dma_h spec_env spec_rx_env rx_tx_irq_dev
      three_frames 64).1 (by decide) (by decide)).1,
    by decide, by decide, by decide, by decide, by decide, by decide⟩

/-- C16, the code at the failing input. With memory for only 5 receive
buffers, `stmmac_open` returns 0, starts the DMA and the queue, and leaves
`dirty_rx = 5 - 128` in `u32`; slot 5 of `rx_skbuff` is what `kmalloc`
returned (no store reaches it), and descriptor 5 is owned by the hardware
with no buffer address. When the allocation of the RX descriptor ring fails,
`init_dma_desc_rings` returns without a ring and `stmmac_open` still returns
0 and starts the DMA and the queue. In neither run is the IRQ line released
or the PHY disconnected. -/
theorem stmmac_open_ignores_allocation_failure :
    (stmmac_open five_buffers_env closed_iface).2 = 0 ∧
    open_call.stmmac_dma_start_rx ∈ (stmmac_open five_buffers_env closed_iface).1.calls ∧
    open_call.netif_start_queue ∈ (stmmac_open five_buffers_env closed_iface).1.calls ∧
    open_call.free_irq ∉ (stmmac_open five_buffers_env closed_iface).1.calls ∧
    open_call.phy_disconnect ∉ (stmmac_open five_buffers_env closed_iface).1.calls ∧
    (stmmac_open five_buffers_env closed_iface).1.dev.rx.dma_rx_size = 128 ∧
    (stmmac_open five_buffers_env closed_iface).1.dev.rx.dirty_rx = 4294967173 ∧
    (skb_at (stmmac_open five_buffers_env closed_iface).1.dev.rx.rx_skbuff 5).map sk_buff.data
      = (five_buffers_env.kmalloc_rx_skbuff 5).map sk_buff.data ∧
    (desc_at (stmmac_open five_buffers_env closed_iface).1.dev.rx.dma_rx 5).des2 = 0 ∧
    five_buffers_env.rx.ops.get_rx_owner
      (desc_at (stmmac_open five_buffers_env closed_iface).1.dev.rx.dma_rx 5) = true ∧
    (stmmac_open no_rx_ring_env closed_iface).2 = 0 ∧
    (stmmac_open no_rx_ring_env closed_iface).1.dev.rx.dma_rx = [] ∧
    open_call.stmmac_dma_start_tx ∈ (stmmac_open no_rx_ring_env closed_iface).1.calls ∧
    open_call.stmmac_dma_start_rx ∈ (stmmac_open no_rx_ring_env closed_iface).1.calls ∧
    open_call.netif_start_queue ∈ (stmmac_open no_rx_ring_env closed_iface).1.calls ∧
    open_call.request_irq ∈ (stmmac_open no_rx_ring_env closed_iface).1.calls ∧
    open_call.free_irq ∉ (stmmac_open no_rx_ring_env closed_iface).1.calls ∧
    open_call.phy_disconnect ∉ (stmmac_open no_rx_ring_env closed_iface).1.calls := by
  decide

/-- C21, the code at the failing input: with the module parameter
`dma_txsize` set to 0, `stmmac_verify_args` keeps the 0 (it replaces negative
values only), `STMMAC_ALIGN` rounds 0 up to 0, and `stmmac_open` returns 0 and
starts the queue with a transmit ring of size 0 and no descriptor, on which
`stmmac_tx_avail` is `0 - 1` in `u32` and every `cursor % ring size` divides
by zero. -/
theorem stmmac_open_installs_empty_ring :
    zero_txsize_iface.params.dma_txsize = 0 ∧
    (stmmac_verify_args spec_h zero_txsize_iface.params).dma_txsize = 0 ∧
    STMMAC_ALIGN 32 0 = 0 ∧
    (stmmac_open spec_open_env zero_txsize_iface).2 = 0 ∧
    (stmmac_open spec_open_env zero_txsize_iface).1.dev.tx.dma_tx_size = 0 ∧
    (stmmac_open spec_open_env zero_txsize_iface).1.dev.tx.dma_tx = [] ∧
    open_call.netif_start_queue ∈ (stmmac_open spec_open_env zero_txsize_iface).1.calls ∧
    stmmac_tx_avail (stmmac_open spec_open_env zero_txsize_iface).1.dev.tx = 4294967295 := by
  decide

/-- C22: `stmmac_change_mtu` returns `-EBUSY` and leaves the interface as it
is when the interface is running; otherwise it returns `-EINVAL` and leaves
the interface as it is when `new_mtu` is below 46 or above the maximum (9000
on a Gigabit MAC, 1500 on a 10/100 MAC); otherwise it sets `dev->mtu` to
`new_mtu`, changes nothing else and returns 0. -/
theorem stmmac_change_mtu_checks (H : errno_h) (running : Bool) (n : stmmac_iface)
    (new_mtu : Int) :
    (running = true → stmmac_change_mtu H running n new_mtu = (n, -H.EBUSY)) ∧
    (running = false →
      (new_mtu < 46 ∨ new_mtu > (if n.dev.rx.is_gmac then 9000 else 1500) →
        stmmac_change_mtu H running n new_mtu = (n, -H.EINVAL)) ∧
      (46 ≤ new_mtu → new_mtu ≤ (if n.dev.rx.is_gmac then 9000 else 1500) →
        stmmac_change_mtu H running n new_mtu = ({ n with mtu := new_mtu.toNat }, 0) ∧
        ((stmmac_change_mtu H running n new_mtu).1.mtu : Int) = new_mtu)) := by
  refine ⟨?_, ?_⟩
  · intro h
    simp [stmmac_change_mtu, h]
  · intro h
    have e : ((if n.dev.rx.is_gmac then (JUMBO_LEN : Int) else (ETH_DATA_LEN : Int)))
        = (if n.dev.rx.is_gmac then 9000 else 1500) := by
      simp [JUMBO_LEN, ETH_DATA_LEN]
    refine ⟨?_, ?_⟩
    · intro hb
      simp only [stmmac_change_mtu, h, Bool.false_eq_true, if_false, e]
      rw [if_pos hb]
    · intro h1 h2
      have hn : ¬ (new_mtu < 46 ∨ new_mtu > (if n.dev.rx.is_gmac then 9000 else 1500)) := by
        omega
      have hm : int_to_u32 new_mtu = new_mtu.toNat := by
        unfold int_to_u32 U32
        have : new_mtu ≤ 9000 := by
          split_ifs at h2 <;> omega
        congr 1
        omega
      simp only [stmmac_change_mtu, h, Bool.false_eq_true, if_false, e]
      rw [if_neg hn, hm]
      refine ⟨rfl, ?_⟩
      simp only
      omega

/-- C22, on the closed Gigabit interface and on the 10/100 one: a running
interface gives `-EBUSY` (-16); 45 and 9001 give `-EINVAL` (-22), as does
1501 on the 10/100 MAC; 9000 is accepted on the Gigabit MAC and 1500 on the
10/100 MAC. -/
theorem stmmac_change_mtu_checks_both_macs :
    stmmac_change_mtu spec_errno true closed_iface 1500 = (closed_iface, -16) ∧
    stmmac_change_mtu spec_errno false closed_iface 45 = (closed_iface, -22) ∧
    stmmac_change_mtu spec_errno false closed_iface 9001 = (closed_iface, -22) ∧
    stmmac_change_mtu spec_errno false mac100_iface 1501 = (mac100_iface, -22) ∧
    stmmac_change_mtu spec_errno false closed_iface 9000
      = ({ closed_iface with mtu := 9000 }, 0) ∧
    stmmac_change_mtu spec_errno false mac100_iface 1500
      = ({ mac100_iface with mtu := 1500 }, 0) :=
  ⟨(stmmac_change_mtu_checks spec_errno true closed_iface 1500).1 rfl,
    ((stmmac_change_mtu_checks spec_errno false closed_iface 45).2 rfl).1 (by decide),
    ((stmmac_change_mtu_checks spec_errno false closed_iface 9001).2 rfl).1 (by decide),
    ((stmmac_change_mtu_checks spec_errno false mac100_iface 1501).2 rfl).1 (by decide),
    (((stmmac_change_mtu_checks spec_errno false closed_iface 9000).2 rfl).2
      (by decide) (by decide)).1,
    (((stmmac_change_mtu_checks spec_errno false mac100_iface 1500).2 rfl).2
      (by decide) (by decide)).1⟩

/-- C23, the code at the failing input: on the ring of 32 with the chain of
three segments in flight (slot 0 holds the packet, slots 1 and 2 are empty,
the three descriptors carry the buffer addresses 1000, 7 and 8),
`dma_free_tx_skbufs` frees the packet and unmaps the buffer of descriptor 0
only; the mappings of the two fragment descriptors are left, also by
`stmmac_tx_err`. `stmmac_tx` unmaps all three once the hardware has completed
them. -/
theorem dma_free_tx_skbufs_leaves_fragments_mapped :
    tx_in_flight chain_in_flight = 3 ∧
    (skb_at chain_in_flight.tx_skbuff 0).isSome = true ∧
    (skb_at chain_in_flight.tx_skbuff 1).isSome = false ∧
    (skb_at chain_in_flight.tx_skbuff 2).isSome = false ∧
    (desc_at chain_in_flight.dma_tx 0).des2 = 1000 ∧
    (desc_at chain_in_flight.dma_tx 1).des2 = 7 ∧
    (desc_at chain_in_flight.dma_tx 2).des2 = 8 ∧
    (dma_free_tx_skbufs spec_env chain_in_flight).freed_skbs.map sk_buff.data = [1000] ∧
    (dma_free_tx_skbufs spec_env chain_in_flight).unmapped = [(1000, 100)] ∧
    (stmmac_tx_err spec_env chain_in_flight).unmapped = [(1000, 100)] ∧
    (stmmac_tx spec_env (hw_tx_done 2 (hw_tx_done 1 (hw_tx_done 0 chain_in_flight)))).unmapped
      = [(1000, 100), (7, 100), (8, 100)] := by
  decide

/-- C24, as stated, fails: with the module parameter `tx_coalesce` at 2, on
the fresh ring of 32, three packets in a row are accepted with the queue
running and have their completion interrupt cleared; the fourth keeps it. -/
theorem tx_coalesce_clears_one_more :
    moderated_ring.mod_tx_coalesce = 2 ∧ moderated_ring.tx_coalesce = 0 ∧
    coalesced_run spec_env (List.replicate 3 (linear_skb 1000 100)) moderated_ring = true ∧
    coalesced_run spec_env (List.replicate 4 (linear_skb 1000 100)) moderated_ring = false ∧
    (stmmac_xmit_seq spec_env (List.replicate 4 (linear_skb 1000 100)) moderated_ring).2
      = [0, 0, 0, 0] ∧
    (stmmac_xmit_seq spec_env (List.replicate 4 (linear_skb 1000 100))
      moderated_ring).1.queue_stopped = false := by
  decide

/-- C24, amended. With the module parameter `tx_coalesce` at `k` and the
driver's counter `priv->tx_coalesce` at `c ≥ 0` (it is 0 after `stmmac_open`
and a submission never makes it negative), in a run of consecutive packets
that are not GSO, each accepted with the queue left running and with its
completion interrupt cleared, there are at most `k + 1 - c` packets: at most
`k + 1` consecutive packets have the interrupt cleared before one keeps it,
and with the default `k = -1` none has. -/
theorem tx_coalesce_bounds_cleared_run (E : stmmac_env) (pkts : List sk_buff) (s : net_device)
    (hg : ∀ p ∈ pkts, skb_is_gso p = false) (h0 : 0 ≤ s.tx_coalesce) (hne : pkts ≠ [])
    (hrun : coalesced_run E pkts s = true) :
    (pkts.length : Int) + s.tx_coalesce ≤ s.mod_tx_coalesce + 1 ∧
    (pkts.length : Int) ≤ s.mod_tx_coalesce + 1 ∧
    s.mod_tx_coalesce ≠ -1 ∧
    ∀ p t, skb_is_gso p = false → 0 ≤ (stmmac_xmit E t p s).1.tx_coalesce := by
  have h := (coalesced_run_bound E pkts s hg hrun).resolve_left hne
  have hl : 0 < pkts.length := List.length_pos.mpr hne
  refine ⟨h, by omega, by omega, fun p t hp => xmit_counter_nonneg E t p s hp h0⟩

/-- C24 amended, with `tx_coalesce` at 2 on the fresh ring of 32: the run of
three cleared packets meets the bound `k + 1 = 3`. -/
theorem tx_coalesce_bounds_cleared_run_three :
    coalesced_run spec_env (List.replicate 3 (linear_skb 1000 100)) moderated_ring = true ∧
    ((List.replicate 3 (linear_skb 1000 100)).length : Int) ≤
      moderated_ring.mod_tx_coalesce + 1 :=
  ⟨by decide,
    (tx_coalesce_bounds_cleared_run spec_env (List.replicate 3 (linear_skb 1000 100))
      moderated_ring (by decide) (by decide) (by simp) (by decide)).2.1⟩

/-- C25, the code at the failing input. `stmmac_timer_work` schedules the
transmit tasklet exactly when the descriptor of the receive ring at index
`dirty_tx % dma_tx_size` is not owned by the hardware. With the only TX
descriptor in flight completed and the RX ring idle it does not schedule the
tasklet; with the TX descriptor still owned and RX descriptor 0 completed it
does; with a TX ring of 128, `dirty_tx = 40` and an RX ring of 32 the index is
40, outside the array it is applied to. -/
theorem stmmac_timer_work_checks_rx_ring :
    (∀ (H : dma_h) (E : stmmac_env) (R : stmmac_rx_env) (d : stmmac_dev),
      (stmmac_timer_work H E R d).1.tx_task_scheduled =
        (d.tx_task_scheduled ||
          !E.ops.get_tx_owner (desc_at d.rx.dma_rx (d.tx.dirty_tx % d.tx.dma_tx_size)))) ∧
    spec_env.ops.get_tx_owner
      (desc_at tx_done_rx_idle.tx.dma_tx
        (tx_done_rx_idle.tx.dirty_tx % tx_done_rx_idle.tx.dma_tx_size)) = false ∧
    (stmmac_timer_work spec_dma_h spec_env spec_rx_env tx_done_rx_idle).1.tx_task_scheduled
      = false ∧
    spec_env.ops.get_tx_owner
      (desc_at tx_pending_rx_done.tx.dma_tx
        (tx_pending_rx_done.tx.dirty_tx % tx_pending_rx_done.tx.dma_tx_size)) = true ∧
    (stmmac_timer_work spec_dma_h spec_env spec_rx_env tx_pending_rx_done).1.tx_task_scheduled
      = true ∧
    tx_ring_longer.tx.dirty_tx % tx_ring_longer.tx.dma_tx_size = 40 ∧
    tx_ring_longer.rx.dma_rx.length = 32 :=
  ⟨timer_work_reads_rx, by decide, by decide, by decide, by decide, by decide, by decide⟩

/-- C27, the code at the failing input: `stmmac_open` installs rings of 96
entries when the module parameters ask for 96, and on a ring of 96 the index
after cursor value `2^32 - 1` (index 63) is 0 although `(63 + 1) % 96` is 64;
a partial fill of 5 buffers leaves `dirty_rx = 5 - 96` in `u32`, which
denotes index 69, and that is the `dirty_rx` with which `stmmac_open` returns
0 when memory suffices for only 5 receive buffers. -/
theorem ring_index_breaks_on_96 :
    (stmmac_open spec_open_env ring96_iface).2 = 0 ∧
    (stmmac_open spec_open_env ring96_iface).1.dev.tx.dma_tx_size = 96 ∧
    (stmmac_open spec_open_env ring96_iface).1.dev.rx.dma_rx_size = 96 ∧
    4294967295 % 96 = 63 ∧
    u32_add 4294967295 1 % 96 = 0 ∧ (4294967295 % 96 + 1) % 96 = 64 ∧
    u32_sub 5 96 % 96 = 69 ∧
    (stmmac_open five_buffers_env ring96_iface).2 = 0 ∧
    (stmmac_open five_buffers_env ring96_iface).1.dev.rx.dma_rx_size = 96 ∧
    (stmmac_open five_buffers_env ring96_iface).1.dev.rx.dirty_rx = 4294967205 ∧
    (stmmac_open five_buffers_env ring96_iface).1.dev.rx.dirty_rx % 96 = 69 := by
  decide

/-- Ring indices on the sizes on which the arithmetic of the code is cyclic.
For every ring size `N` that divides `2^32` (the powers of
two up to `2^31`, the default 128 among them) and every cursor value `c`, the
index of the incremented cursor, `((c + 1) mod 2^32) % N`, is
`((c % N) + 1) % N`, also at `c = 2^32 - 1`; for any `N` this holds when
`c + 1` does not wrap. For `N` dividing `2^32`, `(i - N) mod 2^32` denotes
index `i % N` for every `i ≤ N`, and the `dirty_rx` that
`init_dma_desc_rings` leaves after filling the first `i` slots of a ring of
`N` denotes index `i % N`. -/
theorem ring_index_step (N c : Nat) (h : N ∣ U32 ∨ c + 1 < U32) :
    u32_add c 1 % N = (c % N + 1) % N ∧
    (N ∣ U32 →
      (∀ i, i ≤ N → u32_sub i N % N = i % N) ∧
      ∀ (R : stmmac_rx_env) (bf : Nat) (rc : Int) (s : stmmac_priv),
        s.dma_rx_size = N → s.rx_skbuff.length = N →
        ∃ i, i ≤ N ∧
          (init_dma_desc_rings_rx R bf rc s).dirty_rx % N = i % N ∧
          (∀ j, j < i → (skb_at (init_dma_desc_rings_rx R bf rc s).rx_skbuff j).isSome = true) ∧
          (i < N →
            R.netdev_alloc_skb ((init_dma_desc_rings_rx R bf rc s).alloc_calls - 1) bf = none)) := by
  refine ⟨?_, ?_⟩
  · rcases h with h | h
    · rw [u32_add_mod_dvd N c 1 h, Nat.mod_add_mod]
    · unfold u32_add
      rw [Nat.mod_eq_of_lt h, Nat.mod_add_mod]
  · intro hd
    have hN : N ≤ U32 := Nat.le_of_dvd (by decide) hd
    refine ⟨fun i hi => u32_sub_mod_dvd N i hd hi hN, ?_⟩
    intro R bf rc s hs hl
    obtain ⟨_, _, _, i, hi, hdirty, hfill, hfail, _⟩ :=
      init_rings_rx_spec R bf rc s (by rw [hl, hs])
    rw [hs] at hi hdirty hfail
    refine ⟨i, hi, ?_, hfill, fun h => (hfail h).2⟩
    rw [hdirty]
    exact u32_sub_mod_dvd N i hd hi hN

/-- On a ring of 128 at the cursor value `2^32 - 1` the next index is 0, which
is `(127 + 1) % 128`. -/
theorem ring_index_step_128 :
    u32_add 4294967295 1 % 128 = (4294967295 % 128 + 1) % 128 ∧
    4294967295 % 128 = 127 ∧ u32_add 4294967295 1 % 128 = 0 ∧ u32_sub 5 128 % 128 = 5 :=
  ⟨(ring_index_step 128 4294967295 (Or.inl (by decide))).1, by decide, by decide, by decide⟩

/-- C29, the code at the failing input. When the allocation of the RX
descriptor ring fails, `init_dma_desc_rings` returns before it stores the
buffer size, so `priv->dma_buf_sz` and `buf_sz` keep their prior values: with
an MTU of 1500, for which the size chosen is 2048, an interface configured
with `buf_sz = 4096` leaves `init_dma_desc_rings` with `buf_sz = 4096` and
`dma_buf_sz` as it was, and two runs of `stmmac_open` that differ only in the
configured `buf_sz` (2048 and 4096) both return 0 and end with buffer sizes
of 2048 and 4096. -/
theorem init_dma_desc_rings_keeps_prior_buffer_size :
    buf_sz_4096_iface.mtu = 1500 ∧ closed_iface.mtu = 1500 ∧ mtu_bfsize 1500 = 2048 ∧
    buf_sz_4096_iface.dev.rx.dma_buf_sz = 0 ∧
    (init_dma_desc_rings no_rx_ring_env buf_sz_4096_iface).dev.rx.dma_buf_sz = 0 ∧
    (init_dma_desc_rings no_rx_ring_env buf_sz_4096_iface).params.buf_sz = 4096 ∧
    (stmmac_open no_rx_ring_env closed_iface).2 = 0 ∧
    (stmmac_open no_rx_ring_env closed_iface).1.dev.rx.dma_buf_sz = 2048 ∧
    (stmmac_open no_rx_ring_env closed_iface).1.params.buf_sz = 2048 ∧
    (stmmac_open no_rx_ring_env buf_sz_4096_iface).2 = 0 ∧
    (stmmac_open no_rx_ring_env buf_sz_4096_iface).1.dev.rx.dma_buf_sz = 4096 ∧
    (stmmac_open no_rx_ring_env buf_sz_4096_iface).1.params.buf_sz = 4096 := by
  decide

/-- When both descriptor rings are allocated, the buffer size that
`init_dma_desc_rings` installs in `priv->dma_buf_sz` and in `buf_sz` is a
function of the MTU alone: 2 KiB below 2 KiB, 4 KiB from 2 KiB and below
4 KiB, 8 KiB from 4 KiB and below 8 KiB, 16 KiB from 8 KiB; two interfaces
with the same MTU, whatever else they differ in (the configured `buf_sz`
included), end with the same buffer size. -/
theorem buffer_size_from_mtu (E : open_env) (n m : stmmac_iface)
    (hrx : E.dma_alloc_rx = true) (htx : E.dma_alloc_tx = true) :
    (init_dma_desc_rings E n).dev.rx.dma_buf_sz = mtu_bfsize n.mtu ∧
    (init_dma_desc_rings E n).params.buf_sz = (mtu_bfsize n.mtu : Int) ∧
    mtu_bfsize n.mtu =
      (if n.mtu < 2048 then 2048 else if n.mtu < 4096 then 4096 else if n.mtu < 8192 then 8192
        else 16384) ∧
    (m.mtu = n.mtu →
      (init_dma_desc_rings E m).dev.rx.dma_buf_sz = (init_dma_desc_rings E n).dev.rx.dma_buf_sz ∧
      (init_dma_desc_rings E m).params.buf_sz = (init_dma_desc_rings E n).params.buf_sz) := by
  have key : ∀ k : stmmac_iface, (init_dma_desc_rings E k).dev.rx.dma_buf_sz = mtu_bfsize k.mtu ∧
      (init_dma_desc_rings E k).params.buf_sz = (mtu_bfsize k.mtu : Int) := by
    intro k
    rw [init_rings_ok E k hrx htx]
    refine ⟨?_, rfl⟩
    exact (init_rings_rx_spec E.rx (mtu_bfsize k.mtu) k.params.rx_coalesce _
      (by simp)).2.2.1
  refine ⟨(key n).1, (key n).2, mtu_bfsize_cases _, ?_⟩
  intro h
  rw [(key n).1, (key n).2, (key m).1, (key m).2, h]
  exact ⟨rfl, rfl⟩

/-- On the closed interface with an MTU of 1500, once with the default
`buf_sz` and once with `buf_sz` configured as 4096 and rings of 96, both runs
of `init_dma_desc_rings` with the rings allocated end with buffers of 2048
bytes. -/
theorem buffer_size_from_mtu_1500 :
    ring96_iface.mtu = closed_iface.mtu ∧
    (init_dma_desc_rings spec_open_env closed_iface).dev.rx.dma_buf_sz = 2048 ∧
    (init_dma_desc_rings spec_open_env
      { ring96_iface with params := { ring96_iface.params with buf_sz := 4096 } }).dev.rx.dma_buf_sz
      = (init_dma_desc_rings spec_open_env closed_iface).dev.rx.dma_buf_sz :=
  ⟨rfl,
    ((buffer_size_from_mtu spec_open_env closed_iface closed_iface rfl rfl).1).trans (by decide),
    ((buffer_size_from_mtu spec_open_env closed_iface
      { ring96_iface with params := { ring96_iface.params with buf_sz := 4096 } }
      rfl rfl).2.2.2 rfl).1⟩

/-- C30, the code at the failing input: an MTU of 2047 is accepted by
`stmmac_change_mtu` on the Gigabit MAC; `init_dma_desc_rings` then chooses
buffers of 2048 bytes and `stmmac_open` maps `2048 - NET_IP_ALIGN = 2046`
bytes of each (the length is seen by letting `dma_map_single` return it as
the address), fewer than the `2047 + 14 + 4 = 2065` bytes of a full frame.
The same holds for every MTU from 2031 to 2047 whatever `NET_IP_ALIGN` is. -/
theorem rx_buffer_shorter_than_frame :
    (stmmac_change_mtu spec_errno false closed_iface 2047).2 = 0 ∧
    (stmmac_change_mtu spec_errno false closed_iface 2047).1.mtu = 2047 ∧
    mtu_bfsize 2047 = 2048 ∧
    (stmmac_open spec_open_env
      (stmmac_change_mtu spec_errno false closed_iface 2047).1).1.dev.rx.dma_buf_sz = 2048 ∧
    u32_sub (mtu_bfsize 2047) spec_rx_env.NET_IP_ALIGN = 2046 ∧
    dma_addr_at (stmmac_open { spec_open_env with
        rx := { spec_rx_env with dma_map_single := fun _ len => len } }
      (stmmac_change_mtu spec_errno false closed_iface 2047).1).1.dev.rx.rx_skbuff_dma 0 = 2046 ∧
    2046 < 2047 + 14 + 4 ∧
    ∀ mtu align : Nat, 2031 ≤ mtu → mtu ≤ 2047 → align ≤ 2048 →
      u32_sub (mtu_bfsize mtu) align < mtu + 14 + 4 := by
  refine ⟨by decide, by decide, by decide, by decide, by decide, by decide, by decide, ?_⟩
  intro mtu align h1 h2 h3
  rw [mtu_bfsize_cases, if_pos (by omega)]
  unfold u32_sub U32
  omega

/-- C26, the code at the failing input. On the ring of 32, the chain of
three segments and 28 numbered packets are accepted (31 descriptors in flight, the packet
numbered 0 in slot 3); the hardware completes descriptor 0 and `stmmac_tx`
reclaims it (`dirty_tx = 1`); the linear packet of 9000 bytes is accepted on
the one available slot and takes two descriptors, so that all 32 are in
flight and `stmmac_tx_avail` wraps; a second chain of three segments is then
accepted at index 1 and its fragments empty slots 2 and 3. The packet
numbered 0, whose descriptor is inside the window from `dirty_tx = 1` to
`cur_tx = 36`, is then in no slot although it was never freed, and
`stmmac_tx_err` does not free it either. -/
theorem stmmac_xmit_loses_in_flight_packet :
    (stmmac_xmit_seq spec_env (chain_skb :: (List.range 28).map numbered_skb) ring32).2
      = List.replicate 29 0 ∧
    tx_in_flight ring_of_31 = 31 ∧
    (skb_at ring_of_31.tx_skbuff 3).map sk_buff.data = some 65536 ∧
    ring_of_30.dirty_tx = 1 ∧ stmmac_tx_avail ring_of_30 = 1 ∧
    (stmmac_xmit spec_env true jumbo_skb ring_of_30).2 = NETDEV_TX_OK ∧
    tx_in_flight ring_overrun = 32 ∧ stmmac_tx_avail ring_overrun = 4294967295 ∧
    (skb_at ring_overrun.tx_skbuff 3).map sk_buff.data = some 65536 ∧
    (stmmac_xmit spec_env true chain_skb_b ring_overrun).2 = NETDEV_TX_OK ∧
    ring_lost_packet.dirty_tx = 1 ∧ ring_lost_packet.cur_tx = 36 ∧
    (skb_at ring_lost_packet.tx_skbuff 1).map sk_buff.data = some 2000 ∧
    (skb_at ring_lost_packet.tx_skbuff 3).isSome = false ∧
    65536 ∉ ring_lost_packet.freed_skbs.map sk_buff.data ∧
    65536 ∉ (stmmac_tx_err spec_env ring_lost_packet).freed_skbs.map sk_buff.data := by
  decide

/-- Slots and the window of descriptors in flight, for packets whose linear
part is not split. The slot invariant (`tx_window_inv`: at most `N - 1`
descriptors in flight and every slot outside the window from `dirty_tx` up
to `cur_tx` empty) holds on a ring that has just been initialised and is
preserved by `stmmac_xmit` for every packet whose linear part is not split
over two descriptors (for a GSO packet: none of its segments), whatever it
returns, by `stmmac_tx`, by `stmmac_tx_err` and by the hardware writing to
the descriptors. `stmmac_tx` leaves every slot as it is or empties it. When
the ring size divides `2^32`, or the cursors are far enough from `2^32`
(`dirty_tx + N ≤ 2^32`), a packet that is not GSO, is not split and is
accepted is stored in exactly one slot, that of its first descriptor, which
was empty; the slots of its trailing descriptors are empty and no other slot
changes. -/
theorem tx_window_inv_preserved (E : stmmac_env) (s : net_device) (h : tx_window_inv s) :
    (∀ s0 : net_device, 1 ≤ s0.dma_tx_size → s0.dma_tx_size < U32 →
      tx_window_inv (init_dma_desc_rings_tx E s0)) ∧
    (∀ skb trylock, heads_fit skb = true → tx_window_inv (stmmac_xmit E trylock skb s).1) ∧
    tx_window_inv (stmmac_tx E s) ∧
    (∀ j, skb_at (stmmac_tx E s).tx_skbuff j = skb_at s.tx_skbuff j ∨
      skb_at (stmmac_tx E s).tx_skbuff j = none) ∧
    tx_window_inv (stmmac_tx_err E s) ∧
    (∀ ring, tx_window_inv { s with dma_tx := ring }) ∧
    (∀ skb trylock, skb_is_gso skb = false → head_is_split skb = false →
      (s.dma_tx_size ∣ U32 ∨ s.dirty_tx + s.dma_tx_size ≤ U32) →
      (stmmac_xmit E trylock skb s).2 = NETDEV_TX_OK →
      skb_at s.tx_skbuff (s.cur_tx % s.dma_tx_size) = none ∧
      skb_at (stmmac_xmit E trylock skb s).1.tx_skbuff (s.cur_tx % s.dma_tx_size) = some skb ∧
      (∀ j, j ≠ s.cur_tx % s.dma_tx_size →
        skb_at (stmmac_xmit E trylock skb s).1.tx_skbuff j = skb_at s.tx_skbuff j) ∧
      (∀ k, 1 ≤ k → k ≤ skb.frags.length →
        skb_at (stmmac_xmit E trylock skb s).1.tx_skbuff (u32_add s.cur_tx k % s.dma_tx_size)
          = none)) := by
  refine ⟨fun s0 h1 h2 => (init_rings_tx_window E s0 h1 h2).1,
    fun skb t hf => xmit_window E skb t s hf h, (stmmac_tx_window E s h).1,
    (stmmac_tx_window E s h).2.2.2.2.1, ?_, fun _ => h, ?_⟩
  · have h1 : 1 ≤ s.dma_tx_size := by
      have := h.2.2.2.1
      omega
    exact (tx_err_window E s h1 h.1 h.2.2.2.2.1).1
  · intro skb t hg hsp hw hok
    obtain ⟨_, hav, _, hx⟩ := xmit_queued E t skb s hg hok
    rw [hx]
    have hcnt : tx_desc_count skb = skb.frags.length + 1 := by
      unfold tx_desc_count
      rw [hsp]
      simp
    obtain ⟨a, b, c, d⟩ := xmit_queue_one_slot E skb s h (by rw [hcnt]; exact hav) hw
    exact ⟨a, b, c, fun k h1 h2 => d k h1 (by omega)⟩

/-- On the ring of 32 with 30 packets in flight the slot invariant holds, and
a further packet is stored in slot 30 only. -/
theorem tx_window_inv_preserved_thirty_in_flight :
    tx_window_inv thirty_in_flight ∧
    tx_window_inv (stmmac_xmit spec_env true (linear_skb 3000 100) thirty_in_flight).1 ∧
    skb_at (stmmac_xmit spec_env true (linear_skb 3000 100) thirty_in_flight).1.tx_skbuff 30
      = some (linear_skb 3000 100) ∧
    tx_window_inv (stmmac_tx_err spec_env thirty_in_flight) := by
  have h0 : tx_window_inv thirty_in_flight := by
    refine ⟨by decide, by decide, by decide, by decide, by decide, ?_⟩
    intro j hj
    have e : tx_in_flight thirty_in_flight = 30 := by decide
    rw [e] at hj
    by_cases hj30 : j < 30
    · exfalso
      have hd : thirty_in_flight.dirty_tx = 0 := by decide
      have hn : thirty_in_flight.dma_tx_size = 32 := by decide
      have := hj j hj30
      rw [hd, hn] at this
      unfold u32_add U32 at this
      omega
    · have hl : thirty_in_flight.tx_skbuff.length = 32 := by decide
      by_cases hj32 : j < 32
      · have : j = 30 ∨ j = 31 := by omega
        rcases this with h | h <;> subst h <;> rfl
      · unfold skb_at
        rw [List.getD_eq_default _ _ (by omega)]
  have h := tx_window_inv_preserved spec_env thirty_in_flight h0
  exact ⟨h0, h.2.1 _ true (by decide),
    (h.2.2.2.2.2.2 (linear_skb 3000 100) true (by decide) (by decide) (Or.inl (by decide))
      (by decide)).2.1,
    h.2.2.2.2.1⟩

/-- C28, the code at the failing input. On a ring of 96 descriptors (a size
`stmmac_open` installs, larger than `MAX_SKB_FRAGS + 2 = 20`) a state is reachable under the
queue discipline in which the queue is running with 31 slots available and
the slot at `cur_tx % 96` still holds a packet in flight, so that
`stmmac_xmit` finds its target slot occupied, drops the packet and returns
-1. The state is reached by sending and reclaiming one packet at a time
until both cursors are at `2^32 - 40`, and then sending 64 packets: their
indices are 24 to 63 and, after the cursor has wrapped, 0 to 23, and the next
index is 24 again. -/
theorem ring_of_96_finds_slot_occupied :
    ∃ s, tx_reachable spec_env s ∧ s.dma_tx_size = 96 ∧ s.queue_stopped = false ∧
      s.dirty_tx = 4294967256 ∧ s.cur_tx = 24 ∧
      spec_env.MAX_SKB_FRAGS + 1 < stmmac_tx_avail s ∧
      (skb_at s.tx_skbuff (s.cur_tx % s.dma_tx_size)).isSome = true ∧
      (stmmac_xmit spec_env true (linear_skb 1000 100) s).2 = -1 ∧
      (stmmac_xmit spec_env true (linear_skb 1000 100) s).1.freed_skbs
        = s.freed_skbs ++ [linear_skb 1000 100] := by
  obtain ⟨s, h1, h2, h3, h4, h5, h6⟩ := fill_reach spec_env rfl rfl 64 (le_refl _)
  have hc : s.cur_tx = 24 := by rw [h4]; decide
  have hK := (tx_reachable_inv spec_env s h1).2.2 h5
  have hslot : (skb_at s.tx_skbuff (s.cur_tx % s.dma_tx_size)).isSome = true := by
    rw [hc, h2]
    exact h6 (by decide)
  obtain ⟨a, b, _⟩ := xmit_slot_occupied spec_env true (linear_skb 1000 100) s rfl (by
    show 0 + 1 ≤ stmmac_tx_avail s
    omega) hslot
  exact ⟨s, h1, h2, h5, h3, hc, hK, hslot, a, b⟩

/-- The queue discipline on the rings whose size divides `2^32`. In every
state reachable from a ring of more than
`MAX_SKB_FRAGS + 2` descriptors that has just been opened, by `stmmac_xmit`
called only while the queue is running (packets that are not GSO, with at
most `MAX_SKB_FRAGS` fragments), `stmmac_tx`, `stmmac_tx_err` and the
hardware writing to the descriptors: a running queue has more than
`MAX_SKB_FRAGS + 1` slots available, and `stmmac_xmit`, called for such a
packet while the queue is running, does not return `NETDEV_TX_BUSY`. When
moreover the ring size divides `2^32`, or the cursors are far enough from
`2^32` (`dirty_tx + N ≤ 2^32`), the slot at `cur_tx % N` is empty and
`stmmac_xmit` with the lock taken returns `NETDEV_TX_OK`. -/
theorem ring_full_unreachable (E : stmmac_env) (s : net_device) (h : tx_reachable E s) :
    (s.queue_stopped = false → E.MAX_SKB_FRAGS + 1 < stmmac_tx_avail s) ∧
    ∀ skb trylock, s.queue_stopped = false → skb_is_gso skb = false →
      skb.frags.length ≤ E.MAX_SKB_FRAGS →
      (stmmac_xmit E trylock skb s).2 ≠ NETDEV_TX_BUSY ∧
      ((s.dma_tx_size ∣ U32 ∨ s.dirty_tx + s.dma_tx_size ≤ U32) →
        skb_at s.tx_skbuff (s.cur_tx % s.dma_tx_size) = none ∧
        (trylock = true → (stmmac_xmit E trylock skb s).2 = NETDEV_TX_OK)) := by
  obtain ⟨hinv, hN, hK⟩ := tx_reachable_inv E s h
  refine ⟨hK, ?_⟩
  intro skb t hq hg hf
  obtain ⟨_, _, _, d, e⟩ := xmit_disciplined E t skb s hinv (hK hq) hg hf
  refine ⟨d, fun hw => ?_⟩
  have h0 := window_target_empty s hinv hw 0 (by
    have := hinv.2.2.2.1
    omega)
  rw [u32_add_zero_lt _ hinv.2.1] at h0
  exact ⟨h0, fun ht => e ht h0⟩

/-- On the ring of 32 descriptors after it has been opened and
the chain of three segments has been submitted: the queue is running with
more than 19 slots available, and the linear packet of 9000 bytes is
accepted. -/
theorem ring_full_unreachable_after_chain :
    tx_reachable spec_env (stmmac_xmit spec_env true chain_skb (netif_start_queue ring32)).1 ∧
    spec_env.MAX_SKB_FRAGS + 1 <
      stmmac_tx_avail (stmmac_xmit spec_env true chain_skb (netif_start_queue ring32)).1 ∧
    (stmmac_xmit spec_env true jumbo_skb
      (stmmac_xmit spec_env true chain_skb (netif_start_queue ring32)).1).2 = NETDEV_TX_OK :=
  have hr : tx_reachable spec_env
      (stmmac_xmit spec_env true chain_skb (netif_start_queue ring32)).1 :=
    tx_reachable.xmit _ true chain_skb
      (tx_reachable.opened (blank_dev 32) (by decide) (by decide)) rfl rfl (by decide)
  ⟨hr, (ring_full_unreachable spec_env _ hr).1 (by decide),
    (((ring_full_unreachable spec_env _ hr).2 jumbo_skb true (by decide) rfl (by decide)).2
      (Or.inl (by decide))).2 rfl⟩

end Stmmac
